import Mathlib

/-!
# PowerNV IODA partitionable-endpoint engine (arch/powerpc/platforms/powernv/pci-ioda.c)

A shallow embedding of the PE allocator, the PE grouping operations, the
hardware binding operations and the legacy DMA scheduler, followed by the
properties proved about them.

Conventions of the embedding.

* C pointers into an array become indices; a pointer that may be NULL becomes an
  `Option`.  Dereferencing NULL is a fault: functions that can do so return
  `Option`, and `none` is the fault.
* The slot bitmap, the PE array and the reverse map are functions on `Nat`; the
  three arrays are taken to be disjoint objects that are large enough (their
  placement inside the auxiliary allocation is not represented).
* `unsigned int` arithmetic of the DMA scheduler is written with an explicit
  `% 2 ^ 32`.
* The firmware is a parameter: a step function on an arbitrary firmware state.
-/

namespace PnvIoda

/-! ## Bit operations -/

/-- Modelled from the spec: `set_bit(nr, addr)` of the kernel bitmap library (not part of
this source file) marks slot `nr` as used and leaves every other bit alone. -/
def set_bit (nr : Nat) (addr : Nat → Bool) : Nat → Bool :=
  fun i => if i = nr then true else addr i

/-- Modelled from the spec: `clear_bit(nr, addr)` of the kernel bitmap library (not part of
this source file) marks slot `nr` as free and leaves every other bit alone. -/
def clear_bit (nr : Nat) (addr : Nat → Bool) : Nat → Bool :=
  fun i => if i = nr then false else addr i

/-- Scan of `fuel` consecutive positions starting at `i`; `size` when all are set. -/
def find_next_zero_bit_from (addr : Nat → Bool) (size : Nat) : Nat → Nat → Nat
  | 0, _ => size
  | fuel + 1, i => if addr i then find_next_zero_bit_from addr size fuel (i + 1) else i

/-- Modelled from the spec: `find_next_zero_bit(addr, size, offset)` of the kernel bitmap
library (not part of this source file) "scans the slot bitmap for the lowest-numbered free
slot" at or after `offset`; the result is `size` when there is none below `size`. -/
def find_next_zero_bit (addr : Nat → Bool) (size offset : Nat) : Nat :=
  find_next_zero_bit_from addr size (size - offset) offset

/-! ## Data model -/

/-- The `flags` word of a PE.  The source only ever ors one of the `PNV_IODA_PE_*` constants
into it and tests one of them; the constants are declared in `pci.h` as distinct single
bits, so the word is kept as one Boolean per constant. -/
structure pe_flags where
  dev : Bool
  bus : Bool
  bus_all : Bool
  master : Bool
  slave : Bool
  vf : Bool
deriving DecidableEq

/-- All flag bits clear. -/
def pe_flags.zero : pe_flags :=
  { dev := false, bus := false, bus_all := false, master := false, slave := false, vf := false }

/-- The member `tce64` of `struct pnv_ioda_pe` after `pnv_pci_setup_iommu_table` (a function
of another file) has been called on its table: the arguments of that call. -/
structure tce64_table where
  tce_mem : Nat
  tce_size : Nat
  dma_offset : Nat
  page_shift : Nat
deriving DecidableEq

/-- The fields of `struct pnv_ioda_pe` that the modelled functions read or write.
`phb` records whether the back pointer to the bridge is set; `pdev`, `parent_dev`
are device handles, `pbus` a bus handle, `master` a PE number, `slaves` the PE numbers
linked on the `slaves` list head in list order; `tce32_it_base` is the field `it_base` of
the member `tce32.table`, the address of the table memory; `tce64` is `none` when the
member is zero-filled. -/
structure pnv_ioda_pe where
  flags : pe_flags
  phb : Bool
  parent_dev : Option Nat
  pdev : Option Nat
  pbus : Option Nat
  rid : Nat
  pe_number : Nat
  dma_weight : Nat
  tce32_seg : Int
  mve_number : Int
  master : Option Nat
  slaves : List Nat
  tce_bypass_base : Nat
  tce_bypass_enabled : Bool
  tce32_it_base : Nat
  tce64_active : Bool
  tce64 : Option tce64_table
deriving DecidableEq

/-- The slot contents after `memset(.., 0, sizeof(struct pnv_ioda_pe))`. -/
def pnv_ioda_pe.zero : pnv_ioda_pe :=
  { flags := pe_flags.zero, phb := false, parent_dev := none, pdev := none, pbus := none,
    rid := 0, pe_number := 0, dma_weight := 0, tce32_seg := 0, mve_number := 0,
    master := none, slaves := [], tce_bypass_base := 0, tce_bypass_enabled := false,
    tce32_it_base := 0, tce64_active := false, tce64 := none }

/-- The bridge generation, `phb->type`. -/
inductive pnv_phb_type
  | PNV_PHB_IODA1
  | PNV_PHB_IODA2
  | PNV_PHB_P5IOC2
deriving DecidableEq

/-- The fields of `struct pnv_phb` (with its `ioda` member flattened) that the modelled
functions read or write.  `pick_m64_pe` records whether the function pointer of that
name has been set; `pe_list` and `pe_dma_list` hold PE numbers in list order;
`m64_bar_alloc` is the bitmap of the M64 window registers in use. -/
structure pnv_phb where
  type : pnv_phb_type
  total_pe : Nat
  reserved_pe : Nat
  pe_alloc : Nat → Bool
  pe_array : Nat → pnv_ioda_pe
  pe_rmap : Nat → Nat
  pe_list : List Nat
  pe_dma_list : List Nat
  dma_weight : Nat
  dma_pe_count : Nat
  tce32_count : Nat
  m64_base : Nat
  m64_size : Nat
  m64_segsize : Nat
  pick_m64_pe : Bool
  m32_pci_base : Nat
  m64_bar_alloc : Nat → Bool
  m64_bar_idx : Nat

/-- Modelled from the spec: the constant `IODA_INVALID_PE` is declared in `pci.h`, not in
this source file; it is the "EXHAUSTED" / "not applicable" result, the value `-1`, which
is no PE number. -/
def IODA_INVALID_PE : Int := -1

/-- Store `v` at index `i` of an array. -/
def array_set {α : Type} (a : Nat → α) (i : Nat) (v : α) : Nat → α :=
  fun j => if j = i then v else a j

/-! ## PE allocator -/

/-- The part of `pnv_pci_init_ioda_phb` that builds the allocator state: the bridge record
and the auxiliary arrays are zero-filled, `total_pe` defaults to 1 and is overridden by
the `ibm,opal-num-pes` property, `reserved_pe` is overridden by `ibm,opal-reserved-pe`,
the M64 window is parsed (`pnv_ioda_parse_m64_window`, effective only on IODA2 and when
the firmware reports a window `(pci_addr, size)`), and the bit of the reserved PE is set.
`m32_pci_base` is the 32-bit PCI base of the M32 window.  The M64 segment size is
`m64_size / total_pe`; with `total_pe = 0` the C code divides by zero there, and the
segment size is 0 here. -/
def pnv_pci_init_ioda_phb (ioda_type : pnv_phb_type) (opal_num_pes opal_reserved_pe : Option Nat)
    (opal_m64_window : Option (Nat × Nat)) (m32_pci_base : Nat) : pnv_phb :=
  let total_pe := match opal_num_pes with
    | some n => n
    | none => 1
  let reserved_pe := match opal_reserved_pe with
    | some n => n
    | none => 0
  let m64 : Option (Nat × Nat) :=
    if ioda_type = pnv_phb_type.PNV_PHB_IODA2 then opal_m64_window else none
  { type := ioda_type
    total_pe := total_pe
    reserved_pe := reserved_pe
    pe_alloc := set_bit reserved_pe (fun _ => false)
    pe_array := fun _ => pnv_ioda_pe.zero
    pe_rmap := fun _ => 0
    pe_list := []
    pe_dma_list := []
    dma_weight := 0
    dma_pe_count := 0
    tce32_count := m32_pci_base >>> 28
    m64_base := match m64 with
      | some w => w.1
      | none => 0
    m64_size := match m64 with
      | some w => w.2
      | none => 0
    m64_segsize := match m64 with
      | some w => w.2 / total_pe
      | none => 0
    pick_m64_pe := m64.isSome
    m32_pci_base := m32_pci_base
    m64_bar_alloc := fun _ => false
    m64_bar_idx := if m64.isSome then 15 else 0 }

/-- The `do ... while (test_and_set_bit(..))` loop of `pnv_ioda_alloc_pe`, one iteration per
unit of fuel; `none` when the fuel runs out before the loop exits. -/
def pnv_ioda_alloc_pe_loop : Nat → pnv_phb → Option (Int × pnv_phb)
  | 0, _ => none
  | fuel + 1, phb =>
    let pe := find_next_zero_bit phb.pe_alloc phb.total_pe 0
    if pe ≥ phb.total_pe then some (IODA_INVALID_PE, phb)
    else
      let old := phb.pe_alloc pe
      let phb1 := { phb with pe_alloc := set_bit pe phb.pe_alloc }
      if old then pnv_ioda_alloc_pe_loop fuel phb1
      else
        some ((pe : Int),
          { phb1 with
            pe_array := array_set phb1.pe_array pe
              { phb1.pe_array pe with phb := true, pe_number := pe } })

/-- The function `pnv_ioda_alloc_pe`: the loop run until it exits (it exits in its first
iteration, see `pnv_ioda_alloc_pe_loop_eq`). -/
def pnv_ioda_alloc_pe (phb : pnv_phb) : Int × pnv_phb :=
  match pnv_ioda_alloc_pe_loop 1 phb with
  | some r => r
  | none => (IODA_INVALID_PE, phb)

/-- The function `pnv_ioda_free_pe`; the `WARN_ON` only logs. -/
def pnv_ioda_free_pe (phb : pnv_phb) (pe : Nat) : pnv_phb :=
  { phb with
    pe_array := array_set phb.pe_array pe pnv_ioda_pe.zero
    pe_alloc := clear_bit pe phb.pe_alloc }

/-- One call of the allocator interface. -/
inductive pe_op
  | alloc
  | free (pe : Nat)
deriving DecidableEq

/-- A bridge together with the PE numbers that are live: handed out by
`pnv_ioda_alloc_pe` and not freed since. `returned` lists every number handed out, each
paired with the live numbers at that moment. -/
structure alloc_run where
  phb : pnv_phb
  live : List Nat
  returned : List (Nat × List Nat)

/-- Run a sequence of allocator calls; `none` when a free names a number that is not live
(the caller broke the precondition). -/
def run_pe_ops : List pe_op → alloc_run → Option alloc_run
  | [], r => some r
  | pe_op.alloc :: ops, r =>
    let res := pnv_ioda_alloc_pe r.phb
    if res.1 = IODA_INVALID_PE then run_pe_ops ops { r with phb := res.2 }
    else
      run_pe_ops ops
        { phb := res.2, live := res.1.toNat :: r.live,
          returned := (res.1.toNat, r.live) :: r.returned }
  | pe_op.free n :: ops, r =>
    if n ∈ r.live then
      run_pe_ops ops { r with phb := pnv_ioda_free_pe r.phb n, live := r.live.erase n }
    else none

/-- The invariant behind bitmap exclusivity: the live numbers are pairwise distinct and
have their bit set, the reserved PE has its bit set and is not live, and every number that
was handed out was, at that moment, neither live nor the reserved PE. -/
def alloc_run_inv (r : alloc_run) : Prop :=
  r.live.Nodup ∧
  (∀ n, n ∈ r.live → r.phb.pe_alloc n = true) ∧
  r.phb.pe_alloc r.phb.reserved_pe = true ∧
  r.phb.reserved_pe ∉ r.live ∧
  (∀ p, p ∈ r.returned → p.1 ∉ p.2 ∧ p.1 ≠ r.phb.reserved_pe)

/-! ## Legacy DMA scheduler -/

/-- Reduction to the range of `unsigned int`. -/
def u32 (x : Nat) : Nat := x % 2 ^ 32

/-- Subtraction of `unsigned int` values. -/
def u32_sub (a b : Nat) : Nat := (a + 2 ^ 32 - b % 2 ^ 32) % 2 ^ 32

/-- Division of `unsigned int` values.  C leaves division by zero undefined; `dz` stands for
whatever value the machine produces in that case. -/
def u32_div (dz a b : Nat) : Nat := if b = 0 then u32 dz else a / b

/-- What `pnv_ioda_setup_dma` does for one PE of the scheduling list: it warns that no
DMA32 segment is left, or calls `pnv_pci_ioda_setup_dma_pe(phb, pe, base, segs)` (legacy
bridge), or calls `pnv_pci_ioda2_setup_dma_pe(phb, pe)`. -/
inductive dma_event
  | no_dma32 (pe : Nat)
  | ioda_setup_dma_pe (pe base segs : Nat)
  | ioda2_setup_dma_pe (pe : Nat)
deriving DecidableEq

/-- The number of 32-bit DMA segments an event hands to its PE. -/
def dma_event.segs : dma_event → Nat
  | dma_event.no_dma32 _ => 0
  | dma_event.ioda_setup_dma_pe _ _ segs => segs
  | dma_event.ioda2_setup_dma_pe _ => 0

/-- The PE an event is about. -/
def dma_event.pe : dma_event → Nat
  | dma_event.no_dma32 pe => pe
  | dma_event.ioda_setup_dma_pe pe _ _ => pe
  | dma_event.ioda2_setup_dma_pe pe => pe

/-- The sum of the segment counts handed out by a list of events. -/
def segs_total (evs : List dma_event) : Nat :=
  (evs.map dma_event.segs).sum

/-- The segment count `segs` computed in the loop body of `pnv_ioda_setup_dma` for a PE of
weight `w` (before the bridge type is looked at). -/
def dma_segs (dz residual tw remaining w : Nat) : Nat :=
  if residual ≠ 0 then
    let segs := u32 (1 + u32_div dz (u32 (u32 (w * residual) + tw / 2)) tw)
    if segs > remaining then remaining else segs
  else 1

/-- The `list_for_each_entry` loop of `pnv_ioda_setup_dma` over the scheduling list, with
the loop variables `remaining` and `base`; the result lists what was done for each PE in
list order. -/
def pnv_ioda_setup_dma_loop (phb : pnv_phb) (dz residual tw : Nat) :
    List Nat → Nat → Nat → List dma_event
  | [], _, _ => []
  | pe :: rest, remaining, base =>
    if (phb.pe_array pe).dma_weight = 0 then
      pnv_ioda_setup_dma_loop phb dz residual tw rest remaining base
    else if remaining = 0 then
      dma_event.no_dma32 pe :: pnv_ioda_setup_dma_loop phb dz residual tw rest remaining base
    else
      let segs := dma_segs dz residual tw remaining (phb.pe_array pe).dma_weight
      if phb.type = pnv_phb_type.PNV_PHB_IODA1 then
        dma_event.ioda_setup_dma_pe pe base segs ::
          pnv_ioda_setup_dma_loop phb dz residual tw rest
            (u32_sub remaining segs) (u32 (base + segs))
      else
        dma_event.ioda2_setup_dma_pe pe ::
          pnv_ioda_setup_dma_loop phb dz residual tw rest
            (u32_sub remaining 0) (u32 (base + 0))

/-- The `residual` computed at the start of `pnv_ioda_setup_dma`. -/
def dma_residual (phb : pnv_phb) : Nat :=
  if phb.dma_pe_count > phb.tce32_count then 0
  else u32 (phb.tce32_count - phb.dma_pe_count)

/-- The function `pnv_ioda_setup_dma`, as the list of what it does for the PEs of the
scheduling list. -/
def pnv_ioda_setup_dma (phb : pnv_phb) (dz : Nat) : List dma_event :=
  pnv_ioda_setup_dma_loop phb dz (dma_residual phb) phb.dma_weight phb.pe_dma_list
    (u32 phb.tce32_count) 0

/-- The list walk of `pnv_ioda_link_pe_by_weight`: `pe` goes in front of the first entry
whose weight is smaller than its own, at the tail when there is none. -/
def link_pe_by_weight_walk (pe_array : Nat → pnv_ioda_pe) (pe : Nat) : List Nat → List Nat
  | [] => [pe]
  | lpe :: rest =>
    if (pe_array lpe).dma_weight < (pe_array pe).dma_weight then pe :: lpe :: rest
    else lpe :: link_pe_by_weight_walk pe_array pe rest

/-- The function `pnv_ioda_link_pe_by_weight`. -/
def pnv_ioda_link_pe_by_weight (phb : pnv_phb) (pe : Nat) : pnv_phb :=
  { phb with pe_dma_list := link_pe_by_weight_walk phb.pe_array pe phb.pe_dma_list }

/-- Give PE `pe` the DMA weight `w`, account for it and link it, as the tail of
`pnv_ioda_setup_bus_PE` does once the weight is known. -/
def account_dma_weight (phb : pnv_phb) (pe w : Nat) : pnv_phb :=
  let phb1 := { phb with
    pe_array := array_set phb.pe_array pe { phb.pe_array pe with dma_weight := w } }
  let phb2 := if w ≠ 0 then
      { phb1 with
        dma_weight := u32 (phb1.dma_weight + w)
        dma_pe_count := u32 (phb1.dma_pe_count + 1) }
    else phb1
  pnv_ioda_link_pe_by_weight phb2 pe

/-- A legacy bridge with `tce32_count` DMA segments whose PEs 1, 2, 3, ... have been given
the listed weights, in that order. -/
def dma_bridge (tce32_count : Nat) (weights : List Nat) : pnv_phb :=
  (weights.foldl (fun (acc : pnv_phb × Nat) w => (account_dma_weight acc.1 acc.2 w, acc.2 + 1))
    (pnv_pci_init_ioda_phb pnv_phb_type.PNV_PHB_IODA1 (some 128) (some 0) none
      (tce32_count <<< 28), 1)).1

/-- The number of PEs on the scheduling list with a non-zero DMA weight. -/
def weighted_pe_count (phb : pnv_phb) : Nat :=
  (phb.pe_dma_list.filter (fun pe => decide ((phb.pe_array pe).dma_weight ≠ 0))).length

/-- The number of segments the events hand to PE `pe`. -/
def segs_of_pe (evs : List dma_event) (pe : Nat) : Nat :=
  segs_total (evs.filter (fun e => decide (e.pe = pe)))

/-! ## PCI topology -/

/-- Reduction to the range of a 64-bit `resource_size_t`. -/
def u64 (x : Nat) : Nat := x % 2 ^ 64

/-- Subtraction of 64-bit unsigned values. -/
def u64_sub (a b : Nat) : Nat := (a + 2 ^ 64 - b % 2 ^ 64) % 2 ^ 64

/-- A `struct resource` as far as this file looks at it: `start`, `end`, whether `parent` is
set, and the two flag bits `IORESOURCE_MEM_64` and `IORESOURCE_PREFETCH`. -/
structure resource where
  start : Nat
  end_ : Nat
  parent : Bool
  mem_64 : Bool
  prefetch : Bool
deriving DecidableEq

/-- Modelled from the spec: `resource_size(r)` of `linux/ioport.h` (not part of this source
file), the length `end - start + 1` of the address range. -/
def resource_size (r : resource) : Nat := u64 (u64_sub r.end_ r.start + 1)

/-- The function `pnv_pci_is_mem_pref_64` on the two flag bits. -/
def pnv_pci_is_mem_pref_64 (r : resource) : Bool := r.mem_64 && r.prefetch

/-- The device-node data of a function, `struct pci_dn`: the PE number stashed there. -/
structure pci_dn where
  pe_number : Int
deriving DecidableEq

/-- A `struct pci_dev`: the bus it sits on, its subordinate bus if it is a bridge, its
device node (`pci_get_pdn`, NULL when there is none), header type, class code, and the
value of `pci_pcie_type(dev)` (0, the type of an endpoint, unless stated). -/
structure pci_dev where
  bus : Nat
  subordinate : Option Nat
  pdn : Option pci_dn
  hdr_type : Nat
  class_code : Nat
  pcie_type : Nat := 0
deriving DecidableEq

/-- A `struct pci_bus`: its number, parent bus (NULL on a root bus), the bridge device
leading to it (`self`), the bus-number range `busn_res`, the devices on it in list order
and the resources that `pci_bus_for_each_resource` visits, in order (an entry may be
NULL). -/
structure pci_bus where
  number : Nat
  parent : Option Nat
  self : Option Nat
  busn_res_start : Nat
  busn_res_end : Nat
  devices : List Nat
  resources : List (Option resource)
deriving DecidableEq

/-- The bus tree under one bridge.  Buses and devices are referred to by handles; the
device handles in use are the numbers below `ndevs`. -/
structure pci_topology where
  buses : Nat → pci_bus
  devs : Nat → pci_dev
  ndevs : Nat

/-- Modelled from the spec: `pci_is_root_bus` of `linux/pci.h` (not part of this source
file): a bus without a parent bus. -/
def pci_is_root_bus (b : pci_bus) : Bool := b.parent.isNone

/-! ## Firmware interface -/

/-- Bus-number compare modes of the routing table (`enum OpalPciBusCompare`). -/
inductive OpalPciBusCompare
  | OpalPciBusAll
  | OpalPciBus7Bits
  | OpalPciBus6Bits
  | OpalPciBus5Bits
  | OpalPciBus4Bits
  | OpalPciBus3Bits
deriving DecidableEq

/-- Whether the device number of a RID is compared. -/
inductive OpalPciDeviceCompare
  | OPAL_IGNORE_RID_DEVICE_NUMBER
  | OPAL_COMPARE_RID_DEVICE_NUMBER
deriving DecidableEq

/-- Whether the function number of a RID is compared. -/
inductive OpalPciFuncCompare
  | OPAL_IGNORE_RID_FUNCTION_NUMBER
  | OPAL_COMPARE_RID_FUNCTION_NUMBER
deriving DecidableEq

/-- Map or unmap a routing-table entry. -/
inductive OpalPeAction
  | OPAL_UNMAP_PE
  | OPAL_MAP_PE
deriving DecidableEq

/-- Add a PE to a domain row or remove it. -/
inductive OpalPeltvAction
  | OPAL_REMOVE_PE_FROM_DOMAIN
  | OPAL_ADD_PE_TO_DOMAIN
deriving DecidableEq

/-- The action argument of the freeze calls: one of the two named tokens the source passes,
or a value chosen by the caller. -/
inductive OpalEehFreezeActionToken
  | OPAL_EEH_ACTION_CLEAR_FREEZE_ALL
  | OPAL_EEH_ACTION_SET_FREEZE_ALL
  | option (opt : Int)
deriving DecidableEq

/-- Enable or disable an MVE. -/
inductive OpalMveEnableAction
  | OPAL_DISABLE_MVE
  | OPAL_ENABLE_MVE
deriving DecidableEq

/-- The firmware calls issued by the modelled functions, with their arguments (the bridge
id `phb->opal_id` is left out: there is one bridge; the window type of the MMIO-window
calls is left out: it is `OPAL_M64_WINDOW_TYPE` in every call; the output pointers of
`opal_pci_eeh_freeze_status` are left out, see `pnv_ioda_get_pe_state`). -/
inductive opal_call
  | opal_pci_set_pe (pe_number rid : Nat) (bcomp : OpalPciBusCompare)
      (dcomp : OpalPciDeviceCompare) (fcomp : OpalPciFuncCompare) (action : OpalPeAction)
  | opal_pci_set_peltv (parent_pe : Int) (child_pe : Nat) (state : OpalPeltvAction)
  | opal_pci_eeh_freeze_set (pe_number : Nat) (action : OpalEehFreezeActionToken)
  | opal_pci_eeh_freeze_clear (pe_number : Nat) (action : OpalEehFreezeActionToken)
  | opal_pci_set_mve (mve_number : Int) (pe_number : Nat)
  | opal_pci_set_mve_enable (mve_number : Int) (state : OpalMveEnableAction)
  | opal_pci_eeh_freeze_status (pe_number : Nat)
  | opal_pci_phb_mmio_enable (window_num : Int) (enable : Nat)
  | opal_pci_set_phb_mem_window (window_num : Int) (starting_real_address segment_size : Nat)
  | opal_pci_map_pe_mmio_window (pe_number : Int) (window_num : Int) (segment_num : Nat)
  | opal_pci_map_pe_dma_window (pe_number window_id levels tce_table_addr tce_table_size
      tce_page_size : Nat)
  | opal_pci_map_pe_dma_window_real (pe_number window_id pci_start_addr pci_mem_size : Nat)
deriving DecidableEq

/-- The firmware as seen by the bridge code: its internal state, of any type `σ`, and the
calls issued so far, oldest first. -/
structure opal_fw (σ : Type) where
  state : σ
  log : List opal_call

/-- Issue one firmware call: `step` is the firmware, it maps its state and a call to the
return code and its next state. -/
def opal {σ : Type} (step : σ → opal_call → Int × σ) (fw : opal_fw σ) (c : opal_call) :
    Int × opal_fw σ :=
  ((step fw.state c).1, { state := (step fw.state c).2, log := fw.log ++ [c] })

/-- Modelled from the spec: `OPAL_SUCCESS`, declared in `opal.h` (not part of this source
file), the "success" return code of a firmware call, zero. -/
def OPAL_SUCCESS : Int := 0

/-- Modelled from the spec: the errno value `ENXIO` (not declared in this source file); its
negation is the failure code of `pnv_ioda_configure_pe`. -/
def ENXIO : Int := 6

/-! ## Hardware binding -/

/-- Replace slot `i` of the PE array. -/
def set_pe (phb : pnv_phb) (i : Nat) (pe : pnv_ioda_pe) : pnv_phb :=
  { phb with pe_array := array_set phb.pe_array i pe }

/-- The `switch (count)` of `pnv_ioda_configure_pe`. -/
def configure_bcomp (count : Int) : OpalPciBusCompare :=
  if count = 1 then OpalPciBusCompare.OpalPciBusAll
  else if count = 2 then OpalPciBusCompare.OpalPciBus7Bits
  else if count = 4 then OpalPciBusCompare.OpalPciBus6Bits
  else if count = 8 then OpalPciBusCompare.OpalPciBus5Bits
  else if count = 16 then OpalPciBusCompare.OpalPciBus4Bits
  else if count = 32 then OpalPciBusCompare.OpalPciBus3Bits
  else OpalPciBusCompare.OpalPciBusAll

/-- The `switch (count)` of `pnv_ioda_deconfigure_pe`. -/
def deconfigure_bcomp (count : Int) : OpalPciBusCompare :=
  if count = 1 then OpalPciBusCompare.OpalPciBusAll
  else if count = 2 then OpalPciBusCompare.OpalPciBus7Bits
  else if count = 4 then OpalPciBusCompare.OpalPciBus6Bits
  else if count = 8 then OpalPciBusCompare.OpalPciBus5Bits
  else if count = 16 then OpalPciBusCompare.OpalPciBus4Bits
  else if count = 32 then OpalPciBusCompare.OpalPciBus3Bits
  else OpalPciBusCompare.OpalPciBusAll

/-- The locals that the first block of configure and deconfigure computes. -/
structure pe_match where
  parent : Option Nat
  bcomp : OpalPciBusCompare
  dcomp : OpalPciDeviceCompare
  fcomp : OpalPciFuncCompare
  rid_end : Int
deriving DecidableEq

/-- The first block of `pnv_ioda_configure_pe` (with `CONFIG_PCI_IOV`): the matching rule,
the first ancestor bridge and the end of the RID range.  `none`: `pe->pdev` is NULL where
it is dereferenced. -/
def configure_pe_match (topo : pci_topology) (pe : pnv_ioda_pe) : Option pe_match :=
  match pe.pbus with
  | some b =>
    let pbus := topo.buses b
    let count : Int :=
      if pe.flags.bus_all then (pbus.busn_res_end : Int) - (pbus.busn_res_start : Int) + 1
      else 1
    some { parent := pbus.self
           bcomp := configure_bcomp count
           dcomp := OpalPciDeviceCompare.OPAL_IGNORE_RID_DEVICE_NUMBER
           fcomp := OpalPciFuncCompare.OPAL_IGNORE_RID_FUNCTION_NUMBER
           rid_end := (pe.rid : Int) + count * 256 }
  | none =>
    let parent : Option (Option Nat) :=
      if pe.flags.vf then some pe.parent_dev
      else
        match pe.pdev with
        | some d => some (topo.buses (topo.devs d).bus).self
        | none => none
    match parent with
    | some p =>
      some { parent := p
             bcomp := OpalPciBusCompare.OpalPciBusAll
             dcomp := OpalPciDeviceCompare.OPAL_COMPARE_RID_DEVICE_NUMBER
             fcomp := OpalPciFuncCompare.OPAL_COMPARE_RID_FUNCTION_NUMBER
             rid_end := (pe.rid : Int) + 1 }
    | none => none

/-- The first block of `pnv_ioda_deconfigure_pe`. -/
def deconfigure_pe_match (topo : pci_topology) (pe : pnv_ioda_pe) : Option pe_match :=
  match pe.pbus with
  | some b =>
    let pbus := topo.buses b
    let count : Int :=
      if pe.flags.bus_all then (pbus.busn_res_end : Int) - (pbus.busn_res_start : Int) + 1
      else 1
    some { parent := pbus.self
           bcomp := deconfigure_bcomp count
           dcomp := OpalPciDeviceCompare.OPAL_IGNORE_RID_DEVICE_NUMBER
           fcomp := OpalPciFuncCompare.OPAL_IGNORE_RID_FUNCTION_NUMBER
           rid_end := (pe.rid : Int) + count * 256 }
  | none =>
    let parent : Option (Option Nat) :=
      if pe.flags.vf then some pe.parent_dev
      else
        match pe.pdev with
        | some d => some (topo.buses (topo.devs d).bus).self
        | none => none
    match parent with
    | some p =>
      some { parent := p
             bcomp := OpalPciBusCompare.OpalPciBusAll
             dcomp := OpalPciDeviceCompare.OPAL_COMPARE_RID_DEVICE_NUMBER
             fcomp := OpalPciFuncCompare.OPAL_COMPARE_RID_FUNCTION_NUMBER
             rid_end := (pe.rid : Int) + 1 }
    | none => none

/-- The loop `for (rid = pe->rid; rid < rid_end; rid++) pe_rmap[rid] = v`. -/
def rmap_fill (pe_rmap : Nat → Nat) (rid : Nat) (rid_end : Int) (v : Nat) : Nat → Nat :=
  (List.range' rid (rid_end - (rid : Int)).toNat).foldl (fun m r => array_set m r v) pe_rmap

/-- The loop `while (parent) { ... parent = parent->bus->self; }` of configure and
deconfigure: for every ancestor bridge that has a device node with a valid PE number, one
`opal_pci_set_peltv(.., pdn->pe_number, pe->pe_number, state)` call, whose return code is
not looked at.  One ancestor per unit of fuel; `none` when the chain is longer than the
fuel. -/
def peltv_parents {σ : Type} (step : σ → opal_call → Int × σ) (topo : pci_topology)
    (child_pe : Nat) (state : OpalPeltvAction) : Nat → Option Nat → opal_fw σ → Option (opal_fw σ)
  | _, none, fw => some fw
  | 0, some _, _ => none
  | fuel + 1, some parent, fw =>
    let dev := topo.devs parent
    let fw1 := match dev.pdn with
      | some pdn =>
        if pdn.pe_number ≠ IODA_INVALID_PE then
          (opal step fw (opal_call.opal_pci_set_peltv pdn.pe_number child_pe state)).2
        else fw
      | none => fw
    peltv_parents step topo child_pe state fuel (topo.buses dev.bus).self fw1

/-- The MVE block at the end of `pnv_ioda_configure_pe`. -/
def configure_mve {σ : Type} (step : σ → opal_call → Int × σ) (type : pnv_phb_type)
    (pe : pnv_ioda_pe) (fw : opal_fw σ) : pnv_ioda_pe × opal_fw σ :=
  if type = pnv_phb_type.PNV_PHB_IODA1 then
    let pe1 := { pe with mve_number := (pe.pe_number : Int) }
    let r := opal step fw (opal_call.opal_pci_set_mve pe1.mve_number pe1.pe_number)
    if r.1 ≠ 0 then ({ pe1 with mve_number := -1 }, r.2)
    else
      let r2 := opal step r.2
        (opal_call.opal_pci_set_mve_enable pe1.mve_number OpalMveEnableAction.OPAL_ENABLE_MVE)
      if r2.1 ≠ 0 then ({ pe1 with mve_number := -1 }, r2.2) else (pe1, r2.2)
  else if type = pnv_phb_type.PNV_PHB_IODA2 then ({ pe with mve_number := 0 }, fw)
  else (pe, fw)

/-- The function `pnv_ioda_configure_pe` for the PE in slot `pe_no`.  The result is the
return value, the bridge and the firmware; `none` when a NULL pointer is dereferenced or
the ancestor chain does not end (it is followed for at most `ndevs` bridges, the number of
devices there are). -/
def pnv_ioda_configure_pe {σ : Type} (step : σ → opal_call → Int × σ) (topo : pci_topology)
    (phb : pnv_phb) (fw : opal_fw σ) (pe_no : Nat) : Option (Int × pnv_phb × opal_fw σ) :=
  let pe := phb.pe_array pe_no
  match configure_pe_match topo pe with
  | none => none
  | some m =>
    let r := opal step fw
      (opal_call.opal_pci_set_pe pe.pe_number pe.rid m.bcomp m.dcomp m.fcomp
        OpalPeAction.OPAL_MAP_PE)
    if r.1 ≠ 0 then some (- ENXIO, phb, r.2)
    else
      let r1 := opal step r.2
        (opal_call.opal_pci_set_peltv (pe.pe_number : Int) pe.pe_number
          OpalPeltvAction.OPAL_ADD_PE_TO_DOMAIN)
      let r2 := opal step r1.2
        (opal_call.opal_pci_eeh_freeze_clear pe.pe_number
          OpalEehFreezeActionToken.OPAL_EEH_ACTION_CLEAR_FREEZE_ALL)
      match peltv_parents step topo pe.pe_number OpalPeltvAction.OPAL_ADD_PE_TO_DOMAIN
          topo.ndevs m.parent r2.2 with
      | none => none
      | some fw3 =>
        let phb1 := { phb with pe_rmap := rmap_fill phb.pe_rmap pe.rid m.rid_end pe.pe_number }
        let mv := configure_mve step phb1.type pe fw3
        some (0, set_pe phb1 pe_no mv.1, mv.2)

/-- The MVE block of `pnv_ioda_deconfigure_pe` ("Disable MVT on IODA1"). -/
def deconfigure_mve {σ : Type} (step : σ → opal_call → Int × σ) (type : pnv_phb_type)
    (pe : pnv_ioda_pe) (fw : opal_fw σ) : pnv_ioda_pe × opal_fw σ :=
  if type = pnv_phb_type.PNV_PHB_IODA1 then
    let r := opal step fw
      (opal_call.opal_pci_set_mve_enable pe.mve_number OpalMveEnableAction.OPAL_DISABLE_MVE)
    if r.1 ≠ 0 then ({ pe with mve_number := -1 }, r.2) else (pe, r.2)
  else (pe, fw)

/-- The function `pnv_ioda_deconfigure_pe` for the PE in slot `pe_no`; results as for
`pnv_ioda_configure_pe`. -/
def pnv_ioda_deconfigure_pe {σ : Type} (step : σ → opal_call → Int × σ) (topo : pci_topology)
    (phb : pnv_phb) (fw : opal_fw σ) (pe_no : Nat) : Option (Int × pnv_phb × opal_fw σ) :=
  let pe := phb.pe_array pe_no
  match deconfigure_pe_match topo pe with
  | none => none
  | some m =>
    let mv := deconfigure_mve step phb.type pe fw
    let pe1 := mv.1
    let phb1 := { phb with pe_rmap := rmap_fill phb.pe_rmap pe1.rid m.rid_end 0 }
    match peltv_parents step topo pe1.pe_number OpalPeltvAction.OPAL_REMOVE_PE_FROM_DOMAIN
        topo.ndevs m.parent mv.2 with
    | none => none
    | some fw2 =>
      let r3 := opal step fw2
        (opal_call.opal_pci_eeh_freeze_set pe1.pe_number
          OpalEehFreezeActionToken.OPAL_EEH_ACTION_CLEAR_FREEZE_ALL)
      let r4 := opal step r3.2
        (opal_call.opal_pci_set_peltv (pe1.pe_number : Int) pe1.pe_number
          OpalPeltvAction.OPAL_REMOVE_PE_FROM_DOMAIN)
      let r5 := opal step r4.2
        (opal_call.opal_pci_set_pe pe1.pe_number pe1.rid m.bcomp m.dcomp m.fcomp
          OpalPeAction.OPAL_UNMAP_PE)
      some (0, set_pe phb1 pe_no { pe1 with pbus := none, pdev := none, parent_dev := none },
        r5.2)

/-! ## PE grouping -/

/-- The loop `for (i = 0; i < n; i++) set_bit(start + i, pe_alloc)`. -/
def set_bits (start n : Nat) (pe_alloc : Nat → Bool) : Nat → Bool :=
  (List.range n).foldl (fun b i => set_bit (start + i) b) pe_alloc

/-- The loop `for (j = 0; j < n; j++) clear_bit(start + j, pe_alloc)`. -/
def clear_bits (start n : Nat) (pe_alloc : Nat → Bool) : Nat → Bool :=
  (List.range n).foldl (fun b j => clear_bit (start + j) b) pe_alloc

/-- Modelled from the spec: `bitmap_empty(addr, size)` of the kernel bitmap library (not part
of this source file): no bit below `size` is set. -/
def bitmap_empty (addr : Nat → Bool) (size : Nat) : Bool :=
  (List.range size).all (fun i => !addr i)

/-- The first loop of `pnv_ioda2_pick_m64_pe`: the first resource of the bus that is not
NULL, has a parent and is 64-bit prefetchable memory. -/
def pick_m64_window (resources : List (Option resource)) : Option resource :=
  resources.findSome? (fun r =>
    match r with
    | some r => if r.parent && pnv_pci_is_mem_pref_64 r then some r else none
    | none => none)

/-- The segment index `(r->start - phb->ioda.m64_base) / segsz` of a window. -/
def m64_segment_start (phb : pnv_phb) (r : resource) : Nat :=
  u64_sub r.start phb.m64_base / phb.m64_segsize

/-- The number of segments `resource_size(r) / segsz` of a window. -/
def m64_segment_count (phb : pnv_phb) (r : resource) : Nat :=
  resource_size r / phb.m64_segsize

/-- The loop of `pnv_ioda2_pick_m64_pe` over the resources of one child bus: the segments
of every 64-bit prefetchable window with a parent are cleared. -/
def pick_m64_subtract_bus (phb : pnv_phb) (resources : List (Option resource))
    (pe_alloc : Nat → Bool) : Nat → Bool :=
  resources.foldl (fun b r =>
    match r with
    | some r =>
      if r.parent && pnv_pci_is_mem_pref_64 r then
        clear_bits (m64_segment_start phb r) (m64_segment_count phb r) b
      else b
    | none => b) pe_alloc

/-- The loop of `pnv_ioda2_pick_m64_pe` over the devices of the bus: the windows of every
subordinate bus are subtracted. -/
def pick_m64_subtract_children (topo : pci_topology) (phb : pnv_phb) (devices : List Nat)
    (pe_alloc : Nat → Bool) : Nat → Bool :=
  devices.foldl (fun b d =>
    match (topo.devs d).subordinate with
    | some sub => pick_m64_subtract_bus phb (topo.buses sub).resources b
    | none => b) pe_alloc

/-- The loop at label `done` of `pnv_ioda2_pick_m64_pe`, which visits the set bits below
`total_pe` in ascending order (`indices` is `0, 1, .., total_pe - 1`): the first becomes
the master, every later one a slave linked at the tail of the master's list.  The result
carries `master_pe`. -/
def pick_m64_assign (pe_alloc : Nat → Bool) : List Nat → Option Nat → pnv_phb → Option Nat × pnv_phb
  | [], master_pe, phb => (master_pe, phb)
  | i :: indices, master_pe, phb =>
    if pe_alloc i then
      let pe := { phb.pe_array i with phb := true, pe_number := i }
      match master_pe with
      | none =>
        pick_m64_assign pe_alloc indices (some i)
          (set_pe phb i { pe with flags := { pe.flags with master := true }, slaves := [] })
      | some m =>
        let phb1 := set_pe phb i
          { pe with flags := { pe.flags with slave := true }, master := some m }
        let mpe := phb1.pe_array m
        pick_m64_assign pe_alloc indices master_pe
          (set_pe phb1 m { mpe with slaves := mpe.slaves ++ [i] })
    else pick_m64_assign pe_alloc indices master_pe phb

/-- The function `pnv_ioda2_pick_m64_pe`.  `kzalloc_ok` tells whether the allocation of the
scratch bitmap succeeds.  `none` is undefined behaviour: a division by a zero segment size,
or the dereference of `master_pe` when it is still NULL after the loop. -/
def pnv_ioda2_pick_m64_pe (kzalloc_ok : Bool) (topo : pci_topology) (phb : pnv_phb) (bus : Nat)
    (all : Bool) : Option (Int × pnv_phb) :=
  let b := topo.buses bus
  if pci_is_root_bus b then some (IODA_INVALID_PE, phb)
  else
    match pick_m64_window b.resources with
    | none => some (IODA_INVALID_PE, phb)
    | some r =>
      if !kzalloc_ok then some (IODA_INVALID_PE, phb)
      else if phb.m64_segsize = 0 then none
      else
        let pe_alloc0 := set_bits (m64_segment_start phb r) (m64_segment_count phb r)
          (fun _ => false)
        let pe_alloc := if all then pe_alloc0
          else pick_m64_subtract_children topo phb b.devices pe_alloc0
        if !all && bitmap_empty pe_alloc phb.total_pe then some (IODA_INVALID_PE, phb)
        else
          let res := pick_m64_assign pe_alloc (List.range phb.total_pe) none phb
          match res.1 with
          | none => none
          | some m => some (((res.2.pe_array m).pe_number : Int), res.2)

/-- Modelled from the spec: the header type and class codes that `pnv_ioda_dma_weight`
compares against are declared in `linux/pci_regs.h` and `linux/pci_ids.h` (not part of this
source file): a normal header, the three "slow legacy USB controllers" and the "RAID
storage controllers". -/
def PCI_HEADER_TYPE_NORMAL : Nat := 0

/-- Class code of UHCI USB controllers (see `PCI_HEADER_TYPE_NORMAL`). -/
def PCI_CLASS_SERIAL_USB_UHCI : Nat := 0x0c0300

/-- Class code of OHCI USB controllers (see `PCI_HEADER_TYPE_NORMAL`). -/
def PCI_CLASS_SERIAL_USB_OHCI : Nat := 0x0c0310

/-- Class code of EHCI USB controllers (see `PCI_HEADER_TYPE_NORMAL`). -/
def PCI_CLASS_SERIAL_USB_EHCI : Nat := 0x0c0320

/-- Class of RAID storage controllers (see `PCI_HEADER_TYPE_NORMAL`). -/
def PCI_CLASS_STORAGE_RAID : Nat := 0x0104

/-- The function `pnv_ioda_dma_weight`. -/
def pnv_ioda_dma_weight (dev : pci_dev) : Nat :=
  if dev.hdr_type ≠ PCI_HEADER_TYPE_NORMAL then 0
  else if dev.class_code = PCI_CLASS_SERIAL_USB_UHCI ∨
      dev.class_code = PCI_CLASS_SERIAL_USB_OHCI ∨
      dev.class_code = PCI_CLASS_SERIAL_USB_EHCI then 3
  else if dev.class_code >>> 8 = PCI_CLASS_STORAGE_RAID then 15
  else 10

/-- The function `pnv_ioda_setup_same_PE` for the PE in slot `pe_no`, one level of bus
nesting per unit of fuel (`none` when the nesting is deeper than the fuel); the devices of
the bus are visited in list order. -/
def pnv_ioda_setup_same_PE (pe_no : Nat) :
    Nat → Nat → pci_topology × pnv_phb → Option (pci_topology × pnv_phb)
  | 0, _, _ => none
  | fuel + 1, bus, st =>
    (st.1.buses bus).devices.foldlM (fun (s : pci_topology × pnv_phb) dev =>
      let d := s.1.devs dev
      match d.pdn with
      | none => some s
      | some pdn =>
        let pe := s.2.pe_array pe_no
        let topo1 := { s.1 with
          devs := array_set s.1.devs dev
            { d with pdn := some { pdn with pe_number := (pe.pe_number : Int) } } }
        let phb1 := set_pe s.2 pe_no
          { pe with dma_weight := u32 (pe.dma_weight + pnv_ioda_dma_weight d) }
        match (if pe.flags.bus_all then d.subordinate else none) with
        | some sub => pnv_ioda_setup_same_PE pe_no fuel sub (topo1, phb1)
        | none => some (topo1, phb1)) st

/-- The function `pnv_ioda_setup_bus_PE`.  The result is the topology (whose device nodes
carry the PE numbers), the bridge and the firmware; `none` when one of the functions it
calls has no result. -/
def pnv_ioda_setup_bus_PE {σ : Type} (step : σ → opal_call → Int × σ) (kzalloc_ok : Bool)
    (topo : pci_topology) (phb : pnv_phb) (fw : opal_fw σ) (bus : Nat) (all : Bool) :
    Option (pci_topology × pnv_phb × opal_fw σ) :=
  let picked : Option (Int × pnv_phb) :=
    if phb.pick_m64_pe then pnv_ioda2_pick_m64_pe kzalloc_ok topo phb bus all
    else some (IODA_INVALID_PE, phb)
  match picked with
  | none => none
  | some (pe_num0, phb0) =>
    let allocated : Int × pnv_phb :=
      if pe_num0 = IODA_INVALID_PE then pnv_ioda_alloc_pe phb0 else (pe_num0, phb0)
    if allocated.1 = IODA_INVALID_PE then some (topo, allocated.2, fw)
    else
      let pe_num := allocated.1.toNat
      let pe := allocated.2.pe_array pe_num
      let phb1 := set_pe allocated.2 pe_num
        { pe with
          flags := if all then { pe.flags with bus_all := true } else { pe.flags with bus := true }
          pbus := some bus
          pdev := none
          tce32_seg := -1
          mve_number := -1
          rid := (topo.buses bus).busn_res_start <<< 8
          dma_weight := 0 }
      match pnv_ioda_configure_pe step topo phb1 fw pe_num with
      | none => none
      | some (rc, phb2, fw2) =>
        if rc ≠ 0 then
          let phb3 := if pe_num ≠ 0 then pnv_ioda_free_pe phb2 pe_num else phb2
          some (topo, set_pe phb3 pe_num { phb3.pe_array pe_num with pbus := none }, fw2)
        else
          match pnv_ioda_setup_same_PE pe_num (topo.ndevs + 1) bus (topo, phb2) with
          | none => none
          | some (topo3, phb3) =>
            let phb4 := { phb3 with pe_list := phb3.pe_list ++ [pe_num] }
            let w := (phb4.pe_array pe_num).dma_weight
            let phb5 := if w ≠ 0 then
                { phb4 with
                  dma_weight := u32 (phb4.dma_weight + w)
                  dma_pe_count := u32 (phb4.dma_pe_count + 1) }
              else phb4
            some (topo3, pnv_ioda_link_pe_by_weight phb5 pe_num, fw2)

/-- The function `pnv_ioda_freeze_pe`; the bridge is only read, the result is the firmware.
`none`: the PE is flagged slave and its `master` pointer is NULL. -/
def pnv_ioda_freeze_pe {σ : Type} (step : σ → opal_call → Int × σ) (phb : pnv_phb)
    (fw : opal_fw σ) (pe_no : Nat) : Option (opal_fw σ) :=
  let pe0 := phb.pe_array pe_no
  let fetched : Option (pnv_ioda_pe × Nat) :=
    if pe0.flags.slave then
      match pe0.master with
      | some m => some (phb.pe_array m, (phb.pe_array m).pe_number)
      | none => none
    else some (pe0, pe_no)
  match fetched with
  | none => none
  | some (pe, pe_no1) =>
    let r := opal step fw
      (opal_call.opal_pci_eeh_freeze_set pe_no1
        OpalEehFreezeActionToken.OPAL_EEH_ACTION_SET_FREEZE_ALL)
    if r.1 ≠ OPAL_SUCCESS then some r.2
    else if !pe.flags.master then some r.2
    else
      some (pe.slaves.foldl (fun f slave =>
        (opal step f
          (opal_call.opal_pci_eeh_freeze_set (phb.pe_array slave).pe_number
            OpalEehFreezeActionToken.OPAL_EEH_ACTION_SET_FREEZE_ALL)).2) r.2)

/-! ## Example configurations -/

/-- A firmware without state in which the routing-table call `opal_pci_set_pe` fails
(return code `-1`) and every other call succeeds. -/
def fw_set_pe_fails (s : Unit) (c : opal_call) : Int × Unit :=
  match c with
  | opal_call.opal_pci_set_pe _ _ _ _ _ _ => (-1, s)
  | _ => (0, s)

/-- A firmware without state in which every call succeeds. -/
def fw_all_ok (s : Unit) (_ : opal_call) : Int × Unit := (0, s)

/-- A firmware that has not been called yet. -/
def fw_fresh : opal_fw Unit := { state := (), log := [] }

/-- A small bus tree: root bus 0 with a root port (device 0) leading to bus 1, which carries
one network function (device 1) and owns a 64-bit prefetchable window of two segments of
256 MiB, segments 1 and 2 of an M64 space that starts at PCI address `0x1000000000`. -/
def two_segment_topology : pci_topology :=
  { buses := fun b =>
      if b = 0 then
        { number := 0, parent := none, self := none, busn_res_start := 0, busn_res_end := 255,
          devices := [0], resources := [] }
      else
        { number := 1, parent := some 0, self := some 0, busn_res_start := 1, busn_res_end := 1,
          devices := [1],
          resources := [some { start := 0x1010000000, end_ := 0x102fffffff, parent := true,
                               mem_64 := true, prefetch := true }] }
    devs := fun d =>
      if d = 0 then
        { bus := 0, subordinate := some 1, pdn := some { pe_number := -1 }, hdr_type := 1,
          class_code := 0x060400 }
      else
        { bus := 1, subordinate := none, pdn := some { pe_number := -1 }, hdr_type := 0,
          class_code := 0x020000 }
    ndevs := 2 }

/-- An IODA2 bridge with 256 PEs, reserved PE 0 and an M64 space of 256 segments of 256 MiB
at PCI address `0x1000000000`, right after initialisation, with the slots of the root
port's window (segments 1 and 2) marked in the slot bitmap as `pnv_ioda2_alloc_m64_pe`
does. -/
def two_segment_phb : pnv_phb :=
  let phb := pnv_pci_init_ioda_phb pnv_phb_type.PNV_PHB_IODA2 (some 256) (some 0)
    (some (0x1000000000, 0x1000000000)) 0x80000000
  { phb with pe_alloc := set_bits 1 2 phb.pe_alloc }

/-- The bridge `two_segment_phb` after `pnv_ioda2_pick_m64_pe` has formed the compound PE
of bus 1: PE 1 is the master, PE 2 its slave. -/
def two_segment_group : pnv_phb :=
  match pnv_ioda2_pick_m64_pe true two_segment_topology two_segment_phb 1 false with
  | some r => r.2
  | none => two_segment_phb

/-- The call that freezes PE `pe_number`. -/
def freeze_call (pe_number : Nat) : opal_call :=
  opal_call.opal_pci_eeh_freeze_set pe_number
    OpalEehFreezeActionToken.OPAL_EEH_ACTION_SET_FREEZE_ALL

/-- The example after `pnv_ioda_setup_bus_PE` has succeeded for bus 1 with a firmware that
accepts every call: PE 1 is the bus PE of bus 1 (with slave PE 2), device 1 is assigned to
it and the reverse map sends the RIDs `0x100 .. 0x1ff` of bus 1 to PE 1. -/
def two_segment_configured : pci_topology × pnv_phb :=
  match pnv_ioda_setup_bus_PE fw_all_ok true two_segment_topology two_segment_phb fw_fresh
      1 false with
  | some r => (r.1, r.2.1)
  | none => (two_segment_topology, two_segment_phb)

/-- The slot initialisation at the head of the loop of `pnv_ioda_setup_vf_PE`, for the
virtual function with RID `rid` of the physical function `pdev`. -/
def setup_vf_PE_slot (phb : pnv_phb) (pe_num pdev rid : Nat) : pnv_phb :=
  set_pe phb pe_num
    { phb.pe_array pe_num with
      pe_number := pe_num
      phb := true
      flags := { pe_flags.zero with vf := true }
      pbus := none
      parent_dev := some pdev
      tce32_seg := -1
      mve_number := -1
      rid := rid }

/-- The configured example with slot 3 prepared for a virtual function of device 1, at
RID `0x110` on the bus of its physical function. -/
def vf_example_phb : pnv_phb :=
  setup_vf_PE_slot two_segment_configured.2 3 1 0x110

/-! ## Firmware domain table -/

/-- Modelled from the spec: the effect of a successful firmware call on the domain table
(PELTV), which belongs to the firmware and is not part of this source file: "add/remove a
PE from a domain row".  `t row pe` tells whether `pe` is a member of the row of PE `row`;
the other calls leave the table alone. -/
def peltv_update (t : Int → Nat → Bool) (c : opal_call) : Int → Nat → Bool :=
  match c with
  | opal_call.opal_pci_set_peltv parent child OpalPeltvAction.OPAL_ADD_PE_TO_DOMAIN =>
    fun p q => if p = parent ∧ q = child then true else t p q
  | opal_call.opal_pci_set_peltv parent child OpalPeltvAction.OPAL_REMOVE_PE_FROM_DOMAIN =>
    fun p q => if p = parent ∧ q = child then false else t p q
  | _ => t

/-- Modelled from the spec: a firmware that keeps a domain table.  Whether a call succeeds
and what else the firmware remembers is left to `inner`, an arbitrary firmware; a call
that returns success (zero) updates the table ("every call returns a success/failure
code"), a failed call leaves it as it was. -/
def peltv_fw {σ : Type} (inner : σ → opal_call → Int × σ) (s : σ × (Int → Nat → Bool))
    (c : opal_call) : Int × (σ × (Int → Nat → Bool)) :=
  ((inner s.1 c).1, ((inner s.1 c).2, if (inner s.1 c).1 = 0 then peltv_update s.2 c else s.2))

/-- The domain-table rows that the ancestor walk of configure and deconfigure addresses,
starting at bridge `parent`: the PE numbers of the ancestors that have a device node with
a valid PE number, nearest first; `none` when the chain is longer than the fuel. -/
def ancestor_rows (topo : pci_topology) : Nat → Option Nat → Option (List Int)
  | _, none => some []
  | 0, some _ => none
  | fuel + 1, some parent =>
    let dev := topo.devs parent
    let here : List Int := match dev.pdn with
      | some pdn => if pdn.pe_number ≠ IODA_INVALID_PE then [pdn.pe_number] else []
      | none => []
    (ancestor_rows topo fuel (topo.buses dev.bus).self).map (fun rows => here ++ rows)

/-- A firmware with a domain table, no other state and no failing call, not called yet; the
table is empty. -/
def peltv_fresh : opal_fw (Unit × (Int → Nat → Bool)) :=
  { state := ((), fun _ _ => false), log := [] }

/-! ## RID lookup -/

/-- The function `pnv_ioda_bdfn_to_pe`, with the bus given by its number. -/
def pnv_ioda_bdfn_to_pe (phb : pnv_phb) (bus_number devfn : Nat) : Nat :=
  phb.pe_rmap ((bus_number <<< 8) ||| devfn)

/-- The routing-table call that `pnv_ioda_configure_pe` issues first for a PE with the
locals `m` ("step a"). -/
def configure_map_call (pe : pnv_ioda_pe) (m : pe_match) : opal_call :=
  opal_call.opal_pci_set_pe pe.pe_number pe.rid m.bcomp m.dcomp m.fcomp OpalPeAction.OPAL_MAP_PE

/-- The scheduling list of a bridge after the PEs `pes` have been linked by
`pnv_ioda_link_pe_by_weight`, one after the other. -/
def link_pes_by_weight (phb : pnv_phb) (pes : List Nat) : pnv_phb :=
  pes.foldl pnv_ioda_link_pe_by_weight phb

/-! ## Unfreeze and state query -/

/-- Modelled from the spec: `OPAL_EEH_STOPPED_TEMP_UNAVAIL`, declared in the firmware
interface header (not part of this source file): the "temporarily-unavailable" severity,
below only the permanently-unavailable one. -/
def OPAL_EEH_STOPPED_TEMP_UNAVAIL : Int := 5

/-- Modelled from the spec: `OPAL_EEH_STOPPED_PERM_UNAVAIL`, declared in the firmware
interface header (not part of this source file): the "permanently-unavailable" severity,
the highest. -/
def OPAL_EEH_STOPPED_PERM_UNAVAIL : Int := 6

/-- The slave loop of `pnv_ioda_get_pe_state`, with the running value `state`: the first
failing call ends the function with the temporarily-unavailable state. -/
def get_pe_state_slaves {σ : Type} (step : σ → opal_call → Int × σ) (fstate : σ → Nat)
    (phb : pnv_phb) : List Nat → Nat → opal_fw σ → Int × opal_fw σ
  | [], state, fw => (state, fw)
  | slave :: rest, state, fw =>
    let r := opal step fw (opal_call.opal_pci_eeh_freeze_status (phb.pe_array slave).pe_number)
    if r.1 ≠ OPAL_SUCCESS then (OPAL_EEH_STOPPED_TEMP_UNAVAIL, r.2)
    else
      get_pe_state_slaves step fstate phb rest
        (if fstate r.2.state > state then fstate r.2.state else state) r.2

/-- The function `pnv_ioda_get_pe_state`.  The byte that `opal_pci_eeh_freeze_status`
stores through its output pointer is read off the firmware state after the call by
`fstate`.  The result is the return value and the firmware; `none` is the dereference of a
NULL master pointer. -/
def pnv_ioda_get_pe_state {σ : Type} (step : σ → opal_call → Int × σ) (fstate : σ → Nat)
    (phb : pnv_phb) (fw : opal_fw σ) (pe_no : Int) : Option (Int × opal_fw σ) :=
  if pe_no < 0 ∨ pe_no ≥ phb.total_pe then some (OPAL_EEH_STOPPED_PERM_UNAVAIL, fw)
  else
    let pe0 := phb.pe_array pe_no.toNat
    let fetched : Option (pnv_ioda_pe × Nat) :=
      if pe0.flags.slave then
        match pe0.master with
        | some m => some (phb.pe_array m, (phb.pe_array m).pe_number)
        | none => none
      else some (pe0, pe_no.toNat)
    match fetched with
    | none => none
    | some (pe, pe_no1) =>
      let r := opal step fw (opal_call.opal_pci_eeh_freeze_status pe_no1)
      if r.1 ≠ OPAL_SUCCESS then some (OPAL_EEH_STOPPED_TEMP_UNAVAIL, r.2)
      else if !pe.flags.master then some (fstate r.2.state, r.2)
      else some (get_pe_state_slaves step fstate phb pe.slaves (fstate r.2.state) r.2)

/-- The bus tree of `two_segment_topology` with the window of bus 1 one segment longer:
segments 1, 2 and 3. -/
def three_segment_topology : pci_topology :=
  { two_segment_topology with
    buses := fun b =>
      if b = 0 then two_segment_topology.buses 0
      else
        { two_segment_topology.buses 1 with
          resources := [some { start := 0x1010000000, end_ := 0x103fffffff, parent := true,
                               mem_64 := true, prefetch := true }] } }

/-- The bridge of `two_segment_phb` with the slots of the three segments marked, after
`pnv_ioda2_pick_m64_pe` has formed the compound PE of bus 1: PE 1 is the master, PEs 2 and
3 are its slaves. -/
def three_segment_group : pnv_phb :=
  match pnv_ioda2_pick_m64_pe true three_segment_topology
      { two_segment_phb with pe_alloc := set_bits 1 3 two_segment_phb.pe_alloc } 1 false with
  | some r => r.2
  | none => two_segment_phb

/-- A firmware whose state is the byte reported by the last status query: PE 1 is reported
as not frozen (0), PE 2 as frozen for MMIO and DMA (3), every other PE as frozen for
MMIO (1); no call fails. -/
def fw_reporting (s : Nat) (c : opal_call) : Int × Nat :=
  match c with
  | opal_call.opal_pci_eeh_freeze_status pe => (0, if pe = 1 then 0 else if pe = 2 then 3 else 1)
  | _ => (0, s)

/-! ## Dynamic 64-bit DMA window -/

/-- Modelled from the spec: the errno value `EINVAL` (not declared in this source file). -/
def EINVAL : Int := 22

/-- Modelled from the spec: the errno value `EBUSY` (not declared in this source file),
the "`EBUSY` if requested twice" code. -/
def EBUSY : Int := 16

/-- Modelled from the spec: the errno value `EFAULT` (not declared in this source file). -/
def EFAULT : Int := 14

/-- Modelled from the spec: the page-size bit `DDW_PGSIZE_4K` of the window query (declared
in a header that is not part of this source file), for "page sizes of 4 KiB". -/
def DDW_PGSIZE_4K : Nat := 0x01

/-- Modelled from the spec: the page-size bit `DDW_PGSIZE_64K` of the window query (declared
in a header that is not part of this source file), for "page sizes of ... 64 KiB". -/
def DDW_PGSIZE_64K : Nat := 0x02

/-- Modelled from the spec: the page-size bit `DDW_PGSIZE_16M` of the window query (declared
in a header that is not part of this source file), for "page sizes of ... 16 MiB". -/
def DDW_PGSIZE_16M : Nat := 0x04

/-- The function `pnv_pci_ioda2_ddw_query` on the PE `data->iommu_owner`: the return value
and the values stored in `*windows_available` and `*page_size_mask`. -/
def pnv_pci_ioda2_ddw_query (pe : pnv_ioda_pe) : Int × Nat × Nat :=
  if pe.tce64_active then (0, 0, 0)
  else (0, 1, DDW_PGSIZE_4K ||| DDW_PGSIZE_64K ||| DDW_PGSIZE_16M)

/-- The kernel around the bridge code: the values of `memory_hotplug_max()` and
`memblock_end_of_DRAM()`, the kernel function `get_order`, the page allocator
`alloc_pages_node` (it shares its state with the firmware; from that state and the order it
gives the address of the pages, `none` when the allocation fails, and the next state),
the value `shl_wide n` of the expression `1ULL << n` for a shift count `n` of 64 or more,
which the C language leaves open, and the value `dz` of a division by zero. -/
structure kernel_env (σ : Type) where
  memory_hotplug_max : Nat
  memblock_end_of_DRAM : Nat
  get_order : Nat → Nat
  alloc_pages_node : σ → Nat → Option Nat × σ
  shl_wide : Nat → Nat
  dz : Nat

/-- One call of the page allocator. -/
def alloc_pages {σ : Type} (env : kernel_env σ) (fw : opal_fw σ) (order : Nat) :
    Option Nat × opal_fw σ :=
  ((env.alloc_pages_node fw.state order).1,
    { fw with state := (env.alloc_pages_node fw.state order).2 })

/-- The initialiser `(1ULL << (window_shift - page_shift)) * 8` of `tce_table_size` in
`pnv_pci_ioda2_ddw_create`; the subtraction is one of `__u32` values. -/
def ddw_table_size {σ : Type} (env : kernel_env σ) (page_shift window_shift : Nat) : Nat :=
  let n := u32_sub window_shift page_shift
  u64 ((if n < 64 then u64 (1 <<< n) else env.shl_wide n) * 8)

/-- The firmware call that maps (`levels = 1`) or unmaps (`levels = 0`) the window of the
PE, window number `(pe_number << 1) + 1`. -/
def ddw_map_call (pe : pnv_ioda_pe) (levels tce_table_addr tce_table_size tce_page_size : Nat) :
    opal_call :=
  opal_call.opal_pci_map_pe_dma_window pe.pe_number ((pe.pe_number <<< 1) + 1) levels
    tce_table_addr tce_table_size tce_page_size

/-- The function `pnv_pci_ioda2_ddw_create` on the PE `data->iommu_owner`; `page_shift` and
`window_shift` are `__u32` values.  The result is the return value, the PE and the
firmware; on success `*ptbl` is the address of the member `tce64.table` of the PE. -/
def pnv_pci_ioda2_ddw_create {σ : Type} (step : σ → opal_call → Int × σ) (env : kernel_env σ)
    (pe : pnv_ioda_pe) (fw : opal_fw σ) (page_shift window_shift : Nat) :
    Int × pnv_ioda_pe × opal_fw σ :=
  let tce_table_size := ddw_table_size env page_shift window_shift
  if page_shift ≠ 12 ∧ page_shift ≠ 16 ∧ page_shift ≠ 24 then (- EINVAL, pe, fw)
  else if window_shift > env.memory_hotplug_max >>> page_shift then (- EINVAL, pe, fw)
  else if pe.tce64_active then (- EBUSY, pe, fw)
  else
    let tce_table_size := max 0x1000 tce_table_size
    let order := env.get_order tce_table_size
    let a := alloc_pages env fw order
    match a.1 with
    | none => (- EFAULT, pe, a.2)
    | some addr =>
      let r := opal step a.2 (ddw_map_call pe 1 addr tce_table_size (1 <<< page_shift))
      if r.1 ≠ 0 then (- EFAULT, pe, r.2)
      else
        (0,
          { pe with
            tce64 := some { tce_mem := addr, tce_size := tce_table_size,
                            dma_offset := pe.tce_bypass_base, page_shift := page_shift }
            tce64_active := true },
          r.2)

/-- The function `pnv_pci_ioda2_ddw_remove` on the PE `data->iommu_owner`; `tbl_is_tce64`
tells whether the argument `tbl` is the address of the member `tce64.table` of the PE. -/
def pnv_pci_ioda2_ddw_remove {σ : Type} (step : σ → opal_call → Int × σ) (pe : pnv_ioda_pe)
    (fw : opal_fw σ) (tbl_is_tce64 : Bool) : Int × pnv_ioda_pe × opal_fw σ :=
  if !tbl_is_tce64 || !pe.tce64_active then (- EFAULT, pe, fw)
  else
    let r := opal step fw (ddw_map_call pe 0 0 0 0)
    (r.1, { pe with tce64_active := false, tce64 := none }, r.2)

/-- The function `pnv_pci_ioda2_ddw_reset` on the PE `data->iommu_owner`. -/
def pnv_pci_ioda2_ddw_reset {σ : Type} (step : σ → opal_call → Int × σ) (pe : pnv_ioda_pe)
    (fw : opal_fw σ) : Int × pnv_ioda_pe × opal_fw σ :=
  if !pe.tce64_active then (0, pe, fw)
  else pnv_pci_ioda2_ddw_remove step pe fw true

/-- One call of the window interface on a PE. -/
inductive ddw_op
  | create (page_shift window_shift : Nat)
  | remove (tbl_is_tce64 : Bool)
  | reset
deriving DecidableEq

/-- The state of a run of window calls on one PE: the PE, the firmware, and the number
`windows` of windows that have been created (a create returned 0) and not taken down
since (by a remove or reset that got past its checks). -/
structure ddw_state (σ : Type) where
  pe : pnv_ioda_pe
  fw : opal_fw σ
  windows : Int

/-- One window call, with the window count kept alongside. -/
def ddw_step {σ : Type} (step : σ → opal_call → Int × σ) (env : kernel_env σ) (st : ddw_state σ)
    (op : ddw_op) : ddw_state σ :=
  match op with
  | ddw_op.create page_shift window_shift =>
    let r := pnv_pci_ioda2_ddw_create step env st.pe st.fw page_shift window_shift
    { pe := r.2.1, fw := r.2.2, windows := if r.1 = 0 then st.windows + 1 else st.windows }
  | ddw_op.remove tbl_is_tce64 =>
    let r := pnv_pci_ioda2_ddw_remove step st.pe st.fw tbl_is_tce64
    { pe := r.2.1, fw := r.2.2
      windows := if tbl_is_tce64 && st.pe.tce64_active then st.windows - 1 else st.windows }
  | ddw_op.reset =>
    let r := pnv_pci_ioda2_ddw_reset step st.pe st.fw
    { pe := r.2.1, fw := r.2.2
      windows := if st.pe.tce64_active then st.windows - 1 else st.windows }

/-- A run of window calls. -/
def ddw_run {σ : Type} (step : σ → opal_call → Int × σ) (env : kernel_env σ) (st : ddw_state σ)
    (ops : List ddw_op) : ddw_state σ :=
  ops.foldl (ddw_step step env) st

/-- A kernel with 512 MiB of memory, pages of 64 KiB and an allocator without state that
hands out address `0x10000` for every order. -/
def ddw_env_example : kernel_env Unit :=
  { memory_hotplug_max := 0x20000000
    memblock_end_of_DRAM := 0x20000000
    get_order := fun size => Nat.log2 ((size + 0xffff) / 0x10000)
    alloc_pages_node := fun s _ => (some 0x10000, s)
    shl_wide := fun _ => 0
    dz := 0 }

/-- PE 4 of a modern bridge with no dynamic window. -/
def ddw_pe_example : pnv_ioda_pe :=
  { pnv_ioda_pe.zero with pe_number := 4, phb := true, tce_bypass_base := 1 <<< 59 }

/-- The example PE after a window with pages of 64 KiB and window shift 30 has been
created. -/
def ddw_pe_active : pnv_ioda_pe :=
  (pnv_pci_ioda2_ddw_create fw_all_ok ddw_env_example ddw_pe_example fw_fresh 16 30).2.1

/-! ## SR-IOV -/

/-- Modelled from the spec: `PCI_SRIOV_NUM_BARS`, the number of VF BARs of a physical
function, declared in a PCI header that is not part of this source file. -/
def PCI_SRIOV_NUM_BARS : Nat := 6

/-- Modelled from the spec: `M64_PER_IOV`, declared in a header that is not part of this
source file: the most M64 window registers one VF BAR is split over ("a power-of-two count
of windows each covering a sub-group of VFs"). -/
def M64_PER_IOV : Nat := 4

/-- Modelled from the spec: `IODA_INVALID_M64`, declared in a header that is not part of
this source file: the value `-1`, which is no window register. -/
def IODA_INVALID_M64 : Int := -1

/-- A physical function with its SR-IOV data: the device handle `pdev`, `pdev->is_physfn`,
the value of `pci_sriov_get_totalvfs(pdev)`, the VF BARs `pdev->resource[PCI_IOV_RESOURCES
+ i]`, the values of `pci_iov_virtfn_bus(pdev, i)` and `pci_iov_virtfn_devfn(pdev, i)`,
and the fields `vfs` (16 bits), `vf_pes` (16 bits), `offset`, `m64_per_iov` and
`m64_wins[i][j]` of its device node `pci_get_pdn(pdev)`. -/
structure sriov_pf where
  pdev : Nat
  is_physfn : Bool
  total_vfs : Nat
  resource : Nat → resource
  virtfn_bus : Nat → Nat
  virtfn_devfn : Nat → Nat
  vfs : Nat
  vf_pes : Nat
  offset : Nat
  m64_per_iov : Int
  m64_wins : Nat → Nat → Int

/-- Modelled from the spec: `fls_long` of the kernel bit operations (not part of this source
file): the position of the highest set bit, counted from 1, and 0 for 0. -/
def fls_long (x : Nat) : Nat := if x = 0 then 0 else Nat.log2 x + 1

/-- Modelled from the spec: `__roundup_pow_of_two(n)` of `linux/log2.h` (not part of this
source file), `1UL << fls_long(n - 1)`: the least power of two that is at least `n` ("a
power-of-two count", "rounded up to a power of two").  For `n = 0` the C expression shifts
by 64, which the language leaves open; the value is 1 here. -/
def roundup_pow_of_two (n : Nat) : Nat := u64 (1 <<< fls_long (n - 1))

/-- The first of the `count` bases from `base` on at which `nr` clear bits start. -/
def first_free_run (map : Nat → Bool) (nr : Nat) : Nat → Nat → Option Nat
  | 0, _ => none
  | count + 1, base =>
    if (List.range nr).all (fun k => !map (base + k)) then some base
    else first_free_run map nr count (base + 1)

/-- Modelled from the spec: `bitmap_find_next_zero_area(map, size, 0, nr, 0)` of the kernel
bitmap library (not part of this source file), "finds the lowest-index run of `count` free
bits": the lowest `base` with `base + nr ≤ size` whose `nr` bits from `base` on are all
clear; a value above `size` when there is none (`size + nr` here; the library returns the
end of the last run it tried).  For `nr = 0` the library returns the first clear bit. -/
def bitmap_find_next_zero_area (map : Nat → Bool) (size nr : Nat) : Nat :=
  if nr = 0 then find_next_zero_bit map size 0
  else
    match first_free_run map nr (size + 1 - nr) 0 with
    | some base => base
    | none => size + nr

/-- Modelled from the spec: `bitmap_set(map, start, nr)` of the kernel bitmap library (not
part of this source file): "claims them all", sets the `nr` bits from `start` on. -/
def bitmap_set (map : Nat → Bool) (start nr : Nat) : Nat → Bool := set_bits start nr map

/-- Modelled from the spec: `bitmap_clear(map, start, nr)` of the kernel bitmap library (not
part of this source file): "clears the PE-range bitmap", clears the `nr` bits from `start`
on. -/
def bitmap_clear (map : Nat → Bool) (start nr : Nat) : Nat → Bool := clear_bits start nr map

/-- The function `pnv_pcibios_sriov_resource_size` for VF BAR `i`; `do_div` divides by
`pdn->vfs`. -/
def pnv_pcibios_sriov_resource_size (pf : sriov_pf) (i : Nat) : Nat :=
  if pf.vfs = 0 then 0 else resource_size (pf.resource i) / pf.vfs

/-- The function `pnv_pci_sriov_resource_size` for VF BAR `i`; `dz` is the value of the
division by a total VF count of zero. -/
def pnv_pci_sriov_resource_size (dz : Nat) (pf : sriov_pf) (i : Nat) : Nat :=
  let size := pnv_pcibios_sriov_resource_size pf i
  if size ≠ 0 then size
  else if pf.total_vfs = 0 then dz
  else resource_size (pf.resource i) / pf.total_vfs

/-- The test at the head of the BAR loops of `pnv_pci_vf_resource_shift` and
`pnv_pci_vf_assign_m64`: the BAR is skipped unless its flags are not zero, its parent is
set and it is 64-bit prefetchable (flags that are 64-bit prefetchable are not zero). -/
def vf_bar_is_m64 (res : resource) : Bool := res.parent && pnv_pci_is_mem_pref_64 res

/-- The function `pnv_pci_vf_resource_shift`; `offset` is an `int`, the product
`size*offset` and the sum are taken in 64 bits, `pdn->vfs` in 16 bits.  The call
`pci_update_resource`, which writes the BAR to the device, is not represented. -/
def pnv_pci_vf_resource_shift (dz : Nat) (pf : sriov_pf) (offset : Int) : sriov_pf :=
  if !pf.is_physfn then pf
  else
    let pf1 := (List.range PCI_SRIOV_NUM_BARS).foldl (fun (pf : sriov_pf) i =>
      let res := pf.resource i
      if !vf_bar_is_m64 res then pf
      else
        let size := pnv_pci_sriov_resource_size dz pf i
        { pf with
          resource := array_set pf.resource i
            { res with start := (((res.start : Int) + (size : Int) * offset) % 2 ^ 64).toNat } })
      pf
    { pf1 with vfs := (((pf1.vfs : Int) - offset) % 2 ^ 16).toNat }

/-- Store `v` at `m64_wins[i][j]`. -/
def m64_wins_set (w : Nat → Nat → Int) (i j : Nat) (v : Int) : Nat → Nat → Int :=
  fun a b => if a = i ∧ b = j then v else w a b

/-- The call `clear_bit(nr, ..)` with an `int` argument; a negative `nr` addresses memory
in front of the bitmap, which is not represented. -/
def clear_bit_int (nr : Int) (map : Nat → Bool) : Nat → Bool :=
  if 0 ≤ nr then clear_bit nr.toNat map else map

/-- The body of the loops of `pnv_pci_vf_release_m64` for entry `m64_wins[i][j]`. -/
def vf_release_m64_entry {σ : Type} (step : σ → opal_call → Int × σ)
    (s : pnv_phb × sriov_pf × opal_fw σ) (i j : Nat) : pnv_phb × sriov_pf × opal_fw σ :=
  let win := s.2.1.m64_wins i j
  if win = IODA_INVALID_M64 then s
  else
    ({ s.1 with m64_bar_alloc := clear_bit_int win s.1.m64_bar_alloc },
      { s.2.1 with m64_wins := m64_wins_set s.2.1.m64_wins i j IODA_INVALID_M64 },
      (opal step s.2.2 (opal_call.opal_pci_phb_mmio_enable win 0)).2)

/-- The function `pnv_pci_vf_release_m64`; it returns 0 always, the result here is the
state it leaves. -/
def pnv_pci_vf_release_m64 {σ : Type} (step : σ → opal_call → Int × σ) (phb : pnv_phb)
    (pf : sriov_pf) (fw : opal_fw σ) : pnv_phb × sriov_pf × opal_fw σ :=
  (List.range PCI_SRIOV_NUM_BARS).foldl (fun s i =>
    (List.range M64_PER_IOV).foldl (fun s j => vf_release_m64_entry step s i j) s)
    (phb, pf, fw)

/-- The loop `do { win = find_next_zero_bit(..); if (win >= m64_bar_idx + 1) goto
m64_failed; } while (test_and_set_bit(win, ..))` of `pnv_pci_vf_assign_m64`, one iteration
per unit of fuel: the window found (`none` for the jump to `m64_failed`) and the bridge;
`none` when the fuel runs out before the loop exits. -/
def vf_m64_win_loop : Nat → pnv_phb → Option (Option Nat × pnv_phb)
  | 0, _ => none
  | fuel + 1, phb =>
    let win := find_next_zero_bit phb.m64_bar_alloc (phb.m64_bar_idx + 1) 0
    if win ≥ phb.m64_bar_idx + 1 then some (none, phb)
    else
      let old := phb.m64_bar_alloc win
      let phb1 := { phb with m64_bar_alloc := set_bit win phb.m64_bar_alloc }
      if old then vf_m64_win_loop fuel phb1 else some (some win, phb1)

/-- The body of the inner loop of `pnv_pci_vf_assign_m64` for BAR `i` and group `j`:
whether it ran through (`false` is the jump to `m64_failed`) and the state.  The window
loop exits in its first iteration (see `vf_m64_win_loop_one`).  The return code of
`opal_pci_map_pe_mmio_window` is overwritten before it is looked at. -/
def vf_assign_m64_window {σ : Type} (step : σ → opal_call → Int × σ) (dz : Nat)
    (vf_per_group : Nat) (s : pnv_phb × sriov_pf × opal_fw σ) (i j : Nat) :
    Bool × (pnv_phb × sriov_pf × opal_fw σ) :=
  match vf_m64_win_loop 1 s.1 with
  | none => (false, s)
  | some (none, phb1) => (false, (phb1, s.2.1, s.2.2))
  | some (some win, phb1) =>
    let pf := s.2.1
    let pf1 := { pf with m64_wins := m64_wins_set pf.m64_wins i j (win : Int) }
    let res := pf.resource i
    let size :=
      if pf.m64_per_iov = M64_PER_IOV then u64 (pnv_pci_sriov_resource_size dz pf i * vf_per_group)
      else resource_size res
    let start :=
      if pf.m64_per_iov = M64_PER_IOV then u64 (res.start + size * j) else res.start
    let fw1 :=
      if pf.m64_per_iov = M64_PER_IOV then
        (opal step s.2.2
          (opal_call.opal_pci_map_pe_mmio_window ((pf.offset : Int) + j) (win : Int) 0)).2
      else s.2.2
    let r := opal step fw1 (opal_call.opal_pci_set_phb_mem_window (win : Int) start size)
    if r.1 ≠ OPAL_SUCCESS then (false, (phb1, pf1, r.2))
    else
      let r2 := opal step r.2
        (opal_call.opal_pci_phb_mmio_enable (win : Int)
          (if pf.m64_per_iov = M64_PER_IOV then 2 else 1))
      if r2.1 ≠ OPAL_SUCCESS then (false, (phb1, pf1, r2.2)) else (true, (phb1, pf1, r2.2))

/-- The two nested loops of `pnv_pci_vf_assign_m64` over the BAR/group pairs in the order
they are visited; the first jump to `m64_failed` ends them. -/
def vf_assign_m64_loop {σ : Type} (step : σ → opal_call → Int × σ) (dz : Nat)
    (vf_per_group : Nat) :
    List (Nat × Nat) → pnv_phb × sriov_pf × opal_fw σ → Bool × (pnv_phb × sriov_pf × opal_fw σ)
  | [], s => (true, s)
  | p :: rest, s =>
    let r := vf_assign_m64_window step dz vf_per_group s p.1 p.2
    if r.1 then vf_assign_m64_loop step dz vf_per_group rest r.2 else (false, r.2)

/-- The BAR/group pairs that the loops of `pnv_pci_vf_assign_m64` visit, in order. -/
def vf_assign_m64_pairs (pf : sriov_pf) (vf_groups : Nat) : List (Nat × Nat) :=
  List.product
    ((List.range PCI_SRIOV_NUM_BARS).filter (fun i => vf_bar_is_m64 (pf.resource i)))
    (List.range vf_groups)

/-- The function `pnv_pci_vf_assign_m64`; `vf_num` is a 16-bit value.  The result is the
return value and the state. -/
def pnv_pci_vf_assign_m64 {σ : Type} (step : σ → opal_call → Int × σ) (dz : Nat)
    (phb : pnv_phb) (pf : sriov_pf) (fw : opal_fw σ) (vf_num : Nat) :
    Int × (pnv_phb × sriov_pf × opal_fw σ) :=
  let pf0 := { pf with
    m64_wins := fun i j =>
      if i < PCI_SRIOV_NUM_BARS ∧ j < M64_PER_IOV then IODA_INVALID_M64 else pf.m64_wins i j }
  let vf_groups :=
    if pf.m64_per_iov = M64_PER_IOV then (if vf_num ≤ M64_PER_IOV then vf_num else M64_PER_IOV)
    else 1
  let vf_per_group :=
    if pf.m64_per_iov = M64_PER_IOV then
      (if vf_num ≤ M64_PER_IOV then 1 else roundup_pow_of_two vf_num / M64_PER_IOV)
    else 1
  let r := vf_assign_m64_loop step dz vf_per_group (vf_assign_m64_pairs pf0 vf_groups)
    (phb, pf0, fw)
  if r.1 then (0, r.2)
  else (- EBUSY, pnv_pci_vf_release_m64 step r.2.1 r.2.2.1 r.2.2.2)

/-- The function `pnv_pci_ioda2_set_bypass`; `window_id` is a 16-bit value.  With `enable`
false the C code also re-targets the DMA operations of the devices, which is not
represented. -/
def pnv_pci_ioda2_set_bypass {σ : Type} (step : σ → opal_call → Int × σ) (env : kernel_env σ)
    (pe : pnv_ioda_pe) (fw : opal_fw σ) (enable : Bool) : pnv_ioda_pe × opal_fw σ :=
  let window_id := ((pe.pe_number <<< 1) + 1) % 2 ^ 16
  let r :=
    if enable then
      opal step fw (opal_call.opal_pci_map_pe_dma_window_real pe.pe_number window_id
        pe.tce_bypass_base (roundup_pow_of_two env.memblock_end_of_DRAM))
    else
      opal step fw (opal_call.opal_pci_map_pe_dma_window_real pe.pe_number window_id
        pe.tce_bypass_base 0)
  if r.1 ≠ 0 then (pe, r.2) else ({ pe with tce_bypass_enabled := enable }, r.2)

/-- The function `pnv_pci_ioda2_setup_bypass_pe`. -/
def pnv_pci_ioda2_setup_bypass_pe {σ : Type} (step : σ → opal_call → Int × σ)
    (env : kernel_env σ) (pe : pnv_ioda_pe) (fw : opal_fw σ) : pnv_ioda_pe × opal_fw σ :=
  pnv_pci_ioda2_set_bypass step env { pe with tce_bypass_base := 1 <<< 59 } fw true

/-- The function `pnv_pci_ioda2_setup_dma_pe` for the PE in slot `pe_no`.  The table setup
`pnv_pci_setup_iommu_table` (another file) stores the address of the table memory in
`it_base` ("base address"); the registration of the table with the IOMMU layer is not
represented.  `ilog2(0)` is left open by the C code, `Nat.log2 0` is 0. -/
def pnv_pci_ioda2_setup_dma_pe {σ : Type} (step : σ → opal_call → Int × σ)
    (env : kernel_env σ) (phb : pnv_phb) (fw : opal_fw σ) (pe_no : Nat) :
    pnv_phb × opal_fw σ :=
  let pe := phb.pe_array pe_no
  if pe.tce32_seg ≥ 0 then (phb, fw)
  else
    let pe1 := { pe with tce32_seg := 0 }
    let end_ := u32 (1 <<< Nat.log2 phb.m32_pci_base)
    let tce_table_size := u32 ((end_ / 0x1000) * 8)
    let a := alloc_pages env fw (env.get_order tce_table_size)
    match a.1 with
    | none => (set_pe phb pe_no { pe1 with tce32_seg := -1 }, a.2)
    | some addr =>
      let r := opal step a.2
        (opal_call.opal_pci_map_pe_dma_window pe1.pe_number (pe1.pe_number <<< 1) 1 addr
          tce_table_size 0x1000)
      if r.1 ≠ 0 then (set_pe phb pe_no { pe1 with tce32_seg := -1 }, r.2)
      else
        let b := pnv_pci_ioda2_setup_bypass_pe step env { pe1 with tce32_it_base := addr } r.2
        (set_pe phb pe_no b.1, b.2)

/-- The function `pnv_pci_ioda2_release_dma_pe`: its two firmware calls; the release of the
table memory is not represented. -/
def pnv_pci_ioda2_release_dma_pe {σ : Type} (step : σ → opal_call → Int × σ)
    (pe : pnv_ioda_pe) (fw : opal_fw σ) : opal_fw σ :=
  let r := opal step fw
    (opal_call.opal_pci_map_pe_dma_window pe.pe_number (pe.pe_number <<< 1) 1
      pe.tce32_it_base 0 0x1000)
  (opal step r.2
    (opal_call.opal_pci_map_pe_dma_window_real pe.pe_number ((pe.pe_number <<< 1) + 1)
      pe.tce_bypass_base 0)).2

/-- The index pairs `(vf_index, vf_index1)` that the three nested group loops of
`pnv_ioda_setup_vf_PE` and `pnv_ioda_release_vf_PE` visit, in order. -/
def vf_group_pairs (vf_num vf_per_group : Nat) : List (Nat × Nat) :=
  (List.range M64_PER_IOV).flatMap (fun vf_group =>
    ((List.range' (vf_group * vf_per_group) vf_per_group).filter (fun a => a < vf_num)).flatMap
      (fun vf_index =>
        ((List.range' (vf_group * vf_per_group) vf_per_group).filter
          (fun b => b < vf_num)).map (fun vf_index1 => (vf_index, vf_index1))))

/-- The group block of `pnv_ioda_setup_vf_PE` and `pnv_ioda_release_vf_PE`: when one VF BAR
is split over `M64_PER_IOV` windows and there are more VFs than that, the PEs of each
group are put into (or taken out of) each other's domain rows; the return codes are only
logged. -/
def vf_group_peltv {σ : Type} (step : σ → opal_call → Int × σ) (pf : sriov_pf)
    (fw : opal_fw σ) (vf_num : Nat) (state : OpalPeltvAction) : opal_fw σ :=
  if pf.m64_per_iov = M64_PER_IOV ∧ vf_num > M64_PER_IOV then
    (vf_group_pairs vf_num (roundup_pow_of_two vf_num / M64_PER_IOV)).foldl (fun f p =>
      (opal step f
        (opal_call.opal_pci_set_peltv ((pf.offset : Int) + p.1) (pf.offset + p.2) state)).2) fw
  else fw

/-- The body of the loop "Reserve PE for each VF" of `pnv_ioda_setup_vf_PE` for the VF
`vf_index`; `none` as for `pnv_ioda_configure_pe`. -/
def setup_vf_PE_one {σ : Type} (step : σ → opal_call → Int × σ) (env : kernel_env σ)
    (topo : pci_topology) (pf : sriov_pf) (s : pnv_phb × opal_fw σ) (vf_index : Nat) :
    Option (pnv_phb × opal_fw σ) :=
  let pe_num := pf.offset + vf_index
  let phb0 := setup_vf_PE_slot s.1 pe_num pf.pdev
    ((pf.virtfn_bus vf_index <<< 8) ||| pf.virtfn_devfn vf_index)
  match pnv_ioda_configure_pe step topo phb0 s.2 pe_num with
  | none => none
  | some r =>
    if r.1 ≠ 0 then
      let phb2 := if pe_num ≠ 0 then pnv_ioda_free_pe r.2.1 pe_num else r.2.1
      some (set_pe phb2 pe_num { phb2.pe_array pe_num with pdev := none }, r.2.2)
    else
      some (pnv_pci_ioda2_setup_dma_pe step env
        { r.2.1 with pe_list := r.2.1.pe_list ++ [pe_num] } r.2.2 pe_num)

/-- The loop "Reserve PE for each VF" over the VFs listed. -/
def setup_vf_PE_loop {σ : Type} (step : σ → opal_call → Int × σ) (env : kernel_env σ)
    (topo : pci_topology) (pf : sriov_pf) :
    List Nat → pnv_phb × opal_fw σ → Option (pnv_phb × opal_fw σ)
  | [], s => some s
  | vf_index :: rest, s =>
    match setup_vf_PE_one step env topo pf s vf_index with
    | none => none
    | some s1 => setup_vf_PE_loop step env topo pf rest s1

/-- The function `pnv_ioda_setup_vf_PE`; `vf_num` is a 16-bit value. -/
def pnv_ioda_setup_vf_PE {σ : Type} (step : σ → opal_call → Int × σ) (env : kernel_env σ)
    (topo : pci_topology) (phb : pnv_phb) (pf : sriov_pf) (fw : opal_fw σ) (vf_num : Nat) :
    Option (pnv_phb × opal_fw σ) :=
  if !pf.is_physfn then some (phb, fw)
  else
    match setup_vf_PE_loop step env topo pf (List.range vf_num) (phb, fw) with
    | none => none
    | some s => some (s.1, vf_group_peltv step pf s.2 vf_num OpalPeltvAction.OPAL_ADD_PE_TO_DOMAIN)

/-- The body of the list walk of `pnv_ioda_release_vf_PE` for the listed PE in slot `pe`;
`none` as for `pnv_ioda_deconfigure_pe`. -/
def release_vf_PE_one {σ : Type} (step : σ → opal_call → Int × σ) (topo : pci_topology)
    (pf : sriov_pf) (s : pnv_phb × opal_fw σ) (pe : Nat) : Option (pnv_phb × opal_fw σ) :=
  if (s.1.pe_array pe).parent_dev ≠ some pf.pdev then some s
  else
    let fw1 := pnv_pci_ioda2_release_dma_pe step (s.1.pe_array pe) s.2
    let phb1 := { s.1 with pe_list := s.1.pe_list.erase pe }
    match pnv_ioda_deconfigure_pe step topo phb1 fw1 pe with
    | none => none
    | some r => some (pnv_ioda_free_pe r.2.1 (r.2.1.pe_array pe).pe_number, r.2.2)

/-- The list walk of `pnv_ioda_release_vf_PE` over the PEs listed. -/
def release_vf_PE_loop {σ : Type} (step : σ → opal_call → Int × σ) (topo : pci_topology)
    (pf : sriov_pf) : List Nat → pnv_phb × opal_fw σ → Option (pnv_phb × opal_fw σ)
  | [], s => some s
  | pe :: rest, s =>
    match release_vf_PE_one step topo pf s pe with
    | none => none
    | some s1 => release_vf_PE_loop step topo pf rest s1

/-- The function `pnv_ioda_release_vf_PE`; the walk goes over the PE list as it is when
the walk starts (`list_for_each_entry_safe`). -/
def pnv_ioda_release_vf_PE {σ : Type} (step : σ → opal_call → Int × σ) (topo : pci_topology)
    (phb : pnv_phb) (pf : sriov_pf) (fw : opal_fw σ) (vf_num : Nat) :
    Option (pnv_phb × opal_fw σ) :=
  if !pf.is_physfn then some (phb, fw)
  else
    release_vf_PE_loop step topo pf phb.pe_list
      (phb, vf_group_peltv step pf fw vf_num OpalPeltvAction.OPAL_REMOVE_PE_FROM_DOMAIN)

/-- The label `try_again` of `pnv_pci_sriov_enable` for a count that is not zero: the
offset found and the count it was found for; `none` when the count has come down to
zero. -/
def sriov_try_again (pe_alloc : Nat → Bool) (total_pe : Nat) : Nat → Option (Nat × Nat)
  | 0 => none
  | n + 1 =>
    if bitmap_find_next_zero_area pe_alloc total_pe (n + 1) ≥ total_pe then
      sriov_try_again pe_alloc total_pe n
    else some (bitmap_find_next_zero_area pe_alloc total_pe (n + 1), n + 1)

/-- The block "Calculate available PE for required VFs" of `pnv_pci_sriov_enable`; `vf_num`
is a 16-bit value, so the decrement of a count of zero gives 65535. -/
def sriov_reserve (pe_alloc : Nat → Bool) (total_pe vf_num : Nat) : Option (Nat × Nat) :=
  if vf_num = 0 then
    if bitmap_find_next_zero_area pe_alloc total_pe 0 ≥ total_pe then
      sriov_try_again pe_alloc total_pe 65535
    else some (bitmap_find_next_zero_area pe_alloc total_pe 0, 0)
  else sriov_try_again pe_alloc total_pe vf_num

/-- The state that the SR-IOV entry points work on: the bridge, the physical function and
the firmware. -/
structure sriov_state (σ : Type) where
  phb : pnv_phb
  pf : sriov_pf
  fw : opal_fw σ

/-- The function `pnv_pci_sriov_enable`; `vf_num` is a 16-bit value.  The result is the
return value and the state; `none` as for `pnv_ioda_configure_pe`. -/
def pnv_pci_sriov_enable {σ : Type} (step : σ → opal_call → Int × σ) (env : kernel_env σ)
    (topo : pci_topology) (s : sriov_state σ) (vf_num : Nat) : Option (Int × sriov_state σ) :=
  if s.phb.type = pnv_phb_type.PNV_PHB_IODA2 then
    match sriov_reserve s.phb.pe_alloc s.phb.total_pe vf_num with
    | none => some (- EBUSY, { s with pf := { s.pf with offset := 0 } })
    | some (offset, vf_num1) =>
      let phb1 := { s.phb with pe_alloc := bitmap_set s.phb.pe_alloc offset vf_num1 }
      let pf1 := { s.pf with offset := offset, vf_pes := vf_num1 }
      let r := pnv_pci_vf_assign_m64 step env.dz phb1 pf1 s.fw vf_num1
      if r.1 ≠ 0 then
        some (r.1,
          { phb := { r.2.1 with
                     pe_alloc := bitmap_clear r.2.1.pe_alloc r.2.2.1.offset vf_num1 }
            pf := { r.2.2.1 with offset := 0 }
            fw := r.2.2.2 })
      else
        let pf2 :=
          if r.2.2.1.m64_per_iov = 1 then
            pnv_pci_vf_resource_shift env.dz r.2.2.1 r.2.2.1.offset
          else r.2.2.1
        match pnv_ioda_setup_vf_PE step env topo r.2.1 pf2 r.2.2.2 vf_num1 with
        | none => none
        | some t => some (0, { phb := t.1, pf := pf2, fw := t.2 })
  else
    match pnv_ioda_setup_vf_PE step env topo s.phb s.pf s.fw vf_num with
    | none => none
    | some t => some (0, { phb := t.1, pf := s.pf, fw := t.2 })

/-- The function `pnv_pci_sriov_disable`; `none` as for `pnv_ioda_deconfigure_pe`. -/
def pnv_pci_sriov_disable {σ : Type} (step : σ → opal_call → Int × σ) (env : kernel_env σ)
    (topo : pci_topology) (s : sriov_state σ) : Option (sriov_state σ) :=
  let vf_num := s.pf.vf_pes
  match pnv_ioda_release_vf_PE step topo s.phb s.pf s.fw vf_num with
  | none => none
  | some t =>
    if t.1.type = pnv_phb_type.PNV_PHB_IODA2 then
      let pf1 :=
        if s.pf.m64_per_iov = 1 then pnv_pci_vf_resource_shift env.dz s.pf (- (s.pf.offset : Int))
        else s.pf
      let r := pnv_pci_vf_release_m64 step t.1 pf1 t.2
      some
        { phb := { r.1 with pe_alloc := bitmap_clear r.1.pe_alloc r.2.1.offset vf_num }
          pf := { r.2.1 with offset := 0 }
          fw := r.2.2 }
    else some { phb := t.1, pf := s.pf, fw := t.2 }

/-- A run of `nr` clear bits from `base` on. -/
def free_run (map : Nat → Bool) (base nr : Nat) : Prop := ∀ k, k < nr → map (base + k) = false

/-- The bookkeeping of the M64 window registers of one physical function against the
bitmap `orig` from before its windows were taken: a register is in use now exactly when it
was in use then or one of the entries `m64_wins[i][j]` names it, and every valid entry
names a register that was not in use then. -/
def m64_wins_inv (orig alloc : Nat → Bool) (wins : Nat → Nat → Int) : Prop :=
  (∀ k : Nat, alloc k = true ↔
    (orig k = true ∨ ∃ i j, i < PCI_SRIOV_NUM_BARS ∧ j < M64_PER_IOV ∧ wins i j = (k : Int))) ∧
  (∀ i j, i < PCI_SRIOV_NUM_BARS → j < M64_PER_IOV → wins i j ≠ IODA_INVALID_M64 →
    ∃ k : Nat, wins i j = (k : Int) ∧ orig k = false)

/-- A physical function: device 1 of the example bus tree, with 4 VFs at the RIDs `0x110`
to `0x113`, one 64-bit prefetchable VF BAR of 1 MiB per VF that has been extended to 256
VFs (`vfs = 256`, one window for the whole BAR), and a device node that is zero-filled
otherwise, as before the first enable. -/
def sriov_pf_example : sriov_pf :=
  { pdev := 1
    is_physfn := true
    total_vfs := 4
    resource := fun i =>
      if i = 0 then
        { start := 0x1040000000, end_ := 0x104fffffff, parent := true, mem_64 := true,
          prefetch := true }
      else { start := 0, end_ := 0, parent := false, mem_64 := false, prefetch := false }
    virtfn_bus := fun _ => 1
    virtfn_devfn := fun i => 0x10 + i
    vfs := 256
    vf_pes := 0
    offset := 0
    m64_per_iov := 1
    m64_wins := fun _ _ => 0 }

/-- The configured example bridge with the window register 15 marked in use, as
`pnv_ioda2_init_m64` leaves it. -/
def sriov_phb_example : pnv_phb :=
  { two_segment_configured.2 with m64_bar_alloc := set_bit 15 (fun _ => false) }

/-- The example bridge, the example physical function and a firmware that has not been
called yet. -/
def sriov_example : sriov_state Unit :=
  { phb := sriov_phb_example, pf := sriov_pf_example, fw := fw_fresh }

/-- A firmware without state in which `opal_pci_set_phb_mem_window` fails (return code
`-1`) and every other call succeeds. -/
def fw_mem_window_fails (s : Unit) (c : opal_call) : Int × Unit :=
  match c with
  | opal_call.opal_pci_set_phb_mem_window _ _ _ => (-1, s)
  | _ => (0, s)

/-- A PE slot fits the VF range `base .. base + n - 1` of the physical function `pdev`: if
it names `pdev` as its parent device then it lies in the range, holds its own number, is
VF-scoped and has no bus back-reference. -/
def vf_slot_ok (pdev base n : Nat) (phb : pnv_phb) (p : Nat) : Prop :=
  (phb.pe_array p).parent_dev = some pdev →
    base ≤ p ∧ p < base + n ∧ (phb.pe_array p).pe_number = p ∧
    (phb.pe_array p).flags.vf = true ∧ (phb.pe_array p).pbus = none

/-- What setting up and releasing the VF PEs of the range `base .. base + n - 1` keeps of
the bridge `orig`: the M64 window bitmap, the bridge type, the bits of the PE slot bitmap
outside the range; and every PE of the list `l` fits the range. -/
def vf_range_inv (pdev base n : Nat) (orig : pnv_phb) (l : List Nat) (phb : pnv_phb) : Prop :=
  phb.m64_bar_alloc = orig.m64_bar_alloc ∧ phb.type = orig.type ∧
  (∀ k, ¬ (base ≤ k ∧ k < base + n) → phb.pe_alloc k = orig.pe_alloc k) ∧
  (∀ p, p ∈ l → vf_slot_ok pdev base n phb p)

/-- An IODA1 bridge with 128 PEs and reserved PE 0, right after initialisation, with the
example physical function and a firmware that has not been called yet. -/
def sriov_ioda1_example : sriov_state Unit :=
  { phb := pnv_pci_init_ioda_phb pnv_phb_type.PNV_PHB_IODA1 (some 128) (some 0) none 0x80000000
    pf := sriov_pf_example
    fw := fw_fresh }

/-- The example state with the window register 0 in use as well (by another physical
function); the example physical function has never been enabled: `vf_pes` and `offset`
are 0 and the entries of `m64_wins` are zero-filled. -/
def sriov_window0_example : sriov_state Unit :=
  { sriov_example with
    phb := { sriov_phb_example with
             m64_bar_alloc := set_bit 0 sriov_phb_example.m64_bar_alloc } }

/-- The example state with all 16 window registers in use. -/
def sriov_windows_full_example : sriov_state Unit :=
  { sriov_example with
    phb := { sriov_phb_example with m64_bar_alloc := fun k => decide (k < 16) } }

/-- The example state with a fragmented PE slot bitmap: only the slots 5, 6 and 9 are
free. -/
def sriov_fragmented_example : sriov_state Unit :=
  { sriov_example with
    phb := { sriov_phb_example with pe_alloc := fun k => !(k = 5 || k = 6 || k = 9) } }

/-- The segment ranges `(base, segs)` that a run of `pnv_ioda_setup_dma` passes to
`pnv_pci_ioda_setup_dma_pe`, in call order. -/
def dma_ranges : List dma_event → List (Nat × Nat)
  | [] => []
  | dma_event.ioda_setup_dma_pe _ base segs :: rest => (base, segs) :: dma_ranges rest
  | dma_event.no_dma32 _ :: rest => dma_ranges rest
  | dma_event.ioda2_setup_dma_pe _ :: rest => dma_ranges rest

/-- The example physical function with its VF BAR split over `M64_PER_IOV` windows and 6
VFs. -/
def sriov_pf_group_example : sriov_pf :=
  { sriov_pf_example with total_vfs := 6, m64_per_iov := 4 }

/-- The head of `pnv_ioda_setup_bus_PE`: the PE number it goes on with, picked by
`phb->pick_m64_pe` when the bridge has that hook and taken from `pnv_ioda_alloc_pe` when
the hook is absent or returns `IODA_INVALID_PE`; the number is `IODA_INVALID_PE` when the
allocation fails as well.  `none` when the hook has no result. -/
def setup_bus_PE_choose (kzalloc_ok : Bool) (topo : pci_topology) (phb : pnv_phb) (bus : Nat)
    (all : Bool) : Option (Int × pnv_phb) :=
  let picked : Option (Int × pnv_phb) :=
    if phb.pick_m64_pe then pnv_ioda2_pick_m64_pe kzalloc_ok topo phb bus all
    else some (IODA_INVALID_PE, phb)
  match picked with
  | none => none
  | some (pe_num0, phb0) =>
    some (if pe_num0 = IODA_INVALID_PE then pnv_ioda_alloc_pe phb0 else (pe_num0, phb0))

/-- The slot initialisation of `pnv_ioda_setup_bus_PE` for the PE in slot `pe_num` and the
bus `bus`. -/
def setup_bus_PE_slot (topo : pci_topology) (phb : pnv_phb) (pe_num bus : Nat) (all : Bool) :
    pnv_phb :=
  let pe := phb.pe_array pe_num
  set_pe phb pe_num
    { pe with
      flags := if all then { pe.flags with bus_all := true } else { pe.flags with bus := true }
      pbus := some bus
      pdev := none
      tce32_seg := -1
      mve_number := -1
      rid := (topo.buses bus).busn_res_start <<< 8
      dma_weight := 0 }

/-- The tail of `pnv_ioda_setup_bus_PE` after a successful `pnv_ioda_configure_pe`: the
devices are associated, the PE is put on the PE list, its weight is accounted for and it is
linked into the DMA scheduling list. -/
def setup_bus_PE_finish (topo : pci_topology) (phb : pnv_phb) (pe_num bus : Nat) :
    Option (pci_topology × pnv_phb) :=
  match pnv_ioda_setup_same_PE pe_num (topo.ndevs + 1) bus (topo, phb) with
  | none => none
  | some (topo3, phb3) =>
    let phb4 := { phb3 with pe_list := phb3.pe_list ++ [pe_num] }
    let w := (phb4.pe_array pe_num).dma_weight
    let phb5 := if w ≠ 0 then
        { phb4 with
          dma_weight := u32 (phb4.dma_weight + w)
          dma_pe_count := u32 (phb4.dma_pe_count + 1) }
      else phb4
    some (topo3, pnv_ioda_link_pe_by_weight phb5 pe_num)

/-- The scratch bitmap of `pnv_ioda2_pick_m64_pe` when the label `done` is reached: the
segments of the window `r` of the bus, less the segments of the windows of its child buses
when `all` is clear. -/
def pick_m64_segments (topo : pci_topology) (phb : pnv_phb) (bus : Nat) (r : resource)
    (all : Bool) : Nat → Bool :=
  let pe_alloc0 := set_bits (m64_segment_start phb r) (m64_segment_count phb r)
    (fun _ => false)
  if all then pe_alloc0
  else pick_m64_subtract_children topo phb (topo.buses bus).devices pe_alloc0

/-- The slot of the master of a compound PE as the loop at `done` leaves it: `phb` and
`pe_number` are set, the master flag is or-ed in and the slave list holds `slaves`. -/
def pick_m64_master_slot (pe : pnv_ioda_pe) (i : Nat) (slaves : List Nat) : pnv_ioda_pe :=
  { pe with
    phb := true, pe_number := i, flags := { pe.flags with master := true }, slaves := slaves }

/-- The slot of a slave of the compound PE with master `m` as the loop at `done` leaves it:
`phb` and `pe_number` are set, the slave flag is or-ed in and `master` refers to `m`. -/
def pick_m64_slave_slot (pe : pnv_ioda_pe) (i m : Nat) : pnv_ioda_pe :=
  { pe with
    phb := true, pe_number := i, flags := { pe.flags with slave := true }, master := some m }

/-- The small bus tree with the 64-bit prefetchable window of bus 1 shrunk to 1 MiB at PCI
address `0x1010000000`, less than one M64 segment of 256 MiB. -/
def narrow_window_topology : pci_topology :=
  { two_segment_topology with
    buses := fun b =>
      if b = 1 then
        { two_segment_topology.buses 1 with
          resources := [some { start := 0x1010000000, end_ := 0x10100fffff, parent := true,
                               mem_64 := true, prefetch := true }] }
      else two_segment_topology.buses b }

/-- The example bridge with slot 3 allocated and initialised by `pnv_ioda_setup_bus_PE` for
the root bus 0 and all its subordinate buses: the bus numbers 0 to 255, a count of 256. -/
def wide_bus_phb : pnv_phb :=
  setup_bus_PE_slot two_segment_topology (pnv_ioda_alloc_pe two_segment_phb).2 3 0 true

/-! ## Walk over the bus tree -/

/-- Modelled from the spec: `PCI_EXP_TYPE_PCI_BRIDGE` of `linux/pci_regs.h` (not part of this
source file), the PCIe device type of a PCIe-to-PCI bridge: the bridges whose "secondary
bus" takes its "whole subtree" into one PE. -/
def PCI_EXP_TYPE_PCI_BRIDGE : Nat := 7

/-- The function `pnv_ioda_setup_PEs`, one level of bus nesting per unit of fuel (`none`
when the nesting is deeper than the fuel, or when a function it calls has no result); the
devices of the bus are visited in list order. -/
def pnv_ioda_setup_PEs {σ : Type} (step : σ → opal_call → Int × σ) (kzalloc_ok : Bool) :
    Nat → Nat → pci_topology × pnv_phb × opal_fw σ → Option (pci_topology × pnv_phb × opal_fw σ)
  | 0, _, _ => none
  | fuel + 1, bus, st =>
    match pnv_ioda_setup_bus_PE step kzalloc_ok st.1 st.2.1 st.2.2 bus false with
    | none => none
    | some st1 =>
      (st1.1.buses bus).devices.foldlM (fun (s : pci_topology × pnv_phb × opal_fw σ) dev =>
        match (s.1.devs dev).subordinate with
        | none => some s
        | some sub =>
          if (s.1.devs dev).pcie_type = PCI_EXP_TYPE_PCI_BRIDGE then
            pnv_ioda_setup_bus_PE step kzalloc_ok s.1 s.2.1 s.2.2 sub true
          else pnv_ioda_setup_PEs step kzalloc_ok fuel sub s) st1

/-- The assignment `pdn->pe_number = pe->pe_number` of `pnv_ioda_setup_same_PE` for the
device `dev`; a device without device node is left alone. -/
def assign_pe (pe_number : Nat) (topo : pci_topology) (dev : Nat) : pci_topology :=
  match (topo.devs dev).pdn with
  | none => topo
  | some pdn =>
    { topo with
      devs := array_set topo.devs dev
        { topo.devs dev with pdn := some { pdn with pe_number := (pe_number : Int) } } }

/-- The statement `pe->dma_weight += pnv_ioda_dma_weight(dev)` of `pnv_ioda_setup_same_PE`
run for the devices listed, starting from the weight `w`. -/
def add_dma_weights (topo : pci_topology) (devs : List Nat) (w : Nat) : Nat :=
  devs.foldl (fun w d => u32 (w + pnv_ioda_dma_weight (topo.devs d))) w

/-- The bridge with the DMA weight of the PE in slot `pe_no` replaced by `w`. -/
def with_dma_weight (phb : pnv_phb) (pe_no w : Nat) : pnv_phb :=
  set_pe phb pe_no { phb.pe_array pe_no with dma_weight := w }

/-- Two topologies are the same bus tree: they have the same buses and the same devices,
and a device has a device node in one exactly when it has one in the other; the PE numbers
stored in the device nodes may differ. -/
def same_shape (t1 t2 : pci_topology) : Prop :=
  t1.buses = t2.buses ∧ t1.ndevs = t2.ndevs ∧
  ∀ d, (t1.devs d).bus = (t2.devs d).bus ∧
    (t1.devs d).subordinate = (t2.devs d).subordinate ∧
    (t1.devs d).hdr_type = (t2.devs d).hdr_type ∧
    (t1.devs d).class_code = (t2.devs d).class_code ∧
    (t1.devs d).pcie_type = (t2.devs d).pcie_type ∧
    ((t1.devs d).pdn = none ↔ (t2.devs d).pdn = none)

/-- The devices that `pnv_ioda_setup_same_PE` assigns, in order, when it is called for a bus
and a PE whose "bus and subordinates" flag is `all`: the devices of the bus that have a
device node and, when `all` is set, the devices it reaches below them.  One level of bus
nesting per unit of fuel. -/
def same_PE_devices (topo : pci_topology) (all : Bool) : Nat → Nat → Option (List Nat)
  | 0, _ => none
  | fuel + 1, bus =>
    (topo.buses bus).devices.foldlM (fun (acc : List Nat) dev =>
      match (topo.devs dev).pdn with
      | none => some acc
      | some _ =>
        match (if all then (topo.devs dev).subordinate else none) with
        | some sub => (same_PE_devices topo all fuel sub).map (fun l => acc ++ dev :: l)
        | none => some (acc ++ [dev])) []

/-- Every device on a bus and below it, each followed by the devices below it; one level
of bus nesting per unit of fuel. -/
def bus_devices_below (topo : pci_topology) : Nat → Nat → Option (List Nat)
  | 0, _ => none
  | fuel + 1, bus =>
    (topo.buses bus).devices.foldlM (fun (acc : List Nat) dev =>
      match (topo.devs dev).subordinate with
      | some sub => (bus_devices_below topo fuel sub).map (fun l => acc ++ dev :: l)
      | none => some (acc ++ [dev])) []

/-- The calls `pnv_ioda_setup_bus_PE(bus, all)` that the walk `pnv_ioda_setup_PEs` makes,
in order, as pairs `(bus, all)`. -/
def setup_PEs_calls (topo : pci_topology) : Nat → Nat → Option (List (Nat × Bool))
  | 0, _ => none
  | fuel + 1, bus =>
    (topo.buses bus).devices.foldlM (fun (acc : List (Nat × Bool)) dev =>
      match (topo.devs dev).subordinate with
      | none => some acc
      | some sub =>
        if (topo.devs dev).pcie_type = PCI_EXP_TYPE_PCI_BRIDGE then some (acc ++ [(sub, true)])
        else (setup_PEs_calls topo fuel sub).map (fun l => acc ++ l)) [(bus, false)]

/-- Every device of the bus tree under a bus, in the order in which the walk
`pnv_ioda_setup_PEs` comes to their buses: the devices of the bus, then for each bridge
among them the devices under its subordinate bus. -/
def walk_devices (topo : pci_topology) : Nat → Nat → Option (List Nat)
  | 0, _ => none
  | fuel + 1, bus =>
    (topo.buses bus).devices.foldlM (fun (acc : List Nat) dev =>
      match (topo.devs dev).subordinate with
      | none => some acc
      | some sub =>
        if (topo.devs dev).pcie_type = PCI_EXP_TYPE_PCI_BRIDGE then
          (bus_devices_below topo fuel sub).map (fun l => acc ++ l)
        else (walk_devices topo fuel sub).map (fun l => acc ++ l)) (topo.buses bus).devices

/-- A list of calls of `pnv_ioda_setup_bus_PE`, run one after the other. -/
def setup_bus_PEs {σ : Type} (step : σ → opal_call → Int × σ) (kzalloc_ok : Bool)
    (calls : List (Nat × Bool)) (st : pci_topology × pnv_phb × opal_fw σ) :
    Option (pci_topology × pnv_phb × opal_fw σ) :=
  calls.foldlM (fun s c => pnv_ioda_setup_bus_PE step kzalloc_ok s.1 s.2.1 s.2.2 c.1 c.2) st

/-- The number of free PE slots. -/
def free_slots (phb : pnv_phb) : Nat :=
  ((List.range phb.total_pe).filter (fun k => !phb.pe_alloc k)).length

/-- The devices of a call `(bus, all)` of `pnv_ioda_setup_bus_PE`: those of the bus, and
with `all` set those below it as well (no device when the nesting is deeper than the
fuel). -/
def call_devices (topo : pci_topology) (c : Nat × Bool) : List Nat :=
  if c.2 then (bus_devices_below topo (topo.ndevs + 1) c.1).getD []
  else (topo.buses c.1).devices

/-- The assignments that a list of calls, each with the PE number created for it, stands
for: every device of the call that has a device node, paired with the PE number. -/
def pe_assignments (topo : pci_topology) (calls : List ((Nat × Bool) × Nat)) :
    List (Nat × Nat) :=
  calls.flatMap (fun cp =>
    ((call_devices topo cp.1).filter (fun d => (topo.devs d).pdn.isSome)).map
      (fun d => (d, cp.2)))

/-- The body of the device loop of `same_PE_devices`, below a unit of fuel. -/
def same_PE_devices_step (topo : pci_topology) (all : Bool) (fuel : Nat) (acc : List Nat)
    (dev : Nat) : Option (List Nat) :=
  match (topo.devs dev).pdn with
  | none => some acc
  | some _ =>
    match (if all then (topo.devs dev).subordinate else none) with
    | some sub => (same_PE_devices topo all fuel sub).map (fun l => acc ++ dev :: l)
    | none => some (acc ++ [dev])

/-- The body of the device loop of `pnv_ioda_setup_same_PE`, below a unit of fuel. -/
def setup_same_PE_step (pe_no fuel : Nat) (s : pci_topology × pnv_phb) (dev : Nat) :
    Option (pci_topology × pnv_phb) :=
  let d := s.1.devs dev
  match d.pdn with
  | none => some s
  | some pdn =>
    let pe := s.2.pe_array pe_no
    let topo1 := { s.1 with
      devs := array_set s.1.devs dev
        { d with pdn := some { pdn with pe_number := (pe.pe_number : Int) } } }
    let phb1 := set_pe s.2 pe_no
      { pe with dma_weight := u32 (pe.dma_weight + pnv_ioda_dma_weight d) }
    match (if pe.flags.bus_all then d.subordinate else none) with
    | some sub => pnv_ioda_setup_same_PE pe_no fuel sub (topo1, phb1)
    | none => some (topo1, phb1)

/-- The body of the device loop of `setup_PEs_calls`, below a unit of fuel. -/
def setup_PEs_calls_step (topo : pci_topology) (fuel : Nat) (acc : List (Nat × Bool))
    (dev : Nat) : Option (List (Nat × Bool)) :=
  match (topo.devs dev).subordinate with
  | none => some acc
  | some sub =>
    if (topo.devs dev).pcie_type = PCI_EXP_TYPE_PCI_BRIDGE then some (acc ++ [(sub, true)])
    else (setup_PEs_calls topo fuel sub).map (fun l => acc ++ l)

/-- The body of the device loop of `pnv_ioda_setup_PEs`, below a unit of fuel. -/
def setup_PEs_step {σ : Type} (step : σ → opal_call → Int × σ) (kzalloc_ok : Bool)
    (fuel : Nat) (s : pci_topology × pnv_phb × opal_fw σ) (dev : Nat) :
    Option (pci_topology × pnv_phb × opal_fw σ) :=
  match (s.1.devs dev).subordinate with
  | none => some s
  | some sub =>
    if (s.1.devs dev).pcie_type = PCI_EXP_TYPE_PCI_BRIDGE then
      pnv_ioda_setup_bus_PE step kzalloc_ok s.1 s.2.1 s.2.2 sub true
    else pnv_ioda_setup_PEs step kzalloc_ok fuel sub s

/-- The body of the device loop of `bus_devices_below`, below a unit of fuel. -/
def bus_devices_below_step (topo : pci_topology) (fuel : Nat) (acc : List Nat) (dev : Nat) :
    Option (List Nat) :=
  match (topo.devs dev).subordinate with
  | some sub => (bus_devices_below topo fuel sub).map (fun l => acc ++ dev :: l)
  | none => some (acc ++ [dev])

/-- Device nodes are hereditary: below a bridge without device node no device has one. -/
def pdn_hereditary (topo : pci_topology) : Prop :=
  ∀ d sub fuel l, (topo.devs d).pdn = none → (topo.devs d).subordinate = some sub →
    bus_devices_below topo fuel sub = some l → ∀ e, e ∈ l → (topo.devs e).pdn = none

/-- A bus tree with a PCIe-to-PCI bridge.  Root bus 0 holds the PCIe-to-PCI bridge 0
(subordinate bus 1) and the PCIe port 1 (subordinate bus 3); bus 1 holds the PCI bridge 2
(subordinate bus 2), which holds the function 3; bus 3 holds the functions 4 and 5, of
which 5 has no device node.  No device has a PE yet. -/
def pci_bridge_tree : pci_topology :=
  { buses := fun b =>
      if b = 0 then
        { number := 0, parent := none, self := none, busn_res_start := 0, busn_res_end := 255,
          devices := [0, 1], resources := [] }
      else if b = 1 then
        { number := 1, parent := some 0, self := some 0, busn_res_start := 1, busn_res_end := 2,
          devices := [2], resources := [] }
      else if b = 2 then
        { number := 2, parent := some 1, self := some 2, busn_res_start := 2, busn_res_end := 2,
          devices := [3], resources := [] }
      else
        { number := 3, parent := some 0, self := some 1, busn_res_start := 3, busn_res_end := 3,
          devices := if b = 3 then [4, 5] else [], resources := [] }
    devs := fun d =>
      if d = 0 then
        { bus := 0, subordinate := some 1, pdn := some { pe_number := -1 }, hdr_type := 1,
          class_code := 0x060400, pcie_type := PCI_EXP_TYPE_PCI_BRIDGE }
      else if d = 1 then
        { bus := 0, subordinate := some 3, pdn := some { pe_number := -1 }, hdr_type := 1,
          class_code := 0x060400, pcie_type := 4 }
      else if d = 2 then
        { bus := 1, subordinate := some 2, pdn := some { pe_number := -1 }, hdr_type := 1,
          class_code := 0x060400 }
      else if d = 3 then
        { bus := 2, subordinate := none, pdn := some { pe_number := -1 }, hdr_type := 0,
          class_code := 0x020000 }
      else if d = 4 then
        { bus := 3, subordinate := none, pdn := some { pe_number := -1 }, hdr_type := 0,
          class_code := 0x020000 }
      else
        { bus := 3, subordinate := none, pdn := none, hdr_type := 0, class_code := 0x020000 }
    ndevs := 6 }

/-- The tree `pci_bridge_tree` with the device node of the PCI bridge 2 taken away: the
function 3 below it keeps its own. -/
def nodeless_bridge_tree : pci_topology :=
  { pci_bridge_tree with
    devs := fun d =>
      if d = 2 then { pci_bridge_tree.devs 2 with pdn := none } else pci_bridge_tree.devs d }

/-- An IODA1 bridge with 8 PEs and reserved PE 0, right after initialisation: it has no M64
hook, and the slots 1 to 7 are free. -/
def eight_slot_phb : pnv_phb :=
  pnv_pci_init_ioda_phb pnv_phb_type.PNV_PHB_IODA1 (some 8) (some 0) none 0x80000000

/-- The PE numbers that the M64 hook pins a call `(bus, all)` of `pnv_ioda_setup_bus_PE` to:
the candidates of `pnv_ioda2_pick_m64_pe` at its label `done`, the set bits of the scratch
bitmap below `total_pe` in ascending order, of which the first becomes the master and the
number of the PE.  There is none when the bridge has no hook and when the hook returns at
once (a root bus, a bus without M64 window, no memory for the scratch bitmap). -/
def m64_pinned (kzalloc_ok : Bool) (topo : pci_topology) (phb : pnv_phb) (c : Nat × Bool) :
    List Nat :=
  if phb.pick_m64_pe && !pci_is_root_bus (topo.buses c.1) && kzalloc_ok then
    match pick_m64_window (topo.buses c.1).resources with
    | some r => (List.range phb.total_pe).filter (pick_m64_segments topo phb c.1 r c.2)
    | none => []
  else []

/-- The tree `pci_bridge_tree` with 64-bit prefetchable windows: bus 1, the subordinate bus
of the PCIe-to-PCI bridge, owns the segment 4 and bus 3 the segments 1 and 2 of an M64 space
of segments of 256 MiB that starts at PCI address `0x1000000000`. -/
def m64_bridge_tree : pci_topology :=
  { pci_bridge_tree with
    buses := fun b =>
      if b = 1 then
        { pci_bridge_tree.buses 1 with
          resources := [some { start := 0x1040000000, end_ := 0x104fffffff, parent := true,
                               mem_64 := true, prefetch := true }] }
      else if b = 3 then
        { pci_bridge_tree.buses 3 with
          resources := [some { start := 0x1010000000, end_ := 0x102fffffff, parent := true,
                               mem_64 := true, prefetch := true }] }
      else pci_bridge_tree.buses b }

/-- An IODA2 bridge with 8 PEs, reserved PE 0 and an M64 space of 8 segments of 256 MiB at
PCI address `0x1000000000`, right after initialisation, with the slots of the segments 1,
2 and 4 marked in the slot bitmap as `pnv_ioda2_alloc_m64_pe` does for the windows of
`m64_bridge_tree`. -/
def m64_eight_slot_phb : pnv_phb :=
  let phb := pnv_pci_init_ioda_phb pnv_phb_type.PNV_PHB_IODA2 (some 8) (some 0)
    (some (0x1000000000, 0x80000000)) 0x80000000
  { phb with pe_alloc := set_bits 4 1 (set_bits 1 2 phb.pe_alloc) }

/-- The free PE slots of a bridge in ascending order, the order in which successive calls of
`pnv_ioda_alloc_pe` hand them out. -/
def free_pe_list (phb : pnv_phb) : List Nat :=
  (List.range phb.total_pe).filter (fun k => !phb.pe_alloc k)

/-- The PE number that a call `(bus, all)` of `pnv_ioda_setup_bus_PE` goes on with, and the
free slots left after it, when `free` are the free slots before it: the first number pinned
by the M64 hook if there is one, and else the lowest free slot, taken by
`pnv_ioda_alloc_pe`.  There is none when no number is pinned and no slot is free. -/
def walk_pe_choice (kzalloc_ok : Bool) (topo : pci_topology) (phb : pnv_phb) (c : Nat × Bool)
    (free : List Nat) : Option (Nat × List Nat) :=
  match (m64_pinned kzalloc_ok topo phb c).head? with
  | some m => some (m, free)
  | none =>
    match free with
    | n :: rest => some (n, rest)
    | [] => none

/-- The PE numbers that a list of calls of `pnv_ioda_setup_bus_PE` goes on with, in call
order (see `walk_pe_choice`); the list ends at the first call that gets none. -/
def walk_pe_numbers (kzalloc_ok : Bool) (topo : pci_topology) (phb : pnv_phb) :
    List (Nat × Bool) → List Nat → List Nat
  | [], _ => []
  | c :: rest, free =>
    match walk_pe_choice kzalloc_ok topo phb c free with
    | some r => r.1 :: walk_pe_numbers kzalloc_ok topo phb rest r.2
    | none => []

/-- What the walk keeps, after the calls listed in `done` (each with the PE number created
for it) have been made from the topology `topo` and the bridge `phb`: the device nodes
hold the assignments of these calls; the size of the PE array and the M64 hook and
geometry are as before; the PEs created are at the tail of the PE list in call order; each
of them is bound to the bus of its call, holds its own number and has the "bus and
subordinates" flag of its call; and the other slots have that flag as before the walk. -/
def walk_inv (topo : pci_topology) (phb : pnv_phb) (done : List ((Nat × Bool) × Nat))
    (s : pci_topology × pnv_phb) : Prop :=
  s.1 = (pe_assignments topo done).foldl (fun t x => assign_pe x.2 t x.1) topo ∧
  (s.2.total_pe = phb.total_pe ∧ s.2.pick_m64_pe = phb.pick_m64_pe ∧
    s.2.m64_base = phb.m64_base ∧ s.2.m64_segsize = phb.m64_segsize) ∧
  s.2.pe_list = phb.pe_list ++ done.map Prod.snd ∧
  (∀ cp, cp ∈ done →
    (s.2.pe_array cp.2).pbus = some cp.1.1 ∧ (s.2.pe_array cp.2).pe_number = cp.2 ∧
    (s.2.pe_array cp.2).flags.bus_all = cp.1.2 ∧ cp.2 < phb.total_pe) ∧
  (∀ k, k ∉ done.map Prod.snd →
    (s.2.pe_array k).flags.bus_all = (phb.pe_array k).flags.bus_all)

/-! # Theorems -/

/-! ## Allocator lemmas -/

theorem find_next_zero_bit_from_spec (addr : Nat → Bool) (size : Nat) :
    ∀ (fuel i : Nat), i + fuel = size →
      (find_next_zero_bit_from addr size fuel i ≤ size) ∧
      (i ≤ find_next_zero_bit_from addr size fuel i) ∧
      (∀ j, i ≤ j → j < find_next_zero_bit_from addr size fuel i → addr j = true) ∧
      (find_next_zero_bit_from addr size fuel i < size →
        addr (find_next_zero_bit_from addr size fuel i) = false) := by
  intro fuel
  induction fuel with
  | zero =>
    intro i h
    simp only [find_next_zero_bit_from]
    refine ⟨le_refl _, by omega, ?_, ?_⟩
    · intro j h1 h2; omega
    · intro h1; omega
  | succ n ih =>
    intro i h
    simp only [find_next_zero_bit_from]
    by_cases hb : addr i = true
    · simp only [hb, if_true]
      obtain ⟨h1, h2, h3, h4⟩ := ih (i + 1) (by omega)
      refine ⟨h1, by omega, ?_, h4⟩
      intro j hj1 hj2
      by_cases hji : j = i
      · subst hji; exact hb
      · exact h3 j (by omega) hj2
    · simp only [hb]
      refine ⟨by simp; omega, by simp, ?_, ?_⟩
      · intro j h1 h2; simp at h2; omega
      · intro _; simpa using hb

theorem find_next_zero_bit_spec (addr : Nat → Bool) (size : Nat) :
    (find_next_zero_bit addr size 0 ≤ size) ∧
    (∀ j, j < find_next_zero_bit addr size 0 → addr j = true) ∧
    (find_next_zero_bit addr size 0 < size → addr (find_next_zero_bit addr size 0) = false) := by
  obtain ⟨h1, _, h3, h4⟩ := find_next_zero_bit_from_spec addr size size 0 (by omega)
  unfold find_next_zero_bit
  simp only [Nat.sub_zero]
  exact ⟨h1, fun j hj => h3 j (Nat.zero_le _) hj, h4⟩

/-- The lowest free slot is what the scan returns. -/
theorem find_next_zero_bit_eq_of_lowest (addr : Nat → Bool) (size n : Nat) (hn : n < size)
    (hfree : addr n = false) (hlow : ∀ m, m < n → addr m = true) :
    find_next_zero_bit addr size 0 = n := by
  obtain ⟨h1, h2, h3⟩ := find_next_zero_bit_spec addr size
  rcases Nat.lt_trichotomy (find_next_zero_bit addr size 0) n with h | h | h
  · have := h3 (by omega)
    rw [hlow _ h] at this
    exact absurd this (by simp)
  · exact h
  · have := h2 n h
    rw [hfree] at this
    exact absurd this (by simp)

/-- A full bitmap makes the scan return `size`. -/
theorem find_next_zero_bit_eq_size_of_full (addr : Nat → Bool) (size : Nat)
    (hfull : ∀ m, m < size → addr m = true) :
    find_next_zero_bit addr size 0 = size := by
  obtain ⟨h1, _, h3⟩ := find_next_zero_bit_spec addr size
  rcases Nat.lt_or_ge (find_next_zero_bit addr size 0) size with h | h
  · have := h3 h
    rw [hfull _ h] at this
    exact absurd this (by simp)
  · omega

/-- The allocator loop exits in its first iteration: with any positive amount of fuel it
returns what `pnv_ioda_alloc_pe` returns. -/
theorem pnv_ioda_alloc_pe_loop_eq (phb : pnv_phb) (fuel : Nat) :
    pnv_ioda_alloc_pe_loop (fuel + 1) phb = some (pnv_ioda_alloc_pe phb) := by
  obtain ⟨_, _, h3⟩ := find_next_zero_bit_spec phb.pe_alloc phb.total_pe
  unfold pnv_ioda_alloc_pe
  simp only [pnv_ioda_alloc_pe_loop]
  by_cases h : find_next_zero_bit phb.pe_alloc phb.total_pe 0 ≥ phb.total_pe
  · simp [h]
  · have hb := h3 (by omega)
    simp [h, hb]

/-- The result of `pnv_ioda_alloc_pe` when slot `n` is the lowest free one. -/
theorem pnv_ioda_alloc_pe_of_lowest (phb : pnv_phb) (n : Nat) (hn : n < phb.total_pe)
    (hfree : phb.pe_alloc n = false) (hlow : ∀ m, m < n → phb.pe_alloc m = true) :
    pnv_ioda_alloc_pe phb =
      ((n : Int),
        { phb with
          pe_alloc := set_bit n phb.pe_alloc
          pe_array := array_set phb.pe_array n
            { phb.pe_array n with phb := true, pe_number := n } }) := by
  have hfind := find_next_zero_bit_eq_of_lowest phb.pe_alloc phb.total_pe n hn hfree hlow
  unfold pnv_ioda_alloc_pe
  simp only [pnv_ioda_alloc_pe_loop, hfind]
  have : ¬ n ≥ phb.total_pe := by omega
  simp [this, hfree]

/-- The result of `pnv_ioda_alloc_pe` when no slot is free. -/
theorem pnv_ioda_alloc_pe_of_full (phb : pnv_phb)
    (hfull : ∀ m, m < phb.total_pe → phb.pe_alloc m = true) :
    pnv_ioda_alloc_pe phb = (IODA_INVALID_PE, phb) := by
  have hfind := find_next_zero_bit_eq_size_of_full phb.pe_alloc phb.total_pe hfull
  unfold pnv_ioda_alloc_pe
  simp [pnv_ioda_alloc_pe_loop, hfind]

/-- Either some slot is free, and then there is a lowest free one, or all are in use. -/
theorem lowest_free_or_full (addr : Nat → Bool) (size : Nat) :
    (∃ n, n < size ∧ addr n = false ∧ ∀ m, m < n → addr m = true) ∨
    (∀ m, m < size → addr m = true) := by
  obtain ⟨h1, h2, h3⟩ := find_next_zero_bit_spec addr size
  rcases Nat.lt_or_ge (find_next_zero_bit addr size 0) size with h | h
  · exact Or.inl ⟨_, h, h3 h, h2⟩
  · exact Or.inr (fun m hm => h2 m (by omega))

/-- C1: `pnv_ioda_alloc_pe` returns (its loop exits, with any positive fuel); if some slot
below `total_pe` is free it returns the lowest free slot `n`, sets bit `n`, writes only the
`phb` and `pe_number` fields of slot `n` and leaves every other bit, slot and field as it
was; if no slot is free it returns `IODA_INVALID_PE` and the bridge is unchanged.  From the
initial state with 256 PEs and reserved PE 0, bit 0 is set and three successive
allocations return 1, 2, 3 in that order. -/
theorem C1_alloc_pe_lowest_free (phb : pnv_phb) (fuel : Nat) :
    pnv_ioda_alloc_pe_loop (fuel + 1) phb = some (pnv_ioda_alloc_pe phb) ∧
    ((∃ k, k < phb.total_pe ∧ phb.pe_alloc k = false) →
      ∃ n, n < phb.total_pe ∧ phb.pe_alloc n = false ∧ (∀ m, m < n → phb.pe_alloc m = true) ∧
        pnv_ioda_alloc_pe phb =
          ((n : Int),
            { phb with
              pe_alloc := set_bit n phb.pe_alloc
              pe_array := array_set phb.pe_array n
                { phb.pe_array n with phb := true, pe_number := n } })) ∧
    ((∀ m, m < phb.total_pe → phb.pe_alloc m = true) →
      pnv_ioda_alloc_pe phb = (IODA_INVALID_PE, phb)) ∧
    (∀ (t : pnv_phb_type) (w : Option (Nat × Nat)) (b : Nat),
      (pnv_pci_init_ioda_phb t (some 256) (some 0) w b).pe_alloc 0 = true ∧
      (pnv_ioda_alloc_pe (pnv_pci_init_ioda_phb t (some 256) (some 0) w b)).1 = 1 ∧
      (pnv_ioda_alloc_pe
        (pnv_ioda_alloc_pe (pnv_pci_init_ioda_phb t (some 256) (some 0) w b)).2).1 = 2 ∧
      (pnv_ioda_alloc_pe
        (pnv_ioda_alloc_pe
          (pnv_ioda_alloc_pe (pnv_pci_init_ioda_phb t (some 256) (some 0) w b)).2).2).1 = 3) := by
  refine ⟨pnv_ioda_alloc_pe_loop_eq phb fuel, ?_, pnv_ioda_alloc_pe_of_full phb, ?_⟩
  · rintro ⟨k, hk, hfree⟩
    rcases lowest_free_or_full phb.pe_alloc phb.total_pe with ⟨n, hn, hf, hl⟩ | hfull
    · exact ⟨n, hn, hf, hl, pnv_ioda_alloc_pe_of_lowest phb n hn hf hl⟩
    · rw [hfull k hk] at hfree
      exact absurd hfree (by simp)
  · intro t w b
    have e1 := pnv_ioda_alloc_pe_of_lowest (pnv_pci_init_ioda_phb t (some 256) (some 0) w b) 1
      (by simp [pnv_pci_init_ioda_phb]) (by simp [pnv_pci_init_ioda_phb, set_bit])
      (by intro m hm; have : m = 0 := by omega
          subst this; simp [pnv_pci_init_ioda_phb, set_bit])
    have e2 := pnv_ioda_alloc_pe_of_lowest
      (pnv_ioda_alloc_pe (pnv_pci_init_ioda_phb t (some 256) (some 0) w b)).2 2
      (by rw [e1]; simp [pnv_pci_init_ioda_phb])
      (by rw [e1]; simp [pnv_pci_init_ioda_phb, set_bit])
      (by intro m hm; rw [e1]
          have : m = 0 ∨ m = 1 := by omega
          rcases this with h | h <;> subst h <;> simp [pnv_pci_init_ioda_phb, set_bit])
    have e3 := pnv_ioda_alloc_pe_of_lowest
      (pnv_ioda_alloc_pe
        (pnv_ioda_alloc_pe (pnv_pci_init_ioda_phb t (some 256) (some 0) w b)).2).2 3
      (by rw [e2, e1]; simp [pnv_pci_init_ioda_phb])
      (by rw [e2, e1]; simp [pnv_pci_init_ioda_phb, set_bit])
      (by intro m hm; rw [e2, e1]
          have : m = 0 ∨ m = 1 ∨ m = 2 := by omega
          rcases this with h | h | h <;> subst h <;> simp [pnv_pci_init_ioda_phb, set_bit])
    refine ⟨by simp [pnv_pci_init_ioda_phb, set_bit], ?_, ?_, ?_⟩
    · rw [e1]; rfl
    · rw [e2]; rfl
    · rw [e3]; rfl

/-- What one allocation does, as a case split. -/
theorem pnv_ioda_alloc_pe_cases (phb : pnv_phb) :
    (∃ n, n < phb.total_pe ∧ phb.pe_alloc n = false ∧
      pnv_ioda_alloc_pe phb =
        ((n : Int),
          { phb with
            pe_alloc := set_bit n phb.pe_alloc
            pe_array := array_set phb.pe_array n
              { phb.pe_array n with phb := true, pe_number := n } })) ∨
    pnv_ioda_alloc_pe phb = (IODA_INVALID_PE, phb) := by
  rcases lowest_free_or_full phb.pe_alloc phb.total_pe with ⟨n, hn, hf, hl⟩ | hfull
  · exact Or.inl ⟨n, hn, hf, pnv_ioda_alloc_pe_of_lowest phb n hn hf hl⟩
  · exact Or.inr (pnv_ioda_alloc_pe_of_full phb hfull)

/-- The allocator invariant is kept by every sequence of calls. -/
theorem run_pe_ops_inv (ops : List pe_op) :
    ∀ (r0 r : alloc_run), alloc_run_inv r0 → run_pe_ops ops r0 = some r → alloc_run_inv r := by
  induction ops with
  | nil =>
    intro r0 r h0 h
    simp only [run_pe_ops, Option.some.injEq] at h
    exact h ▸ h0
  | cons op ops ih =>
    intro r0 r h0 h
    obtain ⟨hnd, hbits, hres, hresl, hret⟩ := h0
    cases op with
    | alloc =>
      simp only [run_pe_ops] at h
      rcases pnv_ioda_alloc_pe_cases r0.phb with ⟨n, hn, hfree, heq⟩ | heq
      · rw [heq] at h
        have hne : ¬ ((n : Int) = IODA_INVALID_PE) := by
          unfold IODA_INVALID_PE; omega
        simp only [hne, if_false, Int.toNat_ofNat] at h
        have hnl : n ∉ r0.live := by
          intro hmem
          have := hbits n hmem
          rw [hfree] at this
          exact absurd this (by simp)
        have hnr : n ≠ r0.phb.reserved_pe := by
          intro he
          rw [← he, hfree] at hres
          exact absurd hres (by simp)
        refine ih _ r ⟨?_, ?_, ?_, ?_, ?_⟩ h
        · exact List.nodup_cons.mpr ⟨hnl, hnd⟩
        · intro m hm
          simp only [set_bit]
          by_cases hmn : m = n
          · simp [hmn]
          · simp only [hmn, if_false]
            rcases List.mem_cons.mp hm with h1 | h1
            · exact absurd h1 hmn
            · exact hbits m h1
        · simp only [set_bit]
          by_cases hrn : r0.phb.reserved_pe = n
          · simp [hrn]
          · simp only [hrn, if_false]; exact hres
        · intro hmem
          rcases List.mem_cons.mp hmem with h1 | h1
          · exact hnr h1.symm
          · exact hresl h1
        · intro p hp
          rcases List.mem_cons.mp hp with h1 | h1
          · subst h1; exact ⟨hnl, hnr⟩
          · exact hret p h1
      · rw [heq] at h
        simp only [if_true] at h
        exact ih _ r ⟨hnd, hbits, hres, hresl, hret⟩ h
    | free n =>
      simp only [run_pe_ops] at h
      by_cases hmem : n ∈ r0.live
      · simp only [hmem, if_true] at h
        have hnr : n ≠ r0.phb.reserved_pe := fun he => hresl (he ▸ hmem)
        refine ih _ r ⟨?_, ?_, ?_, ?_, ?_⟩ h
        · exact hnd.erase n
        · intro m hm
          have hm1 : m ∈ r0.live := List.mem_of_mem_erase hm
          have hmn : m ≠ n := fun he => by
            subst he
            exact (List.Nodup.not_mem_erase hnd) hm
          simp only [pnv_ioda_free_pe, clear_bit, hmn, if_false]
          exact hbits m hm1
        · simp only [pnv_ioda_free_pe, clear_bit]
          have : ¬ (r0.phb.reserved_pe = n) := fun he => hnr he.symm
          simp only [this, if_false]; exact hres
        · intro hm
          exact hresl (List.mem_of_mem_erase hm)
        · intro p hp
          exact hret p hp
      · simp [hmem] at h

/-- The initial bridge state satisfies the allocator invariant. -/
theorem alloc_run_inv_init (t : pnv_phb_type) (num res : Option Nat) (w : Option (Nat × Nat))
    (b : Nat) :
    alloc_run_inv { phb := pnv_pci_init_ioda_phb t num res w b, live := [], returned := [] } := by
  refine ⟨List.nodup_nil, ?_, ?_, ?_, ?_⟩
  · intro n hn; simp at hn
  · simp [pnv_pci_init_ioda_phb, set_bit]
  · simp
  · intro p hp; simp at hp

/-- C2: bitmap exclusivity.  After every sequence of `pnv_ioda_alloc_pe` and
`pnv_ioda_free_pe` calls from the initial bridge state in which each free names a live
number, the live PE numbers are pairwise distinct, every number that an allocation
returned was not live at that moment and was not the reserved PE, and the same holds for
the number the next allocation returns. -/
theorem C2_bitmap_exclusivity (t : pnv_phb_type) (num res : Option Nat)
    (w : Option (Nat × Nat)) (b : Nat) (ops : List pe_op) (r : alloc_run)
    (h : run_pe_ops ops
      { phb := pnv_pci_init_ioda_phb t num res w b, live := [], returned := [] } = some r) :
    r.live.Nodup ∧
    (∀ p, p ∈ r.returned → p.1 ∉ p.2 ∧ p.1 ≠ r.phb.reserved_pe) ∧
    (∀ n : Nat, (pnv_ioda_alloc_pe r.phb).1 = (n : Int) →
      n ∉ r.live ∧ n ≠ r.phb.reserved_pe ∧ n < r.phb.total_pe) := by
  have hinv := run_pe_ops_inv ops _ r (alloc_run_inv_init t num res w b) h
  obtain ⟨hnd, hbits, hres, hresl, hret⟩ := hinv
  refine ⟨hnd, hret, ?_⟩
  intro n hn
  rcases pnv_ioda_alloc_pe_cases r.phb with ⟨k, hk, hfree, heq⟩ | heq
  · rw [heq] at hn
    have hkn : k = n := by
      simp only at hn
      exact_mod_cast hn
    subst hkn
    refine ⟨?_, ?_, hk⟩
    · intro hmem
      have := hbits k hmem
      rw [hfree] at this
      exact absurd this (by simp)
    · intro he
      rw [← he, hfree] at hres
      exact absurd hres (by simp)
  · rw [heq] at hn
    simp only [IODA_INVALID_PE] at hn
    omega

/-- C2 at a concrete sequence: allocate twice, free 1, allocate again (PE 1 is reused). -/
theorem C2_bitmap_exclusivity_witness :
    ∃ r : alloc_run,
      run_pe_ops [pe_op.alloc, pe_op.alloc, pe_op.free 1, pe_op.alloc]
        { phb := pnv_pci_init_ioda_phb pnv_phb_type.PNV_PHB_IODA2 (some 4) (some 0) none 0,
          live := [], returned := [] } = some r ∧
      r.live = [1, 2] ∧
      r.live.Nodup ∧
      (∀ p, p ∈ r.returned → p.1 ∉ p.2 ∧ p.1 ≠ r.phb.reserved_pe) ∧
      (∀ n : Nat, (pnv_ioda_alloc_pe r.phb).1 = (n : Int) →
        n ∉ r.live ∧ n ≠ r.phb.reserved_pe ∧ n < r.phb.total_pe) :=
  ⟨_, rfl, rfl,
    C2_bitmap_exclusivity pnv_phb_type.PNV_PHB_IODA2 (some 4) (some 0) none 0
      [pe_op.alloc, pe_op.alloc, pe_op.free 1, pe_op.alloc] _ rfl⟩

/-- C3: `pnv_ioda_free_pe phb n` zeroes every field of slot `n` (its device, bus and
parent-device back-references become NULL) and clears bit `n`; every other slot, every
other bit and every other field of the bridge keep their values; and when `n` is a slot
of the bridge and no slot below `n` is free, the next `pnv_ioda_alloc_pe` returns `n`. -/
theorem C3_free_pe_zeroes_and_releases (phb : pnv_phb) (n : Nat) :
    (pnv_ioda_free_pe phb n).pe_array n = pnv_ioda_pe.zero ∧
    ((pnv_ioda_free_pe phb n).pe_array n).pdev = none ∧
    ((pnv_ioda_free_pe phb n).pe_array n).pbus = none ∧
    ((pnv_ioda_free_pe phb n).pe_array n).parent_dev = none ∧
    (pnv_ioda_free_pe phb n).pe_alloc n = false ∧
    (∀ m, m ≠ n →
      (pnv_ioda_free_pe phb n).pe_array m = phb.pe_array m ∧
      (pnv_ioda_free_pe phb n).pe_alloc m = phb.pe_alloc m) ∧
    pnv_ioda_free_pe phb n =
      { phb with
        pe_array := (pnv_ioda_free_pe phb n).pe_array
        pe_alloc := (pnv_ioda_free_pe phb n).pe_alloc } ∧
    (n < phb.total_pe → (∀ m, m < n → (pnv_ioda_free_pe phb n).pe_alloc m = true) →
      (pnv_ioda_alloc_pe (pnv_ioda_free_pe phb n)).1 = (n : Int) ∧
      (pnv_ioda_alloc_pe (pnv_ioda_free_pe phb n)).2.pe_alloc n = true) := by
  have hz : (pnv_ioda_free_pe phb n).pe_array n = pnv_ioda_pe.zero := by
    simp [pnv_ioda_free_pe, array_set]
  have hb : (pnv_ioda_free_pe phb n).pe_alloc n = false := by
    simp [pnv_ioda_free_pe, clear_bit]
  refine ⟨hz, ?_, ?_, ?_, hb, ?_, rfl, ?_⟩
  · rw [hz]; rfl
  · rw [hz]; rfl
  · rw [hz]; rfl
  · intro m hm
    simp [pnv_ioda_free_pe, array_set, clear_bit, hm]
  · intro hn hlow
    have e := pnv_ioda_alloc_pe_of_lowest (pnv_ioda_free_pe phb n) n hn hb hlow
    rw [e]
    simp [set_bit]

/-! ## Legacy DMA scheduler -/

theorem dma_segs_le_remaining (dz residual tw remaining w : Nat) (h : remaining ≠ 0) :
    dma_segs dz residual tw remaining w ≤ remaining := by
  unfold dma_segs
  by_cases hr : residual ≠ 0
  · rw [if_pos hr]
    by_cases hs : u32 (1 + u32_div dz (u32 (u32 (w * residual) + tw / 2)) tw) > remaining
    · simp only [hs, if_true]
      exact Nat.le_refl _
    · simp only [hs, if_false]
      omega
  · rw [if_neg hr]
    omega

theorem u32_sub_of_le (a b : Nat) (ha : a < 2 ^ 32) (hb : b ≤ a) : u32_sub a b = a - b := by
  unfold u32_sub
  have hb2 : b % 2 ^ 32 = b := Nat.mod_eq_of_lt (by omega)
  rw [hb2]
  omega

/-- The loop never hands out more segments than `remaining`. -/
theorem pnv_ioda_setup_dma_loop_total_le (phb : pnv_phb) (dz residual tw : Nat)
    (list : List Nat) :
    ∀ (remaining base : Nat), remaining < 2 ^ 32 →
      segs_total (pnv_ioda_setup_dma_loop phb dz residual tw list remaining base) ≤ remaining := by
  induction list with
  | nil =>
    intro remaining base _
    simp [pnv_ioda_setup_dma_loop, segs_total]
  | cons pe rest ih =>
    intro remaining base hlt
    simp only [pnv_ioda_setup_dma_loop]
    by_cases hw : (phb.pe_array pe).dma_weight = 0
    · simp only [hw, if_true]
      exact ih remaining base hlt
    · simp only [hw, if_false]
      by_cases hrem : remaining = 0
      · simp only [hrem, if_true]
        have := ih 0 base (by norm_num)
        simp only [segs_total, List.map_cons, List.sum_cons, dma_event.segs] at this ⊢
        omega
      · simp only [hrem, if_false]
        have hle := dma_segs_le_remaining dz residual tw remaining (phb.pe_array pe).dma_weight hrem
        by_cases ht : phb.type = pnv_phb_type.PNV_PHB_IODA1
        · simp only [ht, if_true]
          rw [u32_sub_of_le remaining _ hlt hle]
          have := ih (remaining - dma_segs dz residual tw remaining (phb.pe_array pe).dma_weight)
            (u32 (base + dma_segs dz residual tw remaining (phb.pe_array pe).dma_weight))
            (by omega)
          simp only [segs_total, List.map_cons, List.sum_cons, dma_event.segs] at this ⊢
          omega
        · simp only [ht, if_false]
          rw [u32_sub_of_le remaining 0 hlt (Nat.zero_le _)]
          have := ih (remaining - 0) (u32 (base + 0)) (by omega)
          simp only [segs_total, List.map_cons, List.sum_cons, dma_event.segs] at this ⊢
          omega

/-- C4: legacy DMA segment conservation.  For every bridge state (every segment budget
`tce32_count`, every scheduling list, all weights, every total weight and PE count, and
whatever a division by a zero total weight yields) the segment counts that
`pnv_ioda_setup_dma` hands to PEs sum to at most `tce32_count`; on a legacy (IODA1) bridge
these are the counts passed to `pnv_pci_ioda_setup_dma_pe`. -/
theorem C4_dma_segment_conservation (phb : pnv_phb) (dz : Nat) :
    segs_total (pnv_ioda_setup_dma phb dz) ≤ phb.tce32_count ∧
    (dma_bridge 8 [10, 10, 30]).type = pnv_phb_type.PNV_PHB_IODA1 ∧
    segs_total (pnv_ioda_setup_dma (dma_bridge 8 [10, 10, 30]) 0) = 8 := by
  refine ⟨?_, by decide, by decide⟩
  · have h := pnv_ioda_setup_dma_loop_total_le phb dz (dma_residual phb) phb.dma_weight
      phb.pe_dma_list (u32 phb.tce32_count) 0 (Nat.mod_lt _ (by norm_num))
    have h2 : u32 phb.tce32_count ≤ phb.tce32_count := Nat.mod_le _ _
    unfold pnv_ioda_setup_dma
    omega

/-- With a non-zero total weight the division is defined and `dz` plays no part. -/
theorem dma_segs_dz (dz dz2 residual tw remaining w : Nat) (htw : tw ≠ 0) :
    dma_segs dz residual tw remaining w = dma_segs dz2 residual tw remaining w := by
  simp [dma_segs, u32_div, htw]

theorem pnv_ioda_setup_dma_loop_dz (phb : pnv_phb) (dz dz2 residual tw : Nat) (htw : tw ≠ 0)
    (list : List Nat) :
    ∀ (remaining base : Nat),
      pnv_ioda_setup_dma_loop phb dz residual tw list remaining base =
        pnv_ioda_setup_dma_loop phb dz2 residual tw list remaining base := by
  induction list with
  | nil => intro remaining base; rfl
  | cons pe rest ih =>
    intro remaining base
    simp only [pnv_ioda_setup_dma_loop]
    rw [dma_segs_dz dz dz2 residual tw remaining _ htw]
    simp only [ih]

theorem pnv_ioda_setup_dma_dz (phb : pnv_phb) (dz dz2 : Nat) (htw : phb.dma_weight ≠ 0) :
    pnv_ioda_setup_dma phb dz = pnv_ioda_setup_dma phb dz2 :=
  pnv_ioda_setup_dma_loop_dz phb dz dz2 _ _ htw _ _ _

/-- C5, evaluated on the code: a legacy bridge with 8 DMA segments and five PEs of weight 10
each (total weight 50, five weighted PEs, so the budget covers one segment per PE).  The
residual is 3, each of the first four PEs is handed `1 + (10 * 3 + 25) / 50 = 2` segments,
and the fifth PE finds `remaining = 0`: it is handed no segment at all. -/
theorem C5_baseline_violated_by_rounding :
    (dma_bridge 8 [10, 10, 10, 10, 10]).type = pnv_phb_type.PNV_PHB_IODA1 ∧
    (dma_bridge 8 [10, 10, 10, 10, 10]).tce32_count = 8 ∧
    (dma_bridge 8 [10, 10, 10, 10, 10]).pe_dma_list = [1, 2, 3, 4, 5] ∧
    weighted_pe_count (dma_bridge 8 [10, 10, 10, 10, 10]) = 5 ∧
    (dma_bridge 8 [10, 10, 10, 10, 10]).dma_pe_count = 5 ∧
    (dma_bridge 8 [10, 10, 10, 10, 10]).dma_weight = 50 ∧
    ((dma_bridge 8 [10, 10, 10, 10, 10]).pe_array 5).dma_weight = 10 ∧
    (∀ dz : Nat, pnv_ioda_setup_dma (dma_bridge 8 [10, 10, 10, 10, 10]) dz =
      [dma_event.ioda_setup_dma_pe 1 0 2, dma_event.ioda_setup_dma_pe 2 2 2,
       dma_event.ioda_setup_dma_pe 3 4 2, dma_event.ioda_setup_dma_pe 4 6 2,
       dma_event.no_dma32 5]) ∧
    (∀ dz : Nat,
      segs_of_pe (pnv_ioda_setup_dma (dma_bridge 8 [10, 10, 10, 10, 10]) dz) 5 = 0) := by
  have h : ∀ dz : Nat, pnv_ioda_setup_dma (dma_bridge 8 [10, 10, 10, 10, 10]) dz =
      [dma_event.ioda_setup_dma_pe 1 0 2, dma_event.ioda_setup_dma_pe 2 2 2,
       dma_event.ioda_setup_dma_pe 3 4 2, dma_event.ioda_setup_dma_pe 4 6 2,
       dma_event.no_dma32 5] := by
    intro dz
    rw [pnv_ioda_setup_dma_dz _ dz 0 (by decide)]
    decide
  refine ⟨by decide, by decide, by decide, by decide, by decide, by decide, by decide, h, ?_⟩
  intro dz
  rw [h dz]
  decide

/-- The code's rounding expression is rounding to the nearest integer, halves up. -/
theorem round_half_up_eq (x tw : Nat) (htw : tw ≠ 0) :
    (x + tw / 2) / tw = ⌊(x : ℚ) / (tw : ℚ) + 1 / 2⌋₊ := by
  have hpos : 0 < tw := Nat.pos_of_ne_zero htw
  have hq : (tw : ℚ) ≠ 0 := by exact_mod_cast htw
  have e1 : (x : ℚ) / (tw : ℚ) + 1 / 2 = ((2 * x + tw : ℕ) : ℚ) / ((2 * tw : ℕ) : ℚ) := by
    push_cast
    field_simp
    ring
  rw [e1, Nat.floor_div_eq_div]
  have key : ∀ k, k ≤ (x + tw / 2) / tw ↔ k ≤ (2 * x + tw) / (2 * tw) := by
    intro k
    rw [Nat.le_div_iff_mul_le hpos, Nat.le_div_iff_mul_le (by omega)]
    have : k * (2 * tw) = 2 * (k * tw) := by ring
    rw [this]
    generalize k * tw = p
    omega
  exact Nat.le_antisymm ((key _).mp (Nat.le_refl _)) ((key _).mpr (Nat.le_refl _))

/-- In the range of `unsigned int` the segment count is the capped rounded share. -/
theorem dma_segs_eq_min (dz residual tw remaining w : Nat) (hres : residual ≠ 0)
    (htw : tw ≠ 0) (hrange : w * residual + tw < 2 ^ 32) :
    dma_segs dz residual tw remaining w =
      min remaining (1 + ⌊((w * residual : ℕ) : ℚ) / (tw : ℚ) + 1 / 2⌋₊) := by
  rw [← round_half_up_eq (w * residual) tw htw]
  have hpos : 0 < tw := Nat.pos_of_ne_zero htw
  have h1 : u32 (w * residual) = w * residual := Nat.mod_eq_of_lt (by omega)
  have h2 : u32 (w * residual + tw / 2) = w * residual + tw / 2 :=
    Nat.mod_eq_of_lt (by omega)
  have h3 : (w * residual + tw / 2) / tw ≤ w * residual + tw / 2 := Nat.div_le_self _ _
  have h4 : u32 (1 + (w * residual + tw / 2) / tw) = 1 + (w * residual + tw / 2) / tw :=
    Nat.mod_eq_of_lt (by omega)
  unfold dma_segs
  rw [if_pos hres]
  simp only [u32_div, htw, if_false, h1, h2, h4]
  by_cases hs : 1 + (w * residual + tw / 2) / tw > remaining
  · simp only [hs, if_true]
    omega
  · simp only [hs, if_false]
    omega

/-- C6: legacy DMA share formula.  When the loop of `pnv_ioda_setup_dma` on a legacy bridge
reaches a PE of non-zero weight `w` with `remaining` segments left (not zero) and a
non-zero residual, it hands that PE `min(remaining, 1 + r)` segments at the current base
and goes on with the rest of the list, where `r` is `w * residual / tw` rounded to the
nearest integer, halves up, which is the code's `(w * residual + tw / 2) / tw`; the total
weight `tw` is non-zero and `w * residual + tw` is in the range of `unsigned int`.  With
8 segments and weights 10, 10, 30 (PEs 1, 2, 3, served in weight-descending order) PE 3
gets 4 segments and PEs 1 and 2 get 2 each. -/
theorem C6_dma_share_formula (phb : pnv_phb) (dz residual tw pe : Nat) (rest : List Nat)
    (remaining base : Nat)
    (hlegacy : phb.type = pnv_phb_type.PNV_PHB_IODA1)
    (hw : (phb.pe_array pe).dma_weight ≠ 0) (hrem : remaining ≠ 0) (hres : residual ≠ 0)
    (htw : tw ≠ 0) (hrange : (phb.pe_array pe).dma_weight * residual + tw < 2 ^ 32) :
    pnv_ioda_setup_dma_loop phb dz residual tw (pe :: rest) remaining base =
      dma_event.ioda_setup_dma_pe pe base
          (min remaining
            (1 + ⌊(((phb.pe_array pe).dma_weight * residual : ℕ) : ℚ) / (tw : ℚ) + 1 / 2⌋₊)) ::
        pnv_ioda_setup_dma_loop phb dz residual tw rest
          (u32_sub remaining
            (min remaining
              (1 + ⌊(((phb.pe_array pe).dma_weight * residual : ℕ) : ℚ) / (tw : ℚ) + 1 / 2⌋₊)))
          (u32 (base +
            (min remaining
              (1 + ⌊(((phb.pe_array pe).dma_weight * residual : ℕ) : ℚ) / (tw : ℚ) + 1 / 2⌋₊)))) ∧
    ⌊(((phb.pe_array pe).dma_weight * residual : ℕ) : ℚ) / (tw : ℚ) + 1 / 2⌋₊ =
      ((phb.pe_array pe).dma_weight * residual + tw / 2) / tw ∧
    (dma_bridge 8 [10, 10, 30]).pe_dma_list = [3, 1, 2] ∧
    pnv_ioda_setup_dma (dma_bridge 8 [10, 10, 30]) dz =
      [dma_event.ioda_setup_dma_pe 3 0 4, dma_event.ioda_setup_dma_pe 1 4 2,
       dma_event.ioda_setup_dma_pe 2 6 2] := by
  refine ⟨?_, (round_half_up_eq _ tw htw).symm, by decide, ?_⟩
  · simp only [pnv_ioda_setup_dma_loop, hw, hrem, hlegacy, if_true, if_false]
    rw [dma_segs_eq_min dz residual tw remaining _ hres htw hrange]
  · rw [pnv_ioda_setup_dma_dz _ dz 0 (by decide)]
    decide

/-- C6 at the first PE of the example: weight 30, residual 5, total weight 50, 8 segments
left: `min(8, 1 + round(150 / 50)) = 4` segments at base 0. -/
theorem C6_dma_share_formula_witness :
    pnv_ioda_setup_dma_loop (dma_bridge 8 [10, 10, 30]) 0 5 50 [3, 1, 2] 8 0 =
      dma_event.ioda_setup_dma_pe 3 0
          (min 8 (1 + ⌊((((dma_bridge 8 [10, 10, 30]).pe_array 3).dma_weight * 5 : ℕ) : ℚ) /
            ((50 : ℕ) : ℚ) + 1 / 2⌋₊)) ::
        pnv_ioda_setup_dma_loop (dma_bridge 8 [10, 10, 30]) 0 5 50 [1, 2]
          (u32_sub 8
            (min 8 (1 + ⌊((((dma_bridge 8 [10, 10, 30]).pe_array 3).dma_weight * 5 : ℕ) : ℚ) /
              ((50 : ℕ) : ℚ) + 1 / 2⌋₊)))
          (u32 (0 +
            (min 8 (1 + ⌊((((dma_bridge 8 [10, 10, 30]).pe_array 3).dma_weight * 5 : ℕ) : ℚ) /
              ((50 : ℕ) : ℚ) + 1 / 2⌋₊)))) :=
  (C6_dma_share_formula (dma_bridge 8 [10, 10, 30]) 0 5 50 3 [1, 2] 8 0
    (by decide) (by decide) (by decide) (by decide) (by decide) (by decide)).1

/-! ## PE grouping -/

set_option maxRecDepth 100000 in
/-- C7, evaluated on the code.  Bus 1 owns M64 segments 1 and 2, so
`pnv_ioda2_pick_m64_pe` makes PE 1 the master and PE 2 its slave (first line).  When the
firmware then refuses the routing-table entry, `pnv_ioda_setup_bus_PE` takes its
configure-failure path and frees slot 1: PE 2 is still flagged slave with `master`
pointing to slot 1, but slot 1 is zeroed, no longer flagged master, and its bit is clear
(second group).  A freeze through PE 2 afterwards freezes PE 0 alone, the number read from
the zeroed slot (last line). -/
theorem C7_slave_keeps_freed_master :
    (pnv_ioda2_pick_m64_pe true two_segment_topology two_segment_phb 1 false).map
      (fun r => (r.1, (r.2.pe_array 1).flags.master, (r.2.pe_array 1).slaves,
        (r.2.pe_array 2).flags.slave, (r.2.pe_array 2).master)) =
      some (1, true, [2], true, some 1) ∧
    (pnv_ioda_setup_bus_PE fw_set_pe_fails true two_segment_topology two_segment_phb
        fw_fresh 1 false).map
      (fun r => ((r.2.1.pe_array 2).flags.slave, (r.2.1.pe_array 2).master)) =
      some (true, some 1) ∧
    (pnv_ioda_setup_bus_PE fw_set_pe_fails true two_segment_topology two_segment_phb
        fw_fresh 1 false).map
      (fun r => ((r.2.1.pe_array 1).flags.master, (r.2.1.pe_array 1).pe_number,
        r.2.1.pe_alloc 1)) =
      some (false, 0, false) ∧
    (pnv_ioda_setup_bus_PE fw_set_pe_fails true two_segment_topology two_segment_phb
        fw_fresh 1 false).map (fun r => r.2.2.log) =
      some [opal_call.opal_pci_set_pe 1 0x100 OpalPciBusCompare.OpalPciBusAll
          OpalPciDeviceCompare.OPAL_IGNORE_RID_DEVICE_NUMBER
          OpalPciFuncCompare.OPAL_IGNORE_RID_FUNCTION_NUMBER OpalPeAction.OPAL_MAP_PE] ∧
    ((pnv_ioda_setup_bus_PE fw_set_pe_fails true two_segment_topology two_segment_phb
        fw_fresh 1 false).bind
      (fun r => (pnv_ioda_freeze_pe fw_all_ok r.2.1 fw_fresh 2).map (fun f => f.log))) =
      some [freeze_call 0] := by
  refine ⟨by decide, by decide, by decide, by decide, by decide⟩

/-- The log after a run of calls whose return codes are not looked at. -/
theorem opal_foldl_log {σ α : Type} (step : σ → opal_call → Int × σ) (c : α → opal_call)
    (l : List α) :
    ∀ fw : opal_fw σ,
      (l.foldl (fun f x => (opal step f (c x)).2) fw).log = fw.log ++ l.map c := by
  induction l with
  | nil => intro fw; simp
  | cons x xs ih =>
    intro fw
    simp only [List.foldl_cons, List.map_cons]
    rw [ih]
    simp [opal]

/-- `pnv_ioda_freeze_pe` on a PE that is flagged master and not flagged slave. -/
theorem pnv_ioda_freeze_pe_master {σ : Type} (step : σ → opal_call → Int × σ) (phb : pnv_phb)
    (fw : opal_fw σ) (m : Nat)
    (hmaster : (phb.pe_array m).flags.master = true)
    (hnot : (phb.pe_array m).flags.slave = false) :
    pnv_ioda_freeze_pe step phb fw m =
      some (if (opal step fw (freeze_call m)).1 = OPAL_SUCCESS then
          (phb.pe_array m).slaves.foldl
            (fun f sl => (opal step f (freeze_call (phb.pe_array sl).pe_number)).2)
            (opal step fw (freeze_call m)).2
        else (opal step fw (freeze_call m)).2) := by
  simp only [pnv_ioda_freeze_pe, hnot, hmaster, freeze_call]
  by_cases hrc : (opal step fw (opal_call.opal_pci_eeh_freeze_set m
      OpalEehFreezeActionToken.OPAL_EEH_ACTION_SET_FREEZE_ALL)).1 = OPAL_SUCCESS
  · simp [hrc, hmaster]
  · simp [hrc]

/-- C8: freeze through a slave equals freeze through the master.  For every bridge state
with a compound PE (slot `m` is flagged master, is not itself flagged slave and holds its
own number), every PE `s` flagged slave whose master reference is `m`, and every firmware
(any state type, any step function, any state), `pnv_ioda_freeze_pe` called with `s` has
the same result as called with `m`: the same firmware state and the same sequence of
calls, which is the freeze of `m` followed, when that call succeeded, by the freeze of
every slave in list order. -/
theorem C8_freeze_slave_eq_master {σ : Type} (step : σ → opal_call → Int × σ) (phb : pnv_phb)
    (fw : opal_fw σ) (m s : Nat)
    (hmaster : (phb.pe_array m).flags.master = true)
    (hnot : (phb.pe_array m).flags.slave = false)
    (hnum : (phb.pe_array m).pe_number = m)
    (hslave : (phb.pe_array s).flags.slave = true)
    (hptr : (phb.pe_array s).master = some m) :
    pnv_ioda_freeze_pe step phb fw s = pnv_ioda_freeze_pe step phb fw m ∧
    ∃ fw2, pnv_ioda_freeze_pe step phb fw s = some fw2 ∧
      fw2.log = fw.log ++ freeze_call m ::
        (if (step fw.state (freeze_call m)).1 = OPAL_SUCCESS then
          (phb.pe_array m).slaves.map (fun sl => freeze_call (phb.pe_array sl).pe_number)
        else []) := by
  have hs : pnv_ioda_freeze_pe step phb fw s = pnv_ioda_freeze_pe step phb fw m := by
    simp only [pnv_ioda_freeze_pe, hslave, hptr, hnot, hnum, if_true]
    simp
  refine ⟨hs, ?_⟩
  rw [hs, pnv_ioda_freeze_pe_master step phb fw m hmaster hnot]
  refine ⟨_, rfl, ?_⟩
  have hrc1 : (opal step fw (freeze_call m)).1 = (step fw.state (freeze_call m)).1 := rfl
  rw [hrc1]
  by_cases hrc : (step fw.state (freeze_call m)).1 = OPAL_SUCCESS
  · rw [if_pos hrc, if_pos hrc, opal_foldl_log]
    simp [opal]
  · rw [if_neg hrc, if_neg hrc]
    simp [opal]

set_option maxRecDepth 100000 in
/-- C8 on the compound PE of the example (master 1, slave 2): freezing through PE 2 is
freezing through PE 1. -/
theorem C8_freeze_slave_eq_master_witness :
    pnv_ioda_freeze_pe fw_all_ok two_segment_group fw_fresh 2 =
      pnv_ioda_freeze_pe fw_all_ok two_segment_group fw_fresh 1 :=
  (C8_freeze_slave_eq_master fw_all_ok two_segment_group fw_fresh 1 2
    (by decide) (by decide) (by decide) (by decide) (by decide)).1

/-! ## Hardware binding -/

theorem range_fill_apply (v : Nat) :
    ∀ (n s : Nat) (m : Nat → Nat) (r : Nat),
      ((List.range' s n).foldl (fun m r => array_set m r v) m) r =
        if s ≤ r ∧ r < s + n then v else m r := by
  intro n
  induction n with
  | zero =>
    intro s m r
    have : ¬ (s ≤ r ∧ r < s) := by omega
    simp [this]
  | succ n ih =>
    intro s m r
    rw [List.range'_succ, List.foldl_cons, ih]
    by_cases h1 : s + 1 ≤ r ∧ r < s + 1 + n
    · have h2 : s ≤ r ∧ r < s + (n + 1) := by omega
      rw [if_pos h1, if_pos h2]
    · rw [if_neg h1]
      by_cases h3 : r = s
      · have h2 : s ≤ r ∧ r < s + (n + 1) := by omega
        rw [if_pos h2]
        simp [array_set, h3]
      · have h2 : ¬ (s ≤ r ∧ r < s + (n + 1)) := by omega
        rw [if_neg h2]
        simp [array_set, h3]

/-- The reverse-map loop in closed form. -/
theorem rmap_fill_apply (m : Nat → Nat) (rid : Nat) (rid_end : Int) (v r : Nat) :
    rmap_fill m rid rid_end v r = if rid ≤ r ∧ (r : Int) < rid_end then v else m r := by
  unfold rmap_fill
  rw [range_fill_apply]
  by_cases h : rid ≤ r ∧ (r : Int) < rid_end
  · have h2 : rid ≤ r ∧ r < rid + (rid_end - (rid : Int)).toNat := by omega
    rw [if_pos h, if_pos h2]
  · have h2 : ¬ (rid ≤ r ∧ r < rid + (rid_end - (rid : Int)).toNat) := by omega
    rw [if_neg h, if_neg h2]

/-- Deconfigure derives the same locals as configure. -/
theorem deconfigure_pe_match_eq (topo : pci_topology) (pe : pnv_ioda_pe) :
    deconfigure_pe_match topo pe = configure_pe_match topo pe := rfl

/-- The locals do not depend on `mve_number`. -/
theorem configure_pe_match_mve (topo : pci_topology) (pe : pnv_ioda_pe) (x : Int) :
    configure_pe_match topo { pe with mve_number := x } = configure_pe_match topo pe := rfl

/-- The MVE block changes no field of the PE other than `mve_number`. -/
theorem configure_mve_fields {σ : Type} (step : σ → opal_call → Int × σ) (type : pnv_phb_type)
    (pe : pnv_ioda_pe) (fw : opal_fw σ) :
    ∃ x : Int, (configure_mve step type pe fw).1 = { pe with mve_number := x } := by
  simp only [configure_mve]
  split_ifs <;> exact ⟨_, rfl⟩

/-- The ancestor walk issues one call per addressed row, in order. -/
theorem peltv_parents_eq {σ : Type} (step : σ → opal_call → Int × σ) (topo : pci_topology)
    (child : Nat) (a : OpalPeltvAction) :
    ∀ (fuel : Nat) (parent : Option Nat) (fw : opal_fw σ),
      peltv_parents step topo child a fuel parent fw =
        (ancestor_rows topo fuel parent).map (fun rows =>
          rows.foldl (fun f p => (opal step f (opal_call.opal_pci_set_peltv p child a)).2) fw) := by
  intro fuel
  induction fuel with
  | zero =>
    intro parent fw
    cases parent <;> simp [peltv_parents, ancestor_rows]
  | succ n ih =>
    intro parent fw
    cases parent with
    | none => simp [peltv_parents, ancestor_rows]
    | some p =>
      simp only [peltv_parents, ancestor_rows]
      rw [ih]
      cases hrows : ancestor_rows topo n (topo.buses (topo.devs p).bus).self with
      | none => simp
      | some rows =>
        simp only [Option.map_some']
        cases hpdn : (topo.devs p).pdn with
        | none => simp
        | some pdn =>
          by_cases hv : pdn.pe_number ≠ IODA_INVALID_PE
          · simp [hv]
          · simp [hv]

/-- The MVE block of deconfigure changes no field of the PE other than `mve_number`. -/
theorem deconfigure_mve_fields {σ : Type} (step : σ → opal_call → Int × σ)
    (type : pnv_phb_type) (pe : pnv_ioda_pe) (fw : opal_fw σ) :
    ∃ x : Int, (deconfigure_mve step type pe fw).1 = { pe with mve_number := x } := by
  simp only [deconfigure_mve]
  split_ifs <;> exact ⟨_, rfl⟩

@[simp] theorem set_pe_pe_array_same (phb : pnv_phb) (i : Nat) (pe : pnv_ioda_pe) :
    (set_pe phb i pe).pe_array i = pe := by
  simp [set_pe, array_set]

/-- A successful call that is not a domain-row call leaves the domain table alone. -/
theorem peltv_fw_table_other {σ : Type} (inner : σ → opal_call → Int × σ)
    (fw : opal_fw (σ × (Int → Nat → Bool))) (c : opal_call)
    (hc : ∀ p q a, c ≠ opal_call.opal_pci_set_peltv p q a) :
    (opal (peltv_fw inner) fw c).2.state.2 = fw.state.2 := by
  have hu : peltv_update fw.state.2 c = fw.state.2 := by
    cases c with
    | opal_pci_set_peltv p q a => exact absurd rfl (hc p q a)
    | _ => rfl
  simp only [opal, peltv_fw, hu, ite_self]

/-- A domain-row call that succeeds updates the domain table. -/
theorem peltv_fw_table_peltv {σ : Type} (inner : σ → opal_call → Int × σ)
    (hok : ∀ s p q a, (inner s (opal_call.opal_pci_set_peltv p q a)).1 = 0)
    (fw : opal_fw (σ × (Int → Nat → Bool))) (p : Int) (q : Nat) (a : OpalPeltvAction) :
    (opal (peltv_fw inner) fw (opal_call.opal_pci_set_peltv p q a)).2.state.2 =
      peltv_update fw.state.2 (opal_call.opal_pci_set_peltv p q a) := by
  simp only [opal, peltv_fw, hok, if_true]

theorem table_set_pe {σ : Type} (inner : σ → opal_call → Int × σ)
    (fw : opal_fw (σ × (Int → Nat → Bool))) (n rid : Nat) (bc : OpalPciBusCompare)
    (dc : OpalPciDeviceCompare) (fc : OpalPciFuncCompare) (a : OpalPeAction) :
    (opal (peltv_fw inner) fw (opal_call.opal_pci_set_pe n rid bc dc fc a)).2.state.2 =
      fw.state.2 :=
  peltv_fw_table_other inner fw _ (by intro p q a h; cases h)

theorem table_freeze_set {σ : Type} (inner : σ → opal_call → Int × σ)
    (fw : opal_fw (σ × (Int → Nat → Bool))) (n : Nat) (a : OpalEehFreezeActionToken) :
    (opal (peltv_fw inner) fw (opal_call.opal_pci_eeh_freeze_set n a)).2.state.2 =
      fw.state.2 :=
  peltv_fw_table_other inner fw _ (by intro p q a h; cases h)

theorem table_freeze_clear {σ : Type} (inner : σ → opal_call → Int × σ)
    (fw : opal_fw (σ × (Int → Nat → Bool))) (n : Nat) (a : OpalEehFreezeActionToken) :
    (opal (peltv_fw inner) fw (opal_call.opal_pci_eeh_freeze_clear n a)).2.state.2 =
      fw.state.2 :=
  peltv_fw_table_other inner fw _ (by intro p q a h; cases h)

theorem table_set_mve {σ : Type} (inner : σ → opal_call → Int × σ)
    (fw : opal_fw (σ × (Int → Nat → Bool))) (x : Int) (n : Nat) :
    (opal (peltv_fw inner) fw (opal_call.opal_pci_set_mve x n)).2.state.2 = fw.state.2 :=
  peltv_fw_table_other inner fw _ (by intro p q a h; cases h)

theorem table_set_mve_enable {σ : Type} (inner : σ → opal_call → Int × σ)
    (fw : opal_fw (σ × (Int → Nat → Bool))) (x : Int) (a : OpalMveEnableAction) :
    (opal (peltv_fw inner) fw (opal_call.opal_pci_set_mve_enable x a)).2.state.2 =
      fw.state.2 :=
  peltv_fw_table_other inner fw _ (by intro p q a h; cases h)

theorem configure_mve_table {σ : Type} (inner : σ → opal_call → Int × σ) (type : pnv_phb_type)
    (pe : pnv_ioda_pe) (fw : opal_fw (σ × (Int → Nat → Bool))) :
    (configure_mve (peltv_fw inner) type pe fw).2.state.2 = fw.state.2 := by
  simp only [configure_mve]
  split_ifs <;> simp only [table_set_mve, table_set_mve_enable]

theorem deconfigure_mve_table {σ : Type} (inner : σ → opal_call → Int × σ)
    (type : pnv_phb_type) (pe : pnv_ioda_pe) (fw : opal_fw (σ × (Int → Nat → Bool))) :
    (deconfigure_mve (peltv_fw inner) type pe fw).2.state.2 = fw.state.2 := by
  simp only [deconfigure_mve]
  split_ifs <;> simp only [table_set_mve, table_set_mve_enable]

/-- The domain table after the successful calls of an ancestor walk that adds. -/
theorem walk_add_table {σ : Type} (inner : σ → opal_call → Int × σ)
    (hok : ∀ s p q a, (inner s (opal_call.opal_pci_set_peltv p q a)).1 = 0) (child : Nat)
    (rows : List Int) :
    ∀ (fw : opal_fw (σ × (Int → Nat → Bool))) (p : Int) (q : Nat),
      (rows.foldl (fun f r => (opal (peltv_fw inner) f
        (opal_call.opal_pci_set_peltv r child OpalPeltvAction.OPAL_ADD_PE_TO_DOMAIN)).2)
          fw).state.2 p q =
        if q = child ∧ p ∈ rows then true else fw.state.2 p q := by
  induction rows with
  | nil => intro fw p q; simp
  | cons r rows ih =>
    intro fw p q
    rw [List.foldl_cons, ih, peltv_fw_table_peltv inner hok]
    simp only [peltv_update, List.mem_cons]
    by_cases h1 : q = child <;> by_cases h2 : p ∈ rows <;> by_cases h3 : p = r <;>
      simp [h1, h2, h3]

/-- The domain table after the successful calls of an ancestor walk that removes. -/
theorem walk_remove_table {σ : Type} (inner : σ → opal_call → Int × σ)
    (hok : ∀ s p q a, (inner s (opal_call.opal_pci_set_peltv p q a)).1 = 0) (child : Nat)
    (rows : List Int) :
    ∀ (fw : opal_fw (σ × (Int → Nat → Bool))) (p : Int) (q : Nat),
      (rows.foldl (fun f r => (opal (peltv_fw inner) f
        (opal_call.opal_pci_set_peltv r child OpalPeltvAction.OPAL_REMOVE_PE_FROM_DOMAIN)).2)
          fw).state.2 p q =
        if q = child ∧ p ∈ rows then false else fw.state.2 p q := by
  induction rows with
  | nil => intro fw p q; simp
  | cons r rows ih =>
    intro fw p q
    rw [List.foldl_cons, ih, peltv_fw_table_peltv inner hok]
    simp only [peltv_update, List.mem_cons]
    by_cases h1 : q = child <;> by_cases h2 : p ∈ rows <;> by_cases h3 : p = r <;>
      simp [h1, h2, h3]

/-- What a successful `pnv_ioda_configure_pe` has done. -/
theorem configure_pe_ok_inv {σ : Type} (step : σ → opal_call → Int × σ) (topo : pci_topology)
    (phb : pnv_phb) (fw : opal_fw σ) (pe_no : Nat) (phb1 : pnv_phb) (fw1 : opal_fw σ)
    (hcfg : pnv_ioda_configure_pe step topo phb fw pe_no = some (0, phb1, fw1)) :
    ∃ (m : pe_match) (rows : List Int) (fw3 : opal_fw σ),
      configure_pe_match topo (phb.pe_array pe_no) = some m ∧
      ancestor_rows topo topo.ndevs m.parent = some rows ∧
      fw3 = rows.foldl (fun f p => (opal step f
          (opal_call.opal_pci_set_peltv p (phb.pe_array pe_no).pe_number
            OpalPeltvAction.OPAL_ADD_PE_TO_DOMAIN)).2)
        (opal step
          (opal step
            (opal step fw
              (opal_call.opal_pci_set_pe (phb.pe_array pe_no).pe_number (phb.pe_array pe_no).rid
                m.bcomp m.dcomp m.fcomp OpalPeAction.OPAL_MAP_PE)).2
            (opal_call.opal_pci_set_peltv ((phb.pe_array pe_no).pe_number : Int)
              (phb.pe_array pe_no).pe_number OpalPeltvAction.OPAL_ADD_PE_TO_DOMAIN)).2
          (opal_call.opal_pci_eeh_freeze_clear (phb.pe_array pe_no).pe_number
            OpalEehFreezeActionToken.OPAL_EEH_ACTION_CLEAR_FREEZE_ALL)).2 ∧
      phb1 = set_pe
        { phb with
          pe_rmap := rmap_fill phb.pe_rmap (phb.pe_array pe_no).rid m.rid_end
            (phb.pe_array pe_no).pe_number }
        pe_no (configure_mve step phb.type (phb.pe_array pe_no) fw3).1 ∧
      fw1 = (configure_mve step phb.type (phb.pe_array pe_no) fw3).2 := by
  simp only [pnv_ioda_configure_pe] at hcfg
  cases hm : configure_pe_match topo (phb.pe_array pe_no) with
  | none =>
    rw [hm] at hcfg
    exact absurd hcfg (by simp)
  | some m =>
    rw [hm] at hcfg
    simp only [peltv_parents_eq] at hcfg
    split at hcfg
    · simp [ ENXIO] at hcfg
    · cases hrows : ancestor_rows topo topo.ndevs m.parent with
      | none =>
        rw [hrows] at hcfg
        simp at hcfg
      | some rows =>
        rw [hrows] at hcfg
        simp only [Option.map_some', Option.some.injEq, Prod.mk.injEq, true_and] at hcfg
        exact ⟨m, rows, _, rfl, hrows, rfl, hcfg.1.symm, hcfg.2.symm⟩

/-- What `pnv_ioda_deconfigure_pe` does once the locals and the ancestor rows are known. -/
theorem deconfigure_pe_eq {σ : Type} (inner : σ → opal_call → Int × σ) (topo : pci_topology)
    (phb : pnv_phb) (fw : opal_fw (σ × (Int → Nat → Bool))) (pe_no : Nat) (m : pe_match)
    (rows : List Int)
    (hm : configure_pe_match topo (phb.pe_array pe_no) = some m)
    (hrows : ancestor_rows topo topo.ndevs m.parent = some rows) :
    ∃ (x : Int) (fw2 : opal_fw (σ × (Int → Nat → Bool))),
      pnv_ioda_deconfigure_pe (peltv_fw inner) topo phb fw pe_no =
        some (0,
          set_pe
            { phb with
              pe_rmap := rmap_fill phb.pe_rmap (phb.pe_array pe_no).rid m.rid_end 0 }
            pe_no
            { phb.pe_array pe_no with
              mve_number := x, pbus := none, pdev := none, parent_dev := none },
          fw2) ∧
      ((∀ s p q a, (inner s (opal_call.opal_pci_set_peltv p q a)).1 = 0) →
        ∀ (p : Int) (q : Nat), fw2.state.2 p q =
          if q = (phb.pe_array pe_no).pe_number ∧
              (p = ((phb.pe_array pe_no).pe_number : Int) ∨ p ∈ rows) then false
          else fw.state.2 p q) := by
  obtain ⟨x, hx⟩ := deconfigure_mve_fields (peltv_fw inner) phb.type (phb.pe_array pe_no) fw
  simp only [pnv_ioda_deconfigure_pe, deconfigure_pe_match_eq, hm, peltv_parents_eq]
  rw [hx]
  simp only [hrows, Option.map_some']
  refine ⟨x, _, rfl, ?_⟩
  intro hok p q
  simp only [table_set_pe, peltv_fw_table_peltv inner hok, table_freeze_set,
    walk_remove_table inner hok, deconfigure_mve_table, peltv_update]
  by_cases h1 : q = (phb.pe_array pe_no).pe_number <;>
    by_cases h2 : p = ((phb.pe_array pe_no).pe_number : Int) <;>
    by_cases h3 : p ∈ rows <;> simp [h1, h2, h3]

/-- The domain table after a successful `pnv_ioda_configure_pe` whose domain-row calls all
succeeded. -/
theorem configure_pe_table {σ : Type} (inner : σ → opal_call → Int × σ) (topo : pci_topology)
    (phb : pnv_phb) (fw : opal_fw (σ × (Int → Nat → Bool))) (pe_no : Nat) (phb1 : pnv_phb)
    (fw1 : opal_fw (σ × (Int → Nat → Bool))) (m : pe_match) (rows : List Int)
    (hcfg : pnv_ioda_configure_pe (peltv_fw inner) topo phb fw pe_no = some (0, phb1, fw1))
    (hm : configure_pe_match topo (phb.pe_array pe_no) = some m)
    (hrows : ancestor_rows topo topo.ndevs m.parent = some rows)
    (hok : ∀ s p q a, (inner s (opal_call.opal_pci_set_peltv p q a)).1 = 0) :
    ∀ (p : Int) (q : Nat), fw1.state.2 p q =
      if q = (phb.pe_array pe_no).pe_number ∧
          (p = ((phb.pe_array pe_no).pe_number : Int) ∨ p ∈ rows) then true
      else fw.state.2 p q := by
  obtain ⟨m2, rows2, fw3, hm2, hrows2, hfw3, _, hfw1⟩ :=
    configure_pe_ok_inv (peltv_fw inner) topo phb fw pe_no phb1 fw1 hcfg
  rw [hm] at hm2
  cases hm2
  rw [hrows] at hrows2
  cases hrows2
  intro p q
  rw [hfw1, configure_mve_table, hfw3]
  simp only [walk_add_table inner hok, table_freeze_clear, peltv_fw_table_peltv inner hok,
    table_set_pe, peltv_update]
  by_cases h1 : q = (phb.pe_array pe_no).pe_number <;>
    by_cases h2 : p = ((phb.pe_array pe_no).pe_number : Int) <;>
    by_cases h3 : p ∈ rows <;> simp [h1, h2, h3]

set_option maxRecDepth 100000 in
/-- C9 as stated fails: in the configured example the reverse map sends RID `0x110` (a
function number on bus 1) to the bus PE 1.  Configuring the VF PE in slot 3 for that RID
succeeds and deconfiguring it succeeds, and afterwards the entry is 0, not the 1 it held
before configure. -/
theorem C9_rmap_not_restored :
    vf_example_phb.pe_rmap 0x110 = 1 ∧
    (pnv_ioda_configure_pe fw_all_ok two_segment_configured.1 vf_example_phb fw_fresh 3).map
      (fun r => (r.1, r.2.1.pe_rmap 0x110)) = some (0, 3) ∧
    ((pnv_ioda_configure_pe fw_all_ok two_segment_configured.1 vf_example_phb fw_fresh 3).bind
      (fun r => (pnv_ioda_deconfigure_pe fw_all_ok two_segment_configured.1 r.2.1 r.2.2 3).map
        (fun r2 => (r2.1, r2.2.1.pe_rmap 0x110)))) = some (0, 0) := by
  refine ⟨by decide, by decide, by decide⟩

/-- C9, amended: after a successful `pnv_ioda_configure_pe` of a PE, with locals `m` and
ancestor rows `rows`, `pnv_ioda_deconfigure_pe` of that PE returns 0 and leaves the reverse
map 0 on the RID range `[rid, rid_end)` of the PE and as it was before configure on every
other RID, so the map is the one before configure when that range held 0 before; and when
the firmware's domain-row calls succeed, the domain table is the one before configure
except that the PE is absent from its own row and from the row of every ancestor, so every
row has the membership it had before when the PE was in none of them before. -/
theorem C9_configure_then_deconfigure {σ : Type} (inner : σ → opal_call → Int × σ)
    (topo : pci_topology) (phb : pnv_phb) (fw : opal_fw (σ × (Int → Nat → Bool)))
    (pe_no : Nat) (phb1 : pnv_phb) (fw1 : opal_fw (σ × (Int → Nat → Bool)))
    (hcfg : pnv_ioda_configure_pe (peltv_fw inner) topo phb fw pe_no = some (0, phb1, fw1)) :
    ∃ (m : pe_match) (rows : List Int) (phb2 : pnv_phb)
      (fw2 : opal_fw (σ × (Int → Nat → Bool))),
      configure_pe_match topo (phb.pe_array pe_no) = some m ∧
      ancestor_rows topo topo.ndevs m.parent = some rows ∧
      pnv_ioda_deconfigure_pe (peltv_fw inner) topo phb1 fw1 pe_no = some (0, phb2, fw2) ∧
      (∀ rid : Nat, phb2.pe_rmap rid =
        if (phb.pe_array pe_no).rid ≤ rid ∧ (rid : Int) < m.rid_end then 0
        else phb.pe_rmap rid) ∧
      ((∀ rid : Nat, (phb.pe_array pe_no).rid ≤ rid → (rid : Int) < m.rid_end →
          phb.pe_rmap rid = 0) → phb2.pe_rmap = phb.pe_rmap) ∧
      ((∀ s p q a, (inner s (opal_call.opal_pci_set_peltv p q a)).1 = 0) →
        (∀ (p : Int) (q : Nat), fw2.state.2 p q =
          if q = (phb.pe_array pe_no).pe_number ∧
              (p = ((phb.pe_array pe_no).pe_number : Int) ∨ p ∈ rows) then false
          else fw.state.2 p q) ∧
        ((∀ p : Int, fw.state.2 p (phb.pe_array pe_no).pe_number = false) →
          fw2.state.2 = fw.state.2)) := by
  obtain ⟨m, rows, fw3, hm, hrows, hfw3, hphb1, hfw1⟩ :=
    configure_pe_ok_inv (peltv_fw inner) topo phb fw pe_no phb1 fw1 hcfg
  obtain ⟨y, hy⟩ := configure_mve_fields (peltv_fw inner) phb.type (phb.pe_array pe_no) fw3
  have hpe1 : phb1.pe_array pe_no = { phb.pe_array pe_no with mve_number := y } := by
    rw [hphb1, set_pe_pe_array_same, hy]
  have hm1 : configure_pe_match topo (phb1.pe_array pe_no) = some m := by
    rw [hpe1, configure_pe_match_mve, hm]
  obtain ⟨x, fw2, hdec, htab⟩ := deconfigure_pe_eq inner topo phb1 fw1 pe_no m rows hm1 hrows
  have hrid : (phb1.pe_array pe_no).rid = (phb.pe_array pe_no).rid := by rw [hpe1]
  have hnum : (phb1.pe_array pe_no).pe_number = (phb.pe_array pe_no).pe_number := by rw [hpe1]
  have hmap1 : phb1.pe_rmap =
      rmap_fill phb.pe_rmap (phb.pe_array pe_no).rid m.rid_end
        (phb.pe_array pe_no).pe_number := by
    rw [hphb1]; rfl
  have hmap : ∀ rid : Nat,
      (rmap_fill phb1.pe_rmap (phb1.pe_array pe_no).rid m.rid_end 0) rid =
        if (phb.pe_array pe_no).rid ≤ rid ∧ (rid : Int) < m.rid_end then 0
        else phb.pe_rmap rid := by
    intro rid
    rw [rmap_fill_apply, hrid, hmap1, rmap_fill_apply]
    by_cases h : (phb.pe_array pe_no).rid ≤ rid ∧ (rid : Int) < m.rid_end
    · simp [h]
    · simp [h]
  refine ⟨m, rows, _, fw2, hm, hrows, hdec, hmap, ?_, ?_⟩
  · intro hzero
    funext rid
    show (rmap_fill phb1.pe_rmap (phb1.pe_array pe_no).rid m.rid_end 0) rid = phb.pe_rmap rid
    rw [hmap rid]
    by_cases h : (phb.pe_array pe_no).rid ≤ rid ∧ (rid : Int) < m.rid_end
    · rw [if_pos h, hzero rid h.1 h.2]
    · rw [if_neg h]
  · intro hok
    have h1 := configure_pe_table inner topo phb fw pe_no phb1 fw1 m rows hcfg hm hrows hok
    have h2 : ∀ (p : Int) (q : Nat), fw2.state.2 p q =
        if q = (phb.pe_array pe_no).pe_number ∧
            (p = ((phb.pe_array pe_no).pe_number : Int) ∨ p ∈ rows) then false
        else fw.state.2 p q := by
      intro p q
      rw [htab hok p q, hnum, h1 p q]
      by_cases h : q = (phb.pe_array pe_no).pe_number ∧
          (p = ((phb.pe_array pe_no).pe_number : Int) ∨ p ∈ rows)
      · simp [h]
      · simp [h]
    refine ⟨h2, ?_⟩
    intro hnone
    funext p q
    rw [h2 p q]
    by_cases h : q = (phb.pe_array pe_no).pe_number ∧
        (p = ((phb.pe_array pe_no).pe_number : Int) ∨ p ∈ rows)
    · rw [if_pos h, h.1, hnone p]
    · rw [if_neg h]

set_option maxRecDepth 100000 in
/-- C9, amended, on the VF PE of the example with a firmware that accepts every call and
starts from an empty domain table: it is added to and removed from its own row 3 and the
row 1 of its physical function. -/
theorem C9_configure_then_deconfigure_witness :
    ∃ (phb1 : pnv_phb) (fw1 : opal_fw (Unit × (Int → Nat → Bool))),
      pnv_ioda_configure_pe (peltv_fw fw_all_ok) two_segment_configured.1 vf_example_phb
        peltv_fresh 3 = some (0, phb1, fw1) ∧
      ∃ (m : pe_match) (rows : List Int) (phb2 : pnv_phb)
        (fw2 : opal_fw (Unit × (Int → Nat → Bool))),
        configure_pe_match two_segment_configured.1 (vf_example_phb.pe_array 3) = some m ∧
        ancestor_rows two_segment_configured.1 two_segment_configured.1.ndevs m.parent =
          some rows ∧
        pnv_ioda_deconfigure_pe (peltv_fw fw_all_ok) two_segment_configured.1 phb1 fw1 3 =
          some (0, phb2, fw2) ∧
        (∀ rid : Nat, phb2.pe_rmap rid =
          if (vf_example_phb.pe_array 3).rid ≤ rid ∧ (rid : Int) < m.rid_end then 0
          else vf_example_phb.pe_rmap rid) ∧
        ((∀ rid : Nat, (vf_example_phb.pe_array 3).rid ≤ rid → (rid : Int) < m.rid_end →
            vf_example_phb.pe_rmap rid = 0) → phb2.pe_rmap = vf_example_phb.pe_rmap) ∧
        ((∀ s p q a, (fw_all_ok s (opal_call.opal_pci_set_peltv p q a)).1 = 0) →
          (∀ (p : Int) (q : Nat), fw2.state.2 p q =
            if q = (vf_example_phb.pe_array 3).pe_number ∧
                (p = ((vf_example_phb.pe_array 3).pe_number : Int) ∨ p ∈ rows) then false
            else peltv_fresh.state.2 p q) ∧
          ((∀ p : Int, peltv_fresh.state.2 p (vf_example_phb.pe_array 3).pe_number = false) →
            fw2.state.2 = peltv_fresh.state.2)) :=
  ⟨_, _, rfl,
    C9_configure_then_deconfigure fw_all_ok two_segment_configured.1 vf_example_phb
      peltv_fresh 3 _ _ rfl⟩

set_option maxRecDepth 100000 in
/-- C10 as stated fails: PE 1 of the configured example is a bus-scoped PE.  A first
`pnv_ioda_deconfigure_pe` on it returns 0 and clears its `pbus`; the second call then takes
the device branch and dereferences `pe->pdev`, which is NULL: it has no result. -/
theorem C10_second_deconfigure_of_bus_pe_faults :
    (two_segment_configured.2.pe_array 1).flags.bus = true ∧
    (two_segment_configured.2.pe_array 1).pbus = some 1 ∧
    (pnv_ioda_deconfigure_pe fw_all_ok two_segment_configured.1 two_segment_configured.2
      fw_fresh 1).map (fun r => (r.1, (r.2.1.pe_array 1).pbus, (r.2.1.pe_array 1).pdev)) =
      some (0, none, none) ∧
    ((pnv_ioda_deconfigure_pe fw_all_ok two_segment_configured.1 two_segment_configured.2
      fw_fresh 1).bind
        (fun r => (pnv_ioda_deconfigure_pe fw_all_ok two_segment_configured.1 r.2.1 r.2.2
          1).map (fun r2 => r2.1))) = none := by
  refine ⟨by decide, by decide, by decide, by decide⟩

theorem set_pe_self (phb : pnv_phb) (i : Nat) : set_pe phb i (phb.pe_array i) = phb := by
  have : array_set phb.pe_array i (phb.pe_array i) = phb.pe_array := by
    funext j
    by_cases h : j = i
    · simp [array_set, h]
    · simp [array_set, h]
  simp only [set_pe, this]

/-- Clearing a range of the reverse map twice is clearing it once. -/
theorem rmap_fill_idem (m : Nat → Nat) (rid : Nat) (rid_end : Int) (v : Nat) :
    rmap_fill (rmap_fill m rid rid_end v) rid rid_end v = rmap_fill m rid rid_end v := by
  funext r
  rw [rmap_fill_apply, rmap_fill_apply]
  by_cases h : rid ≤ r ∧ (r : Int) < rid_end
  · simp [h]
  · simp [h]

/-- The locals of a VF-scoped PE without a bus back-reference. -/
theorem configure_pe_match_vf (topo : pci_topology) (pe : pnv_ioda_pe)
    (hvf : pe.flags.vf = true) (hbus : pe.pbus = none) :
    configure_pe_match topo pe =
      some { parent := pe.parent_dev
             bcomp := OpalPciBusCompare.OpalPciBusAll
             dcomp := OpalPciDeviceCompare.OPAL_COMPARE_RID_DEVICE_NUMBER
             fcomp := OpalPciFuncCompare.OPAL_COMPARE_RID_FUNCTION_NUMBER
             rid_end := (pe.rid : Int) + 1 } := by
  simp [configure_pe_match, hvf, hbus]

/-- What a completed `pnv_ioda_deconfigure_pe` has done to the bridge. -/
theorem deconfigure_pe_inv {σ : Type} (step : σ → opal_call → Int × σ) (topo : pci_topology)
    (phb : pnv_phb) (fw : opal_fw σ) (pe_no : Nat) (rc : Int) (phb1 : pnv_phb)
    (fw1 : opal_fw σ)
    (h : pnv_ioda_deconfigure_pe step topo phb fw pe_no = some (rc, phb1, fw1)) :
    ∃ (m : pe_match) (x : Int),
      configure_pe_match topo (phb.pe_array pe_no) = some m ∧ rc = 0 ∧
      phb1 = set_pe
        { phb with pe_rmap := rmap_fill phb.pe_rmap (phb.pe_array pe_no).rid m.rid_end 0 }
        pe_no
        { phb.pe_array pe_no with
          mve_number := x, pbus := none, pdev := none, parent_dev := none } := by
  obtain ⟨x, hx⟩ := deconfigure_mve_fields step phb.type (phb.pe_array pe_no) fw
  simp only [pnv_ioda_deconfigure_pe, deconfigure_pe_match_eq] at h
  cases hm : configure_pe_match topo (phb.pe_array pe_no) with
  | none =>
    rw [hm] at h
    exact absurd h (by simp)
  | some m =>
    rw [hm] at h
    simp only [peltv_parents_eq] at h
    rw [hx] at h
    cases hrows : ancestor_rows topo topo.ndevs m.parent with
    | none =>
      rw [hrows] at h
      simp at h
    | some rows =>
      rw [hrows] at h
      simp only [Option.map_some', Option.some.injEq, Prod.mk.injEq] at h
      exact ⟨m, x, rfl, h.1.symm, h.2.1.symm⟩

/-- The second `pnv_ioda_deconfigure_pe` on a VF-scoped PE whose back-references are
already cleared. -/
theorem deconfigure_pe_vf_cleared {σ : Type} (step : σ → opal_call → Int × σ)
    (topo : pci_topology) (phb : pnv_phb) (fw : opal_fw σ) (pe_no : Nat)
    (hvf : (phb.pe_array pe_no).flags.vf = true) (hbus : (phb.pe_array pe_no).pbus = none)
    (hpar : (phb.pe_array pe_no).parent_dev = none) :
    ∃ fw2 : opal_fw σ,
      pnv_ioda_deconfigure_pe step topo phb fw pe_no =
        some (0,
          set_pe
            { phb with
              pe_rmap := rmap_fill phb.pe_rmap (phb.pe_array pe_no).rid
                (((phb.pe_array pe_no).rid : Int) + 1) 0 }
            pe_no
            { (deconfigure_mve step phb.type (phb.pe_array pe_no) fw).1 with
              pbus := none, pdev := none, parent_dev := none },
          fw2) := by
  obtain ⟨x, hx⟩ := deconfigure_mve_fields step phb.type (phb.pe_array pe_no) fw
  have hm := configure_pe_match_vf topo (phb.pe_array pe_no) hvf hbus
  have hrows : ancestor_rows topo topo.ndevs (none : Option Nat) = some [] := by
    cases topo.ndevs <;> rfl
  simp only [pnv_ioda_deconfigure_pe, deconfigure_pe_match_eq, hm, peltv_parents_eq, hpar,
    hrows, Option.map_some']
  rw [hx]
  exact ⟨_, rfl⟩

/-- Clearing back-references that are already NULL changes nothing. -/
theorem pe_clear_refs_eq (pe : pnv_ioda_pe) (a : pe.pbus = none) (b : pe.pdev = none)
    (c : pe.parent_dev = none) (y : Int) :
    ({ ({ pe with mve_number := y } : pnv_ioda_pe) with
        pbus := none, pdev := none, parent_dev := none } : pnv_ioda_pe) =
      { pe with mve_number := y } := by
  cases pe
  simp only at a b c
  subst a b c
  rfl

/-- C10, amended: deconfigure is idempotent on VF-scoped PEs.  For every bridge state,
every firmware and every PE that is VF-scoped (flag VF, no bus back-reference), a
`pnv_ioda_deconfigure_pe` that completes returns 0, and a second call on the same PE then
completes as well, returns 0 and leaves the bridge (reverse map, every PE slot, every
back-reference, every other field) exactly as the first call left it; the one exception is
an IODA1 bridge on which the second MVE-disable firmware call fails: then `mve_number` of
the PE becomes -1 and nothing else changes. -/
theorem C10_deconfigure_vf_idempotent {σ : Type} (step : σ → opal_call → Int × σ)
    (topo : pci_topology) (phb : pnv_phb) (fw : opal_fw σ) (pe_no : Nat) (rc : Int)
    (phb1 : pnv_phb) (fw1 : opal_fw σ)
    (hvf : (phb.pe_array pe_no).flags.vf = true)
    (hbus : (phb.pe_array pe_no).pbus = none)
    (h1 : pnv_ioda_deconfigure_pe step topo phb fw pe_no = some (rc, phb1, fw1)) :
    rc = 0 ∧
    (phb1.pe_array pe_no).pbus = none ∧ (phb1.pe_array pe_no).pdev = none ∧
    (phb1.pe_array pe_no).parent_dev = none ∧
    ∃ fw2 : opal_fw σ,
      pnv_ioda_deconfigure_pe step topo phb1 fw1 pe_no =
        some (0,
          (if phb1.type = pnv_phb_type.PNV_PHB_IODA1 ∧
              (step fw1.state
                (opal_call.opal_pci_set_mve_enable (phb1.pe_array pe_no).mve_number
                  OpalMveEnableAction.OPAL_DISABLE_MVE)).1 ≠ 0 then
            set_pe phb1 pe_no { phb1.pe_array pe_no with mve_number := -1 }
          else phb1),
          fw2) := by
  obtain ⟨m, x, hm, hrc, hphb1⟩ := deconfigure_pe_inv step topo phb fw pe_no rc phb1 fw1 h1
  rw [configure_pe_match_vf topo (phb.pe_array pe_no) hvf hbus] at hm
  cases hm
  have hpe1 : phb1.pe_array pe_no =
      { phb.pe_array pe_no with
        mve_number := x, pbus := none, pdev := none, parent_dev := none } := by
    rw [hphb1, set_pe_pe_array_same]
  have hmap1 : phb1.pe_rmap =
      rmap_fill phb.pe_rmap (phb.pe_array pe_no).rid (((phb.pe_array pe_no).rid : Int) + 1) 0 := by
    rw [hphb1]; rfl
  have hvf1 : (phb1.pe_array pe_no).flags.vf = true := by rw [hpe1]; exact hvf
  have hbus1 : (phb1.pe_array pe_no).pbus = none := by rw [hpe1]
  have hdev1 : (phb1.pe_array pe_no).pdev = none := by rw [hpe1]
  have hpar1 : (phb1.pe_array pe_no).parent_dev = none := by rw [hpe1]
  have hrid1 : (phb1.pe_array pe_no).rid = (phb.pe_array pe_no).rid := by rw [hpe1]
  refine ⟨hrc, hbus1, hdev1, hpar1, ?_⟩
  obtain ⟨fw2, h2⟩ := deconfigure_pe_vf_cleared step topo phb1 fw1 pe_no hvf1 hbus1 hpar1
  refine ⟨fw2, ?_⟩
  rw [h2]
  have hr : rmap_fill phb1.pe_rmap (phb1.pe_array pe_no).rid
      (((phb1.pe_array pe_no).rid : Int) + 1) 0 = phb1.pe_rmap := by
    rw [hrid1, hmap1]
    exact rmap_fill_idem _ _ _ _
  rw [hr]
  have hopal : ∀ c, (opal step fw1 c).1 = (step fw1.state c).1 := fun _ => rfl
  by_cases hcond : phb1.type = pnv_phb_type.PNV_PHB_IODA1 ∧
      (step fw1.state
        (opal_call.opal_pci_set_mve_enable (phb1.pe_array pe_no).mve_number
          OpalMveEnableAction.OPAL_DISABLE_MVE)).1 ≠ 0
  · rw [if_pos hcond]
    have hmv : (deconfigure_mve step phb1.type (phb1.pe_array pe_no) fw1).1 =
        { phb1.pe_array pe_no with mve_number := -1 } := by
      simp only [deconfigure_mve, hcond.1, if_true, hopal]
      rw [if_pos hcond.2]
    have e : ({ (deconfigure_mve step phb1.type (phb1.pe_array pe_no) fw1).1 with
          pbus := none, pdev := none, parent_dev := none } : pnv_ioda_pe) =
        { phb1.pe_array pe_no with mve_number := -1 } := by
      rw [hmv]
      exact pe_clear_refs_eq _ hbus1 hdev1 hpar1 (-1)
    exact congrArg (fun p => some ((0 : Int), set_pe phb1 pe_no p, fw2)) e
  · rw [if_neg hcond]
    have hmv : (deconfigure_mve step phb1.type (phb1.pe_array pe_no) fw1).1 =
        phb1.pe_array pe_no := by
      simp only [deconfigure_mve, hopal]
      by_cases ht : phb1.type = pnv_phb_type.PNV_PHB_IODA1
      · have hz : ¬ (step fw1.state
            (opal_call.opal_pci_set_mve_enable (phb1.pe_array pe_no).mve_number
              OpalMveEnableAction.OPAL_DISABLE_MVE)).1 ≠ 0 := fun hne => hcond ⟨ht, hne⟩
        rw [if_pos ht, if_neg hz]
      · rw [if_neg ht]
    have e : ({ (deconfigure_mve step phb1.type (phb1.pe_array pe_no) fw1).1 with
          pbus := none, pdev := none, parent_dev := none } : pnv_ioda_pe) =
        phb1.pe_array pe_no := by
      rw [hmv]
      exact pe_clear_refs_eq _ hbus1 hdev1 hpar1 (phb1.pe_array pe_no).mve_number
    have e2 : set_pe phb1 pe_no
        ({ (deconfigure_mve step phb1.type (phb1.pe_array pe_no) fw1).1 with
          pbus := none, pdev := none, parent_dev := none } : pnv_ioda_pe) = phb1 := by
      rw [e]
      exact set_pe_self phb1 pe_no
    exact congrArg (fun p => some ((0 : Int), p, fw2)) e2

set_option maxRecDepth 100000 in
/-- C10, amended, on the VF PE of the example: the PE in slot 3 is deconfigured twice. -/
theorem C10_deconfigure_vf_idempotent_witness :
    ∃ (phb1 : pnv_phb) (fw1 : opal_fw Unit),
      pnv_ioda_deconfigure_pe fw_all_ok two_segment_configured.1 vf_example_phb fw_fresh 3 =
        some (0, phb1, fw1) ∧
      (phb1.pe_array 3).pbus = none ∧ (phb1.pe_array 3).pdev = none ∧
      (phb1.pe_array 3).parent_dev = none ∧
      ∃ fw2 : opal_fw Unit,
        pnv_ioda_deconfigure_pe fw_all_ok two_segment_configured.1 phb1 fw1 3 =
          some (0,
            (if phb1.type = pnv_phb_type.PNV_PHB_IODA1 ∧
                (fw_all_ok fw1.state
                  (opal_call.opal_pci_set_mve_enable (phb1.pe_array 3).mve_number
                    OpalMveEnableAction.OPAL_DISABLE_MVE)).1 ≠ 0 then
              set_pe phb1 3 { phb1.pe_array 3 with mve_number := -1 }
            else phb1),
            fw2) :=
  ⟨_, _, rfl,
    (C10_deconfigure_vf_idempotent fw_all_ok two_segment_configured.1 vf_example_phb fw_fresh
      3 0 _ _ (by decide) (by decide) rfl).2⟩

/-- C11: `pnv_ioda_configure_pe` fails exactly when the routing-table mapping call fails.
For a PE whose locals `m` are defined and every firmware: if the mapping call returns
non-zero, configure returns `-ENXIO`, the bridge (reverse map, `mve_number`, everything)
is unchanged and the mapping call is the only call issued; if it returns zero and the
ancestor chain ends, configure returns 0 whatever the other calls return; and whenever
configure returns, its value is 0 or `-ENXIO` and is non-zero exactly when the mapping
call failed. -/
theorem C11_configure_fails_iff_map_fails {σ : Type} (step : σ → opal_call → Int × σ)
    (topo : pci_topology) (phb : pnv_phb) (fw : opal_fw σ) (pe_no : Nat) (m : pe_match)
    (hm : configure_pe_match topo (phb.pe_array pe_no) = some m) :
    ((step fw.state (configure_map_call (phb.pe_array pe_no) m)).1 ≠ 0 →
      pnv_ioda_configure_pe step topo phb fw pe_no =
        some (- ENXIO, phb,
          { state := (step fw.state (configure_map_call (phb.pe_array pe_no) m)).2
            log := fw.log ++ [configure_map_call (phb.pe_array pe_no) m] })) ∧
    ((step fw.state (configure_map_call (phb.pe_array pe_no) m)).1 = 0 →
      ∀ rows, ancestor_rows topo topo.ndevs m.parent = some rows →
        ∃ phb1 fw1, pnv_ioda_configure_pe step topo phb fw pe_no = some (0, phb1, fw1)) ∧
    (∀ rc phb1 fw1, pnv_ioda_configure_pe step topo phb fw pe_no = some (rc, phb1, fw1) →
      (rc = 0 ∨ rc = - ENXIO) ∧
      (rc ≠ 0 ↔ (step fw.state (configure_map_call (phb.pe_array pe_no) m)).1 ≠ 0)) := by
  have hopal : (opal step fw (configure_map_call (phb.pe_array pe_no) m)).1 =
      (step fw.state (configure_map_call (phb.pe_array pe_no) m)).1 := rfl
  refine ⟨?_, ?_, ?_⟩
  · intro hrc
    simp only [pnv_ioda_configure_pe, hm]
    rw [← hopal] at hrc
    simp only [configure_map_call] at hrc
    rw [if_pos hrc]
    rfl
  · intro hrc rows hrows
    simp only [pnv_ioda_configure_pe, hm, peltv_parents_eq, hrows, Option.map_some']
    rw [← hopal] at hrc
    simp only [configure_map_call] at hrc
    have hn : ¬ (opal step fw
        (opal_call.opal_pci_set_pe (phb.pe_array pe_no).pe_number (phb.pe_array pe_no).rid
          m.bcomp m.dcomp m.fcomp OpalPeAction.OPAL_MAP_PE)).1 ≠ 0 := fun h => h hrc
    rw [if_neg hn]
    exact ⟨_, _, rfl⟩
  · intro rc phb1 fw1 h
    simp only [pnv_ioda_configure_pe, hm, peltv_parents_eq] at h
    rw [← hopal]
    simp only [configure_map_call]
    split at h
    · rename_i hrc
      simp only [Option.some.injEq, Prod.mk.injEq] at h
      refine ⟨Or.inr h.1.symm, ?_⟩
      constructor
      · intro _; exact hrc
      · intro _
        rw [← h.1]
        simp [ ENXIO]
    · rename_i hrc
      cases hrows : ancestor_rows topo topo.ndevs m.parent with
      | none =>
        rw [hrows] at h
        simp at h
      | some rows =>
        rw [hrows] at h
        simp only [Option.map_some', Option.some.injEq, Prod.mk.injEq] at h
        refine ⟨Or.inl h.1.symm, ?_⟩
        constructor
        · intro hne; exact absurd h.1.symm hne
        · intro hne; exact absurd hne hrc

set_option maxRecDepth 100000 in
/-- C11 on the VF PE of the example with a firmware that refuses the mapping call:
configure returns `-ENXIO` and the bridge is unchanged. -/
theorem C11_configure_fails_iff_map_fails_witness :
    pnv_ioda_configure_pe fw_set_pe_fails two_segment_configured.1 vf_example_phb fw_fresh 3 =
      some (- ENXIO, vf_example_phb,
        { state := (fw_set_pe_fails fw_fresh.state
            (configure_map_call (vf_example_phb.pe_array 3)
              { parent := some 1
                bcomp := OpalPciBusCompare.OpalPciBusAll
                dcomp := OpalPciDeviceCompare.OPAL_COMPARE_RID_DEVICE_NUMBER
                fcomp := OpalPciFuncCompare.OPAL_COMPARE_RID_FUNCTION_NUMBER
                rid_end := 0x111 })).2
          log := fw_fresh.log ++
            [configure_map_call (vf_example_phb.pe_array 3)
              { parent := some 1
                bcomp := OpalPciBusCompare.OpalPciBusAll
                dcomp := OpalPciDeviceCompare.OPAL_COMPARE_RID_DEVICE_NUMBER
                fcomp := OpalPciFuncCompare.OPAL_COMPARE_RID_FUNCTION_NUMBER
                rid_end := 0x111 }] }) :=
  (C11_configure_fails_iff_map_fails fw_set_pe_fails two_segment_configured.1 vf_example_phb
    fw_fresh 3 _ (by decide)).1 (by decide)

/-- C12: the reverse map after configure.  After a successful `pnv_ioda_configure_pe` of
a PE with RID `rid`, the PE's range ends at `rid_end`, which is `rid + 1` for a device- or
VF-scoped PE (no bus back-reference) and `rid + 256 * count` for a bus-scoped PE, `count`
being 1 for a single-bus PE and `busn_res.end - busn_res.start + 1` for a
bus-and-subordinates PE; `pnv_ioda_bdfn_to_pe` returns the PE's number for every bus
number and function number whose RID lies in `[rid, rid_end)`; and every reverse-map entry
outside that range is unchanged. -/
theorem C12_rmap_after_configure {σ : Type} (step : σ → opal_call → Int × σ)
    (topo : pci_topology) (phb : pnv_phb) (fw : opal_fw σ) (pe_no : Nat) (phb1 : pnv_phb)
    (fw1 : opal_fw σ)
    (hcfg : pnv_ioda_configure_pe step topo phb fw pe_no = some (0, phb1, fw1)) :
    ∃ rid_end : Int,
      ((phb.pe_array pe_no).pbus = none → rid_end = ((phb.pe_array pe_no).rid : Int) + 1) ∧
      (∀ b, (phb.pe_array pe_no).pbus = some b →
        rid_end = ((phb.pe_array pe_no).rid : Int) + 256 *
          (if (phb.pe_array pe_no).flags.bus_all then
            ((topo.buses b).busn_res_end : Int) - ((topo.buses b).busn_res_start : Int) + 1
          else 1)) ∧
      (∀ bus_number devfn : Nat,
        (phb.pe_array pe_no).rid ≤ ((bus_number <<< 8) ||| devfn) →
        ((((bus_number <<< 8) ||| devfn : Nat)) : Int) < rid_end →
        pnv_ioda_bdfn_to_pe phb1 bus_number devfn = (phb.pe_array pe_no).pe_number) ∧
      (∀ r : Nat, ¬ ((phb.pe_array pe_no).rid ≤ r ∧ (r : Int) < rid_end) →
        phb1.pe_rmap r = phb.pe_rmap r) := by
  obtain ⟨m, rows, fw3, hm, _, _, hphb1, _⟩ :=
    configure_pe_ok_inv step topo phb fw pe_no phb1 fw1 hcfg
  have hmap : phb1.pe_rmap =
      rmap_fill phb.pe_rmap (phb.pe_array pe_no).rid m.rid_end
        (phb.pe_array pe_no).pe_number := by
    rw [hphb1]; rfl
  refine ⟨m.rid_end, ?_, ?_, ?_, ?_⟩
  · intro hbus
    simp only [configure_pe_match, hbus] at hm
    split at hm
    · cases hm; rfl
    · exact absurd hm (by simp)
  · intro b hbus
    simp only [configure_pe_match, hbus, Option.some.injEq] at hm
    rw [← hm]
    simp only
    split <;> ring
  · intro bus_number devfn h1 h2
    simp only [pnv_ioda_bdfn_to_pe, hmap, rmap_fill_apply]
    rw [if_pos ⟨h1, h2⟩]
  · intro r hr
    rw [hmap, rmap_fill_apply, if_neg hr]

set_option maxRecDepth 100000 in
/-- C12 on the VF PE of the example: after configure the RID `0x110` (bus 1, function
number `0x10`) is looked up as PE 3. -/
theorem C12_rmap_after_configure_witness :
    ∃ (phb1 : pnv_phb) (fw1 : opal_fw Unit),
      pnv_ioda_configure_pe fw_all_ok two_segment_configured.1 vf_example_phb fw_fresh 3 =
        some (0, phb1, fw1) ∧
      pnv_ioda_bdfn_to_pe phb1 1 0x10 = 3 ∧
      ∃ rid_end : Int,
        ((vf_example_phb.pe_array 3).pbus = none →
          rid_end = ((vf_example_phb.pe_array 3).rid : Int) + 1) ∧
        (∀ b, (vf_example_phb.pe_array 3).pbus = some b →
          rid_end = ((vf_example_phb.pe_array 3).rid : Int) + 256 *
            (if (vf_example_phb.pe_array 3).flags.bus_all then
              ((two_segment_configured.1.buses b).busn_res_end : Int) -
                ((two_segment_configured.1.buses b).busn_res_start : Int) + 1
            else 1)) ∧
        (∀ bus_number devfn : Nat,
          (vf_example_phb.pe_array 3).rid ≤ ((bus_number <<< 8) ||| devfn) →
          ((((bus_number <<< 8) ||| devfn : Nat)) : Int) < rid_end →
          pnv_ioda_bdfn_to_pe phb1 bus_number devfn = (vf_example_phb.pe_array 3).pe_number) ∧
        (∀ r : Nat, ¬ ((vf_example_phb.pe_array 3).rid ≤ r ∧ (r : Int) < rid_end) →
          phb1.pe_rmap r = vf_example_phb.pe_rmap r) :=
  ⟨_, _, rfl, by decide,
    C12_rmap_after_configure fw_all_ok two_segment_configured.1 vf_example_phb fw_fresh 3 _ _
      rfl⟩

/-! ## Weight-ordered scheduling list -/

theorem link_walk_perm (pe_array : Nat → pnv_ioda_pe) (pe : Nat) (l : List Nat) :
    (link_pe_by_weight_walk pe_array pe l).Perm (pe :: l) := by
  induction l with
  | nil => exact List.Perm.refl _
  | cons lpe rest ih =>
    simp only [link_pe_by_weight_walk]
    by_cases h : (pe_array lpe).dma_weight < (pe_array pe).dma_weight
    · rw [if_pos h]
    · rw [if_neg h]
      exact (List.Perm.cons lpe ih).trans (List.Perm.swap pe lpe rest)

theorem link_walk_sorted (pe_array : Nat → pnv_ioda_pe) (pe : Nat) (l : List Nat)
    (hs : l.Pairwise (fun a b => (pe_array b).dma_weight ≤ (pe_array a).dma_weight)) :
    (link_pe_by_weight_walk pe_array pe l).Pairwise
      (fun a b => (pe_array b).dma_weight ≤ (pe_array a).dma_weight) := by
  induction l with
  | nil => simp [link_pe_by_weight_walk]
  | cons lpe rest ih =>
    obtain ⟨h1, h2⟩ := List.pairwise_cons.mp hs
    simp only [link_pe_by_weight_walk]
    by_cases h : (pe_array lpe).dma_weight < (pe_array pe).dma_weight
    · rw [if_pos h]
      refine List.pairwise_cons.mpr ⟨?_, hs⟩
      intro b hb
      rcases List.mem_cons.mp hb with hb | hb
      · subst hb; omega
      · have := h1 b hb
        omega
    · rw [if_neg h]
      refine List.pairwise_cons.mpr ⟨?_, ih h2⟩
      intro b hb
      have hb2 : b ∈ pe :: rest := (link_walk_perm pe_array pe rest).mem_iff.mp hb
      rcases List.mem_cons.mp hb2 with hb3 | hb3
      · subst hb3; omega
      · exact h1 b hb3

/-- A PE goes behind every listed PE of the same weight. -/
theorem link_walk_filter (pe_array : Nat → pnv_ioda_pe) (pe : Nat) (w : Nat) (l : List Nat)
    (hs : l.Pairwise (fun a b => (pe_array b).dma_weight ≤ (pe_array a).dma_weight)) :
    (link_pe_by_weight_walk pe_array pe l).filter
        (fun x => decide ((pe_array x).dma_weight = w)) =
      l.filter (fun x => decide ((pe_array x).dma_weight = w)) ++
        [pe].filter (fun x => decide ((pe_array x).dma_weight = w)) := by
  induction l with
  | nil => simp [link_pe_by_weight_walk]
  | cons lpe rest ih =>
    obtain ⟨h1, h2⟩ := List.pairwise_cons.mp hs
    simp only [link_pe_by_weight_walk]
    by_cases h : (pe_array lpe).dma_weight < (pe_array pe).dma_weight
    · rw [if_pos h]
      by_cases hw : (pe_array pe).dma_weight = w
      · have hnone : (lpe :: rest).filter (fun x => decide ((pe_array x).dma_weight = w)) = [] := by
          rw [List.filter_eq_nil_iff]
          intro a ha
          have hle : (pe_array a).dma_weight ≤ (pe_array lpe).dma_weight := by
            rcases List.mem_cons.mp ha with ha | ha
            · subst ha; exact Nat.le_refl _
            · exact h1 a ha
          simp only [decide_eq_true_eq]
          omega
        rw [List.filter_cons_of_pos (by simpa using hw), hnone]
        simp [hw]
      · rw [List.filter_cons]
        simp [hw]
    · rw [if_neg h, List.filter_cons, ih h2, List.filter_cons]
      by_cases hl : (pe_array lpe).dma_weight = w
      · simp [hl]
      · simp [hl]

theorem link_pes_pe_array (pes : List Nat) :
    ∀ phb : pnv_phb, (link_pes_by_weight phb pes).pe_array = phb.pe_array := by
  induction pes with
  | nil => intro phb; rfl
  | cons pe rest ih =>
    intro phb
    simp only [link_pes_by_weight, List.foldl_cons] at ih ⊢
    rw [ih]
    rfl

/-- The state of the list after linking `pes` behind an already sorted list. -/
theorem link_pes_inv (pes : List Nat) :
    ∀ phb : pnv_phb,
      phb.pe_dma_list.Pairwise
        (fun a b => (phb.pe_array b).dma_weight ≤ (phb.pe_array a).dma_weight) →
      (link_pes_by_weight phb pes).pe_dma_list.Pairwise
        (fun a b => (phb.pe_array b).dma_weight ≤ (phb.pe_array a).dma_weight) ∧
      (∀ w, (link_pes_by_weight phb pes).pe_dma_list.filter
          (fun x => decide ((phb.pe_array x).dma_weight = w)) =
        (phb.pe_dma_list ++ pes).filter
          (fun x => decide ((phb.pe_array x).dma_weight = w))) ∧
      (link_pes_by_weight phb pes).pe_dma_list.Perm (phb.pe_dma_list ++ pes) := by
  induction pes with
  | nil =>
    intro phb hs
    have e : link_pes_by_weight phb [] = phb := rfl
    rw [e, List.append_nil]
    exact ⟨hs, fun _ => rfl, List.Perm.refl _⟩
  | cons pe rest ih =>
    intro phb hs
    have hstep : link_pes_by_weight phb (pe :: rest) =
        link_pes_by_weight (pnv_ioda_link_pe_by_weight phb pe) rest := rfl
    have harr : (pnv_ioda_link_pe_by_weight phb pe).pe_array = phb.pe_array := rfl
    have hlist : (pnv_ioda_link_pe_by_weight phb pe).pe_dma_list =
        link_pe_by_weight_walk phb.pe_array pe phb.pe_dma_list := rfl
    obtain ⟨i1, i2, i3⟩ := ih (pnv_ioda_link_pe_by_weight phb pe)
      (by rw [harr, hlist]; exact link_walk_sorted phb.pe_array pe phb.pe_dma_list hs)
    rw [harr] at i1 i2
    rw [hstep]
    refine ⟨i1, ?_, ?_⟩
    · intro w
      rw [i2 w, hlist, List.filter_append,
        link_walk_filter phb.pe_array pe w phb.pe_dma_list hs]
      simp [List.filter_append, List.filter_cons]
      split <;> simp
    · refine i3.trans ?_
      rw [hlist]
      have hp := link_walk_perm phb.pe_array pe phb.pe_dma_list
      have h1 : (link_pe_by_weight_walk phb.pe_array pe phb.pe_dma_list ++ rest).Perm
          ((pe :: phb.pe_dma_list) ++ rest) := List.Perm.append_right rest hp
      refine h1.trans ?_
      simp only [List.cons_append]
      exact (List.perm_middle).symm

/-- C20: the weight-ordered scheduling list.  After linking the PEs `pes`, in that order,
into an empty list with `pnv_ioda_link_pe_by_weight` (the weights stay as they are), the
list holds exactly those PEs, is sorted by `dma_weight` in non-increasing order, and for
every weight the PEs of that weight stand in the order in which they were linked. -/
theorem C20_link_pe_by_weight_sorted_stable (phb : pnv_phb) (pes : List Nat)
    (hempty : phb.pe_dma_list = []) :
    (link_pes_by_weight phb pes).pe_array = phb.pe_array ∧
    (link_pes_by_weight phb pes).pe_dma_list.Perm pes ∧
    (link_pes_by_weight phb pes).pe_dma_list.Pairwise
      (fun a b => (phb.pe_array b).dma_weight ≤ (phb.pe_array a).dma_weight) ∧
    (∀ w, (link_pes_by_weight phb pes).pe_dma_list.filter
        (fun x => decide ((phb.pe_array x).dma_weight = w)) =
      pes.filter (fun x => decide ((phb.pe_array x).dma_weight = w))) := by
  obtain ⟨i1, i2, i3⟩ := link_pes_inv pes phb (by rw [hempty]; exact List.Pairwise.nil)
  rw [hempty, List.nil_append] at i2 i3
  exact ⟨link_pes_pe_array pes phb, i3, i1, i2⟩

/-- C20 on four PEs of weights 10, 30, 10, 30 (PEs 1 to 4) linked in the order 1, 2, 3, 4:
the list is 2, 4, 1, 3. -/
theorem C20_link_pe_by_weight_sorted_stable_witness :
    (link_pes_by_weight
      { (dma_bridge 8 [10, 30, 10, 30]) with pe_dma_list := [], dma_weight := 0, dma_pe_count := 0 }
      [1, 2, 3, 4]).pe_dma_list = [2, 4, 1, 3] ∧
    (link_pes_by_weight
      { (dma_bridge 8 [10, 30, 10, 30]) with pe_dma_list := [], dma_weight := 0, dma_pe_count := 0 }
      [1, 2, 3, 4]).pe_dma_list.Pairwise
      (fun a b => ((dma_bridge 8 [10, 30, 10, 30]).pe_array b).dma_weight ≤
        ((dma_bridge 8 [10, 30, 10, 30]).pe_array a).dma_weight) :=
  ⟨by decide,
    (C20_link_pe_by_weight_sorted_stable
      { (dma_bridge 8 [10, 30, 10, 30]) with pe_dma_list := [], dma_weight := 0, dma_pe_count := 0 }
      [1, 2, 3, 4] rfl).2.2.1⟩

/-! ## Unfreeze and state query -/

/-- The running maximum of a list is one of its elements (or the start value) and bounds
them all. -/
theorem foldl_max_spec : ∀ (l : List Nat) (a : Nat),
    l.foldl max a ∈ a :: l ∧ ∀ x ∈ a :: l, x ≤ l.foldl max a := by
  intro l
  induction l with
  | nil => intro a; simp
  | cons y ys ih =>
    intro a
    rw [List.foldl_cons]
    obtain ⟨h1, h2⟩ := ih (max a y)
    constructor
    · rcases List.mem_cons.1 h1 with h | h
      · rw [h]
        rcases le_total a y with hay | hay
        · rw [max_eq_right hay]; simp
        · rw [max_eq_left hay]; simp
      · exact List.mem_cons_of_mem _ (List.mem_cons_of_mem _ h)
    · intro x hx
      rcases List.mem_cons.1 hx with h | h
      · rw [h]
        exact le_trans (le_max_left a y) (h2 _ (List.mem_cons_self _ _))
      · rcases List.mem_cons.1 h with h | h
        · rw [h]
          exact le_trans (le_max_right a y) (h2 _ (List.mem_cons_self _ _))
        · exact h2 _ (List.mem_cons_of_mem _ h)

/-- The running maximum does not depend on the order of the list. -/
theorem foldl_max_perm (l1 l2 : List Nat) (a : Nat) (h : l1.Perm l2) :
    l1.foldl max a = l2.foldl max a := by
  obtain ⟨m1, b1⟩ := foldl_max_spec l1 a
  obtain ⟨m2, b2⟩ := foldl_max_spec l2 a
  have p : (a :: l1).Perm (a :: l2) := List.Perm.cons a h
  exact le_antisymm (b2 _ (p.mem_iff.1 m1)) (b1 _ (p.mem_iff.2 m2))

/-- The slave loop of the state query on a firmware whose status queries all succeed and
report `rep n` for PE `n`. -/
theorem get_pe_state_slaves_all_ok {σ : Type} (step : σ → opal_call → Int × σ)
    (fstate : σ → Nat) (phb : pnv_phb) (rep : Nat → Nat)
    (hrep : ∀ s n, (step s (opal_call.opal_pci_eeh_freeze_status n)).1 = OPAL_SUCCESS ∧
      fstate (step s (opal_call.opal_pci_eeh_freeze_status n)).2 = rep n) :
    ∀ (l : List Nat) (state : Nat) (fw : opal_fw σ),
      ∃ fw2, get_pe_state_slaves step fstate phb l state fw =
        ((((l.map (fun s => rep (phb.pe_array s).pe_number)).foldl max state : Nat) : Int),
          fw2) := by
  intro l
  induction l with
  | nil => intro state fw; exact ⟨fw, rfl⟩
  | cons x xs ih =>
    intro state fw
    have h1 := (hrep fw.state (phb.pe_array x).pe_number).1
    have h2 := (hrep fw.state (phb.pe_array x).pe_number).2
    simp only [get_pe_state_slaves, opal, h1, h2, ne_eq, not_true_eq_false, if_false,
      List.map_cons, List.foldl_cons]
    have e : (if rep (phb.pe_array x).pe_number > state then rep (phb.pe_array x).pe_number
        else state) = max state (rep (phb.pe_array x).pe_number) := by
      rcases le_or_lt (rep (phb.pe_array x).pe_number) state with h | h
      · rw [if_neg (by omega), max_eq_left h]
      · rw [if_pos h, max_eq_right (le_of_lt h)]
    rw [e]
    exact ih _ _

/-- The state query through any member of a compound PE, on a firmware whose status
queries all succeed and report `rep n` for PE `n`. -/
theorem get_pe_state_group {σ : Type} (step : σ → opal_call → Int × σ) (fstate : σ → Nat)
    (phb : pnv_phb) (fw : opal_fw σ) (m pe_no : Nat) (rep : Nat → Nat)
    (hmaster : (phb.pe_array m).flags.master = true)
    (hnot : (phb.pe_array m).flags.slave = false)
    (hnum : (phb.pe_array m).pe_number = m)
    (hmember : pe_no = m ∨
      ((phb.pe_array pe_no).flags.slave = true ∧ (phb.pe_array pe_no).master = some m))
    (hrange : pe_no < phb.total_pe)
    (hrep : ∀ s n, (step s (opal_call.opal_pci_eeh_freeze_status n)).1 = OPAL_SUCCESS ∧
      fstate (step s (opal_call.opal_pci_eeh_freeze_status n)).2 = rep n) :
    ∃ fw2, pnv_ioda_get_pe_state step fstate phb fw pe_no =
      some (((((phb.pe_array m).slaves.map (fun s => rep (phb.pe_array s).pe_number)).foldl
        max (rep m) : Nat) : Int), fw2) := by
  have hr : ¬ ((pe_no : Int) < 0 ∨ (pe_no : Int) ≥ phb.total_pe) := by omega
  have h1 := (hrep fw.state m).1
  have h2 := (hrep fw.state m).2
  obtain ⟨fw2, hfw2⟩ := get_pe_state_slaves_all_ok step fstate phb rep hrep
    (phb.pe_array m).slaves (rep m) (opal step fw (opal_call.opal_pci_eeh_freeze_status m)).2
  refine ⟨fw2, ?_⟩
  rw [← hfw2]
  unfold pnv_ioda_get_pe_state
  rw [if_neg hr]
  rcases hmember with h | ⟨hs, hp⟩
  · subst h
    simp [hnot, hmaster, opal, h1, h2]
  · simp [hs, hp, hnum, hmaster, opal, h1, h2]

/-- C17: the state query reports the worst state of the group.  For every bridge state with
a compound PE (slot `m` is flagged master, is not itself flagged slave and holds its own
number), every in-range PE number `pe_no` of the group (`m` itself, or a PE flagged slave
whose master reference is `m`) and every firmware whose status queries all succeed and
report the state `rep n` for PE `n`: `pnv_ioda_get_pe_state` returns a value `v` that is one
of the states reported for the master and its slaves and is at least each of them (the
maximum in the severity order); the value is the same for every reordering of the slave
list.  For every firmware and every PE number below zero or not below `total_pe` the
function returns the permanently-unavailable state and issues no firmware call. -/
theorem C17_get_pe_state_worst_of_group {σ : Type} (step : σ → opal_call → Int × σ)
    (fstate : σ → Nat) (phb : pnv_phb) (fw : opal_fw σ) (m pe_no : Nat) (rep : Nat → Nat)
    (hmaster : (phb.pe_array m).flags.master = true)
    (hnot : (phb.pe_array m).flags.slave = false)
    (hnum : (phb.pe_array m).pe_number = m)
    (hmember : pe_no = m ∨
      ((phb.pe_array pe_no).flags.slave = true ∧ (phb.pe_array pe_no).master = some m))
    (hrange : pe_no < phb.total_pe)
    (hrep : ∀ s n, (step s (opal_call.opal_pci_eeh_freeze_status n)).1 = OPAL_SUCCESS ∧
      fstate (step s (opal_call.opal_pci_eeh_freeze_status n)).2 = rep n) :
    (∃ (v : Nat) (fw2 : opal_fw σ),
      pnv_ioda_get_pe_state step fstate phb fw pe_no = some ((v : Int), fw2) ∧
      v ∈ rep m :: (phb.pe_array m).slaves.map (fun s => rep (phb.pe_array s).pe_number) ∧
      ∀ x ∈ rep m :: (phb.pe_array m).slaves.map (fun s => rep (phb.pe_array s).pe_number),
        x ≤ v) ∧
    (∀ slaves2 : List Nat, slaves2.Perm (phb.pe_array m).slaves →
      (pnv_ioda_get_pe_state step fstate
        (set_pe phb m { phb.pe_array m with slaves := slaves2 }) fw pe_no).map Prod.fst =
      (pnv_ioda_get_pe_state step fstate phb fw pe_no).map Prod.fst) ∧
    (∀ (fw0 : opal_fw σ) (n : Int), n < 0 ∨ n ≥ phb.total_pe →
      pnv_ioda_get_pe_state step fstate phb fw0 n =
        some (OPAL_EEH_STOPPED_PERM_UNAVAIL, fw0)) := by
  obtain ⟨fw2, h⟩ := get_pe_state_group step fstate phb fw m pe_no rep hmaster hnot hnum
    hmember hrange hrep
  refine ⟨⟨_, fw2, h, (foldl_max_spec _ _).1, (foldl_max_spec _ _).2⟩, ?_, ?_⟩
  · intro slaves2 hperm
    have hother : ∀ i, i ≠ m →
        (set_pe phb m { phb.pe_array m with slaves := slaves2 }).pe_array i =
          phb.pe_array i := by
      intro i hi
      simp [set_pe, array_set, hi]
    have hpn : ∀ i, ((set_pe phb m { phb.pe_array m with slaves := slaves2 }).pe_array
        i).pe_number = (phb.pe_array i).pe_number := by
      intro i
      by_cases hi : i = m
      · subst hi; simp
      · rw [hother i hi]
    have hmember2 : pe_no = m ∨
        (((set_pe phb m { phb.pe_array m with slaves := slaves2 }).pe_array
          pe_no).flags.slave = true ∧
        ((set_pe phb m { phb.pe_array m with slaves := slaves2 }).pe_array pe_no).master =
          some m) := by
      by_cases hi : pe_no = m
      · exact Or.inl hi
      · rw [hother pe_no hi]
        exact hmember
    obtain ⟨fw3, h3⟩ := get_pe_state_group step fstate
      (set_pe phb m { phb.pe_array m with slaves := slaves2 }) fw m pe_no rep
      (by simpa using hmaster) (by simpa using hnot) (by simpa using hnum) hmember2
      (by simpa [set_pe] using hrange) hrep
    rw [h, h3]
    simp only [Option.map_some', set_pe_pe_array_same, hpn]
    rw [foldl_max_perm _ _ _ (hperm.map _)]
  · intro fw0 n hn
    unfold pnv_ioda_get_pe_state
    rw [if_pos hn]

set_option maxRecDepth 100000 in
/-- C17 on the compound PE of the three-segment example (master 1, slaves 2 and 3) with a
firmware that reports 0 for PE 1, 3 for PE 2 and 1 for PE 3: the query through slave 3
returns 3, the state of PE 2. -/
theorem C17_get_pe_state_worst_of_group_witness :
    (∃ (v : Nat) (fw2 : opal_fw Nat),
      pnv_ioda_get_pe_state fw_reporting id three_segment_group { state := 0, log := [] }
        (3 : Nat) = some ((v : Int), fw2) ∧
      v ∈ (if 1 = 1 then 0 else if 1 = 2 then 3 else 1) ::
        (three_segment_group.pe_array 1).slaves.map (fun s =>
          (fun n => if n = 1 then 0 else if n = 2 then 3 else 1)
            (three_segment_group.pe_array s).pe_number) ∧
      ∀ x ∈ (if 1 = 1 then 0 else if 1 = 2 then 3 else 1) ::
        (three_segment_group.pe_array 1).slaves.map (fun s =>
          (fun n => if n = 1 then 0 else if n = 2 then 3 else 1)
            (three_segment_group.pe_array s).pe_number), x ≤ v) ∧
    (pnv_ioda_get_pe_state fw_reporting id three_segment_group { state := 0, log := [] }
      (3 : Nat)).map (fun r => (r.1, r.2.log)) =
      some (3, [opal_call.opal_pci_eeh_freeze_status 1,
        opal_call.opal_pci_eeh_freeze_status 2, opal_call.opal_pci_eeh_freeze_status 3]) :=
  ⟨(C17_get_pe_state_worst_of_group fw_reporting id three_segment_group
      { state := 0, log := [] } 1 3 (fun n => if n = 1 then 0 else if n = 2 then 3 else 1)
      (by decide) (by decide) (by decide) (Or.inr ⟨by decide, by decide⟩) (by decide)
      (fun _ _ => ⟨rfl, rfl⟩)).1, by decide⟩

/-- The outcomes of `pnv_pci_ioda2_ddw_create`: it returns 0 only on a PE without an active
window and then leaves one active; with any other return value the PE is unchanged. -/
theorem ddw_create_outcome {σ : Type} (step : σ → opal_call → Int × σ) (env : kernel_env σ)
    (pe : pnv_ioda_pe) (fw : opal_fw σ) (page_shift window_shift : Nat) :
    ((pnv_pci_ioda2_ddw_create step env pe fw page_shift window_shift).1 = 0 ∧
      pe.tce64_active = false ∧
      (pnv_pci_ioda2_ddw_create step env pe fw page_shift window_shift).2.1.tce64_active =
        true) ∨
    ((pnv_pci_ioda2_ddw_create step env pe fw page_shift window_shift).1 ≠ 0 ∧
      (pnv_pci_ioda2_ddw_create step env pe fw page_shift window_shift).2.1 = pe) := by
  have e1 : (- EINVAL : Int) ≠ 0 := by decide
  have e2 : (- EBUSY : Int) ≠ 0 := by decide
  have e3 : (- EFAULT : Int) ≠ 0 := by decide
  unfold pnv_pci_ioda2_ddw_create
  by_cases h1 : page_shift ≠ 12 ∧ page_shift ≠ 16 ∧ page_shift ≠ 24
  · rw [if_pos h1]; exact Or.inr ⟨e1, rfl⟩
  · rw [if_neg h1]
    by_cases h2 : window_shift > env.memory_hotplug_max >>> page_shift
    · rw [if_pos h2]; exact Or.inr ⟨e1, rfl⟩
    · rw [if_neg h2]
      by_cases h3 : pe.tce64_active = true
      · rw [if_pos h3]; exact Or.inr ⟨e2, rfl⟩
      · rw [if_neg h3]
        dsimp only
        cases hal : (alloc_pages env fw
            (env.get_order (max 0x1000 (ddw_table_size env page_shift window_shift)))).1 with
        | none => exact Or.inr ⟨e3, rfl⟩
        | some addr =>
          dsimp only
          by_cases h4 : (opal step (alloc_pages env fw
              (env.get_order (max 0x1000 (ddw_table_size env page_shift window_shift)))).2
              (ddw_map_call pe 1 addr
              (max 0x1000 (ddw_table_size env page_shift window_shift))
              (1 <<< page_shift))).1 ≠ 0
          · rw [if_pos h4]; exact Or.inr ⟨e3, rfl⟩
          · rw [if_neg h4]; exact Or.inl ⟨rfl, by simpa using h3, rfl⟩

/-- The window count of a run equals 1 when the PE has an active window and 0 when not. -/
theorem ddw_step_inv {σ : Type} (step : σ → opal_call → Int × σ) (env : kernel_env σ)
    (st : ddw_state σ) (op : ddw_op)
    (h : st.windows = if st.pe.tce64_active then 1 else 0) :
    (ddw_step step env st op).windows =
      if (ddw_step step env st op).pe.tce64_active then 1 else 0 := by
  cases op with
  | create page_shift window_shift =>
    simp only [ddw_step]
    rcases ddw_create_outcome step env st.pe st.fw page_shift window_shift with
      ⟨h1, h2, h3⟩ | ⟨h1, h2⟩
    · rw [if_pos h1, if_pos h3, h, h2]; rfl
    · rw [if_neg h1, h]
      simp only [h2]
  | remove tbl_is_tce64 =>
    simp only [ddw_step, pnv_pci_ioda2_ddw_remove]
    cases tbl_is_tce64 <;> cases ha : st.pe.tce64_active <;> simp_all
  | reset =>
    simp only [ddw_step, pnv_pci_ioda2_ddw_reset, pnv_pci_ioda2_ddw_remove]
    cases ha : st.pe.tce64_active <;> simp_all

/-- The window count of a run, by induction on the calls. -/
theorem ddw_run_inv {σ : Type} (step : σ → opal_call → Int × σ) (env : kernel_env σ)
    (ops : List ddw_op) :
    ∀ st : ddw_state σ, (st.windows = if st.pe.tce64_active then 1 else 0) →
      (ddw_run step env st ops).windows =
        if (ddw_run step env st ops).pe.tce64_active then 1 else 0 := by
  induction ops with
  | nil => intro st h; exact h
  | cons op rest ih =>
    intro st h
    exact ih _ (ddw_step_inv step env st op h)

/-- C19, counterexample: on a machine with 512 MiB of memory the example PE has an active
window; a further create with the accepted page shift 24 and window shift 33 returns
`-EINVAL`, not `-EBUSY`, because the window-shift check comes before the check of the
active flag. -/
theorem C19_create_while_active_returns_einval :
    ddw_pe_active.tce64_active = true ∧
    (pnv_pci_ioda2_ddw_create fw_all_ok ddw_env_example ddw_pe_active fw_fresh 24 33).1 =
      - EINVAL ∧
    (pnv_pci_ioda2_ddw_create fw_all_ok ddw_env_example ddw_pe_active fw_fresh 24 33).1 ≠
      - EBUSY := by
  refine ⟨by decide, by decide, by decide⟩

/-- C19, amended: exclusivity of the dynamic window, for every firmware and environment.
(1) In every run of create/remove/reset calls that starts on a PE without an active window
the number of windows created and not taken down is 1 when the PE's window is active and 0
when not, so never more than one.  (2) Create returns `-EBUSY` exactly when a window is
active, the page shift is 12, 16 or 24 and the window shift is at most
`memory_hotplug_max() >> page_shift`, and then changes neither the PE nor the firmware.
(3) Create with another page shift, or with an accepted page shift and a larger window
shift, returns `-EINVAL` and changes nothing, whether or not a window is active.  (4) A
remove or reset that returns 0 leaves no window active, and on a PE without an active
window a create with accepted shifts returns 0 and activates the window whenever the
page allocation and the firmware call succeed.  (5) Query returns 0 and reports one available
window with the mask of the three page sizes when no window is active, and no window with
an empty mask when one is. -/
theorem C19_ddw_window_exclusive {σ : Type} (step : σ → opal_call → Int × σ)
    (env : kernel_env σ) :
    (∀ (ops : List ddw_op) (pe : pnv_ioda_pe) (fw : opal_fw σ), pe.tce64_active = false →
      (ddw_run step env { pe := pe, fw := fw, windows := 0 } ops).windows =
        (if (ddw_run step env { pe := pe, fw := fw, windows := 0 } ops).pe.tce64_active
          then 1 else 0) ∧
      (ddw_run step env { pe := pe, fw := fw, windows := 0 } ops).windows ≤ 1) ∧
    (∀ (pe : pnv_ioda_pe) (fw : opal_fw σ) (page_shift window_shift : Nat),
      ((pnv_pci_ioda2_ddw_create step env pe fw page_shift window_shift).1 = - EBUSY ↔
        (pe.tce64_active = true ∧ (page_shift = 12 ∨ page_shift = 16 ∨ page_shift = 24) ∧
          window_shift ≤ env.memory_hotplug_max >>> page_shift)) ∧
      ((pnv_pci_ioda2_ddw_create step env pe fw page_shift window_shift).1 = - EBUSY →
        pnv_pci_ioda2_ddw_create step env pe fw page_shift window_shift =
          (- EBUSY, pe, fw))) ∧
    (∀ (pe : pnv_ioda_pe) (fw : opal_fw σ) (page_shift window_shift : Nat),
      (¬ (page_shift = 12 ∨ page_shift = 16 ∨ page_shift = 24) ∨
        window_shift > env.memory_hotplug_max >>> page_shift) →
      pnv_pci_ioda2_ddw_create step env pe fw page_shift window_shift = (- EINVAL, pe, fw)) ∧
    (∀ (pe : pnv_ioda_pe) (fw : opal_fw σ),
      (∀ b, (pnv_pci_ioda2_ddw_remove step pe fw b).1 = 0 →
        (pnv_pci_ioda2_ddw_remove step pe fw b).2.1.tce64_active = false) ∧
      ((pnv_pci_ioda2_ddw_reset step pe fw).1 = 0 →
        (pnv_pci_ioda2_ddw_reset step pe fw).2.1.tce64_active = false) ∧
      (∀ (page_shift window_shift addr : Nat), pe.tce64_active = false →
        (page_shift = 12 ∨ page_shift = 16 ∨ page_shift = 24) →
        window_shift ≤ env.memory_hotplug_max >>> page_shift →
        (alloc_pages env fw
          (env.get_order (max 0x1000 (ddw_table_size env page_shift window_shift)))).1 =
            some addr →
        (step (alloc_pages env fw
            (env.get_order (max 0x1000 (ddw_table_size env page_shift window_shift)))).2.state
          (ddw_map_call pe 1 addr
            (max 0x1000 (ddw_table_size env page_shift window_shift)) (1 <<< page_shift))).1 =
            0 →
        (pnv_pci_ioda2_ddw_create step env pe fw page_shift window_shift).1 = 0 ∧
        (pnv_pci_ioda2_ddw_create step env pe fw page_shift window_shift).2.1.tce64_active =
          true)) ∧
    (∀ pe : pnv_ioda_pe,
      (pe.tce64_active = false → pnv_pci_ioda2_ddw_query pe = (0, 1, 0x01 ||| 0x02 ||| 0x04)) ∧
      (pe.tce64_active = true → pnv_pci_ioda2_ddw_query pe = (0, 0, 0))) := by
  have e1 : (- EINVAL : Int) ≠ - EBUSY := by decide
  have e3 : (- EFAULT : Int) ≠ - EBUSY := by decide
  have e0 : (0 : Int) ≠ - EBUSY := by decide
  refine ⟨?_, ?_, ?_, ?_, ?_⟩
  · intro ops pe fw hpe
    have h := ddw_run_inv step env ops { pe := pe, fw := fw, windows := 0 }
      (by simp [hpe])
    refine ⟨h, ?_⟩
    rw [h]
    split_ifs <;> decide
  · intro pe fw page_shift window_shift
    unfold pnv_pci_ioda2_ddw_create
    by_cases h1 : page_shift ≠ 12 ∧ page_shift ≠ 16 ∧ page_shift ≠ 24
    · rw [if_pos h1]
      refine ⟨⟨fun h => absurd h e1, fun h => ?_⟩, fun h => absurd h e1⟩
      omega
    · rw [if_neg h1]
      by_cases h2 : window_shift > env.memory_hotplug_max >>> page_shift
      · rw [if_pos h2]
        refine ⟨⟨fun h => absurd h e1, fun h => ?_⟩, fun h => absurd h e1⟩
        omega
      · rw [if_neg h2]
        by_cases h3 : pe.tce64_active = true
        · rw [if_pos h3]
          refine ⟨⟨fun _ => ⟨h3, by omega, by omega⟩, fun _ => rfl⟩, fun _ => rfl⟩
        · rw [if_neg h3]
          dsimp only
          cases hal : (alloc_pages env fw
              (env.get_order (max 0x1000 (ddw_table_size env page_shift window_shift)))).1 with
          | none =>
            exact ⟨⟨fun h => absurd h e3, fun h => absurd h.1 h3⟩, fun h => absurd h e3⟩
          | some addr =>
            dsimp only
            by_cases h4 : (opal step (alloc_pages env fw
                (env.get_order (max 0x1000 (ddw_table_size env page_shift window_shift)))).2
                (ddw_map_call pe 1 addr
                (max 0x1000 (ddw_table_size env page_shift window_shift))
                (1 <<< page_shift))).1 ≠ 0
            · rw [if_pos h4]
              exact ⟨⟨fun h => absurd h e3, fun h => absurd h.1 h3⟩, fun h => absurd h e3⟩
            · rw [if_neg h4]
              exact ⟨⟨fun h => absurd h e0, fun h => absurd h.1 h3⟩, fun h => absurd h e0⟩
  · intro pe fw page_shift window_shift h
    unfold pnv_pci_ioda2_ddw_create
    by_cases h1 : page_shift ≠ 12 ∧ page_shift ≠ 16 ∧ page_shift ≠ 24
    · rw [if_pos h1]
    · rw [if_neg h1]
      have h2 : window_shift > env.memory_hotplug_max >>> page_shift := by
        rcases h with h | h
        · exfalso; omega
        · exact h
      rw [if_pos h2]
  · intro pe fw
    refine ⟨?_, ?_, ?_⟩
    · intro b
      unfold pnv_pci_ioda2_ddw_remove
      cases b <;> cases ha : pe.tce64_active <;> simp [ EFAULT]
    · unfold pnv_pci_ioda2_ddw_reset pnv_pci_ioda2_ddw_remove
      cases ha : pe.tce64_active <;> simp [ha]
    · intro page_shift window_shift addr hpe hps hws hal hfw
      unfold pnv_pci_ioda2_ddw_create
      have h1 : ¬ (page_shift ≠ 12 ∧ page_shift ≠ 16 ∧ page_shift ≠ 24) := by omega
      have h2 : ¬ (window_shift > env.memory_hotplug_max >>> page_shift) := by omega
      rw [if_neg h1, if_neg h2, hpe]
      simp [hal, opal, hfw]
  · intro pe
    unfold pnv_pci_ioda2_ddw_query
    constructor
    · intro h; rw [h]; rfl
    · intro h; rw [h]; rfl

/-- C19 (amended) on the example: a create with accepted shifts on the PE with an active
window returns `-EBUSY` and changes nothing; and the run create, create, remove, create on
the PE without a window ends with one window. -/
theorem C19_ddw_window_exclusive_witness :
    pnv_pci_ioda2_ddw_create fw_all_ok ddw_env_example ddw_pe_active fw_fresh 16 30 =
      (- EBUSY, ddw_pe_active, fw_fresh) ∧
    (ddw_run fw_all_ok ddw_env_example { pe := ddw_pe_example, fw := fw_fresh, windows := 0 }
      [ddw_op.create 16 30, ddw_op.create 16 30, ddw_op.remove true,
        ddw_op.create 12 20]).windows = 1 :=
  ⟨((C19_ddw_window_exclusive fw_all_ok ddw_env_example).2.1 ddw_pe_active fw_fresh 16 30).2
      ((((C19_ddw_window_exclusive fw_all_ok ddw_env_example).2.1 ddw_pe_active fw_fresh
        16 30).1).2 ⟨by decide, Or.inr (Or.inl rfl), by decide⟩),
    by decide⟩

/-! ## SR-IOV -/

/-- The bits after `set_bits`. -/
theorem set_bits_apply (start : Nat) (map : Nat → Bool) :
    ∀ (n k : Nat), set_bits start n map k =
      if start ≤ k ∧ k < start + n then true else map k := by
  intro n
  induction n with
  | zero =>
    intro k
    have : ¬ (start ≤ k ∧ k < start + 0) := by omega
    rw [if_neg this]
    rfl
  | succ n ih =>
    intro k
    have e : set_bits start (n + 1) map = set_bit (start + n) (set_bits start n map) := by
      simp [set_bits, List.range_succ, List.foldl_append]
    rw [e]
    simp only [set_bit]
    by_cases hk : k = start + n
    · have : start ≤ k ∧ k < start + (n + 1) := by omega
      simp [hk]
    · rw [if_neg hk, ih]
      by_cases h1 : start ≤ k ∧ k < start + n
      · have : start ≤ k ∧ k < start + (n + 1) := by omega
        rw [if_pos h1, if_pos this]
      · have : ¬ (start ≤ k ∧ k < start + (n + 1)) := by omega
        rw [if_neg h1, if_neg this]

/-- The bits after `clear_bits`. -/
theorem clear_bits_apply (start : Nat) (map : Nat → Bool) :
    ∀ (n k : Nat), clear_bits start n map k =
      if start ≤ k ∧ k < start + n then false else map k := by
  intro n
  induction n with
  | zero =>
    intro k
    have : ¬ (start ≤ k ∧ k < start + 0) := by omega
    rw [if_neg this]
    rfl
  | succ n ih =>
    intro k
    have e : clear_bits start (n + 1) map = clear_bit (start + n) (clear_bits start n map) := by
      simp [clear_bits, List.range_succ, List.foldl_append]
    rw [e]
    simp only [clear_bit]
    by_cases hk : k = start + n
    · have : start ≤ k ∧ k < start + (n + 1) := by omega
      simp [hk]
    · rw [if_neg hk, ih]
      by_cases h1 : start ≤ k ∧ k < start + n
      · have : start ≤ k ∧ k < start + (n + 1) := by omega
        rw [if_pos h1, if_pos this]
      · have : ¬ (start ≤ k ∧ k < start + (n + 1)) := by omega
        rw [if_neg h1, if_neg this]

/-- Setting and then clearing a run that was free gives back the bitmap. -/
theorem bitmap_clear_set_of_free (map : Nat → Bool) (base nr : Nat)
    (h : free_run map base nr) : bitmap_clear (bitmap_set map base nr) base nr = map := by
  funext k
  simp only [bitmap_clear, bitmap_set, clear_bits_apply, set_bits_apply]
  by_cases hk : base ≤ k ∧ k < base + nr
  · rw [if_pos hk]
    have := h (k - base) (by omega)
    rw [show base + (k - base) = k by omega] at this
    exact this.symm
  · rw [if_neg hk, if_neg hk]

/-- The helper of the search finds nothing only when no base in its range starts a free
run. -/
theorem first_free_run_none (map : Nat → Bool) (nr : Nat) :
    ∀ (count base : Nat), first_free_run map nr count base = none →
      ∀ b, base ≤ b → b < base + count → ¬ free_run map b nr := by
  intro count
  induction count with
  | zero => intro base _ b h1 h2; omega
  | succ c ih =>
    intro base h b h1 h2
    simp only [first_free_run] at h
    split_ifs at h with hb
    by_cases hbb : b = base
    · subst hbb
      intro hfree
      apply hb
      simp only [List.all_eq_true, List.mem_range, Bool.not_eq_true']
      exact fun k hk => hfree k hk
    · exact ih (base + 1) h b (by omega) (by omega)

/-- The helper of the search returns the lowest base in its range that starts a free
run. -/
theorem first_free_run_some (map : Nat → Bool) (nr : Nat) :
    ∀ (count base r : Nat), first_free_run map nr count base = some r →
      base ≤ r ∧ r < base + count ∧ free_run map r nr ∧
      ∀ b, base ≤ b → b < r → ¬ free_run map b nr := by
  intro count
  induction count with
  | zero => intro base r h; simp [first_free_run] at h
  | succ c ih =>
    intro base r h
    simp only [first_free_run] at h
    split_ifs at h with hb
    · simp only [Option.some.injEq] at h
      subst h
      refine ⟨le_refl _, by omega, ?_, fun b h1 h2 => by omega⟩
      simp only [List.all_eq_true, List.mem_range, Bool.not_eq_true'] at hb
      exact fun k hk => hb k hk
    · obtain ⟨h1, h2, h3, h4⟩ := ih (base + 1) r h
      refine ⟨by omega, by omega, h3, ?_⟩
      intro b hb1 hb2
      by_cases hbb : b = base
      · subst hbb
        intro hfree
        apply hb
        simp only [List.all_eq_true, List.mem_range, Bool.not_eq_true']
        exact fun k hk => hfree k hk
      · exact h4 b (by omega) hb2

/-- The search for a free run of `nr ≥ 1` slots: a result below `size` is the lowest base
of a free run that fits, a result of `size` or more means that no free run fits. -/
theorem bitmap_find_next_zero_area_spec (map : Nat → Bool) (size nr : Nat) (hnr : 0 < nr) :
    (bitmap_find_next_zero_area map size nr < size →
      bitmap_find_next_zero_area map size nr + nr ≤ size ∧
      free_run map (bitmap_find_next_zero_area map size nr) nr ∧
      ∀ b, b < bitmap_find_next_zero_area map size nr → ¬ free_run map b nr) ∧
    (bitmap_find_next_zero_area map size nr ≥ size →
      ∀ b, b + nr ≤ size → ¬ free_run map b nr) := by
  unfold bitmap_find_next_zero_area
  rw [if_neg (by omega)]
  cases hf : first_free_run map nr (size + 1 - nr) 0 with
  | none =>
    dsimp only
    constructor
    · intro h; omega
    · intro _ b hb hfree
      exact first_free_run_none map nr (size + 1 - nr) 0 hf b (by omega) (by omega) hfree
  | some base =>
    dsimp only
    obtain ⟨h1, h2, h3, h4⟩ := first_free_run_some map nr (size + 1 - nr) 0 base hf
    constructor
    · intro _
      exact ⟨by omega, h3, fun b hb => h4 b (by omega) hb⟩
    · intro h; omega

/-- Nested loops over two lists visit the pairs of the product list in order. -/
theorem foldl_product {α β γ : Type} (f : γ → α → β → γ) (l2 : List β) :
    ∀ (l1 : List α) (init : γ),
      l1.foldl (fun s a => l2.foldl (fun s b => f s a b) s) init =
        (List.product l1 l2).foldl (fun s p => f s p.1 p.2) init := by
  intro l1
  induction l1 with
  | nil => intro init; rfl
  | cons a as ih =>
    intro init
    have e : List.product (a :: as) l2 = l2.map (fun b => (a, b)) ++ List.product as l2 :=
      List.product_cons a as l2
    rw [e, List.foldl_append, List.foldl_map, List.foldl_cons, ih]

/-- The body of the release loops in one form for both branches. -/
theorem vf_release_m64_entry_eq {σ : Type} (step : σ → opal_call → Int × σ)
    (s : pnv_phb × sriov_pf × opal_fw σ) (i j : Nat) :
    vf_release_m64_entry step s i j =
      ({ s.1 with
         m64_bar_alloc :=
           if s.2.1.m64_wins i j = IODA_INVALID_M64 then s.1.m64_bar_alloc
           else clear_bit_int (s.2.1.m64_wins i j) s.1.m64_bar_alloc },
       { s.2.1 with
         m64_wins :=
           if s.2.1.m64_wins i j = IODA_INVALID_M64 then s.2.1.m64_wins
           else m64_wins_set s.2.1.m64_wins i j IODA_INVALID_M64 },
       if s.2.1.m64_wins i j = IODA_INVALID_M64 then s.2.2
       else (opal step s.2.2 (opal_call.opal_pci_phb_mmio_enable (s.2.1.m64_wins i j) 0)).2) := by
  unfold vf_release_m64_entry
  by_cases hv : s.2.1.m64_wins i j = IODA_INVALID_M64
  · simp only [hv, if_true]
  · simp only [hv, if_false]

/-- The release of the windows listed in `ps`: the state after the entries `ps` of
`m64_wins` have gone through the body of the release loops.  Every listed entry is
invalid, the bit of every window that a listed entry named is clear, nothing else has
changed on the bridge and the physical function. -/
theorem vf_release_m64_entries {σ : Type} (step : σ → opal_call → Int × σ) :
    ∀ (ps : List (Nat × Nat)) (s : pnv_phb × sriov_pf × opal_fw σ),
      ∃ (m : Nat → Bool) (w : Nat → Nat → Int) (fw2 : opal_fw σ),
        ps.foldl (fun s p => vf_release_m64_entry step s p.1 p.2) s =
          ({ s.1 with m64_bar_alloc := m }, { s.2.1 with m64_wins := w }, fw2) ∧
        (∀ k : Nat, m k =
          if ∃ p ∈ ps, s.2.1.m64_wins p.1 p.2 = (k : Int) then false
          else s.1.m64_bar_alloc k) ∧
        (∀ a b, w a b = if (a, b) ∈ ps then IODA_INVALID_M64 else s.2.1.m64_wins a b) := by
  intro ps
  induction ps with
  | nil => intro s; exact ⟨s.1.m64_bar_alloc, s.2.1.m64_wins, s.2.2, rfl, by simp, by simp⟩
  | cons p ps ih =>
    intro s
    rw [List.foldl_cons]
    obtain ⟨m, w, fw2, heq, hm, hw⟩ := ih (vf_release_m64_entry step s p.1 p.2)
    refine ⟨m, w, fw2, ?_, ?_, ?_⟩
    · rw [heq, vf_release_m64_entry_eq]
    · intro k
      rw [hm k, vf_release_m64_entry_eq]
      dsimp only
      by_cases hv : s.2.1.m64_wins p.1 p.2 = IODA_INVALID_M64
      · simp only [hv, if_true]
        have : (∃ q ∈ p :: ps, s.2.1.m64_wins q.1 q.2 = (k : Int)) ↔
            (∃ q ∈ ps, s.2.1.m64_wins q.1 q.2 = (k : Int)) := by
          constructor
          · rintro ⟨q, hq, hqw⟩
            rcases List.mem_cons.1 hq with h1 | h1
            · subst h1
              rw [hv] at hqw
              simp only [IODA_INVALID_M64] at hqw
              omega
            · exact ⟨q, h1, hqw⟩
          · rintro ⟨q, hq, hqw⟩
            exact ⟨q, List.mem_cons_of_mem _ hq, hqw⟩
        simp only [this]
      · simp only [hv, if_false]
        have hset : ∀ q : Nat × Nat,
            m64_wins_set s.2.1.m64_wins p.1 p.2 IODA_INVALID_M64 q.1 q.2 = (k : Int) ↔
              (q ≠ p ∧ s.2.1.m64_wins q.1 q.2 = (k : Int)) := by
          intro q
          simp only [m64_wins_set]
          by_cases hq : q = p
          · subst hq
            simp only [and_self, if_true, ne_eq, not_true_eq_false, false_and, iff_false,
              IODA_INVALID_M64]
            omega
          · have : ¬ (q.1 = p.1 ∧ q.2 = p.2) := fun hh => hq (Prod.ext hh.1 hh.2)
            simp [this, hq]
        by_cases hk : s.2.1.m64_wins p.1 p.2 = (k : Int)
        · have h1 : ∃ q ∈ p :: ps, s.2.1.m64_wins q.1 q.2 = (k : Int) :=
            ⟨p, List.mem_cons_self _ _, hk⟩
          rw [if_pos h1]
          split_ifs with h2
          · rfl
          · simp [clear_bit_int, hk, clear_bit]
        · have hcl : clear_bit_int (s.2.1.m64_wins p.1 p.2) s.1.m64_bar_alloc k =
              s.1.m64_bar_alloc k := by
            simp only [clear_bit_int]
            split_ifs with h0
            · simp only [clear_bit]
              rw [if_neg]
              intro hh
              apply hk
              omega
            · rfl
          rw [hcl]
          have : (∃ q ∈ ps,
              m64_wins_set s.2.1.m64_wins p.1 p.2 IODA_INVALID_M64 q.1 q.2 = (k : Int)) ↔
              (∃ q ∈ p :: ps, s.2.1.m64_wins q.1 q.2 = (k : Int)) := by
            constructor
            · rintro ⟨q, hq, hqw⟩
              exact ⟨q, List.mem_cons_of_mem _ hq, ((hset q).1 hqw).2⟩
            · rintro ⟨q, hq, hqw⟩
              rcases List.mem_cons.1 hq with h1 | h1
              · subst h1
                exact absurd hqw hk
              · refine ⟨q, h1, (hset q).2 ⟨?_, hqw⟩⟩
                intro hqp
                subst hqp
                exact hk hqw
          simp only [this]
    · intro a b
      rw [hw a b, vf_release_m64_entry_eq]
      dsimp only
      by_cases hab : (a, b) = p
      · subst hab
        by_cases hv : s.2.1.m64_wins a b = IODA_INVALID_M64
        · simp [hv]
        · simp [hv, m64_wins_set]
      · have h1 : ¬ (a = p.1 ∧ b = p.2) := fun hh => hab (Prod.ext hh.1 hh.2)
        by_cases hv : s.2.1.m64_wins p.1 p.2 = IODA_INVALID_M64
        · simp [hv, List.mem_cons, hab]
        · simp [hv, List.mem_cons, hab, m64_wins_set, h1]

/-- The function `pnv_pci_vf_release_m64` in closed form: every entry of `m64_wins` is
invalid afterwards, the bit of every window that an entry named is clear, and nothing else
has changed on the bridge and the physical function. -/
theorem vf_release_m64_spec {σ : Type} (step : σ → opal_call → Int × σ) (phb : pnv_phb)
    (pf : sriov_pf) (fw : opal_fw σ) :
    ∃ (m : Nat → Bool) (w : Nat → Nat → Int) (fw2 : opal_fw σ),
      pnv_pci_vf_release_m64 step phb pf fw =
        ({ phb with m64_bar_alloc := m }, { pf with m64_wins := w }, fw2) ∧
      (∀ k : Nat,
        ((∃ i j, i < PCI_SRIOV_NUM_BARS ∧ j < M64_PER_IOV ∧ pf.m64_wins i j = (k : Int)) →
          m k = false) ∧
        ((¬ ∃ i j, i < PCI_SRIOV_NUM_BARS ∧ j < M64_PER_IOV ∧ pf.m64_wins i j = (k : Int)) →
          m k = phb.m64_bar_alloc k)) ∧
      (∀ a b, w a b =
        if a < PCI_SRIOV_NUM_BARS ∧ b < M64_PER_IOV then IODA_INVALID_M64
        else pf.m64_wins a b) := by
  obtain ⟨m, w, fw2, heq, hm, hw⟩ := vf_release_m64_entries step
    (List.product (List.range PCI_SRIOV_NUM_BARS) (List.range M64_PER_IOV)) (phb, pf, fw)
  refine ⟨m, w, fw2, ?_, ?_, ?_⟩
  · unfold pnv_pci_vf_release_m64
    rw [foldl_product (fun s i j => vf_release_m64_entry step s i j)]
    exact heq
  · intro k
    rw [hm k]
    have : (∃ p ∈ List.product (List.range PCI_SRIOV_NUM_BARS) (List.range M64_PER_IOV),
        pf.m64_wins p.1 p.2 = (k : Int)) ↔
        (∃ i j, i < PCI_SRIOV_NUM_BARS ∧ j < M64_PER_IOV ∧ pf.m64_wins i j = (k : Int)) := by
      constructor
      · rintro ⟨⟨i, j⟩, hp, hk⟩
        rw [List.pair_mem_product] at hp
        exact ⟨i, j, List.mem_range.1 hp.1, List.mem_range.1 hp.2, hk⟩
      · rintro ⟨i, j, hi, hj, hk⟩
        exact ⟨(i, j), List.pair_mem_product.2 ⟨List.mem_range.2 hi, List.mem_range.2 hj⟩, hk⟩
    constructor
    · intro h
      rw [if_pos (this.2 h)]
    · intro h
      rw [if_neg (fun hh => h (this.1 hh))]
  · intro a b
    rw [hw a b]
    simp only [List.pair_mem_product, List.mem_range]

/-- The window loop of `pnv_pci_vf_assign_m64` exits in its first iteration: the bit it
finds is clear, so `test_and_set_bit` returns 0. -/
theorem vf_m64_win_loop_one (phb : pnv_phb) :
    vf_m64_win_loop 1 phb =
      if find_next_zero_bit phb.m64_bar_alloc (phb.m64_bar_idx + 1) 0 ≥ phb.m64_bar_idx + 1
      then some (none, phb)
      else some (some (find_next_zero_bit phb.m64_bar_alloc (phb.m64_bar_idx + 1) 0),
        { phb with
          m64_bar_alloc :=
            set_bit (find_next_zero_bit phb.m64_bar_alloc (phb.m64_bar_idx + 1) 0)
              phb.m64_bar_alloc }) := by
  obtain ⟨_, _, h3⟩ := find_next_zero_bit_spec phb.m64_bar_alloc (phb.m64_bar_idx + 1)
  simp only [vf_m64_win_loop]
  by_cases h : find_next_zero_bit phb.m64_bar_alloc (phb.m64_bar_idx + 1) 0 ≥
      phb.m64_bar_idx + 1
  · rw [if_pos h, if_pos h]
  · rw [if_neg h, if_neg h, h3 (by omega)]
    simp

/-- The outcomes of the body of the window loops: either no window was taken and only the
firmware has moved on, or the lowest free window `win` was taken and recorded in
`m64_wins[i][j]`. -/
theorem vf_assign_m64_window_shape {σ : Type} (step : σ → opal_call → Int × σ) (dz : Nat)
    (vf_per_group : Nat) (s : pnv_phb × sriov_pf × opal_fw σ) (i j : Nat) :
    (vf_assign_m64_window step dz vf_per_group s i j = (false, s)) ∨
    (∃ (win : Nat) (fw2 : opal_fw σ) (ok : Bool),
      win < s.1.m64_bar_idx + 1 ∧ s.1.m64_bar_alloc win = false ∧
      vf_assign_m64_window step dz vf_per_group s i j =
        (ok, ({ s.1 with m64_bar_alloc := set_bit win s.1.m64_bar_alloc },
              { s.2.1 with m64_wins := m64_wins_set s.2.1.m64_wins i j (win : Int) },
              fw2))) := by
  obtain ⟨_, _, h3⟩ := find_next_zero_bit_spec s.1.m64_bar_alloc (s.1.m64_bar_idx + 1)
  unfold vf_assign_m64_window
  rw [vf_m64_win_loop_one]
  by_cases h : find_next_zero_bit s.1.m64_bar_alloc (s.1.m64_bar_idx + 1) 0 ≥
      s.1.m64_bar_idx + 1
  · left
    rw [if_pos h]
  · right
    rw [if_neg h]
    refine ⟨find_next_zero_bit s.1.m64_bar_alloc (s.1.m64_bar_idx + 1) 0, ?_⟩
    dsimp only
    split_ifs <;> exact ⟨_, _, by omega, h3 (by omega), rfl⟩

/-- The body of the window loops keeps the bookkeeping of the window registers, provided
the entry it fills was invalid. -/
theorem vf_assign_m64_window_inv {σ : Type} (step : σ → opal_call → Int × σ) (dz : Nat)
    (vf_per_group : Nat) (orig : Nat → Bool) (s : pnv_phb × sriov_pf × opal_fw σ) (i j : Nat)
    (hi : i < PCI_SRIOV_NUM_BARS) (hj : j < M64_PER_IOV)
    (hinv : m64_wins_inv orig s.1.m64_bar_alloc s.2.1.m64_wins)
    (hfree : s.2.1.m64_wins i j = IODA_INVALID_M64) :
    ∃ (ok : Bool) (m : Nat → Bool) (w : Nat → Nat → Int) (fw2 : opal_fw σ),
      vf_assign_m64_window step dz vf_per_group s i j =
        (ok, ({ s.1 with m64_bar_alloc := m }, { s.2.1 with m64_wins := w }, fw2)) ∧
      m64_wins_inv orig m w ∧
      (∀ a b, (a, b) ≠ (i, j) → w a b = s.2.1.m64_wins a b) := by
  rcases vf_assign_m64_window_shape step dz vf_per_group s i j with h | ⟨win, fw2, ok, _, hw, h⟩
  · exact ⟨false, s.1.m64_bar_alloc, s.2.1.m64_wins, s.2.2, by rw [h], hinv, fun _ _ _ => rfl⟩
  · refine ⟨ok, _, _, fw2, h, ⟨?_, ?_⟩, ?_⟩
    · intro k
      simp only [set_bit]
      by_cases hk : k = win
      · subst hk
        simp only [if_true, true_iff]
        exact Or.inr ⟨i, j, hi, hj, by simp [m64_wins_set]⟩
      · rw [if_neg hk, hinv.1 k]
        constructor
        · rintro (h1 | ⟨a, b, ha, hb, hab⟩)
          · exact Or.inl h1
          · refine Or.inr ⟨a, b, ha, hb, ?_⟩
            simp only [m64_wins_set]
            split_ifs with h2
            · exfalso
              rw [h2.1, h2.2, hfree] at hab
              simp only [IODA_INVALID_M64] at hab
              omega
            · exact hab
        · rintro (h1 | ⟨a, b, ha, hb, hab⟩)
          · exact Or.inl h1
          · simp only [m64_wins_set] at hab
            split_ifs at hab with h2
            · exfalso
              apply hk
              omega
            · exact Or.inr ⟨a, b, ha, hb, hab⟩
    · intro a b ha hb hab
      simp only [m64_wins_set] at hab ⊢
      split_ifs at hab ⊢ with h2
      · refine ⟨win, rfl, ?_⟩
        cases horig : orig win with
        | false => rfl
        | true =>
          have := (hinv.1 win).2 (Or.inl horig)
          rw [hw] at this
          exact absurd this (by simp)
      · exact hinv.2 a b ha hb hab
    · intro a b hab
      simp only [m64_wins_set]
      rw [if_neg]
      intro hh
      exact hab (Prod.ext hh.1 hh.2)

/-- The window loops keep the bookkeeping of the window registers. -/
theorem vf_assign_m64_loop_inv {σ : Type} (step : σ → opal_call → Int × σ) (dz : Nat)
    (vf_per_group : Nat) (orig : Nat → Bool) :
    ∀ (pairs : List (Nat × Nat)) (s : pnv_phb × sriov_pf × opal_fw σ),
      pairs.Nodup → (∀ p ∈ pairs, p.1 < PCI_SRIOV_NUM_BARS ∧ p.2 < M64_PER_IOV) →
      m64_wins_inv orig s.1.m64_bar_alloc s.2.1.m64_wins →
      (∀ p ∈ pairs, s.2.1.m64_wins p.1 p.2 = IODA_INVALID_M64) →
      ∃ (ok : Bool) (m : Nat → Bool) (w : Nat → Nat → Int) (fw2 : opal_fw σ),
        vf_assign_m64_loop step dz vf_per_group pairs s =
          (ok, ({ s.1 with m64_bar_alloc := m }, { s.2.1 with m64_wins := w }, fw2)) ∧
        m64_wins_inv orig m w := by
  intro pairs
  induction pairs with
  | nil =>
    intro s _ _ hinv _
    exact ⟨true, s.1.m64_bar_alloc, s.2.1.m64_wins, s.2.2, rfl, hinv⟩
  | cons p ps ih =>
    intro s hnd hlt hinv hfree
    obtain ⟨ok, m, w, fw2, heq, hinv2, hsame⟩ := vf_assign_m64_window_inv step dz vf_per_group
      orig s p.1 p.2 (hlt p (List.mem_cons_self _ _)).1 (hlt p (List.mem_cons_self _ _)).2 hinv
      (hfree p (List.mem_cons_self _ _))
    simp only [vf_assign_m64_loop]
    rw [heq]
    cases ok with
    | false => exact ⟨false, m, w, fw2, by simp, hinv2⟩
    | true =>
      simp only [if_true]
      have hnd2 := List.nodup_cons.1 hnd
      obtain ⟨ok3, m3, w3, fw3, heq3, hinv3⟩ :=
        ih ({ s.1 with m64_bar_alloc := m }, { s.2.1 with m64_wins := w }, fw2) hnd2.2
          (fun q hq => hlt q (List.mem_cons_of_mem _ hq)) hinv2
          (fun q hq => by
            have hne : (q.1, q.2) ≠ (p.1, p.2) := by
              intro hh
              have : q = p := Prod.ext (by simpa using congrArg Prod.fst hh)
                (by simpa using congrArg Prod.snd hh)
              exact hnd2.1 (this ▸ hq)
            show w q.1 q.2 = IODA_INVALID_M64
            rw [hsame q.1 q.2 hne]
            exact hfree q (List.mem_cons_of_mem _ hq))
      exact ⟨ok3, m3, w3, fw3, by rw [heq3], hinv3⟩

/-- The function `pnv_pci_vf_assign_m64` touches only the window bitmap, the window entries
and the firmware.  It returns 0 or `-EBUSY`.  When it returns 0 the windows it took are
recorded in the entries; when it fails the window bitmap is as it was before the call and
every entry is invalid. -/
theorem vf_assign_m64_spec {σ : Type} (step : σ → opal_call → Int × σ) (dz : Nat)
    (phb : pnv_phb) (pf : sriov_pf) (fw : opal_fw σ) (vf_num : Nat) :
    ∃ (rc : Int) (m : Nat → Bool) (w : Nat → Nat → Int) (fw2 : opal_fw σ),
      pnv_pci_vf_assign_m64 step dz phb pf fw vf_num =
        (rc, ({ phb with m64_bar_alloc := m }, { pf with m64_wins := w }, fw2)) ∧
      (rc = 0 ∨ rc = - EBUSY) ∧
      (rc = 0 → m64_wins_inv phb.m64_bar_alloc m w) ∧
      (rc ≠ 0 → m = phb.m64_bar_alloc ∧
        ∀ i j, i < PCI_SRIOV_NUM_BARS → j < M64_PER_IOV → w i j = IODA_INVALID_M64) := by
  have hgroups : (if pf.m64_per_iov = M64_PER_IOV then
      (if vf_num ≤ M64_PER_IOV then vf_num else M64_PER_IOV) else 1) ≤ M64_PER_IOV := by
    simp only [M64_PER_IOV]
    split_ifs <;> omega
  obtain ⟨ok, m, w, fw2, heq, hinv⟩ := vf_assign_m64_loop_inv step dz
    (if pf.m64_per_iov = M64_PER_IOV then
      (if vf_num ≤ M64_PER_IOV then 1 else roundup_pow_of_two vf_num / M64_PER_IOV) else 1)
    phb.m64_bar_alloc
    (vf_assign_m64_pairs
      { pf with
        m64_wins := fun i j =>
          if i < PCI_SRIOV_NUM_BARS ∧ j < M64_PER_IOV then IODA_INVALID_M64
          else pf.m64_wins i j }
      (if pf.m64_per_iov = M64_PER_IOV then
        (if vf_num ≤ M64_PER_IOV then vf_num else M64_PER_IOV) else 1))
    (phb,
      { pf with
        m64_wins := fun i j =>
          if i < PCI_SRIOV_NUM_BARS ∧ j < M64_PER_IOV then IODA_INVALID_M64
          else pf.m64_wins i j }, fw)
    (List.Nodup.product ((List.nodup_range _).filter _) (List.nodup_range _))
    (by
      intro p hp
      have hp2 : (p.1, p.2) ∈ List.product
          ((List.range PCI_SRIOV_NUM_BARS).filter (fun i => vf_bar_is_m64 (pf.resource i)))
          (List.range (if pf.m64_per_iov = M64_PER_IOV then
            (if vf_num ≤ M64_PER_IOV then vf_num else M64_PER_IOV) else 1)) := hp
      rw [List.pair_mem_product] at hp2
      have h1 := List.mem_range.1 (List.mem_filter.1 hp2.1).1
      have h2 := List.mem_range.1 hp2.2
      exact ⟨h1, by omega⟩)
    (by
      constructor
      · intro k
        constructor
        · intro h; exact Or.inl h
        · rintro (h | ⟨i, j, hi, hj, hij⟩)
          · exact h
          · exfalso
            simp only [hi, hj, and_self, if_true, IODA_INVALID_M64] at hij
            omega
      · intro i j hi hj hij
        exfalso
        apply hij
        simp only [hi, hj, and_self, if_true])
    (by
      intro p hp
      have hp2 : (p.1, p.2) ∈ List.product
          ((List.range PCI_SRIOV_NUM_BARS).filter (fun i => vf_bar_is_m64 (pf.resource i)))
          (List.range (if pf.m64_per_iov = M64_PER_IOV then
            (if vf_num ≤ M64_PER_IOV then vf_num else M64_PER_IOV) else 1)) := hp
      rw [List.pair_mem_product] at hp2
      have h1 := List.mem_range.1 (List.mem_filter.1 hp2.1).1
      have h2 := List.mem_range.1 hp2.2
      have h3 : p.2 < M64_PER_IOV := by omega
      simp only [h1, h3, and_self, if_true])
  unfold pnv_pci_vf_assign_m64
  dsimp only
  rw [heq]
  cases ok with
  | true =>
    refine ⟨0, m, w, fw2, by simp, Or.inl rfl, fun _ => hinv, fun h => absurd rfl h⟩
  | false =>
    obtain ⟨m2, w2, fw3, heq2, hm2, hw2⟩ := vf_release_m64_spec step
      { phb with m64_bar_alloc := m }
      { pf with m64_wins := w } fw2
    refine ⟨- EBUSY, m2, w2, fw3, ?_, Or.inr rfl, fun h => absurd h (by decide), fun _ => ⟨?_, ?_⟩⟩
    · simp only [Bool.false_eq_true, if_false]
      rw [heq2]
    · funext k
      by_cases hk : ∃ i j, i < PCI_SRIOV_NUM_BARS ∧ j < M64_PER_IOV ∧ w i j = (k : Int)
      · rw [(hm2 k).1 hk]
        obtain ⟨i, j, hi, hj, hij⟩ := hk
        obtain ⟨k2, hk2, horig⟩ := hinv.2 i j hi hj (by
          rw [hij]; simp only [IODA_INVALID_M64]; omega)
        have : k2 = k := by omega
        rw [← this, horig]
      · rw [(hm2 k).2 hk]
        show m k = phb.m64_bar_alloc k
        cases hmk : m k with
        | true =>
          rcases (hinv.1 k).1 hmk with h | h
          · exact h.symm
          · exact absurd h hk
        | false =>
          cases horig : phb.m64_bar_alloc k with
          | false => rfl
          | true =>
            have := (hinv.1 k).2 (Or.inl horig)
            rw [hmk] at this
            exact absurd this (by simp)
    · intro i j hi hj
      rw [hw2 i j]
      simp only [hi, hj, and_self, if_true]

/-- A retry loop that gives up has found no free run of any length from 1 to the count. -/
theorem sriov_try_again_none (a : Nat → Bool) (t : Nat) :
    ∀ n, sriov_try_again a t n = none →
      ∀ m, 1 ≤ m → m ≤ n → ∀ b, b + m ≤ t → ¬ free_run a b m := by
  intro n
  induction n with
  | zero => intro _ m h1 h2; omega
  | succ n ih =>
    intro h m h1 h2 b hb
    simp only [sriov_try_again] at h
    split_ifs at h with hge
    by_cases hm : m = n + 1
    · subst hm
      exact (bitmap_find_next_zero_area_spec a t (n + 1) (by omega)).2 hge b hb
    · exact ih h m h1 (by omega) b hb

/-- The result of the retry loop: the largest count up to the one asked for that has a
free run, and the lowest base of such a run. -/
theorem sriov_try_again_some (a : Nat → Bool) (t : Nat) :
    ∀ n base m, sriov_try_again a t n = some (base, m) →
      1 ≤ m ∧ m ≤ n ∧ base + m ≤ t ∧ free_run a base m ∧
      (∀ b, b < base → ¬ free_run a b m) ∧
      (∀ m2, m < m2 → m2 ≤ n → ∀ b, b + m2 ≤ t → ¬ free_run a b m2) := by
  intro n
  induction n with
  | zero => intro base m h; simp [sriov_try_again] at h
  | succ n ih =>
    intro base m h
    simp only [sriov_try_again] at h
    split_ifs at h with hge
    · obtain ⟨h1, h2, h3, h4, h5, h6⟩ := ih base m h
      refine ⟨h1, by omega, h3, h4, h5, ?_⟩
      intro m2 hm2 hle b hb
      by_cases hm : m2 = n + 1
      · subst hm
        exact (bitmap_find_next_zero_area_spec a t (n + 1) (by omega)).2 hge b hb
      · exact h6 m2 hm2 (by omega) b hb
    · simp only [Option.some.injEq, Prod.mk.injEq] at h
      obtain ⟨hb, hm⟩ := h
      subst hm
      subst hb
      obtain ⟨h3, h4, h5⟩ :=
        (bitmap_find_next_zero_area_spec a t (n + 1) (by omega)).1 (by omega)
      exact ⟨by omega, le_refl _, h3, h4, h5, fun m2 h1 h2 => by omega⟩

/-- The retry loop gives up exactly when no slot below `total_pe` is free. -/
theorem sriov_try_again_none_iff (a : Nat → Bool) (t n : Nat) (hn : 1 ≤ n) :
    sriov_try_again a t n = none ↔ ∀ k, k < t → a k = true := by
  constructor
  · intro h k hk
    have := sriov_try_again_none a t n h 1 (le_refl _) hn k (by omega)
    cases hak : a k with
    | true => rfl
    | false =>
      exfalso
      apply this
      intro j hj
      have : j = 0 := by omega
      subst this
      simpa using hak
  · intro h
    cases hr : sriov_try_again a t n with
    | none => rfl
    | some r =>
      exfalso
      obtain ⟨h1, _, h3, h4, _, _⟩ := sriov_try_again_some a t n r.1 r.2 hr
      have := h4 0 (by omega)
      rw [Nat.add_zero, h r.1 (by omega)] at this
      exact absurd this (by simp)

/-- The slots that the reservation block hands out were free. -/
theorem sriov_reserve_free (a : Nat → Bool) (t vf_num base n : Nat)
    (h : sriov_reserve a t vf_num = some (base, n)) : free_run a base n := by
  unfold sriov_reserve at h
  split_ifs at h with h0 hge
  · exact (sriov_try_again_some a t 65535 base n h).2.2.2.1
  · simp only [Option.some.injEq, Prod.mk.injEq] at h
    rw [← h.2]
    intro k hk
    omega
  · exact (sriov_try_again_some a t vf_num base n h).2.2.2.1

/-- The function `pnv_pci_sriov_enable` on a modern bridge when the reservation has
succeeded and the M64 assignment fails: the bridge is as before the call, the offset is
0 and every window entry is invalid. -/
theorem sriov_enable_m64_failed {σ : Type} (step : σ → opal_call → Int × σ)
    (env : kernel_env σ) (topo : pci_topology) (s : sriov_state σ) (vf_num base n : Nat)
    (htype : s.phb.type = pnv_phb_type.PNV_PHB_IODA2)
    (hres : sriov_reserve s.phb.pe_alloc s.phb.total_pe vf_num = some (base, n))
    (hfail : (pnv_pci_vf_assign_m64 step env.dz
        { s.phb with pe_alloc := bitmap_set s.phb.pe_alloc base n }
        { s.pf with offset := base, vf_pes := n } s.fw n).1 ≠ 0) :
    ∃ (w : Nat → Nat → Int) (fw2 : opal_fw σ),
      pnv_pci_sriov_enable step env topo s vf_num =
        some (- EBUSY,
          { phb := s.phb
            pf := { s.pf with offset := 0, vf_pes := n, m64_wins := w }
            fw := fw2 }) ∧
      ∀ i j, i < PCI_SRIOV_NUM_BARS → j < M64_PER_IOV → w i j = IODA_INVALID_M64 := by
  obtain ⟨rc, m, w, fw2, heq, hrc, _, hbad⟩ := vf_assign_m64_spec step env.dz
    { s.phb with pe_alloc := bitmap_set s.phb.pe_alloc base n }
    { s.pf with offset := base, vf_pes := n } s.fw n
  rw [heq] at hfail
  have hrc2 : rc = - EBUSY := by
    rcases hrc with h | h
    · exact absurd h hfail
    · exact h
  obtain ⟨hm, hw⟩ := hbad hfail
  have hm2 : m = s.phb.m64_bar_alloc := hm
  have hclr := bitmap_clear_set_of_free s.phb.pe_alloc base n
    (sriov_reserve_free _ _ _ _ _ hres)
  refine ⟨w, fw2, ?_, hw⟩
  unfold pnv_pci_sriov_enable
  rw [if_pos htype, hres]
  dsimp only
  rw [heq]
  dsimp only
  rw [if_pos hfail, hrc2, hclr, hm2]

/-- C16: rollback of a failed M64 assignment.  For every modern bridge, physical function,
firmware and requested count: when the reservation block of `pnv_pci_sriov_enable` has
found a range (`base`, `n`) and the call of `pnv_pci_vf_assign_m64` that enable then makes
fails (for whatever reason: no free window register, a failing set or enable call, at any
BAR and group), enable returns the error `-EBUSY`, the bridge is exactly as before the
call (PE slot bitmap, M64 window bitmap, every PE slot, PE list and reverse map: no VF PE
has been set up), every entry `m64_wins[i][j]` is invalid and the recorded offset is 0. -/
theorem C16_m64_failure_rolls_back {σ : Type} (step : σ → opal_call → Int × σ)
    (env : kernel_env σ) (topo : pci_topology) (s : sriov_state σ) (vf_num base n : Nat)
    (htype : s.phb.type = pnv_phb_type.PNV_PHB_IODA2)
    (hres : sriov_reserve s.phb.pe_alloc s.phb.total_pe vf_num = some (base, n))
    (hfail : (pnv_pci_vf_assign_m64 step env.dz
        { s.phb with pe_alloc := bitmap_set s.phb.pe_alloc base n }
        { s.pf with offset := base, vf_pes := n } s.fw n).1 ≠ 0) :
    ∃ (rc : Int) (s2 : sriov_state σ),
      pnv_pci_sriov_enable step env topo s vf_num = some (rc, s2) ∧
      rc ≠ 0 ∧ rc = - EBUSY ∧
      s2.phb = s.phb ∧
      s2.phb.pe_alloc = s.phb.pe_alloc ∧
      s2.phb.m64_bar_alloc = s.phb.m64_bar_alloc ∧
      (∀ i j, i < PCI_SRIOV_NUM_BARS → j < M64_PER_IOV →
        s2.pf.m64_wins i j = IODA_INVALID_M64) ∧
      s2.pf.offset = 0 := by
  obtain ⟨w, fw2, heq, hw⟩ := sriov_enable_m64_failed step env topo s vf_num base n htype
    hres hfail
  exact ⟨_, _, heq, by decide, rfl, rfl, rfl, rfl, hw, rfl⟩

set_option maxRecDepth 100000 in
/-- C16 on the example: 4 VFs are asked for, the slots 3 to 6 are reserved, the firmware
fails the window set-up call; enable returns `-EBUSY` and the bridge is as before. -/
theorem C16_m64_failure_rolls_back_witness :
    ∃ (rc : Int) (s2 : sriov_state Unit),
      pnv_pci_sriov_enable fw_mem_window_fails ddw_env_example two_segment_configured.1
        sriov_example 4 = some (rc, s2) ∧
      rc ≠ 0 ∧ rc = - EBUSY ∧
      s2.phb = sriov_example.phb ∧
      s2.phb.pe_alloc = sriov_example.phb.pe_alloc ∧
      s2.phb.m64_bar_alloc = sriov_example.phb.m64_bar_alloc ∧
      (∀ i j, i < PCI_SRIOV_NUM_BARS → j < M64_PER_IOV →
        s2.pf.m64_wins i j = IODA_INVALID_M64) ∧
      s2.pf.offset = 0 :=
  C16_m64_failure_rolls_back fw_mem_window_fails ddw_env_example two_segment_configured.1
    sriov_example 4 3 4 (by decide) (by decide) (by decide)

/-- What `pnv_ioda_configure_pe` does to the bridge: nothing when it fails; when it
succeeds it fills the reverse map and sets `mve_number` of the PE. -/
theorem configure_pe_result {σ : Type} (step : σ → opal_call → Int × σ) (topo : pci_topology)
    (phb : pnv_phb) (fw : opal_fw σ) (pe_no : Nat) (r : Int × pnv_phb × opal_fw σ)
    (h : pnv_ioda_configure_pe step topo phb fw pe_no = some r) :
    (r.1 ≠ 0 ∧ r.2.1 = phb) ∨
    (r.1 = 0 ∧ ∃ (x : Int) (rm : Nat → Nat),
      r.2.1 = set_pe { phb with pe_rmap := rm } pe_no
        { phb.pe_array pe_no with mve_number := x }) := by
  simp only [pnv_ioda_configure_pe] at h
  cases hm : configure_pe_match topo (phb.pe_array pe_no) with
  | none =>
    rw [hm] at h
    exact absurd h (by simp)
  | some m =>
    rw [hm] at h
    simp only [peltv_parents_eq] at h
    split at h
    · simp only [Option.some.injEq] at h
      subst h
      exact Or.inl ⟨by simp [ ENXIO], rfl⟩
    · cases hrows : ancestor_rows topo topo.ndevs m.parent with
      | none =>
        rw [hrows] at h
        simp at h
      | some rows =>
        rw [hrows] at h
        simp only [Option.map_some', Option.some.injEq] at h
        subst h
        obtain ⟨x, hx⟩ := configure_mve_fields step phb.type (phb.pe_array pe_no)
          (rows.foldl (fun f p => (opal step f
              (opal_call.opal_pci_set_peltv p (phb.pe_array pe_no).pe_number
                OpalPeltvAction.OPAL_ADD_PE_TO_DOMAIN)).2)
            (opal step
              (opal step
                (opal step fw
                  (opal_call.opal_pci_set_pe (phb.pe_array pe_no).pe_number
                    (phb.pe_array pe_no).rid m.bcomp m.dcomp m.fcomp
                    OpalPeAction.OPAL_MAP_PE)).2
                (opal_call.opal_pci_set_peltv ((phb.pe_array pe_no).pe_number : Int)
                  (phb.pe_array pe_no).pe_number OpalPeltvAction.OPAL_ADD_PE_TO_DOMAIN)).2
              (opal_call.opal_pci_eeh_freeze_clear (phb.pe_array pe_no).pe_number
                OpalEehFreezeActionToken.OPAL_EEH_ACTION_CLEAR_FREEZE_ALL)).2)
        refine Or.inr ⟨rfl, x,
          rmap_fill phb.pe_rmap (phb.pe_array pe_no).rid m.rid_end
            (phb.pe_array pe_no).pe_number, ?_⟩
        dsimp only
        rw [hx]

/-- The bypass set-up changes no back-reference, number or flag of the PE. -/
theorem setup_bypass_pe_fields {σ : Type} (step : σ → opal_call → Int × σ)
    (env : kernel_env σ) (pe : pnv_ioda_pe) (fw : opal_fw σ) :
    (pnv_pci_ioda2_setup_bypass_pe step env pe fw).1.parent_dev = pe.parent_dev ∧
    (pnv_pci_ioda2_setup_bypass_pe step env pe fw).1.pe_number = pe.pe_number ∧
    (pnv_pci_ioda2_setup_bypass_pe step env pe fw).1.flags = pe.flags ∧
    (pnv_pci_ioda2_setup_bypass_pe step env pe fw).1.pbus = pe.pbus := by
  simp only [pnv_pci_ioda2_setup_bypass_pe, pnv_pci_ioda2_set_bypass]
  split_ifs <;> exact ⟨rfl, rfl, rfl, rfl⟩

/-- The modern DMA set-up writes only the slot of its PE and changes no back-reference,
number or flag there. -/
theorem setup_dma_pe_frame {σ : Type} (step : σ → opal_call → Int × σ) (env : kernel_env σ)
    (phb : pnv_phb) (fw : opal_fw σ) (pe_no : Nat) :
    ∃ pe2 : pnv_ioda_pe,
      (pnv_pci_ioda2_setup_dma_pe step env phb fw pe_no).1 = set_pe phb pe_no pe2 ∧
      pe2.parent_dev = (phb.pe_array pe_no).parent_dev ∧
      pe2.pe_number = (phb.pe_array pe_no).pe_number ∧
      pe2.flags = (phb.pe_array pe_no).flags ∧
      pe2.pbus = (phb.pe_array pe_no).pbus := by
  unfold pnv_pci_ioda2_setup_dma_pe
  dsimp only
  by_cases h1 : (phb.pe_array pe_no).tce32_seg ≥ 0
  · rw [if_pos h1]
    exact ⟨phb.pe_array pe_no, (set_pe_self phb pe_no).symm, rfl, rfl, rfl, rfl⟩
  · rw [if_neg h1]
    cases ha : (alloc_pages env fw (env.get_order
        (u32 (u32 (1 <<< Nat.log2 phb.m32_pci_base) / 0x1000 * 8)))).1 with
    | none => exact ⟨_, rfl, rfl, rfl, rfl, rfl⟩
    | some addr =>
      dsimp only
      split_ifs
      · exact ⟨_, rfl, rfl, rfl, rfl, rfl⟩
      · obtain ⟨f1, f2, f3, f4⟩ := setup_bypass_pe_fields step env
          { ({ phb.pe_array pe_no with tce32_seg := 0 } : pnv_ioda_pe) with
            tce32_it_base := addr }
          (opal step (alloc_pages env fw (env.get_order
              (u32 (u32 (1 <<< Nat.log2 phb.m32_pci_base) / 0x1000 * 8)))).2
            (opal_call.opal_pci_map_pe_dma_window (phb.pe_array pe_no).pe_number
              ((phb.pe_array pe_no).pe_number <<< 1) 1 addr
              (u32 (u32 (1 <<< Nat.log2 phb.m32_pci_base) / 0x1000 * 8)) 0x1000)).2
        exact ⟨_, rfl, f1, f2, f3, f4⟩

/-- A step that touches only the slot and the bit of one PE of the range keeps
`vf_range_inv`, provided the slot fits the range afterwards. -/
theorem vf_range_inv_step (pdev base n : Nat) (orig : pnv_phb) (l l2 : List Nat)
    (phb phb2 : pnv_phb) (pe_num : Nat)
    (hinv : vf_range_inv pdev base n orig l phb)
    (hr : base ≤ pe_num ∧ pe_num < base + n)
    (hm : phb2.m64_bar_alloc = phb.m64_bar_alloc) (ht : phb2.type = phb.type)
    (ha : ∀ k, k ≠ pe_num → phb2.pe_alloc k = phb.pe_alloc k)
    (hs : ∀ p, p ≠ pe_num → phb2.pe_array p = phb.pe_array p)
    (hslot : vf_slot_ok pdev base n phb2 pe_num)
    (hl : ∀ p, p ∈ l2 → p ∈ l ∨ p = pe_num) :
    vf_range_inv pdev base n orig l2 phb2 := by
  obtain ⟨i1, i2, i3, i4⟩ := hinv
  refine ⟨hm.trans i1, ht.trans i2, ?_, ?_⟩
  · intro k hk
    rw [ha k (by omega)]
    exact i3 k hk
  · intro p hp
    by_cases hpe : p = pe_num
    · subst hpe
      exact hslot
    · rcases hl p hp with h | h
      · have := i4 p h
        unfold vf_slot_ok at this ⊢
        rw [hs p hpe]
        exact this
      · exact absurd h hpe

/-- The body of the VF loop of `pnv_ioda_setup_vf_PE` keeps `vf_range_inv` for the PE
list. -/
theorem setup_vf_PE_one_inv {σ : Type} (step : σ → opal_call → Int × σ) (env : kernel_env σ)
    (topo : pci_topology) (pf : sriov_pf) (orig : pnv_phb) (base n : Nat)
    (s s1 : pnv_phb × opal_fw σ) (vf_index : Nat)
    (hoff : pf.offset = base) (hidx : vf_index < n)
    (hinv : vf_range_inv pf.pdev base n orig s.1.pe_list s.1)
    (h : setup_vf_PE_one step env topo pf s vf_index = some s1) :
    vf_range_inv pf.pdev base n orig s1.1.pe_list s1.1 := by
  unfold setup_vf_PE_one at h
  dsimp only at h
  cases hc : pnv_ioda_configure_pe step topo
      (setup_vf_PE_slot s.1 (pf.offset + vf_index) pf.pdev
        ((pf.virtfn_bus vf_index <<< 8) ||| pf.virtfn_devfn vf_index)) s.2
      (pf.offset + vf_index) with
  | none =>
    rw [hc] at h
    exact absurd h (by simp)
  | some r =>
    rw [hc] at h
    dsimp only at h
    have hr : base ≤ pf.offset + vf_index ∧ pf.offset + vf_index < base + n := by omega
    rcases configure_pe_result step topo _ s.2 _ r hc with ⟨hrc, hphb⟩ | ⟨hrc, x, rm, hphb⟩
    · rw [if_pos hrc, hphb] at h
      simp only [Option.some.injEq] at h
      subst h
      by_cases h0 : pf.offset + vf_index ≠ 0
      · rw [if_pos h0]
        apply vf_range_inv_step pf.pdev base n orig s.1.pe_list _ s.1 _ (pf.offset + vf_index)
          hinv hr
        · rfl
        · rfl
        · intro k hk
          simp [set_pe, pnv_ioda_free_pe, setup_vf_PE_slot, clear_bit, hk]
        · intro p hp
          simp [set_pe, pnv_ioda_free_pe, setup_vf_PE_slot, array_set, hp]
        · intro hpar
          simp [set_pe, pnv_ioda_free_pe, array_set, pnv_ioda_pe.zero] at hpar
        · intro p hp
          exact Or.inl hp
      · rw [if_neg h0]
        apply vf_range_inv_step pf.pdev base n orig s.1.pe_list _ s.1 _ (pf.offset + vf_index)
          hinv hr
        · rfl
        · rfl
        · intro k _
          simp [set_pe, setup_vf_PE_slot]
        · intro p hp
          simp [set_pe, setup_vf_PE_slot, array_set, hp]
        · intro _
          refine ⟨hr.1, hr.2, ?_, ?_, ?_⟩ <;> simp [set_pe, setup_vf_PE_slot, array_set]
        · intro p hp
          exact Or.inl hp
    · rw [if_neg (not_not.2 hrc), hphb] at h
      simp only [Option.some.injEq] at h
      subst h
      obtain ⟨pe2, hd, f1, f2, f3, f4⟩ := setup_dma_pe_frame step env
        { (set_pe { (setup_vf_PE_slot s.1 (pf.offset + vf_index) pf.pdev
              ((pf.virtfn_bus vf_index <<< 8) ||| pf.virtfn_devfn vf_index)) with pe_rmap := rm }
            (pf.offset + vf_index)
            { (setup_vf_PE_slot s.1 (pf.offset + vf_index) pf.pdev
                ((pf.virtfn_bus vf_index <<< 8) ||| pf.virtfn_devfn vf_index)).pe_array
                (pf.offset + vf_index) with mve_number := x }) with
          pe_list := (set_pe { (setup_vf_PE_slot s.1 (pf.offset + vf_index) pf.pdev
              ((pf.virtfn_bus vf_index <<< 8) ||| pf.virtfn_devfn vf_index)) with pe_rmap := rm }
            (pf.offset + vf_index)
            { (setup_vf_PE_slot s.1 (pf.offset + vf_index) pf.pdev
                ((pf.virtfn_bus vf_index <<< 8) ||| pf.virtfn_devfn vf_index)).pe_array
                (pf.offset + vf_index) with mve_number := x }).pe_list ++
            [pf.offset + vf_index] }
        r.2.2 (pf.offset + vf_index)
      rw [hd]
      apply vf_range_inv_step pf.pdev base n orig s.1.pe_list _ s.1 _ (pf.offset + vf_index)
        hinv hr
      · rfl
      · rfl
      · intro k _
        simp [set_pe, setup_vf_PE_slot]
      · intro p hp
        simp [set_pe, setup_vf_PE_slot, array_set, hp]
      · intro _
        simp only [set_pe_pe_array_same]
        refine ⟨hr.1, hr.2, ?_, ?_, ?_⟩
        · rw [f2]; simp [set_pe, setup_vf_PE_slot, array_set]
        · rw [f3]; simp [set_pe, setup_vf_PE_slot, array_set]
        · rw [f4]; simp [set_pe, setup_vf_PE_slot, array_set]
      · intro p hp
        simp only [set_pe, setup_vf_PE_slot, List.mem_append, List.mem_singleton] at hp
        exact hp

/-- The VF loop of `pnv_ioda_setup_vf_PE` keeps `vf_range_inv` for the PE list. -/
theorem setup_vf_PE_loop_inv {σ : Type} (step : σ → opal_call → Int × σ) (env : kernel_env σ)
    (topo : pci_topology) (pf : sriov_pf) (orig : pnv_phb) (base n : Nat)
    (hoff : pf.offset = base) :
    ∀ (l : List Nat) (s s1 : pnv_phb × opal_fw σ), (∀ i, i ∈ l → i < n) →
      vf_range_inv pf.pdev base n orig s.1.pe_list s.1 →
      setup_vf_PE_loop step env topo pf l s = some s1 →
      vf_range_inv pf.pdev base n orig s1.1.pe_list s1.1 := by
  intro l
  induction l with
  | nil =>
    intro s s1 _ hinv h
    simp only [setup_vf_PE_loop, Option.some.injEq] at h
    subst h
    exact hinv
  | cons i rest ih =>
    intro s s1 hl hinv h
    simp only [setup_vf_PE_loop] at h
    cases h1 : setup_vf_PE_one step env topo pf s i with
    | none =>
      rw [h1] at h
      exact absurd h (by simp)
    | some s2 =>
      rw [h1] at h
      exact ih s2 s1 (fun j hj => hl j (List.mem_cons_of_mem _ hj))
        (setup_vf_PE_one_inv step env topo pf orig base n s s2 i hoff
          (hl i (List.mem_cons_self _ _)) hinv h1) h

/-- The function `pnv_ioda_setup_vf_PE` keeps `vf_range_inv` for the PE list. -/
theorem setup_vf_PE_inv {σ : Type} (step : σ → opal_call → Int × σ) (env : kernel_env σ)
    (topo : pci_topology) (pf : sriov_pf) (orig phb : pnv_phb) (fw : opal_fw σ) (n : Nat)
    (t : pnv_phb × opal_fw σ)
    (hinv : vf_range_inv pf.pdev pf.offset n orig phb.pe_list phb)
    (h : pnv_ioda_setup_vf_PE step env topo phb pf fw n = some t) :
    vf_range_inv pf.pdev pf.offset n orig t.1.pe_list t.1 := by
  unfold pnv_ioda_setup_vf_PE at h
  split_ifs at h with hp
  · simp only [Option.some.injEq] at h
    subst h
    exact hinv
  · cases h1 : setup_vf_PE_loop step env topo pf (List.range n) (phb, fw) with
    | none =>
      rw [h1] at h
      exact absurd h (by simp)
    | some s2 =>
      rw [h1] at h
      simp only [Option.some.injEq] at h
      subst h
      exact setup_vf_PE_loop_inv step env topo pf orig pf.offset n rfl (List.range n) (phb, fw)
        s2 (fun i hi => List.mem_range.1 hi) hinv h1

/-- The function `pnv_ioda_deconfigure_pe` completes on a VF-scoped PE whose parent device
has an ancestor chain that ends. -/
theorem deconfigure_pe_vf_defined {σ : Type} (step : σ → opal_call → Int × σ)
    (topo : pci_topology) (phb : pnv_phb) (fw : opal_fw σ) (pe_no pdev : Nat)
    (rows : List Int)
    (hvf : (phb.pe_array pe_no).flags.vf = true) (hbus : (phb.pe_array pe_no).pbus = none)
    (hpar : (phb.pe_array pe_no).parent_dev = some pdev)
    (hrows : ancestor_rows topo topo.ndevs (some pdev) = some rows) :
    ∃ (x : Int) (rm : Nat → Nat) (fw2 : opal_fw σ),
      pnv_ioda_deconfigure_pe step topo phb fw pe_no =
        some (0,
          set_pe { phb with pe_rmap := rm } pe_no
            { phb.pe_array pe_no with
              mve_number := x, pbus := none, pdev := none, parent_dev := none },
          fw2) := by
  obtain ⟨x, hx⟩ := deconfigure_mve_fields step phb.type (phb.pe_array pe_no) fw
  have hm := configure_pe_match_vf topo (phb.pe_array pe_no) hvf hbus
  simp only [pnv_ioda_deconfigure_pe, deconfigure_pe_match_eq, hm, peltv_parents_eq, hpar,
    hrows, Option.map_some']
  rw [hx]
  exact ⟨x, _, _, rfl⟩

/-- The body of the list walk of `pnv_ioda_release_vf_PE` completes and keeps
`vf_range_inv` for the PEs still to be visited. -/
theorem release_vf_PE_one_inv {σ : Type} (step : σ → opal_call → Int × σ)
    (topo : pci_topology) (pf : sriov_pf) (orig : pnv_phb) (base n : Nat)
    (s : pnv_phb × opal_fw σ) (pe : Nat) (rest : List Nat) (rows : List Int)
    (hrows : ancestor_rows topo topo.ndevs (some pf.pdev) = some rows)
    (hinv : vf_range_inv pf.pdev base n orig (pe :: rest) s.1) :
    ∃ s1, release_vf_PE_one step topo pf s pe = some s1 ∧
      vf_range_inv pf.pdev base n orig rest s1.1 := by
  unfold release_vf_PE_one
  by_cases hpar : (s.1.pe_array pe).parent_dev ≠ some pf.pdev
  · rw [if_pos hpar]
    exact ⟨s, rfl, hinv.1, hinv.2.1, hinv.2.2.1,
      fun p hp => hinv.2.2.2 p (List.mem_cons_of_mem _ hp)⟩
  · rw [if_neg hpar]
    have hpar2 : (s.1.pe_array pe).parent_dev = some pf.pdev := not_not.1 hpar
    obtain ⟨h1, h2, h3, h4, h5⟩ := hinv.2.2.2 pe (List.mem_cons_self _ _) hpar2
    obtain ⟨x, rm, fw2, hd⟩ := deconfigure_pe_vf_defined step topo
      { s.1 with pe_list := s.1.pe_list.erase pe }
      (pnv_pci_ioda2_release_dma_pe step (s.1.pe_array pe) s.2) pe pf.pdev rows h4 h5 hpar2
      hrows
    dsimp only
    rw [hd]
    dsimp only
    refine ⟨_, rfl, ?_⟩
    have hnum : ((set_pe { ({ s.1 with pe_list := s.1.pe_list.erase pe } : pnv_phb) with
          pe_rmap := rm } pe
        { s.1.pe_array pe with
          mve_number := x, pbus := none, pdev := none, parent_dev := none }).pe_array
        pe).pe_number = pe := by
      simp [h3]
    rw [hnum]
    apply vf_range_inv_step pf.pdev base n orig (pe :: rest) rest s.1 _ pe hinv ⟨h1, h2⟩
    · rfl
    · rfl
    · intro k hk
      simp [set_pe, pnv_ioda_free_pe, clear_bit, hk]
    · intro p hp
      simp [set_pe, pnv_ioda_free_pe, array_set, hp]
    · intro hp
      simp [set_pe, pnv_ioda_free_pe, array_set, pnv_ioda_pe.zero] at hp
    · intro p hp
      exact Or.inl (List.mem_cons_of_mem _ hp)

/-- The list walk of `pnv_ioda_release_vf_PE` completes and keeps `vf_range_inv`. -/
theorem release_vf_PE_loop_inv {σ : Type} (step : σ → opal_call → Int × σ)
    (topo : pci_topology) (pf : sriov_pf) (orig : pnv_phb) (base n : Nat) (rows : List Int)
    (hrows : ancestor_rows topo topo.ndevs (some pf.pdev) = some rows) :
    ∀ (l : List Nat) (s : pnv_phb × opal_fw σ),
      vf_range_inv pf.pdev base n orig l s.1 →
      ∃ s1, release_vf_PE_loop step topo pf l s = some s1 ∧
        vf_range_inv pf.pdev base n orig [] s1.1 := by
  intro l
  induction l with
  | nil =>
    intro s hinv
    exact ⟨s, rfl, hinv⟩
  | cons pe rest ih =>
    intro s hinv
    obtain ⟨s1, h1, hinv1⟩ := release_vf_PE_one_inv step topo pf orig base n s pe rest rows
      hrows hinv
    obtain ⟨s2, h2, hinv2⟩ := ih s1 hinv1
    refine ⟨s2, ?_, hinv2⟩
    simp only [release_vf_PE_loop, h1]
    exact h2

/-- The function `pnv_ioda_release_vf_PE` completes and keeps `vf_range_inv`. -/
theorem release_vf_PE_inv {σ : Type} (step : σ → opal_call → Int × σ)
    (topo : pci_topology) (pf : sriov_pf) (orig phb : pnv_phb) (fw : opal_fw σ)
    (base n vf_num : Nat) (rows : List Int)
    (hrows : ancestor_rows topo topo.ndevs (some pf.pdev) = some rows)
    (hinv : vf_range_inv pf.pdev base n orig phb.pe_list phb) :
    ∃ t, pnv_ioda_release_vf_PE step topo phb pf fw vf_num = some t ∧
      vf_range_inv pf.pdev base n orig [] t.1 := by
  unfold pnv_ioda_release_vf_PE
  split_ifs with hp
  · exact ⟨(phb, fw), rfl, hinv.1, hinv.2.1, hinv.2.2.1, fun p hp => absurd hp (by simp)⟩
  · exact release_vf_PE_loop_inv step topo pf orig base n rows hrows phb.pe_list
      (phb, vf_group_peltv step pf fw vf_num OpalPeltvAction.OPAL_REMOVE_PE_FROM_DOMAIN) hinv

/-- The BAR loop of the resource shift changes only the VF BARs. -/
theorem vf_resource_shift_loop_frame (dz : Nat) (offset : Int) :
    ∀ (l : List Nat) (pf : sriov_pf), ∃ r : Nat → resource,
      l.foldl (fun (pf : sriov_pf) i =>
        let res := pf.resource i
        if !vf_bar_is_m64 res then pf
        else
          let size := pnv_pci_sriov_resource_size dz pf i
          { pf with
            resource := array_set pf.resource i
              { res with
                start := (((res.start : Int) + (size : Int) * offset) % 2 ^ 64).toNat } })
        pf = { pf with resource := r } := by
  intro l
  induction l with
  | nil => intro pf; exact ⟨pf.resource, rfl⟩
  | cons i rest ih =>
    intro pf
    rw [List.foldl_cons]
    by_cases hb : (!vf_bar_is_m64 (pf.resource i)) = true
    · simp only [hb, if_true]
      exact ih pf
    · simp only [hb]
      obtain ⟨r, hr⟩ := ih
        { pf with
          resource := array_set pf.resource i
            { pf.resource i with
              start := (((((pf.resource i).start : Int) +
                (pnv_pci_sriov_resource_size dz pf i : Int) * offset) % 2 ^ 64).toNat) } }
      exact ⟨r, by simpa using hr⟩

/-- The function `pnv_pci_vf_resource_shift` changes only the VF BARs and `vfs`. -/
theorem vf_resource_shift_frame (dz : Nat) (pf : sriov_pf) (offset : Int) :
    ∃ (r : Nat → resource) (v : Nat),
      pnv_pci_vf_resource_shift dz pf offset = { pf with resource := r, vfs := v } := by
  unfold pnv_pci_vf_resource_shift
  split_ifs
  · exact ⟨pf.resource, pf.vfs, rfl⟩
  · obtain ⟨r, hr⟩ := vf_resource_shift_loop_frame dz offset (List.range PCI_SRIOV_NUM_BARS) pf
    dsimp only
    rw [hr]
    exact ⟨r, _, rfl⟩

/-- A successful `pnv_pci_sriov_enable` on a modern bridge, taken apart: the reservation
has found a range, the M64 assignment has succeeded and recorded its windows, and the VF
PEs have been set up on the bridge with the range and the windows marked. -/
theorem sriov_enable_ok {σ : Type} (step : σ → opal_call → Int × σ) (env : kernel_env σ)
    (topo : pci_topology) (s s1 : sriov_state σ) (vf_num : Nat)
    (htype : s.phb.type = pnv_phb_type.PNV_PHB_IODA2)
    (h : pnv_pci_sriov_enable step env topo s vf_num = some (0, s1)) :
    ∃ (base n : Nat) (m : Nat → Bool) (w : Nat → Nat → Int) (r : Nat → resource) (v : Nat)
      (fwA : opal_fw σ),
      sriov_reserve s.phb.pe_alloc s.phb.total_pe vf_num = some (base, n) ∧
      m64_wins_inv s.phb.m64_bar_alloc m w ∧
      s1.pf = { s.pf with offset := base, vf_pes := n, m64_wins := w, resource := r, vfs := v } ∧
      pnv_ioda_setup_vf_PE step env topo
        { s.phb with pe_alloc := bitmap_set s.phb.pe_alloc base n, m64_bar_alloc := m }
        s1.pf fwA n = some (s1.phb, s1.fw) := by
  unfold pnv_pci_sriov_enable at h
  rw [if_pos htype] at h
  cases hres : sriov_reserve s.phb.pe_alloc s.phb.total_pe vf_num with
  | none =>
    rw [hres] at h
    simp only [Option.some.injEq, Prod.mk.injEq] at h
    exact absurd h.1 (by decide)
  | some bn =>
    obtain ⟨base, n⟩ := bn
    rw [hres] at h
    dsimp only at h
    obtain ⟨rc, m, w, fw2, heq, _, hok, _⟩ := vf_assign_m64_spec step env.dz
      { s.phb with pe_alloc := bitmap_set s.phb.pe_alloc base n }
      { s.pf with offset := base, vf_pes := n } s.fw n
    rw [heq] at h
    dsimp only at h
    by_cases hrc : rc ≠ 0
    · rw [if_pos hrc] at h
      simp only [Option.some.injEq, Prod.mk.injEq] at h
      exact absurd h.1 hrc
    · rw [if_neg hrc] at h
      have hrc0 : rc = 0 := not_not.1 hrc
      obtain ⟨r, v, hshift⟩ := vf_resource_shift_frame env.dz
        { ({ s.pf with offset := base, vf_pes := n } : sriov_pf) with m64_wins := w }
        (base : Int)
      have hpf2 : ∃ (r : Nat → resource) (v : Nat),
          (if s.pf.m64_per_iov = 1 then
            pnv_pci_vf_resource_shift env.dz
              { ({ s.pf with offset := base, vf_pes := n } : sriov_pf) with m64_wins := w }
              (base : Int)
          else { ({ s.pf with offset := base, vf_pes := n } : sriov_pf) with m64_wins := w }) =
          { s.pf with offset := base, vf_pes := n, m64_wins := w, resource := r, vfs := v } := by
        split_ifs
        · exact ⟨r, v, hshift⟩
        · exact ⟨s.pf.resource, s.pf.vfs, rfl⟩
      obtain ⟨r2, v2, hpf2⟩ := hpf2
      rw [hpf2] at h
      cases hset : pnv_ioda_setup_vf_PE step env topo
          { ({ s.phb with pe_alloc := bitmap_set s.phb.pe_alloc base n } : pnv_phb) with
            m64_bar_alloc := m }
          { s.pf with offset := base, vf_pes := n, m64_wins := w, resource := r2, vfs := v2 }
          fw2 n with
      | none =>
        rw [hset] at h
        exact absurd h (by simp)
      | some t =>
        rw [hset] at h
        simp only [Option.some.injEq, Prod.mk.injEq, true_and] at h
        subst h
        exact ⟨base, n, m, w, r2, v2, fw2, rfl, hok hrc0, rfl, hset⟩

/-- Clearing the bit of every window that the entries name gives back the bitmap from
before the windows were taken. -/
theorem m64_release_restores (orig m m2 : Nat → Bool) (w : Nat → Nat → Int)
    (hinv : m64_wins_inv orig m w)
    (hm2 : ∀ k : Nat,
      ((∃ i j, i < PCI_SRIOV_NUM_BARS ∧ j < M64_PER_IOV ∧ w i j = (k : Int)) → m2 k = false) ∧
      ((¬ ∃ i j, i < PCI_SRIOV_NUM_BARS ∧ j < M64_PER_IOV ∧ w i j = (k : Int)) →
        m2 k = m k)) :
    m2 = orig := by
  funext k
  by_cases hk : ∃ i j, i < PCI_SRIOV_NUM_BARS ∧ j < M64_PER_IOV ∧ w i j = (k : Int)
  · rw [(hm2 k).1 hk]
    obtain ⟨i, j, hi, hj, hij⟩ := hk
    obtain ⟨k2, hk2, horig⟩ := hinv.2 i j hi hj (by
      rw [hij]; simp only [IODA_INVALID_M64]; omega)
    have : k2 = k := by omega
    rw [← this, horig]
  · rw [(hm2 k).2 hk]
    cases hmk : m k with
    | true =>
      rcases (hinv.1 k).1 hmk with h | h
      · exact h.symm
      · exact absurd h hk
    | false =>
      cases horig : orig k with
      | false => rfl
      | true =>
        have := (hinv.1 k).2 (Or.inl horig)
        rw [hmk] at this
        exact absurd this (by simp)

/-- Enable followed by disable on a modern bridge: the disable completes and gives back the
PE slot bitmap and the M64 window bitmap from before the enable. -/
theorem sriov_enable_disable {σ : Type} (step : σ → opal_call → Int × σ)
    (env : kernel_env σ) (topo : pci_topology) (s s1 : sriov_state σ) (vf_num : Nat)
    (rows : List Int)
    (htype : s.phb.type = pnv_phb_type.PNV_PHB_IODA2)
    (hstale : ∀ p, p ∈ s.phb.pe_list → (s.phb.pe_array p).parent_dev ≠ some s.pf.pdev)
    (hrows : ancestor_rows topo topo.ndevs (some s.pf.pdev) = some rows)
    (hen : pnv_pci_sriov_enable step env topo s vf_num = some (0, s1)) :
    ∃ s2, pnv_pci_sriov_disable step env topo s1 = some s2 ∧
      s2.phb.pe_alloc = s.phb.pe_alloc ∧
      s2.phb.m64_bar_alloc = s.phb.m64_bar_alloc ∧
      (∀ i j, i < PCI_SRIOV_NUM_BARS → j < M64_PER_IOV →
        s2.pf.m64_wins i j = IODA_INVALID_M64) ∧
      (∀ k, s1.pf.offset ≤ k → k < s1.pf.offset + s1.pf.vf_pes →
        s2.phb.pe_alloc k = false) ∧
      s2.pf.offset = 0 := by
  obtain ⟨base, n, m, w, r, v, fwA, hres, hwinv, hpf, hset⟩ :=
    sriov_enable_ok step env topo s s1 vf_num htype hen
  have hfree := sriov_reserve_free _ _ _ _ _ hres
  have hpdev : s1.pf.pdev = s.pf.pdev := by rw [hpf]
  have hoff : s1.pf.offset = base := by rw [hpf]
  have hvf : s1.pf.vf_pes = n := by rw [hpf]
  have hwins : s1.pf.m64_wins = w := by rw [hpf]
  have hinvA : vf_range_inv s1.pf.pdev s1.pf.offset n
      { s.phb with pe_alloc := bitmap_set s.phb.pe_alloc base n, m64_bar_alloc := m }
      ({ s.phb with pe_alloc := bitmap_set s.phb.pe_alloc base n,
                    m64_bar_alloc := m } : pnv_phb).pe_list
      { s.phb with pe_alloc := bitmap_set s.phb.pe_alloc base n, m64_bar_alloc := m } := by
    refine ⟨rfl, rfl, fun _ _ => rfl, ?_⟩
    intro p hp hpar
    rw [hpdev] at hpar
    exact absurd hpar (hstale p hp)
  have hinv1 := setup_vf_PE_inv step env topo s1.pf _ _ fwA n (s1.phb, s1.fw) hinvA hset
  rw [← hpdev] at hrows
  obtain ⟨t, hrel, hinvt⟩ := release_vf_PE_inv step topo s1.pf _ s1.phb s1.fw s1.pf.offset n
    s1.pf.vf_pes rows hrows hinv1
  obtain ⟨t1, t2, t3, _⟩ := hinvt
  have htype2 : t.1.type = pnv_phb_type.PNV_PHB_IODA2 := by rw [t2]; exact htype
  obtain ⟨r2, v2, hshift⟩ := vf_resource_shift_frame env.dz s1.pf (- (s1.pf.offset : Int))
  have hpf1 : ∃ (r3 : Nat → resource) (v3 : Nat),
      (if s1.pf.m64_per_iov = 1 then
        pnv_pci_vf_resource_shift env.dz s1.pf (- (s1.pf.offset : Int))
      else s1.pf) = { s1.pf with resource := r3, vfs := v3 } := by
    split_ifs
    · exact ⟨r2, v2, hshift⟩
    · exact ⟨s1.pf.resource, s1.pf.vfs, rfl⟩
  obtain ⟨r3, v3, hpf1⟩ := hpf1
  obtain ⟨m2, w2, fw3, hrelm, hm2, hw2⟩ := vf_release_m64_spec step t.1
    { s1.pf with resource := r3, vfs := v3 } t.2
  have hm2orig : m2 = s.phb.m64_bar_alloc := by
    apply m64_release_restores s.phb.m64_bar_alloc m m2 w hwinv
    intro k
    have := hm2 k
    rw [t1] at this
    simp only [hwins] at this
    exact this
  refine ⟨{ phb := { ({ t.1 with m64_bar_alloc := m2 } : pnv_phb) with
                     pe_alloc := bitmap_clear t.1.pe_alloc s1.pf.offset s1.pf.vf_pes }
            pf := { ({ ({ s1.pf with resource := r3, vfs := v3 } : sriov_pf) with
                       m64_wins := w2 } : sriov_pf) with offset := 0 }
            fw := fw3 }, ?_, ?_, ?_, ?_, ?_, ?_⟩
  · unfold pnv_pci_sriov_disable
    dsimp only
    rw [hrel]
    dsimp only
    rw [if_pos htype2, hpf1, hrelm]
  · funext k
    show bitmap_clear t.1.pe_alloc s1.pf.offset s1.pf.vf_pes k = s.phb.pe_alloc k
    simp only [bitmap_clear, clear_bits_apply]
    rw [hoff, hvf]
    by_cases hk : base ≤ k ∧ k < base + n
    · rw [if_pos hk]
      have := hfree (k - base) (by omega)
      rw [show base + (k - base) = k by omega] at this
      exact this.symm
    · rw [if_neg hk, t3 k (by rw [hoff]; exact hk)]
      show bitmap_set s.phb.pe_alloc base n k = s.phb.pe_alloc k
      simp only [bitmap_set, set_bits_apply]
      rw [if_neg hk]
  · exact hm2orig
  · intro i j hi hj
    show w2 i j = IODA_INVALID_M64
    rw [hw2 i j]
    simp only [hi, hj, and_self, if_true]
  · intro k hk1 hk2
    show bitmap_clear t.1.pe_alloc s1.pf.offset s1.pf.vf_pes k = false
    simp only [bitmap_clear, clear_bits_apply]
    rw [if_pos ⟨hk1, hk2⟩]
  · rfl

set_option maxRecDepth 100000 in
/-- C13, counterexample: on an IODA1 bridge `pnv_pci_sriov_enable` for 2 VFs returns 0
without reserving any slot; it sets up the VF PEs in the slots 0 and 1, from the offset 0
that the device node holds, and the following `pnv_pci_sriov_disable` frees these slots:
the bit of slot 0, which was set before the enable (the reserved PE), is clear
afterwards. -/
theorem C13_ioda1_disable_frees_unreserved_slot :
    sriov_ioda1_example.phb.pe_alloc 0 = true ∧
    (pnv_pci_sriov_enable fw_all_ok ddw_env_example two_segment_topology
      sriov_ioda1_example 2).map (fun r => r.1) = some 0 ∧
    ((pnv_pci_sriov_enable fw_all_ok ddw_env_example two_segment_topology
      sriov_ioda1_example 2).bind
        (fun r => pnv_pci_sriov_disable fw_all_ok ddw_env_example two_segment_topology r.2)).map
      (fun s2 => s2.phb.pe_alloc 0) = some false := by
  refine ⟨by decide, by decide, by decide⟩

/-- C13, amended: SR-IOV symmetry on a modern bridge.  For every bridge of type IODA2 on
whose PE list no PE names the physical function as its parent device, every physical
function whose chain of upstream bridges ends, every firmware and every requested count:
when `pnv_pci_sriov_enable` returns 0, a following `pnv_pci_sriov_disable` completes and
leaves the PE slot bitmap and the M64 window bitmap exactly equal to their values before
the enable, every entry `m64_wins[i][j]` invalid, every slot of the VF range free and the
recorded offset 0. -/
theorem C13_sriov_enable_disable_symmetric {σ : Type} (step : σ → opal_call → Int × σ)
    (env : kernel_env σ) (topo : pci_topology) (s s1 : sriov_state σ) (vf_num : Nat)
    (rows : List Int)
    (htype : s.phb.type = pnv_phb_type.PNV_PHB_IODA2)
    (hstale : ∀ p, p ∈ s.phb.pe_list → (s.phb.pe_array p).parent_dev ≠ some s.pf.pdev)
    (hrows : ancestor_rows topo topo.ndevs (some s.pf.pdev) = some rows)
    (hen : pnv_pci_sriov_enable step env topo s vf_num = some (0, s1)) :
    ∃ s2, pnv_pci_sriov_disable step env topo s1 = some s2 ∧
      s2.phb.pe_alloc = s.phb.pe_alloc ∧
      s2.phb.m64_bar_alloc = s.phb.m64_bar_alloc ∧
      (∀ i j, i < PCI_SRIOV_NUM_BARS → j < M64_PER_IOV →
        s2.pf.m64_wins i j = IODA_INVALID_M64) ∧
      (∀ k, s1.pf.offset ≤ k → k < s1.pf.offset + s1.pf.vf_pes →
        s2.phb.pe_alloc k = false) ∧
      s2.pf.offset = 0 :=
  sriov_enable_disable step env topo s s1 vf_num rows htype hstale hrows hen

set_option maxRecDepth 100000 in
/-- C13 (amended) on the example: 4 VFs are enabled on the IODA2 bridge with a firmware
that accepts every call, then disabled. -/
theorem C13_sriov_enable_disable_symmetric_witness :
    ∃ s1, pnv_pci_sriov_enable fw_all_ok ddw_env_example two_segment_configured.1
        sriov_example 4 = some (0, s1) ∧
      ∃ s2, pnv_pci_sriov_disable fw_all_ok ddw_env_example two_segment_configured.1 s1 =
          some s2 ∧
        s2.phb.pe_alloc = sriov_example.phb.pe_alloc ∧
        s2.phb.m64_bar_alloc = sriov_example.phb.m64_bar_alloc ∧
        (∀ i j, i < PCI_SRIOV_NUM_BARS → j < M64_PER_IOV →
          s2.pf.m64_wins i j = IODA_INVALID_M64) ∧
        (∀ k, s1.pf.offset ≤ k → k < s1.pf.offset + s1.pf.vf_pes →
          s2.phb.pe_alloc k = false) ∧
        s2.pf.offset = 0 :=
  ⟨_, rfl, C13_sriov_enable_disable_symmetric fw_all_ok ddw_env_example
    two_segment_configured.1 sriov_example _ 4 [1] (by decide) (by decide) (by decide) rfl⟩

set_option maxRecDepth 100000 in
/-- C14, failing input: `pnv_pci_sriov_disable` on a physical function that was never
enabled, whose device node is zero-filled, so that every entry of `m64_wins` is 0, which
is not `IODA_INVALID_M64`.  The PE slot bitmap, the PE list and the VF BAR are unchanged,
but `pnv_pci_vf_release_m64` takes each of the 24 entries for window register 0: it tells
the firmware 24 times to disable window 0 and clears bit 0 of the M64 window bitmap,
which was in use by another function. -/
theorem C14_disable_before_enable_releases_window_0 :
    sriov_window0_example.pf.vf_pes = 0 ∧ sriov_window0_example.pf.offset = 0 ∧
    sriov_window0_example.phb.m64_bar_alloc 0 = true ∧
    (pnv_pci_sriov_disable fw_all_ok ddw_env_example two_segment_configured.1
      sriov_window0_example).map (fun s2 => s2.phb.m64_bar_alloc 0) = some false ∧
    (pnv_pci_sriov_disable fw_all_ok ddw_env_example two_segment_configured.1
      sriov_window0_example).map (fun s2 => s2.fw.log) =
      some (List.replicate 24 (opal_call.opal_pci_phb_mmio_enable 0 0)) ∧
    (pnv_pci_sriov_disable fw_all_ok ddw_env_example two_segment_configured.1
      sriov_window0_example).map (fun s2 => (s2.phb.pe_list, (s2.pf.resource 0).start)) =
      some (sriov_window0_example.phb.pe_list, (sriov_window0_example.pf.resource 0).start) ∧
    (pnv_pci_sriov_disable fw_all_ok ddw_env_example two_segment_configured.1
      sriov_window0_example).map
        (fun s2 => (List.range 256).map s2.phb.pe_alloc) =
      some ((List.range 256).map sriov_window0_example.phb.pe_alloc) := by
  refine ⟨by decide, by decide, by decide, by decide, by decide, by decide, by decide⟩

/-- With a firmware that accepts every PE mapping call, a `pnv_ioda_configure_pe` that
completes returns 0. -/
theorem configure_pe_ok_of_map_ok {σ : Type} (step : σ → opal_call → Int × σ)
    (topo : pci_topology) (phb : pnv_phb) (fw : opal_fw σ) (pe_no : Nat)
    (r : Int × pnv_phb × opal_fw σ)
    (hok : ∀ st pe_number rid bcomp dcomp fcomp,
      (step st (opal_call.opal_pci_set_pe pe_number rid bcomp dcomp fcomp
        OpalPeAction.OPAL_MAP_PE)).1 = 0)
    (h : pnv_ioda_configure_pe step topo phb fw pe_no = some r) : r.1 = 0 := by
  simp only [pnv_ioda_configure_pe] at h
  cases hm : configure_pe_match topo (phb.pe_array pe_no) with
  | none =>
    rw [hm] at h
    exact absurd h (by simp)
  | some m =>
    rw [hm] at h
    simp only [peltv_parents_eq] at h
    split at h
    · rename_i hrc
      exact absurd (hok _ _ _ _ _ _) hrc
    · cases hrows : ancestor_rows topo topo.ndevs m.parent with
      | none =>
        rw [hrows] at h
        simp at h
      | some rows =>
        rw [hrows] at h
        simp only [Option.map_some', Option.some.injEq] at h
        subst h
        rfl

/-- With a firmware that accepts every PE mapping call, the body of the VF loop of
`pnv_ioda_setup_vf_PE` leaves the PE slot bitmap alone. -/
theorem setup_vf_PE_one_alloc {σ : Type} (step : σ → opal_call → Int × σ)
    (env : kernel_env σ) (topo : pci_topology) (pf : sriov_pf) (s s1 : pnv_phb × opal_fw σ)
    (vf_index : Nat)
    (hok : ∀ st pe_number rid bcomp dcomp fcomp,
      (step st (opal_call.opal_pci_set_pe pe_number rid bcomp dcomp fcomp
        OpalPeAction.OPAL_MAP_PE)).1 = 0)
    (h : setup_vf_PE_one step env topo pf s vf_index = some s1) :
    s1.1.pe_alloc = s.1.pe_alloc := by
  unfold setup_vf_PE_one at h
  dsimp only at h
  cases hc : pnv_ioda_configure_pe step topo
      (setup_vf_PE_slot s.1 (pf.offset + vf_index) pf.pdev
        ((pf.virtfn_bus vf_index <<< 8) ||| pf.virtfn_devfn vf_index)) s.2
      (pf.offset + vf_index) with
  | none =>
    rw [hc] at h
    exact absurd h (by simp)
  | some r =>
    rw [hc] at h
    dsimp only at h
    have hrc := configure_pe_ok_of_map_ok step topo _ s.2 _ r hok hc
    rcases configure_pe_result step topo _ s.2 _ r hc with ⟨hne, _⟩ | ⟨_, x, rm, hphb⟩
    · exact absurd hrc hne
    · rw [if_neg (not_not.2 hrc), hphb] at h
      simp only [Option.some.injEq] at h
      subst h
      obtain ⟨pe2, hd, _⟩ := setup_dma_pe_frame step env
        { (set_pe { (setup_vf_PE_slot s.1 (pf.offset + vf_index) pf.pdev
              ((pf.virtfn_bus vf_index <<< 8) ||| pf.virtfn_devfn vf_index)) with pe_rmap := rm }
            (pf.offset + vf_index)
            { (setup_vf_PE_slot s.1 (pf.offset + vf_index) pf.pdev
                ((pf.virtfn_bus vf_index <<< 8) ||| pf.virtfn_devfn vf_index)).pe_array
                (pf.offset + vf_index) with mve_number := x }) with
          pe_list := (set_pe { (setup_vf_PE_slot s.1 (pf.offset + vf_index) pf.pdev
              ((pf.virtfn_bus vf_index <<< 8) ||| pf.virtfn_devfn vf_index)) with pe_rmap := rm }
            (pf.offset + vf_index)
            { (setup_vf_PE_slot s.1 (pf.offset + vf_index) pf.pdev
                ((pf.virtfn_bus vf_index <<< 8) ||| pf.virtfn_devfn vf_index)).pe_array
                (pf.offset + vf_index) with mve_number := x }).pe_list ++
            [pf.offset + vf_index] }
        r.2.2 (pf.offset + vf_index)
      rw [hd]
      rfl

/-- With a firmware that accepts every PE mapping call, `pnv_ioda_setup_vf_PE` leaves the
PE slot bitmap alone. -/
theorem setup_vf_PE_alloc {σ : Type} (step : σ → opal_call → Int × σ) (env : kernel_env σ)
    (topo : pci_topology) (pf : sriov_pf) (phb : pnv_phb) (fw : opal_fw σ) (n : Nat)
    (t : pnv_phb × opal_fw σ)
    (hok : ∀ st pe_number rid bcomp dcomp fcomp,
      (step st (opal_call.opal_pci_set_pe pe_number rid bcomp dcomp fcomp
        OpalPeAction.OPAL_MAP_PE)).1 = 0)
    (h : pnv_ioda_setup_vf_PE step env topo phb pf fw n = some t) :
    t.1.pe_alloc = phb.pe_alloc := by
  have hloop : ∀ (l : List Nat) (s s1 : pnv_phb × opal_fw σ),
      setup_vf_PE_loop step env topo pf l s = some s1 → s1.1.pe_alloc = s.1.pe_alloc := by
    intro l
    induction l with
    | nil =>
      intro s s1 h
      simp only [setup_vf_PE_loop, Option.some.injEq] at h
      subst h
      rfl
    | cons i rest ih =>
      intro s s1 h
      simp only [setup_vf_PE_loop] at h
      cases h1 : setup_vf_PE_one step env topo pf s i with
      | none =>
        rw [h1] at h
        exact absurd h (by simp)
      | some s2 =>
        rw [h1] at h
        rw [ih s2 s1 h, setup_vf_PE_one_alloc step env topo pf s s2 i hok h1]
  unfold pnv_ioda_setup_vf_PE at h
  split_ifs at h with hp
  · simp only [Option.some.injEq] at h
    subst h
    rfl
  · cases h1 : setup_vf_PE_loop step env topo pf (List.range n) (phb, fw) with
    | none =>
      rw [h1] at h
      exact absurd h (by simp)
    | some s2 =>
      rw [h1] at h
      simp only [Option.some.injEq] at h
      subst h
      exact hloop (List.range n) (phb, fw) s2 h1

/-- The body of the VF loop of `pnv_ioda_setup_vf_PE` changes no bit of the PE slot bitmap
other than the bit of its own slot. -/
theorem setup_vf_PE_one_alloc_frame {σ : Type} (step : σ → opal_call → Int × σ)
    (env : kernel_env σ) (topo : pci_topology) (pf : sriov_pf) (s s1 : pnv_phb × opal_fw σ)
    (vf_index : Nat)
    (h : setup_vf_PE_one step env topo pf s vf_index = some s1) :
    ∀ k, k ≠ pf.offset + vf_index → s1.1.pe_alloc k = s.1.pe_alloc k := by
  unfold setup_vf_PE_one at h
  dsimp only at h
  cases hc : pnv_ioda_configure_pe step topo
      (setup_vf_PE_slot s.1 (pf.offset + vf_index) pf.pdev
        ((pf.virtfn_bus vf_index <<< 8) ||| pf.virtfn_devfn vf_index)) s.2
      (pf.offset + vf_index) with
  | none =>
    rw [hc] at h
    exact absurd h (by simp)
  | some r =>
    rw [hc] at h
    dsimp only at h
    rcases configure_pe_result step topo _ s.2 _ r hc with ⟨hrc, hphb⟩ | ⟨hrc, x, rm, hphb⟩
    · rw [if_pos hrc, hphb] at h
      simp only [Option.some.injEq] at h
      subst h
      intro k hk
      by_cases h0 : pf.offset + vf_index ≠ 0
      · rw [if_pos h0]
        simp [set_pe, pnv_ioda_free_pe, setup_vf_PE_slot, clear_bit, hk]
      · rw [if_neg h0]
        simp [set_pe, setup_vf_PE_slot]
    · rw [if_neg (not_not.2 hrc), hphb] at h
      simp only [Option.some.injEq] at h
      subst h
      obtain ⟨pe2, hd, _⟩ := setup_dma_pe_frame step env
        { (set_pe { (setup_vf_PE_slot s.1 (pf.offset + vf_index) pf.pdev
              ((pf.virtfn_bus vf_index <<< 8) ||| pf.virtfn_devfn vf_index)) with pe_rmap := rm }
            (pf.offset + vf_index)
            { (setup_vf_PE_slot s.1 (pf.offset + vf_index) pf.pdev
                ((pf.virtfn_bus vf_index <<< 8) ||| pf.virtfn_devfn vf_index)).pe_array
                (pf.offset + vf_index) with mve_number := x }) with
          pe_list := (set_pe { (setup_vf_PE_slot s.1 (pf.offset + vf_index) pf.pdev
              ((pf.virtfn_bus vf_index <<< 8) ||| pf.virtfn_devfn vf_index)) with pe_rmap := rm }
            (pf.offset + vf_index)
            { (setup_vf_PE_slot s.1 (pf.offset + vf_index) pf.pdev
                ((pf.virtfn_bus vf_index <<< 8) ||| pf.virtfn_devfn vf_index)).pe_array
                (pf.offset + vf_index) with mve_number := x }).pe_list ++
            [pf.offset + vf_index] }
        r.2.2 (pf.offset + vf_index)
      rw [hd]
      intro k _
      rfl

/-- The function `pnv_ioda_setup_vf_PE` changes no bit of the PE slot bitmap outside the VF
range. -/
theorem setup_vf_PE_alloc_frame {σ : Type} (step : σ → opal_call → Int × σ)
    (env : kernel_env σ) (topo : pci_topology) (pf : sriov_pf) (phb : pnv_phb)
    (fw : opal_fw σ) (n : Nat) (t : pnv_phb × opal_fw σ)
    (h : pnv_ioda_setup_vf_PE step env topo phb pf fw n = some t) :
    ∀ k, ¬ (pf.offset ≤ k ∧ k < pf.offset + n) → t.1.pe_alloc k = phb.pe_alloc k := by
  have hloop : ∀ (l : List Nat) (s s1 : pnv_phb × opal_fw σ),
      setup_vf_PE_loop step env topo pf l s = some s1 →
      ∀ k, (∀ i, i ∈ l → k ≠ pf.offset + i) → s1.1.pe_alloc k = s.1.pe_alloc k := by
    intro l
    induction l with
    | nil =>
      intro s s1 h k _
      simp only [setup_vf_PE_loop, Option.some.injEq] at h
      subst h
      rfl
    | cons i rest ih =>
      intro s s1 h k hk
      simp only [setup_vf_PE_loop] at h
      cases h1 : setup_vf_PE_one step env topo pf s i with
      | none =>
        rw [h1] at h
        exact absurd h (by simp)
      | some s2 =>
        rw [h1] at h
        rw [ih s2 s1 h k (fun j hj => hk j (List.mem_cons_of_mem _ hj)),
          setup_vf_PE_one_alloc_frame step env topo pf s s2 i h1 k
            (hk i (List.mem_cons_self _ _))]
  unfold pnv_ioda_setup_vf_PE at h
  intro k hk
  split_ifs at h with hp
  · simp only [Option.some.injEq] at h
    subst h
    rfl
  · cases h1 : setup_vf_PE_loop step env topo pf (List.range n) (phb, fw) with
    | none =>
      rw [h1] at h
      exact absurd h (by simp)
    | some s2 =>
      rw [h1] at h
      simp only [Option.some.injEq] at h
      subst h
      exact hloop (List.range n) (phb, fw) s2 h1 k (fun i hi => by
        have := List.mem_range.1 hi
        omega)

/-- The return values of `pnv_pci_sriov_enable` on a modern bridge: 0, or `-EBUSY` with the
bridge as before the call and the offset 0. -/
theorem sriov_enable_rc {σ : Type} (step : σ → opal_call → Int × σ) (env : kernel_env σ)
    (topo : pci_topology) (s s1 : sriov_state σ) (vf_num : Nat) (rc : Int)
    (htype : s.phb.type = pnv_phb_type.PNV_PHB_IODA2)
    (h : pnv_pci_sriov_enable step env topo s vf_num = some (rc, s1)) :
    rc = 0 ∨ (rc = - EBUSY ∧ s1.phb = s.phb ∧ s1.pf.offset = 0) := by
  cases hres : sriov_reserve s.phb.pe_alloc s.phb.total_pe vf_num with
  | none =>
    unfold pnv_pci_sriov_enable at h
    rw [if_pos htype, hres] at h
    simp only [Option.some.injEq, Prod.mk.injEq] at h
    obtain ⟨h1, h2⟩ := h
    subst h1
    subst h2
    exact Or.inr ⟨rfl, rfl, rfl⟩
  | some bn =>
    obtain ⟨base, n⟩ := bn
    by_cases hfail : (pnv_pci_vf_assign_m64 step env.dz
        { s.phb with pe_alloc := bitmap_set s.phb.pe_alloc base n }
        { s.pf with offset := base, vf_pes := n } s.fw n).1 ≠ 0
    · obtain ⟨w, fw2, heq, _⟩ := sriov_enable_m64_failed step env topo s vf_num base n htype
        hres hfail
      rw [heq] at h
      simp only [Option.some.injEq, Prod.mk.injEq] at h
      obtain ⟨h1, h2⟩ := h
      subst h1
      subst h2
      exact Or.inr ⟨rfl, rfl, rfl⟩
    · left
      unfold pnv_pci_sriov_enable at h
      rw [if_pos htype, hres] at h
      dsimp only at h
      rw [if_neg hfail] at h
      split at h
      · exact absurd h (by simp)
      · simp only [Option.some.injEq, Prod.mk.injEq] at h
        exact h.1.symm

set_option maxRecDepth 100000 in
/-- C15, counterexample: on the example bridge the slots 3 and up are free, but all 16
window registers are in use; `pnv_pci_sriov_enable` for 4 VFs returns `-EBUSY` with the
PE slot bitmap unchanged and the offset 0 although free slots exist. -/
theorem C15_ebusy_with_free_slots :
    sriov_windows_full_example.phb.pe_alloc 3 = false ∧
    3 < sriov_windows_full_example.phb.total_pe ∧
    (pnv_pci_sriov_enable fw_all_ok ddw_env_example two_segment_configured.1
      sriov_windows_full_example 4).map
        (fun r => (r.1, r.2.pf.offset, (List.range 256).map r.2.phb.pe_alloc)) =
      some (- EBUSY, 0, (List.range 256).map sriov_windows_full_example.phb.pe_alloc) := by
  refine ⟨by decide, by decide, by decide⟩

/-! ## Legacy DMA windows -/

/-- A chain of ranges depends on its starting point only through where that one ends. -/
theorem dma_chain_start (a b : Nat × Nat) (h : a.1 + a.2 = b.1 + b.2) (l : List (Nat × Nat))
    (hc : List.Chain (fun x y : Nat × Nat => y.1 = x.1 + x.2) a l) :
    List.Chain (fun x y : Nat × Nat => y.1 = x.1 + x.2) b l := by
  cases l with
  | nil => exact List.Chain.nil
  | cons x t =>
    rw [List.chain_cons] at hc ⊢
    exact ⟨by omega, hc.2⟩

/-- The ranges handed out by the loop of `pnv_ioda_setup_dma` start at `base`, follow one
another without gap, and stay below `base + remaining`. -/
theorem pnv_ioda_setup_dma_loop_ranges (phb : pnv_phb) (dz residual tw : Nat)
    (list : List Nat) :
    ∀ (remaining base : Nat), base + remaining < 2 ^ 32 →
      List.Chain (fun x y : Nat × Nat => y.1 = x.1 + x.2) (base, 0)
        (dma_ranges (pnv_ioda_setup_dma_loop phb dz residual tw list remaining base)) ∧
      (∀ r ∈ dma_ranges (pnv_ioda_setup_dma_loop phb dz residual tw list remaining base),
        base ≤ r.1 ∧ r.1 + r.2 ≤ base + remaining) ∧
      List.Pairwise (fun x y : Nat × Nat => x.1 + x.2 ≤ y.1)
        (dma_ranges (pnv_ioda_setup_dma_loop phb dz residual tw list remaining base)) := by
  induction list with
  | nil =>
    intro remaining base _
    simp [pnv_ioda_setup_dma_loop, dma_ranges]
  | cons pe rest ih =>
    intro remaining base hlt
    simp only [pnv_ioda_setup_dma_loop]
    by_cases hw : (phb.pe_array pe).dma_weight = 0
    · rw [if_pos hw]
      exact ih remaining base hlt
    · rw [if_neg hw]
      by_cases hrem : remaining = 0
      · rw [if_pos hrem]
        simp only [dma_ranges]
        exact ih remaining base hlt
      · rw [if_neg hrem]
        have hle := dma_segs_le_remaining dz residual tw remaining (phb.pe_array pe).dma_weight hrem
        by_cases ht : phb.type = pnv_phb_type.PNV_PHB_IODA1
        · simp only [ht, if_true, dma_ranges]
          generalize dma_segs dz residual tw remaining (phb.pe_array pe).dma_weight = segs at hle ⊢
          rw [u32_sub_of_le remaining segs (by omega) hle]
          have hb : u32 (base + segs) = base + segs := Nat.mod_eq_of_lt (by omega)
          rw [hb]
          obtain ⟨h1, h2, h3⟩ := ih (remaining - segs) (base + segs) (by omega)
          refine ⟨?_, ?_, ?_⟩
          · rw [List.chain_cons]
            exact ⟨rfl, dma_chain_start _ _ (by simp) _ h1⟩
          · intro r hr
            rw [List.mem_cons] at hr
            rcases hr with hr | hr
            · subst hr
              simp only
              omega
            · have := h2 r hr
              omega
          · rw [List.pairwise_cons]
            refine ⟨?_, h3⟩
            intro r hr
            have := h2 r hr
            simp only
            omega
        · simp only [ht, if_false, dma_ranges]
          rw [u32_sub_of_le remaining 0 (by omega) (Nat.zero_le _)]
          have hb : u32 (base + 0) = base := Nat.mod_eq_of_lt (by omega)
          rw [hb]
          exact ih (remaining - 0) base (by omega)

/-- A weighted PE that is served is handed at least one segment, when its weight is at most
the total weight and the residual is below the top of the `unsigned int` range. -/
theorem dma_segs_pos (dz residual tw remaining w : Nat) (hrem : remaining ≠ 0)
    (hw0 : w ≠ 0) (hw : w ≤ tw) (hres : residual + 1 < 2 ^ 32) :
    0 < dma_segs dz residual tw remaining w := by
  unfold dma_segs
  by_cases hr : residual ≠ 0
  · rw [if_pos hr]
    have htw : tw ≠ 0 := by omega
    have hq : 1 + u32_div dz (u32 (u32 (w * residual) + tw / 2)) tw < 2 ^ 32 := by
      simp only [u32_div, htw, if_false]
      by_cases h2 : 2 ≤ tw
      · have hx : u32 (u32 (w * residual) + tw / 2) < 2 ^ 32 := Nat.mod_lt _ (by norm_num)
        have : u32 (u32 (w * residual) + tw / 2) / tw ≤
            u32 (u32 (w * residual) + tw / 2) / 2 := Nat.div_le_div_left h2 (by norm_num)
        omega
      · have htw1 : tw = 1 := by omega
        have hw1 : w = 1 := by omega
        subst htw1
        subst hw1
        have e1 : u32 (1 * residual) = residual := by
          rw [Nat.one_mul]
          exact Nat.mod_eq_of_lt (by omega)
        have e2 : u32 (residual + 1 / 2) = residual := by
          simp only [Nat.reduceDiv, Nat.add_zero]
          exact Nat.mod_eq_of_lt (by omega)
        rw [e1, e2, Nat.div_one]
        omega
    have hs : u32 (1 + u32_div dz (u32 (u32 (w * residual) + tw / 2)) tw) =
        1 + u32_div dz (u32 (u32 (w * residual) + tw / 2)) tw := Nat.mod_eq_of_lt hq
    rw [hs]
    simp only
    split_ifs <;> omega
  · rw [if_neg hr]
    exact Nat.one_pos

/-- Under the conditions of `dma_segs_pos` every range handed out by the loop is non-empty. -/
theorem pnv_ioda_setup_dma_loop_nonempty (phb : pnv_phb) (dz residual tw : Nat)
    (hres : residual + 1 < 2 ^ 32) (list : List Nat)
    (hw : ∀ pe ∈ list, (phb.pe_array pe).dma_weight ≤ tw) :
    ∀ (remaining base : Nat),
      ∀ r ∈ dma_ranges (pnv_ioda_setup_dma_loop phb dz residual tw list remaining base),
        0 < r.2 := by
  induction list with
  | nil =>
    intro remaining base r hr
    simp [pnv_ioda_setup_dma_loop, dma_ranges] at hr
  | cons pe rest ih =>
    intro remaining base r hr
    have ih2 := ih (fun p hp => hw p (List.mem_cons_of_mem _ hp))
    simp only [pnv_ioda_setup_dma_loop] at hr
    by_cases hw0 : (phb.pe_array pe).dma_weight = 0
    · rw [if_pos hw0] at hr
      exact ih2 _ _ r hr
    · rw [if_neg hw0] at hr
      by_cases hrem : remaining = 0
      · rw [if_pos hrem] at hr
        simp only [dma_ranges] at hr
        exact ih2 _ _ r hr
      · rw [if_neg hrem] at hr
        by_cases ht : phb.type = pnv_phb_type.PNV_PHB_IODA1
        · simp only [ht, if_true, dma_ranges] at hr
          rw [List.mem_cons] at hr
          rcases hr with hr | hr
          · subst hr
            exact dma_segs_pos dz residual tw remaining _ hrem hw0
              (hw pe (List.mem_cons_self _ _)) hres
          · exact ih2 _ _ r hr
        · simp only [ht, if_false, dma_ranges] at hr
          exact ih2 _ _ r hr

theorem dma_residual_le (phb : pnv_phb) : dma_residual phb ≤ phb.tce32_count := by
  unfold dma_residual
  split_ifs
  · exact Nat.zero_le _
  · exact Nat.le_trans (Nat.mod_le _ _) (Nat.sub_le _ _)

/-- C30: legacy DMA windows are disjoint.  For every bridge state (every segment budget,
every scheduling list and weights, whatever a division by zero yields), the ranges
`(base, segs)` that `pnv_ioda_setup_dma` passes to `pnv_pci_ioda_setup_dma_pe` are
contiguous in call order starting at segment 0 (each range starts where the one before it
ends), pairwise disjoint (a range ends no later than any later range starts), and contained
in `[0, tce32_count)`.  Each range is non-empty when the budget is below the top of the
`unsigned int` range and no listed PE weighs more than the bridge's total weight, which
keeps the share computation from wrapping to zero.  On the legacy bridge with 8 segments
and weights 10, 10, 30 the ranges are `[0, 4)`, `[4, 6)`, `[6, 8)`. -/
theorem C30_legacy_dma_windows_disjoint (phb : pnv_phb) (dz : Nat) :
    List.Chain (fun x y : Nat × Nat => y.1 = x.1 + x.2) (0, 0)
      (dma_ranges (pnv_ioda_setup_dma phb dz)) ∧
    List.Pairwise (fun x y : Nat × Nat => x.1 + x.2 ≤ y.1)
      (dma_ranges (pnv_ioda_setup_dma phb dz)) ∧
    (∀ r ∈ dma_ranges (pnv_ioda_setup_dma phb dz), r.1 + r.2 ≤ phb.tce32_count) ∧
    (phb.tce32_count + 1 < 2 ^ 32 →
      (∀ pe ∈ phb.pe_dma_list, (phb.pe_array pe).dma_weight ≤ phb.dma_weight) →
      ∀ r ∈ dma_ranges (pnv_ioda_setup_dma phb dz), 0 < r.2) ∧
    (dma_bridge 8 [10, 10, 30]).type = pnv_phb_type.PNV_PHB_IODA1 ∧
    dma_ranges (pnv_ioda_setup_dma (dma_bridge 8 [10, 10, 30]) 0) = [(0, 4), (4, 2), (6, 2)] := by
  have hT : u32 phb.tce32_count < 2 ^ 32 := Nat.mod_lt _ (by norm_num)
  have hT2 : u32 phb.tce32_count ≤ phb.tce32_count := Nat.mod_le _ _
  obtain ⟨h1, h2, h3⟩ := pnv_ioda_setup_dma_loop_ranges phb dz (dma_residual phb)
    phb.dma_weight phb.pe_dma_list (u32 phb.tce32_count) 0 (by omega)
  refine ⟨h1, h3, ?_, ?_, by decide, by decide⟩
  · intro r hr
    have := h2 r hr
    omega
  · intro hc hw r hr
    have := dma_residual_le phb
    exact pnv_ioda_setup_dma_loop_nonempty phb dz (dma_residual phb) phb.dma_weight
      (by omega) phb.pe_dma_list hw _ _ r hr

/-- C30 on the legacy bridge with 8 segments and weights 10, 10, 30: the budget is in range,
no PE weighs more than the total of 50, and every range handed out is non-empty. -/
theorem C30_legacy_dma_windows_disjoint_witness :
    (dma_bridge 8 [10, 10, 30]).tce32_count + 1 < 2 ^ 32 ∧
    (∀ pe ∈ (dma_bridge 8 [10, 10, 30]).pe_dma_list,
      ((dma_bridge 8 [10, 10, 30]).pe_array pe).dma_weight ≤
        (dma_bridge 8 [10, 10, 30]).dma_weight) ∧
    ∀ r ∈ dma_ranges (pnv_ioda_setup_dma (dma_bridge 8 [10, 10, 30]) 0), 0 < r.2 :=
  ⟨by decide, by decide,
    (C30_legacy_dma_windows_disjoint (dma_bridge 8 [10, 10, 30]) 0).2.2.2.1
      (by decide) (by decide)⟩

/-! ## Disable after a failed enable -/

set_option maxRecDepth 100000 in
/-- C29, evaluated on the code.  On the example bridge the slots 0 (the reserved PE), 1 and
2 (the compound PE of bus 1: master 1, slave 2) are in use and slot 3 is free.  Enabling 4
VFs with a firmware that refuses the window set-up reserves the slots 3 to 6, fails in the
M64 assignment and returns `-EBUSY`: the slot bitmap is as before, `offset` is back to 0,
but `vf_pes` keeps the count 4 (second group).  The following `pnv_pci_sriov_disable` then
runs `bitmap_clear(pe_alloc, 0, 4)`: the bits of the slots 0, 1 and 2 are clear afterwards,
although slot 0 is the reserved PE and slot 1 still is the PE of bus 1 and on the PE list
(last group). -/
theorem C29_disable_after_failed_enable_clears_slots :
    ((List.range 4).map sriov_example.phb.pe_alloc = [true, true, true, false] ∧
      sriov_example.phb.reserved_pe = 0 ∧ sriov_example.pf.vf_pes = 0) ∧
    (pnv_pci_sriov_enable fw_mem_window_fails ddw_env_example two_segment_configured.1
        sriov_example 4).map
      (fun r => (r.1, (List.range 4).map r.2.phb.pe_alloc, r.2.pf.offset, r.2.pf.vf_pes)) =
      some (- EBUSY, [true, true, true, false], 0, 4) ∧
    ((pnv_pci_sriov_enable fw_mem_window_fails ddw_env_example two_segment_configured.1
        sriov_example 4).bind
      (fun r => pnv_pci_sriov_disable fw_mem_window_fails ddw_env_example
        two_segment_configured.1 r.2)).map
      (fun s => ((List.range 4).map s.phb.pe_alloc, (s.phb.pe_array 1).pbus,
        s.phb.pe_list)) =
      some ([false, false, false, false], some 1, [1]) := by
  refine ⟨by decide, by decide, by decide⟩

/-! ## VF groups -/

/-- The pairs visited by the group loops: both indices below `vf_num` and in the same group
of `vf_per_group` consecutive indices, the group being one of the first `M64_PER_IOV`. -/
theorem mem_vf_group_pairs (vf_num vpg a b : Nat) :
    (a, b) ∈ vf_group_pairs vf_num vpg ↔
      a < vf_num ∧ b < vf_num ∧
      ∃ g, g < M64_PER_IOV ∧ g * vpg ≤ a ∧ a < (g + 1) * vpg ∧ g * vpg ≤ b ∧
        b < (g + 1) * vpg := by
  simp only [vf_group_pairs, List.mem_flatMap, List.mem_range, List.mem_filter,
    List.mem_range'_1, List.mem_map, decide_eq_true_eq, Prod.mk.injEq]
  constructor
  · rintro ⟨g, hg, a1, ⟨⟨ha1, ha2⟩, ha3⟩, b1, ⟨⟨hb1, hb2⟩, hb3⟩, rfl, rfl⟩
    refine ⟨ha3, hb3, g, hg, ha1, ?_, hb1, ?_⟩
    · rw [Nat.add_mul, Nat.one_mul]; exact ha2
    · rw [Nat.add_mul, Nat.one_mul]; exact hb2
  · rintro ⟨ha, hb, g, hg, h1, h2, h3, h4⟩
    rw [Nat.add_mul, Nat.one_mul] at h2 h4
    exact ⟨g, hg, a, ⟨⟨h1, h2⟩, ha⟩, b, ⟨⟨h3, h4⟩, hb⟩, rfl, rfl⟩

/-- The group loops visit no pair twice. -/
theorem vf_group_pairs_nodup (vf_num vpg : Nat) : (vf_group_pairs vf_num vpg).Nodup := by
  unfold vf_group_pairs
  have hA : ∀ g, ((List.range' (g * vpg) vpg).filter (fun a => decide (a < vf_num))).Nodup :=
    fun g => (List.nodup_range' _ _).filter _
  rw [List.nodup_flatMap]
  constructor
  · intro g _
    rw [List.nodup_flatMap]
    constructor
    · intro a _
      exact (hA g).map (fun x y h => (Prod.mk.inj h).2)
    · refine List.Pairwise.imp ?_ (hA g)
      intro a a1 hne p hp hp1
      simp only [List.mem_map] at hp hp1
      obtain ⟨_, _, rfl⟩ := hp
      obtain ⟨_, _, h⟩ := hp1
      exact hne (Prod.mk.inj h).1.symm
  · refine List.Pairwise.imp ?_ (List.nodup_range M64_PER_IOV)
    intro g g1 hne p hp hp1
    simp only [List.mem_flatMap, List.mem_filter, List.mem_range'_1, List.mem_map,
      decide_eq_true_eq] at hp hp1
    obtain ⟨a, ⟨⟨ha1, ha2⟩, _⟩, _, _, rfl⟩ := hp
    obtain ⟨a1, ⟨⟨hb1, hb2⟩, _⟩, _, _, h⟩ := hp1
    have e : a1 = a := (Prod.mk.inj h).1
    subst e
    have k1 : a1 / vpg = g := Nat.div_eq_of_lt_le ha1 (by rw [Nat.succ_mul]; exact ha2)
    have k2 : a1 / vpg = g1 := Nat.div_eq_of_lt_le hb1 (by rw [Nat.succ_mul]; exact hb2)
    exact hne (k1.symm.trans k2)

/-- The value of `roundup_pow_of_two` for a 16-bit count above 4: a multiple of 4 that is
not below the count. -/
theorem roundup_pow_of_two_group (n : Nat) (h4 : 4 < n) (h16 : n < 2 ^ 16) :
    n ≤ 4 * (roundup_pow_of_two n / 4) := by
  have hne : n - 1 ≠ 0 := by omega
  have hlt : n - 1 < 2 ^ ((n - 1).log2 + 1) := (Nat.log2_lt hne).1 (Nat.lt_succ_self _)
  have hk2 : 2 ≤ (n - 1).log2 := by
    by_contra hc
    have : (n - 1).log2 < 2 := by omega
    have := (Nat.log2_lt hne).1 this
    omega
  have hk16 : (n - 1).log2 < 16 := (Nat.log2_lt hne).2 (by omega)
  have hpow : (2 : Nat) ^ ((n - 1).log2 + 1) = 4 * 2 ^ ((n - 1).log2 - 1) := by
    have : (n - 1).log2 + 1 = 2 + ((n - 1).log2 - 1) := by omega
    rw [this, Nat.pow_add]
  have hle : (2 : Nat) ^ ((n - 1).log2 + 1) ≤ 2 ^ 16 := Nat.pow_le_pow_right (by norm_num) (by omega)
  have hval : roundup_pow_of_two n = 2 ^ ((n - 1).log2 + 1) := by
    unfold roundup_pow_of_two fls_long u64
    rw [if_neg hne, Nat.shiftLeft_eq, Nat.one_mul]
    exact Nat.mod_eq_of_lt (by omega)
  rw [hval, hpow, Nat.mul_div_cancel_left _ (by norm_num : 0 < 4), ← hpow]
  omega

/-- The function `pnv_ioda_configure_pe` completes on a VF-scoped PE whose parent device
has an ancestor chain that ends. -/
theorem configure_pe_vf_defined {σ : Type} (step : σ → opal_call → Int × σ)
    (topo : pci_topology) (phb : pnv_phb) (fw : opal_fw σ) (pe_no pdev : Nat)
    (rows : List Int)
    (hvf : (phb.pe_array pe_no).flags.vf = true) (hbus : (phb.pe_array pe_no).pbus = none)
    (hpar : (phb.pe_array pe_no).parent_dev = some pdev)
    (hrows : ancestor_rows topo topo.ndevs (some pdev) = some rows) :
    ∃ r, pnv_ioda_configure_pe step topo phb fw pe_no = some r := by
  have hm := configure_pe_match_vf topo (phb.pe_array pe_no) hvf hbus
  simp only [pnv_ioda_configure_pe, hm, peltv_parents_eq, hpar, hrows, Option.map_some']
  split_ifs <;> exact ⟨_, rfl⟩

/-- The body of the VF loop of `pnv_ioda_setup_vf_PE` completes. -/
theorem setup_vf_PE_one_defined {σ : Type} (step : σ → opal_call → Int × σ)
    (env : kernel_env σ) (topo : pci_topology) (pf : sriov_pf) (rows : List Int)
    (hrows : ancestor_rows topo topo.ndevs (some pf.pdev) = some rows)
    (s : pnv_phb × opal_fw σ) (vf_index : Nat) :
    ∃ s1, setup_vf_PE_one step env topo pf s vf_index = some s1 := by
  obtain ⟨r, hr⟩ := configure_pe_vf_defined step topo
    (setup_vf_PE_slot s.1 (pf.offset + vf_index) pf.pdev
      ((pf.virtfn_bus vf_index <<< 8) ||| pf.virtfn_devfn vf_index)) s.2
    (pf.offset + vf_index) pf.pdev rows
    (by simp [setup_vf_PE_slot, pe_flags.zero]) (by simp [setup_vf_PE_slot])
    (by simp [setup_vf_PE_slot]) hrows
  simp only [setup_vf_PE_one, hr]
  split_ifs <;> exact ⟨_, rfl⟩

/-- The VF loop of `pnv_ioda_setup_vf_PE` completes. -/
theorem setup_vf_PE_loop_defined {σ : Type} (step : σ → opal_call → Int × σ)
    (env : kernel_env σ) (topo : pci_topology) (pf : sriov_pf) (rows : List Int)
    (hrows : ancestor_rows topo topo.ndevs (some pf.pdev) = some rows) :
    ∀ (l : List Nat) (s : pnv_phb × opal_fw σ),
      ∃ s1, setup_vf_PE_loop step env topo pf l s = some s1 := by
  intro l
  induction l with
  | nil => intro s; exact ⟨s, rfl⟩
  | cons i rest ih =>
    intro s
    obtain ⟨s1, h1⟩ := setup_vf_PE_one_defined step env topo pf rows hrows s i
    obtain ⟨s2, h2⟩ := ih s1
    exact ⟨s2, by simp only [setup_vf_PE_loop, h1, h2]⟩

/-- The calls of the group block, when it runs. -/
theorem vf_group_peltv_log {σ : Type} (step : σ → opal_call → Int × σ) (pf : sriov_pf)
    (fw : opal_fw σ) (vf_num : Nat) (state : OpalPeltvAction)
    (hper : pf.m64_per_iov = M64_PER_IOV) (hnum : M64_PER_IOV < vf_num) :
    (vf_group_peltv step pf fw vf_num state).log =
      fw.log ++ (vf_group_pairs vf_num (roundup_pow_of_two vf_num / M64_PER_IOV)).map
        (fun p => opal_call.opal_pci_set_peltv ((pf.offset : Int) + p.1) (pf.offset + p.2)
          state) := by
  unfold vf_group_peltv
  rw [if_pos ⟨hper, hnum⟩]
  exact opal_foldl_log step _ _ fw

/-- C28: VF group cross-linking.  For a physical function that uses per-group M64 windows
(`m64_per_iov = M64_PER_IOV`) and a 16-bit `vf_num` above `M64_PER_IOV`, with
`vf_per_group = roundup_pow_of_two(vf_num) / M64_PER_IOV`: every VF index below `vf_num`
lies in exactly one of the `M64_PER_IOV` groups of `vf_per_group` consecutive indices; the
group loops visit exactly the pairs `(a, b)` with `a, b < vf_num` in the same group, each
pair once; `pnv_ioda_setup_vf_PE` completes (the ancestor chain of the physical function
ends) and, after its VF loop, issues exactly one call
`opal_pci_set_peltv(offset + a, offset + b, OPAL_ADD_PE_TO_DOMAIN)` per such pair and
nothing else; `pnv_ioda_release_vf_PE` starts with exactly one call
`opal_pci_set_peltv(offset + a, offset + b, OPAL_REMOVE_PE_FROM_DOMAIN)` per pair, the same
pairs in the same order, before it walks the PE list. -/
theorem C28_vf_group_cross_linking {σ : Type} (step : σ → opal_call → Int × σ)
    (env : kernel_env σ) (topo : pci_topology) (phb : pnv_phb) (pf : sriov_pf)
    (fw : opal_fw σ) (vf_num : Nat) (rows : List Int)
    (hphys : pf.is_physfn = true) (hper : pf.m64_per_iov = M64_PER_IOV)
    (hnum : M64_PER_IOV < vf_num) (h16 : vf_num < 2 ^ 16)
    (hrows : ancestor_rows topo topo.ndevs (some pf.pdev) = some rows) :
    (∀ a, a < vf_num → ∃! g, g < M64_PER_IOV ∧
      g * (roundup_pow_of_two vf_num / M64_PER_IOV) ≤ a ∧
      a < (g + 1) * (roundup_pow_of_two vf_num / M64_PER_IOV)) ∧
    (∀ a b, (a, b) ∈ vf_group_pairs vf_num (roundup_pow_of_two vf_num / M64_PER_IOV) ↔
      a < vf_num ∧ b < vf_num ∧
      ∃ g, g < M64_PER_IOV ∧
        g * (roundup_pow_of_two vf_num / M64_PER_IOV) ≤ a ∧
        a < (g + 1) * (roundup_pow_of_two vf_num / M64_PER_IOV) ∧
        g * (roundup_pow_of_two vf_num / M64_PER_IOV) ≤ b ∧
        b < (g + 1) * (roundup_pow_of_two vf_num / M64_PER_IOV)) ∧
    (vf_group_pairs vf_num (roundup_pow_of_two vf_num / M64_PER_IOV)).Nodup ∧
    (∃ s1 r, setup_vf_PE_loop step env topo pf (List.range vf_num) (phb, fw) = some s1 ∧
      pnv_ioda_setup_vf_PE step env topo phb pf fw vf_num = some r ∧
      r.1 = s1.1 ∧
      r.2.log = s1.2.log ++
        (vf_group_pairs vf_num (roundup_pow_of_two vf_num / M64_PER_IOV)).map
          (fun p => opal_call.opal_pci_set_peltv ((pf.offset : Int) + p.1) (pf.offset + p.2)
            OpalPeltvAction.OPAL_ADD_PE_TO_DOMAIN)) ∧
    (∃ fw1, pnv_ioda_release_vf_PE step topo phb pf fw vf_num =
        release_vf_PE_loop step topo pf phb.pe_list (phb, fw1) ∧
      fw1.log = fw.log ++
        (vf_group_pairs vf_num (roundup_pow_of_two vf_num / M64_PER_IOV)).map
          (fun p => opal_call.opal_pci_set_peltv ((pf.offset : Int) + p.1) (pf.offset + p.2)
            OpalPeltvAction.OPAL_REMOVE_PE_FROM_DOMAIN)) := by
  have hM : M64_PER_IOV = 4 := rfl
  have hadd := fun f : opal_fw σ => vf_group_peltv_log step pf f vf_num
    OpalPeltvAction.OPAL_ADD_PE_TO_DOMAIN hper hnum
  have hrem := vf_group_peltv_log step pf fw vf_num
    OpalPeltvAction.OPAL_REMOVE_PE_FROM_DOMAIN hper hnum
  have hgrp := roundup_pow_of_two_group vf_num (by omega) h16
  rw [← hM] at hgrp
  generalize roundup_pow_of_two vf_num / M64_PER_IOV = vpg at hgrp hadd hrem ⊢
  have hpos : 0 < vpg := by
    rcases Nat.eq_zero_or_pos vpg with h0 | h0
    · subst h0; omega
    · exact h0
  refine ⟨?_, fun a b => mem_vf_group_pairs vf_num vpg a b, vf_group_pairs_nodup vf_num vpg,
    ?_, ?_⟩
  · intro a ha
    refine ⟨a / vpg, ⟨?_, ?_, ?_⟩, ?_⟩
    · rw [Nat.div_lt_iff_lt_mul hpos]
      calc a < vf_num := ha
        _ ≤ M64_PER_IOV * vpg := hgrp
    · exact Nat.div_mul_le_self a vpg
    · rw [Nat.add_mul, Nat.one_mul]
      exact Nat.lt_div_mul_add hpos
    · rintro g ⟨_, h1, h2⟩
      exact (Nat.div_eq_of_lt_le h1 h2).symm
  · obtain ⟨s1, h1⟩ := setup_vf_PE_loop_defined step env topo pf rows hrows
      (List.range vf_num) (phb, fw)
    refine ⟨s1, (s1.1, vf_group_peltv step pf s1.2 vf_num
      OpalPeltvAction.OPAL_ADD_PE_TO_DOMAIN), h1, ?_, rfl, ?_⟩
    · simp only [pnv_ioda_setup_vf_PE, hphys, h1]
      rfl
    · exact hadd s1.2
  · refine ⟨vf_group_peltv step pf fw vf_num OpalPeltvAction.OPAL_REMOVE_PE_FROM_DOMAIN, ?_, ?_⟩
    · simp only [pnv_ioda_release_vf_PE, hphys]
      rfl
    · exact hrem

/-- For 6 VFs the group size is `8 / 4 = 2`. -/
theorem roundup_pow_of_two_six : roundup_pow_of_two 6 = 8 := by
  have hne : (5 : Nat) ≠ 0 := by decide
  have h1 : Nat.log2 5 < 3 := (Nat.log2_lt hne).2 (by decide)
  have h2 : ¬ Nat.log2 5 < 2 := fun h => absurd ((Nat.log2_lt hne).1 h) (by decide)
  have h3 : Nat.log2 5 = 2 := by omega
  simp [roundup_pow_of_two, fls_long, u64, h3]

set_option maxRecDepth 100000 in
/-- C28 on the example physical function with 6 VFs in groups of 2: the twelve pairs, and the
group calls that `pnv_ioda_setup_vf_PE` issues after its VF loop. -/
theorem C28_vf_group_cross_linking_witness :
    (sriov_pf_group_example.is_physfn = true ∧
      sriov_pf_group_example.m64_per_iov = M64_PER_IOV ∧ M64_PER_IOV < 6 ∧
      ancestor_rows two_segment_configured.1 two_segment_configured.1.ndevs
        (some sriov_pf_group_example.pdev) = some [1]) ∧
    vf_group_pairs 6 (roundup_pow_of_two 6 / M64_PER_IOV) =
      [(0, 0), (0, 1), (1, 0), (1, 1), (2, 2), (2, 3), (3, 2), (3, 3), (4, 4), (4, 5),
       (5, 4), (5, 5)] ∧
    ∃ s1 r, setup_vf_PE_loop fw_all_ok ddw_env_example two_segment_configured.1
          sriov_pf_group_example (List.range 6) (sriov_phb_example, fw_fresh) = some s1 ∧
      pnv_ioda_setup_vf_PE fw_all_ok ddw_env_example two_segment_configured.1
        sriov_phb_example sriov_pf_group_example fw_fresh 6 = some r ∧
      r.1 = s1.1 ∧
      r.2.log = s1.2.log ++
        (vf_group_pairs 6 (roundup_pow_of_two 6 / M64_PER_IOV)).map
          (fun p => opal_call.opal_pci_set_peltv
            ((sriov_pf_group_example.offset : Int) + p.1)
            (sriov_pf_group_example.offset + p.2) OpalPeltvAction.OPAL_ADD_PE_TO_DOMAIN) :=
  ⟨⟨by decide, by decide, by decide, by decide⟩,
    by rw [roundup_pow_of_two_six]; decide,
    (C28_vf_group_cross_linking fw_all_ok ddw_env_example two_segment_configured.1
      sriov_phb_example sriov_pf_group_example fw_fresh 6 [1]
      (by decide) (by decide) (by decide) (by decide) (by decide)).2.2.2.1⟩

/-! ## VF BAR shift -/

/-- The arithmetic of one BAR under a shift up and the shift back, in 64 bits. -/
theorem vf_shift_arith (r : resource) (S vfs off : Nat) (hst : r.start < 2 ^ 64)
    (hoff : off < vfs) (hsize : resource_size r = S * vfs) :
    ((((r.start : Int) + (S : Int) * (off : Int)) % 2 ^ 64).toNat = u64 (r.start + S * off)) ∧
    (resource_size { r with start := u64 (r.start + S * off) } = S * (vfs - off)) ∧
    (((((u64 (r.start + S * off) : Nat) : Int) + (S : Int) * (- (off : Int))) % 2 ^ 64).toNat =
      r.start) := by
  have hP : S * off ≤ S * vfs := Nat.mul_le_mul_left S (Nat.le_of_lt hoff)
  have hsub : S * (vfs - off) = S * vfs - S * off := Nat.mul_sub S vfs off
  have hcast : (S : Int) * (off : Int) = ((S * off : Nat) : Int) := by push_cast; rfl
  rw [hsub]
  simp only [resource_size, u64, u64_sub] at hsize ⊢
  rw [mul_neg, hcast]
  generalize S * off = P at hP ⊢
  generalize S * vfs = Q at hP hsize ⊢
  generalize r.start = st at hst hsize ⊢
  generalize r.end_ = en at hsize ⊢
  refine ⟨?_, ?_, ?_⟩
  · omega
  · omega
  · omega

/-- The per-VF size of a BAR depends on the BAR and the two VF counts only. -/
theorem sriov_resource_size_congr (dz : Nat) (pf pf1 : sriov_pf) (j : Nat)
    (h1 : pf1.resource j = pf.resource j) (h2 : pf1.vfs = pf.vfs)
    (h3 : pf1.total_vfs = pf.total_vfs) :
    pnv_pci_sriov_resource_size dz pf1 j = pnv_pci_sriov_resource_size dz pf j := by
  simp only [pnv_pci_sriov_resource_size, pnv_pcibios_sriov_resource_size, h1, h2, h3]

/-- The BAR loop of the resource shift: every listed 64-bit prefetchable BAR has its start
moved by the per-VF size, computed in the state before the loop, times the offset; nothing
else changes. -/
theorem vf_resource_shift_loop_apply (dz : Nat) (offset : Int) :
    ∀ (l : List Nat) (pf : sriov_pf), l.Nodup →
      l.foldl (fun (pf : sriov_pf) i =>
        let res := pf.resource i
        if !vf_bar_is_m64 res then pf
        else
          let size := pnv_pci_sriov_resource_size dz pf i
          { pf with
            resource := array_set pf.resource i
              { res with
                start := (((res.start : Int) + (size : Int) * offset) % 2 ^ 64).toNat } })
        pf = { pf with
          resource := fun j =>
            if j ∈ l ∧ vf_bar_is_m64 (pf.resource j) = true then
              { pf.resource j with
                start := ((((pf.resource j).start : Int) +
                  (pnv_pci_sriov_resource_size dz pf j : Int) * offset) % 2 ^ 64).toNat }
            else pf.resource j } := by
  intro l
  induction l with
  | nil => intro pf _; simp
  | cons i rest ih =>
    intro pf hnd
    rw [List.nodup_cons] at hnd
    rw [List.foldl_cons]
    by_cases hb : vf_bar_is_m64 (pf.resource i) = true
    · simp only [hb, Bool.not_true, Bool.false_eq_true, if_false]
      rw [ih _ hnd.2]
      refine congrArg (fun r => { pf with resource := r }) (funext fun j => ?_)
      by_cases hj : j = i
      · subst hj
        simp [array_set, hnd.1, hb]
      · have hs := sriov_resource_size_congr dz pf
          { pf with
            resource := array_set pf.resource i
              { pf.resource i with
                start := ((((pf.resource i).start : Int) +
                  (pnv_pci_sriov_resource_size dz pf i : Int) * offset) % 2 ^ 64).toNat } }
          j (by simp [array_set, hj]) rfl rfl
        rw [hs]
        simp [array_set, hj]
    · simp only [hb, Bool.not_false, if_true]
      rw [ih _ hnd.2]
      refine congrArg (fun r => { pf with resource := r }) (funext fun j => ?_)
      by_cases hj : j = i
      · subst hj
        simp [hnd.1, hb]
      · simp [hj]

/-- The per-VF size of a BAR whose size is an exact multiple of the recorded VF count. -/
theorem sriov_resource_size_of_multiple (dz : Nat) (pf : sriov_pf) (j S : Nat)
    (hv : pf.vfs ≠ 0) (hs : resource_size (pf.resource j) = S * pf.vfs)
    (hd : pf.total_vfs = 0 → S ≠ 0) :
    pnv_pci_sriov_resource_size dz pf j = S := by
  have h1 : pnv_pcibios_sriov_resource_size pf j = S := by
    unfold pnv_pcibios_sriov_resource_size
    rw [if_neg hv, hs]
    exact Nat.mul_div_cancel S (Nat.pos_of_ne_zero hv)
  unfold pnv_pci_sriov_resource_size
  simp only [h1]
  by_cases hS : S = 0
  · have ht : pf.total_vfs ≠ 0 := fun h => hd h hS
    simp [hS, ht, hs]
  · simp [hS]

/-- A shift changes the start of a BAR only. -/
theorem vf_bar_is_m64_start (r : resource) (s : Nat) :
    vf_bar_is_m64 { r with start := s } = vf_bar_is_m64 r := rfl

/-- The function `pnv_pci_vf_resource_shift` on a physical function. -/
theorem vf_resource_shift_apply (dz : Nat) (pf : sriov_pf) (offset : Int)
    (hphys : pf.is_physfn = true) :
    pnv_pci_vf_resource_shift dz pf offset =
      { pf with
        resource := fun j =>
          if j ∈ List.range PCI_SRIOV_NUM_BARS ∧ vf_bar_is_m64 (pf.resource j) = true then
            { pf.resource j with
              start := ((((pf.resource j).start : Int) +
                (pnv_pci_sriov_resource_size dz pf j : Int) * offset) % 2 ^ 64).toNat }
          else pf.resource j
        vfs := (((pf.vfs : Int) - offset) % 2 ^ 16).toNat } := by
  have hn : ¬ ((!pf.is_physfn) = true) := by simp [hphys]
  unfold pnv_pci_vf_resource_shift
  rw [if_neg hn]
  dsimp only
  rw [vf_resource_shift_loop_apply dz offset _ pf (List.nodup_range _)]

/-- C27: VF BAR shift round trip.  For a physical function with a 16-bit VF count `vfs`, an
offset below `vfs`, and 64-bit prefetchable VF BARs whose start is a 64-bit value and whose
size is the exact multiple `S i * vfs` of the VF count (with no division by a zero total VF
count: if `total_vfs` is 0 the BARs are not empty): for each such BAR the per-VF size
computed by `pnv_pci_sriov_resource_size` is `S i` before and after the shift by `offset`,
the shift moves the start up by `offset * S i` (in 64 bits), it lowers `vfs` by `offset`,
and a following shift by `-offset` gives back the physical function as it was: every BAR
start and the VF count. -/
theorem C27_vf_bar_shift_round_trip (dz : Nat) (pf : sriov_pf) (offset : Nat) (S : Nat → Nat)
    (hphys : pf.is_physfn = true) (hvfs : pf.vfs < 2 ^ 16) (hoff : offset < pf.vfs)
    (hstart : ∀ i, i < PCI_SRIOV_NUM_BARS → vf_bar_is_m64 (pf.resource i) = true →
      (pf.resource i).start < 2 ^ 64)
    (hsize : ∀ i, i < PCI_SRIOV_NUM_BARS → vf_bar_is_m64 (pf.resource i) = true →
      resource_size (pf.resource i) = S i * pf.vfs)
    (hdiv : pf.total_vfs = 0 → ∀ i, i < PCI_SRIOV_NUM_BARS →
      vf_bar_is_m64 (pf.resource i) = true → S i ≠ 0) :
    (∀ i, i < PCI_SRIOV_NUM_BARS → vf_bar_is_m64 (pf.resource i) = true →
      pnv_pci_sriov_resource_size dz pf i = S i ∧
      ((pnv_pci_vf_resource_shift dz pf offset).resource i).start =
        u64 ((pf.resource i).start + S i * offset) ∧
      pnv_pci_sriov_resource_size dz (pnv_pci_vf_resource_shift dz pf offset) i = S i) ∧
    (pnv_pci_vf_resource_shift dz pf offset).vfs = pf.vfs - offset ∧
    pnv_pci_vf_resource_shift dz (pnv_pci_vf_resource_shift dz pf offset) (- (offset : Int)) =
      pf := by
  have hv : pf.vfs ≠ 0 := by omega
  have hS : ∀ i, i < PCI_SRIOV_NUM_BARS → vf_bar_is_m64 (pf.resource i) = true →
      pnv_pci_sriov_resource_size dz pf i = S i := fun i hi hm =>
    sriov_resource_size_of_multiple dz pf i (S i) hv (hsize i hi hm)
      (fun h => hdiv h i hi hm)
  -- the state after the first shift
  have h1 : pnv_pci_vf_resource_shift dz pf offset =
      { pf with
        resource := fun j =>
          if j ∈ List.range PCI_SRIOV_NUM_BARS ∧ vf_bar_is_m64 (pf.resource j) = true then
            { pf.resource j with start := u64 ((pf.resource j).start + S j * offset) }
          else pf.resource j
        vfs := pf.vfs - offset } := by
    rw [vf_resource_shift_apply dz pf offset hphys]
    have e1 : ((((pf.vfs : Int) - (offset : Int)) % 2 ^ 16).toNat) = pf.vfs - offset := by
      omega
    simp only [e1]
    refine congrArg (fun r => { pf with resource := r, vfs := pf.vfs - offset })
      (funext fun j => ?_)
    by_cases hj : j ∈ List.range PCI_SRIOV_NUM_BARS ∧ vf_bar_is_m64 (pf.resource j) = true
    · rw [if_pos hj, if_pos hj, hS j (List.mem_range.1 hj.1) hj.2]
      rw [(vf_shift_arith (pf.resource j) (S j) pf.vfs offset
        (hstart j (List.mem_range.1 hj.1) hj.2) hoff (hsize j (List.mem_range.1 hj.1) hj.2)).1]
    · rw [if_neg hj, if_neg hj]
  have hS1 : ∀ i, i < PCI_SRIOV_NUM_BARS → vf_bar_is_m64 (pf.resource i) = true →
      pnv_pci_sriov_resource_size dz (pnv_pci_vf_resource_shift dz pf offset) i = S i := by
    intro i hi hm
    rw [h1]
    refine sriov_resource_size_of_multiple dz _ i (S i) (by simp only; omega) ?_
      (fun h => hdiv h i hi hm)
    simp only [List.mem_range, hi, hm, and_self, if_true]
    exact (vf_shift_arith (pf.resource i) (S i) pf.vfs offset (hstart i hi hm) hoff
      (hsize i hi hm)).2.1
  refine ⟨fun i hi hm => ⟨hS i hi hm, ?_, hS1 i hi hm⟩, by rw [h1], ?_⟩
  · rw [h1]
    simp only [List.mem_range, hi, hm, and_self, if_true]
  · have hp1 : (pnv_pci_vf_resource_shift dz pf offset).is_physfn = true := by rw [h1]; exact hphys
    rw [vf_resource_shift_apply dz _ _ hp1]
    have hres : (fun j =>
        if j ∈ List.range PCI_SRIOV_NUM_BARS ∧
            vf_bar_is_m64 ((pnv_pci_vf_resource_shift dz pf offset).resource j) = true then
          { (pnv_pci_vf_resource_shift dz pf offset).resource j with
            start := (((((pnv_pci_vf_resource_shift dz pf offset).resource j).start : Int) +
              (pnv_pci_sriov_resource_size dz (pnv_pci_vf_resource_shift dz pf offset) j : Int) *
                (- (offset : Int))) % 2 ^ 64).toNat }
        else (pnv_pci_vf_resource_shift dz pf offset).resource j) = pf.resource := by
      funext j
      by_cases hj : j ∈ List.range PCI_SRIOV_NUM_BARS ∧ vf_bar_is_m64 (pf.resource j) = true
      · have hi := List.mem_range.1 hj.1
        have hr : (pnv_pci_vf_resource_shift dz pf offset).resource j =
            { pf.resource j with start := u64 ((pf.resource j).start + S j * offset) } := by
          rw [h1]
          simp only [hj, and_self, if_true]
        rw [hS1 j hi hj.2, hr, vf_bar_is_m64_start, if_pos hj]
        simp only
        rw [(vf_shift_arith (pf.resource j) (S j) pf.vfs offset (hstart j hi hj.2) hoff
          (hsize j hi hj.2)).2.2]
      · have hr : (pnv_pci_vf_resource_shift dz pf offset).resource j = pf.resource j := by
          rw [h1]
          simp only [hj, if_false]
        rw [hr, if_neg hj]
    rw [hres]
    have hv1 : (pnv_pci_vf_resource_shift dz pf offset).vfs = pf.vfs - offset := by rw [h1]
    have e2 : (((((pnv_pci_vf_resource_shift dz pf offset).vfs : Int) - (- (offset : Int))) %
        2 ^ 16).toNat) = pf.vfs := by
      rw [hv1]
      omega
    simp only [e2]
    rw [h1]

/-- C27 on the example physical function (256 VFs recorded, one 64-bit prefetchable VF BAR
of 256 MiB, so 1 MiB per VF) with offset 3: the BAR start moves up by 3 MiB, and the shift
by `-3` gives the physical function back. -/
theorem C27_vf_bar_shift_round_trip_witness :
    (sriov_pf_example.is_physfn = true ∧ 3 < sriov_pf_example.vfs ∧
      resource_size (sriov_pf_example.resource 0) = 0x100000 * sriov_pf_example.vfs) ∧
    ((pnv_pci_vf_resource_shift 0 sriov_pf_example ((3 : Nat) : Int)).resource 0).start =
      0x1040000000 + 0x300000 ∧
    pnv_pci_vf_resource_shift 0
      (pnv_pci_vf_resource_shift 0 sriov_pf_example ((3 : Nat) : Int)) (- ((3 : Nat) : Int)) =
      sriov_pf_example :=
  have h := C27_vf_bar_shift_round_trip 0 sriov_pf_example 3 (fun _ => 0x100000)
    (by decide) (by decide) (by decide) (by decide) (by decide) (by decide)
  ⟨⟨by decide, by decide, by decide⟩, ((h.1 0 (by decide) (by decide)).2.1).trans (by decide),
    h.2.2⟩

/-! ## Bus PE set-up -/

/-- The function `pnv_ioda_setup_bus_PE` in terms of its head, its slot initialisation and
its tail. -/
theorem setup_bus_PE_eq {σ : Type} (step : σ → opal_call → Int × σ) (kzalloc_ok : Bool)
    (topo : pci_topology) (phb : pnv_phb) (fw : opal_fw σ) (bus : Nat) (all : Bool) :
    pnv_ioda_setup_bus_PE step kzalloc_ok topo phb fw bus all =
      match setup_bus_PE_choose kzalloc_ok topo phb bus all with
      | none => none
      | some a =>
        if a.1 = IODA_INVALID_PE then some (topo, a.2, fw)
        else
          match pnv_ioda_configure_pe step topo
              (setup_bus_PE_slot topo a.2 a.1.toNat bus all) fw a.1.toNat with
          | none => none
          | some r =>
            if r.1 ≠ 0 then
              let phb3 := if a.1.toNat ≠ 0 then pnv_ioda_free_pe r.2.1 a.1.toNat else r.2.1
              some (topo, set_pe phb3 a.1.toNat { phb3.pe_array a.1.toNat with pbus := none },
                r.2.2)
            else
              match setup_bus_PE_finish topo r.2.1 a.1.toNat bus with
              | none => none
              | some t => some (t.1, t.2, r.2.2) := by
  unfold pnv_ioda_setup_bus_PE setup_bus_PE_choose
  cases hp : (if phb.pick_m64_pe = true then pnv_ioda2_pick_m64_pe kzalloc_ok topo phb bus all
      else some (IODA_INVALID_PE, phb)) with
  | none => rfl
  | some p =>
    obtain ⟨pe_num0, phb0⟩ := p
    dsimp only
    generalize (if pe_num0 = IODA_INVALID_PE then pnv_ioda_alloc_pe phb0
      else (pe_num0, phb0)) = a
    by_cases h1 : a.1 = IODA_INVALID_PE
    · rw [if_pos h1, if_pos h1]
    · rw [if_neg h1, if_neg h1]
      change (match pnv_ioda_configure_pe step topo
          (setup_bus_PE_slot topo a.2 a.1.toNat bus all) fw a.1.toNat with
        | none => none
        | some (rc, phb2, fw2) => _) = _
      cases hc : pnv_ioda_configure_pe step topo
          (setup_bus_PE_slot topo a.2 a.1.toNat bus all) fw a.1.toNat with
      | none => rfl
      | some r =>
        obtain ⟨rc, phb2, fw2⟩ := r
        dsimp only
        by_cases h2 : rc ≠ 0
        · rw [if_pos h2, if_pos h2]
        · rw [if_neg h2, if_neg h2]
          unfold setup_bus_PE_finish
          cases hs : pnv_ioda_setup_same_PE a.1.toNat (topo.ndevs + 1) bus (topo, phb2) with
          | none => rfl
          | some t =>
            obtain ⟨topo3, phb3⟩ := t
            rfl

/-! ## Compound PE formation -/

/-- The loop at `done` once a master has been chosen: every later candidate becomes a slave
of `m`, linked at the tail of the list of `m`, and no other slot changes. -/
theorem pick_m64_assign_some (pe_alloc : Nat → Bool) (m : Nat) :
    ∀ (indices : List Nat) (phb : pnv_phb), m ∉ indices → indices.Nodup →
      (pick_m64_assign pe_alloc indices (some m) phb).1 = some m ∧
      ∃ arr : Nat → pnv_ioda_pe,
        (pick_m64_assign pe_alloc indices (some m) phb).2 = { phb with pe_array := arr } ∧
        arr m = { phb.pe_array m with
          slaves := (phb.pe_array m).slaves ++ indices.filter pe_alloc } ∧
        (∀ s, s ∈ indices → pe_alloc s = true →
          arr s = pick_m64_slave_slot (phb.pe_array s) s m) ∧
        (∀ k, k ≠ m → ¬ (k ∈ indices ∧ pe_alloc k = true) → arr k = phb.pe_array k) := by
  intro indices
  induction indices with
  | nil =>
    intro phb _ _
    refine ⟨rfl, phb.pe_array, rfl, by simp, by simp, fun _ _ _ => rfl⟩
  | cons i rest ih =>
    intro phb hm hnd
    rw [List.nodup_cons] at hnd
    have hmi : m ≠ i := fun h => hm (h ▸ List.mem_cons_self _ _)
    have hmr : m ∉ rest := fun h => hm (List.mem_cons_of_mem _ h)
    by_cases hi : pe_alloc i = true
    · simp only [pick_m64_assign, hi, if_true]
      obtain ⟨h1, arr, h2, h3, h4, h5⟩ := ih
        (set_pe
          (set_pe phb i
            { phb.pe_array i with
              phb := true, pe_number := i,
              flags := { (phb.pe_array i).flags with slave := true }, master := some m })
          m
          { (set_pe phb i
              { phb.pe_array i with
                phb := true, pe_number := i,
                flags := { (phb.pe_array i).flags with slave := true },
                master := some m }).pe_array m with
            slaves := ((set_pe phb i
              { phb.pe_array i with
                phb := true, pe_number := i,
                flags := { (phb.pe_array i).flags with slave := true },
                master := some m }).pe_array m).slaves ++ [i] })
        hmr hnd.2
      refine ⟨h1, arr, ?_, ?_, ?_, ?_⟩
      · rw [h2]; rfl
      · rw [h3]
        simp [set_pe, array_set, hmi, List.filter_cons, hi]
      · intro s hs hps
        rw [List.mem_cons] at hs
        rcases hs with hs | hs
        · subst hs
          rw [h5 s (Ne.symm hmi) (fun h => hnd.1 h.1)]
          simp [set_pe, array_set, Ne.symm hmi, pick_m64_slave_slot]
        · have hsi : s ≠ i := fun h => hnd.1 (h ▸ hs)
          have hsm : s ≠ m := fun h => hmr (h ▸ hs)
          rw [h4 s hs hps]
          simp [set_pe, array_set, hsi, hsm]
      · intro k hkm hk
        have hki : k ≠ i := fun h => hk ⟨h ▸ List.mem_cons_self _ _, h ▸ hi⟩
        rw [h5 k hkm (fun h => hk ⟨List.mem_cons_of_mem _ h.1, h.2⟩)]
        simp [set_pe, array_set, hki, hkm]
    · simp only [pick_m64_assign, hi, Bool.false_eq_true, if_false]
      obtain ⟨h1, arr, h2, h3, h4, h5⟩ := ih phb hmr hnd.2
      refine ⟨h1, arr, h2, ?_, ?_, ?_⟩
      · rw [h3]
        simp [List.filter_cons, hi]
      · intro s hs hps
        rw [List.mem_cons] at hs
        rcases hs with hs | hs
        · subst hs; exact absurd hps hi
        · exact h4 s hs hps
      · intro k hkm hk
        exact h5 k hkm (fun h => hk ⟨List.mem_cons_of_mem _ h.1, h.2⟩)

/-- The loop at `done` from its start: with no candidate among the indices nothing happens
and `master_pe` stays NULL; otherwise the first candidate becomes the master, the later
ones its slaves in index-list order, and no other slot changes. -/
theorem pick_m64_assign_none (pe_alloc : Nat → Bool) :
    ∀ (indices : List Nat) (phb : pnv_phb), indices.Nodup →
      (indices.filter pe_alloc = [] →
        pick_m64_assign pe_alloc indices none phb = (none, phb)) ∧
      (∀ m rest, indices.filter pe_alloc = m :: rest →
        (pick_m64_assign pe_alloc indices none phb).1 = some m ∧
        ∃ arr : Nat → pnv_ioda_pe,
          (pick_m64_assign pe_alloc indices none phb).2 = { phb with pe_array := arr } ∧
          arr m = pick_m64_master_slot (phb.pe_array m) m rest ∧
          (∀ s, s ∈ rest → arr s = pick_m64_slave_slot (phb.pe_array s) s m) ∧
          (∀ k, k ≠ m → k ∉ rest → arr k = phb.pe_array k)) := by
  intro indices
  induction indices with
  | nil =>
    intro phb _
    exact ⟨fun _ => rfl, fun m rest h => by simp at h⟩
  | cons i tl ih =>
    intro phb hnd
    rw [List.nodup_cons] at hnd
    by_cases hi : pe_alloc i = true
    · refine ⟨fun h => by simp [List.filter_cons, hi] at h, ?_⟩
      intro m rest h
      simp only [List.filter_cons, hi, if_true, List.cons.injEq] at h
      obtain ⟨rfl, hrest⟩ := h
      simp only [pick_m64_assign, hi, if_true]
      obtain ⟨h1, arr, h2, h3, h4, h5⟩ := pick_m64_assign_some pe_alloc i tl
        (set_pe phb i
          { phb.pe_array i with
            phb := true, pe_number := i,
            flags := { (phb.pe_array i).flags with master := true }, slaves := [] })
        hnd.1 hnd.2
      refine ⟨h1, arr, ?_, ?_, ?_, ?_⟩
      · rw [h2]; rfl
      · rw [h3, hrest]
        simp [pick_m64_master_slot]
      · intro s hs
        rw [← hrest, List.mem_filter] at hs
        have hsi : s ≠ i := fun h => hnd.1 (h ▸ hs.1)
        rw [h4 s hs.1 hs.2]
        simp [set_pe, array_set, hsi]
      · intro k hki hk
        rw [h5 k hki (fun h => hk (by rw [← hrest]; exact List.mem_filter.2 ⟨h.1, h.2⟩))]
        simp [set_pe, array_set, hki]
    · have hf : (i :: tl).filter pe_alloc = tl.filter pe_alloc := by
        simp [List.filter_cons, hi]
      have he : pick_m64_assign pe_alloc (i :: tl) none phb =
          pick_m64_assign pe_alloc tl none phb := by
        simp only [pick_m64_assign, hi, Bool.false_eq_true, if_false]
      rw [hf, he]
      exact ih phb hnd.2

/-- The subtraction of the windows of one child bus clears exactly the segments of its
64-bit prefetchable windows that have a parent. -/
theorem pick_m64_subtract_bus_apply (phb : pnv_phb) (k : Nat) :
    ∀ (resources : List (Option resource)) (b : Nat → Bool),
      pick_m64_subtract_bus phb resources b k = true ↔
        b k = true ∧ ∀ r, some r ∈ resources → (r.parent && pnv_pci_is_mem_pref_64 r) = true →
          ¬ (m64_segment_start phb r ≤ k ∧
            k < m64_segment_start phb r + m64_segment_count phb r) := by
  intro resources
  induction resources with
  | nil => intro b; simp [pick_m64_subtract_bus]
  | cons x xs ih =>
    intro b
    have ih2 := fun b => ih b
    unfold pick_m64_subtract_bus at ih2 ⊢
    rw [List.foldl_cons, ih2]
    cases x with
    | none => simp
    | some r =>
      by_cases hr : (r.parent && pnv_pci_is_mem_pref_64 r) = true
      · simp only [hr, if_true, clear_bits_apply, List.mem_cons, Option.some.injEq]
        constructor
        · rintro ⟨h1, h2⟩
          by_cases hin : m64_segment_start phb r ≤ k ∧
              k < m64_segment_start phb r + m64_segment_count phb r
          · rw [if_pos hin] at h1
            exact absurd h1 (by simp)
          · rw [if_neg hin] at h1
            refine ⟨h1, ?_⟩
            rintro r1 (h | h) hp
            · subst h; exact hin
            · exact h2 r1 h hp
        · rintro ⟨h1, h2⟩
          have hin := h2 r (Or.inl rfl) hr
          rw [if_neg hin]
          exact ⟨h1, fun r1 h hp => h2 r1 (Or.inr h) hp⟩
      · simp only [hr, Bool.false_eq_true, if_false, List.mem_cons, Option.some.injEq]
        constructor
        · rintro ⟨h1, h2⟩
          refine ⟨h1, ?_⟩
          rintro r1 (h | h) hp
          · subst h; exact absurd hp hr
          · exact h2 r1 h hp
        · rintro ⟨h1, h2⟩
          exact ⟨h1, fun r1 h hp => h2 r1 (Or.inr h) hp⟩

/-- The subtraction of the children clears exactly the segments of the windows of the
subordinate buses of the devices. -/
theorem pick_m64_subtract_children_apply (topo : pci_topology) (phb : pnv_phb) (k : Nat) :
    ∀ (devices : List Nat) (b : Nat → Bool),
      pick_m64_subtract_children topo phb devices b k = true ↔
        b k = true ∧ ∀ d, d ∈ devices → ∀ sub, (topo.devs d).subordinate = some sub →
          ∀ r, some r ∈ (topo.buses sub).resources →
            (r.parent && pnv_pci_is_mem_pref_64 r) = true →
            ¬ (m64_segment_start phb r ≤ k ∧
              k < m64_segment_start phb r + m64_segment_count phb r) := by
  intro devices
  induction devices with
  | nil => intro b; simp [pick_m64_subtract_children]
  | cons x xs ih =>
    intro b
    have ih2 := fun b => ih b
    unfold pick_m64_subtract_children at ih2 ⊢
    rw [List.foldl_cons, ih2]
    cases hs : (topo.devs x).subordinate with
    | none =>
      simp only [List.mem_cons]
      constructor
      · rintro ⟨h1, h2⟩
        refine ⟨h1, ?_⟩
        rintro d (h | h) sub hsub
        · subst h; rw [hs] at hsub; exact absurd hsub (by simp)
        · exact h2 d h sub hsub
      · rintro ⟨h1, h2⟩
        exact ⟨h1, fun d h => h2 d (Or.inr h)⟩
    | some sub0 =>
      simp only [List.mem_cons, pick_m64_subtract_bus_apply]
      constructor
      · rintro ⟨⟨h1, h3⟩, h2⟩
        refine ⟨h1, ?_⟩
        rintro d (h | h) sub hsub
        · subst h
          rw [hs] at hsub
          obtain rfl := Option.some.inj hsub
          exact h3
        · exact h2 d h sub hsub
      · rintro ⟨h1, h2⟩
        exact ⟨⟨h1, h2 x (Or.inl rfl) sub0 hs⟩, fun d h => h2 d (Or.inr h)⟩

/-- The test `bitmap_empty` is the emptiness of the candidate list. -/
theorem bitmap_empty_iff (addr : Nat → Bool) (size : Nat) :
    bitmap_empty addr size = true ↔ (List.range size).filter addr = [] := by
  simp [bitmap_empty, List.filter_eq_nil_iff]

/-- The function `pnv_ioda2_pick_m64_pe` past its early returns. -/
theorem pick_m64_pe_eq (topo : pci_topology) (phb : pnv_phb) (bus : Nat) (all : Bool)
    (r : resource) (hroot : pci_is_root_bus (topo.buses bus) = false)
    (hwin : pick_m64_window (topo.buses bus).resources = some r)
    (hseg : phb.m64_segsize ≠ 0) :
    pnv_ioda2_pick_m64_pe true topo phb bus all =
      if (!all && bitmap_empty (pick_m64_segments topo phb bus r all) phb.total_pe) = true then
        some (IODA_INVALID_PE, phb)
      else
        match (pick_m64_assign (pick_m64_segments topo phb bus r all)
            (List.range phb.total_pe) none phb).1 with
        | none => none
        | some m =>
          some ((((pick_m64_assign (pick_m64_segments topo phb bus r all)
            (List.range phb.total_pe) none phb).2.pe_array m).pe_number : Int),
            (pick_m64_assign (pick_m64_segments topo phb bus r all)
              (List.range phb.total_pe) none phb).2) := by
  unfold pnv_ioda2_pick_m64_pe
  simp only [hroot, hwin, Bool.false_eq_true, if_false, Bool.not_true, hseg]
  rfl
/-- The candidates of a bitmap whose set bits below `size` are the interval
`lo .. lo + n - 1`. -/
theorem filter_range_interval (cand : Nat → Bool) (size lo n : Nat)
    (h : ∀ k, k < size → (cand k = true ↔ lo ≤ k ∧ k < lo + n)) (hle : lo + n ≤ size) :
    (List.range size).filter cand = List.range' lo n := by
  have hs1 : List.Sorted (· < ·) ((List.range size).filter cand) :=
    (List.pairwise_lt_range size).filter _
  have hs2 : List.Sorted (· < ·) (List.range' lo n) := List.pairwise_lt_range' lo n
  refine List.eq_of_perm_of_sorted ?_ hs1 hs2
  refine (List.perm_ext_iff_of_nodup ((List.nodup_range size).filter _)
    (List.nodup_range' lo n)).2 ?_
  intro k
  rw [List.mem_filter, List.mem_range, List.mem_range'_1]
  constructor
  · rintro ⟨h1, h2⟩
    exact (h k h1).1 h2
  · intro hk
    have hlt : k < size := by omega
    exact ⟨hlt, (h k hlt).2 hk⟩

/-- C21: master/slave formation.  For a bus that is not a root bus and has a 64-bit
prefetchable window `r`, on a bridge with a non-zero segment size and with the scratch
bitmap allocated: the candidate set is the segment range of the window when `all` is set,
and that range less the segments of every 64-bit prefetchable window of a child bus when
`all` is clear.  Whenever the candidates below `total_pe`, in ascending order, are
`m :: rest` (a non-empty set `S` with least element `m`), `pnv_ioda2_pick_m64_pe` returns
`m`, which is below `total_pe`; slot `m` has `phb` and `pe_number = m` set, the master flag
or-ed in and the slave list `rest` (ascending); every slot `s` of `rest` has `phb` and
`pe_number = s` set, the slave flag or-ed in and `master` referring to `m`; no other slot
and no other field of the bridge changes.  When the candidates below `total_pe` are the
interval `lo .. lo + n - 1`, the master is `lo` and the slaves are `lo + 1 .. lo + n - 1`. -/
theorem C21_master_slave_formation (topo : pci_topology) (phb : pnv_phb) (bus : Nat)
    (all : Bool) (r : resource) (m : Nat) (rest : List Nat)
    (hroot : pci_is_root_bus (topo.buses bus) = false)
    (hwin : pick_m64_window (topo.buses bus).resources = some r)
    (hseg : phb.m64_segsize ≠ 0)
    (hS : (List.range phb.total_pe).filter (pick_m64_segments topo phb bus r all) =
      m :: rest) :
    (∀ k, pick_m64_segments topo phb bus r true k = true ↔
      m64_segment_start phb r ≤ k ∧ k < m64_segment_start phb r + m64_segment_count phb r) ∧
    (∀ k, pick_m64_segments topo phb bus r false k = true ↔
      (m64_segment_start phb r ≤ k ∧
        k < m64_segment_start phb r + m64_segment_count phb r) ∧
      ∀ d, d ∈ (topo.buses bus).devices → ∀ sub, (topo.devs d).subordinate = some sub →
        ∀ r1, some r1 ∈ (topo.buses sub).resources →
          (r1.parent && pnv_pci_is_mem_pref_64 r1) = true →
          ¬ (m64_segment_start phb r1 ≤ k ∧
            k < m64_segment_start phb r1 + m64_segment_count phb r1)) ∧
    (m < phb.total_pe ∧ (∀ s, s ∈ rest → m < s ∧ s < phb.total_pe) ∧
      List.Pairwise (· < ·) rest) ∧
    (∃ arr : Nat → pnv_ioda_pe,
      pnv_ioda2_pick_m64_pe true topo phb bus all =
        some ((m : Int), { phb with pe_array := arr }) ∧
      arr m = pick_m64_master_slot (phb.pe_array m) m rest ∧
      (∀ s, s ∈ rest → arr s = pick_m64_slave_slot (phb.pe_array s) s m) ∧
      (∀ k, k ≠ m → k ∉ rest → arr k = phb.pe_array k)) ∧
    (∀ lo n, (∀ k, k < phb.total_pe →
        (pick_m64_segments topo phb bus r all k = true ↔ lo ≤ k ∧ k < lo + n)) →
      lo + n ≤ phb.total_pe → m = lo ∧ rest = List.range' (lo + 1) (n - 1)) := by
  have hsorted : List.Pairwise (· < ·) (m :: rest) := by
    rw [← hS]
    exact (List.pairwise_lt_range phb.total_pe).filter _
  have hmem : ∀ s, s ∈ m :: rest → s < phb.total_pe := by
    intro s hs
    rw [← hS, List.mem_filter, List.mem_range] at hs
    exact hs.1
  rw [List.pairwise_cons] at hsorted
  refine ⟨?_, ?_, ⟨hmem m (List.mem_cons_self _ _),
    fun s hs => ⟨hsorted.1 s hs, hmem s (List.mem_cons_of_mem _ hs)⟩, hsorted.2⟩, ?_, ?_⟩
  · intro k
    simp [pick_m64_segments, set_bits_apply]
  · intro k
    simp only [pick_m64_segments, Bool.false_eq_true, if_false,
      pick_m64_subtract_children_apply, set_bits_apply]
    simp
  · obtain ⟨h1, arr, h2, h3, h4, h5⟩ := (pick_m64_assign_none
      (pick_m64_segments topo phb bus r all) (List.range phb.total_pe) phb
      (List.nodup_range _)).2 m rest hS
    refine ⟨arr, ?_, h3, h4, h5⟩
    rw [pick_m64_pe_eq topo phb bus all r hroot hwin hseg]
    have hne : ¬ ((!all && bitmap_empty (pick_m64_segments topo phb bus r all)
        phb.total_pe) = true) := by
      intro h
      rw [Bool.and_eq_true, bitmap_empty_iff, hS] at h
      exact absurd h.2 (by simp)
    rw [if_neg hne]
    simp only [h1]
    rw [h2]
    simp only [h3, pick_m64_master_slot]
  · intro lo n h hle
    have hf := filter_range_interval _ phb.total_pe lo n h hle
    rw [hS] at hf
    cases n with
    | zero => simp at hf
    | succ n =>
      rw [List.range'_succ] at hf
      simp only [List.cons.injEq] at hf
      exact ⟨hf.1, by simpa using hf.2⟩

set_option maxRecDepth 100000 in
/-- C21 on the example: bus 1 owns the segments 1 and 2 and has no child bus, so PE 1 becomes
the master with the slave list `[2]` and PE 2 its slave. -/
theorem C21_master_slave_formation_witness :
    (List.range two_segment_phb.total_pe).filter
        (pick_m64_segments two_segment_topology two_segment_phb 1
          { start := 0x1010000000, end_ := 0x102fffffff, parent := true, mem_64 := true,
            prefetch := true } false) = [1, 2] ∧
    ∃ arr : Nat → pnv_ioda_pe,
      pnv_ioda2_pick_m64_pe true two_segment_topology two_segment_phb 1 false =
        some ((1 : Int), { two_segment_phb with pe_array := arr }) ∧
      arr 1 = pick_m64_master_slot (two_segment_phb.pe_array 1) 1 [2] ∧
      (∀ s, s ∈ [2] → arr s = pick_m64_slave_slot (two_segment_phb.pe_array s) s 1) ∧
      (∀ k, k ≠ 1 → k ∉ [2] → arr k = two_segment_phb.pe_array k) :=
  ⟨by decide,
    (C21_master_slave_formation two_segment_topology two_segment_phb 1 false
      { start := 0x1010000000, end_ := 0x102fffffff, parent := true, mem_64 := true,
        prefetch := true } 1 [2] (by decide) (by decide) (by decide) (by decide)).2.2.2.1⟩

/-! ## Pick on an empty candidate set -/

set_option maxRecDepth 100000 in
/-- C22, evaluated on the code.  Bus 1 is not a root bus and has a 64-bit prefetchable window
of 1 MiB, less than one segment of 256 MiB, so the window covers no segment index and the
candidate set is empty for either value of `all` (first group).  With `all` clear
`pnv_ioda2_pick_m64_pe` finds the scratch bitmap empty and returns `IODA_INVALID_PE` with
the bridge unchanged (second line).  With `all` set it jumps to `done` past the
`bitmap_empty` test; the loop visits no index, `master_pe` is still NULL, and the final
`master_pe->pe_number` dereferences it: the call has no result (third line).  On the
two-segment example, whose candidate set is `{1, 2}`, a failed allocation of the scratch
bitmap makes the function return `IODA_INVALID_PE` as well (last line). -/
theorem C22_pick_with_all_set_faults_on_empty_set :
    (pci_is_root_bus (narrow_window_topology.buses 1) = false ∧
      pick_m64_window (narrow_window_topology.buses 1).resources =
        some { start := 0x1010000000, end_ := 0x10100fffff, parent := true, mem_64 := true,
               prefetch := true } ∧
      two_segment_phb.m64_segsize = 0x10000000 ∧
      (List.range two_segment_phb.total_pe).filter
        (pick_m64_segments narrow_window_topology two_segment_phb 1
          { start := 0x1010000000, end_ := 0x10100fffff, parent := true, mem_64 := true,
            prefetch := true } true) = [] ∧
      (List.range two_segment_phb.total_pe).filter
        (pick_m64_segments narrow_window_topology two_segment_phb 1
          { start := 0x1010000000, end_ := 0x10100fffff, parent := true, mem_64 := true,
            prefetch := true } false) = []) ∧
    (pnv_ioda2_pick_m64_pe true narrow_window_topology two_segment_phb 1 false).map
      (fun r => (r.1, (List.range 256).all (fun k =>
        decide (r.2.pe_array k = two_segment_phb.pe_array k)))) =
      some (IODA_INVALID_PE, true) ∧
    (pnv_ioda2_pick_m64_pe true narrow_window_topology two_segment_phb 1 true).map
      (fun r => r.1) = none ∧
    (pnv_ioda2_pick_m64_pe false two_segment_topology two_segment_phb 1 false).map
      (fun r => r.1) = some IODA_INVALID_PE := by
  refine ⟨⟨by decide, by decide, by decide, by decide, by decide⟩, by decide, by decide,
    by decide⟩

/-! ## Matching rule -/

/-- The MVE block of configure only appends to the call log. -/
theorem configure_mve_log {σ : Type} (step : σ → opal_call → Int × σ) (type : pnv_phb_type)
    (pe : pnv_ioda_pe) (fw : opal_fw σ) :
    ∃ rest, (configure_mve step type pe fw).2.log = fw.log ++ rest := by
  simp only [configure_mve]
  split_ifs
  · exact ⟨[_], rfl⟩
  · exact ⟨[opal_call.opal_pci_set_mve (pe.pe_number : Int) pe.pe_number,
      opal_call.opal_pci_set_mve_enable (pe.pe_number : Int)
        OpalMveEnableAction.OPAL_ENABLE_MVE], by simp [opal]⟩
  · exact ⟨[opal_call.opal_pci_set_mve (pe.pe_number : Int) pe.pe_number,
      opal_call.opal_pci_set_mve_enable (pe.pe_number : Int)
        OpalMveEnableAction.OPAL_ENABLE_MVE], by simp [opal]⟩
  · exact ⟨[], by simp⟩
  · exact ⟨[], by simp⟩

/-- The MVE block of deconfigure only appends to the call log. -/
theorem deconfigure_mve_log {σ : Type} (step : σ → opal_call → Int × σ) (type : pnv_phb_type)
    (pe : pnv_ioda_pe) (fw : opal_fw σ) :
    ∃ rest, (deconfigure_mve step type pe fw).2.log = fw.log ++ rest := by
  simp only [deconfigure_mve]
  split_ifs
  · exact ⟨[_], rfl⟩
  · exact ⟨[_], rfl⟩
  · exact ⟨[], by simp⟩

/-- The first call of a `pnv_ioda_configure_pe` that returns is the mapping call with the
matching rule of the PE, and the return value is 0 exactly when that call succeeds. -/
theorem configure_pe_first_call {σ : Type} (step : σ → opal_call → Int × σ)
    (topo : pci_topology) (phb : pnv_phb) (fw : opal_fw σ) (pe_no : Nat)
    (r : Int × pnv_phb × opal_fw σ)
    (h : pnv_ioda_configure_pe step topo phb fw pe_no = some r) :
    ∃ m rest, configure_pe_match topo (phb.pe_array pe_no) = some m ∧
      r.2.2.log = fw.log ++ configure_map_call (phb.pe_array pe_no) m :: rest ∧
      (r.1 = 0 ↔ (step fw.state (configure_map_call (phb.pe_array pe_no) m)).1 = 0) := by
  cases hm : configure_pe_match topo (phb.pe_array pe_no) with
  | none =>
    simp only [pnv_ioda_configure_pe, hm] at h
    exact absurd h (by simp)
  | some m =>
    have hopal : (opal step fw (configure_map_call (phb.pe_array pe_no) m)).1 =
        (step fw.state (configure_map_call (phb.pe_array pe_no) m)).1 := rfl
    simp only [pnv_ioda_configure_pe, hm, peltv_parents_eq] at h
    simp only [configure_map_call] at hopal
    split at h
    · rename_i hrc
      simp only [Option.some.injEq] at h
      subst h
      refine ⟨m, [], rfl, rfl, ?_⟩
      simp only [configure_map_call]
      rw [← hopal]
      simp only [ ENXIO]
      constructor
      · intro h0; exact absurd h0 (by decide)
      · intro h0; exact absurd h0 hrc
    · rename_i hrc
      cases hrows : ancestor_rows topo topo.ndevs m.parent with
      | none =>
        rw [hrows] at h
        simp at h
      | some rows =>
        rw [hrows] at h
        simp only [Option.map_some', Option.some.injEq] at h
        subst h
        obtain ⟨rest, hrest⟩ := configure_mve_log step phb.type (phb.pe_array pe_no)
          (rows.foldl (fun f p => (opal step f
              (opal_call.opal_pci_set_peltv p (phb.pe_array pe_no).pe_number
                OpalPeltvAction.OPAL_ADD_PE_TO_DOMAIN)).2)
            (opal step
              (opal step
                (opal step fw
                  (opal_call.opal_pci_set_pe (phb.pe_array pe_no).pe_number
                    (phb.pe_array pe_no).rid m.bcomp m.dcomp m.fcomp
                    OpalPeAction.OPAL_MAP_PE)).2
                (opal_call.opal_pci_set_peltv ((phb.pe_array pe_no).pe_number : Int)
                  (phb.pe_array pe_no).pe_number OpalPeltvAction.OPAL_ADD_PE_TO_DOMAIN)).2
              (opal_call.opal_pci_eeh_freeze_clear (phb.pe_array pe_no).pe_number
                OpalEehFreezeActionToken.OPAL_EEH_ACTION_CLEAR_FREEZE_ALL)).2)
        refine ⟨m,
          opal_call.opal_pci_set_peltv ((phb.pe_array pe_no).pe_number : Int)
              (phb.pe_array pe_no).pe_number OpalPeltvAction.OPAL_ADD_PE_TO_DOMAIN ::
            opal_call.opal_pci_eeh_freeze_clear (phb.pe_array pe_no).pe_number
              OpalEehFreezeActionToken.OPAL_EEH_ACTION_CLEAR_FREEZE_ALL ::
            (rows.map (fun p => opal_call.opal_pci_set_peltv p (phb.pe_array pe_no).pe_number
              OpalPeltvAction.OPAL_ADD_PE_TO_DOMAIN) ++ rest), rfl, ?_, ?_⟩
        · dsimp only
          rw [hrest, opal_foldl_log]
          simp [opal, configure_map_call]
        · simp only [configure_map_call]
          rw [← hopal]
          constructor
          · intro _
            by_contra hc
            exact hrc hc
          · intro _; trivial

/-- A firmware call is appended to the call log. -/
theorem opal_log {σ : Type} (step : σ → opal_call → Int × σ) (fw : opal_fw σ) (c : opal_call) :
    (opal step fw c).2.log = fw.log ++ [c] := rfl

/-- The last call of a `pnv_ioda_deconfigure_pe` that returns is the unmapping call with
the matching rule of the PE. -/
theorem deconfigure_pe_last_call {σ : Type} (step : σ → opal_call → Int × σ)
    (topo : pci_topology) (phb : pnv_phb) (fw : opal_fw σ) (pe_no : Nat)
    (r : Int × pnv_phb × opal_fw σ)
    (h : pnv_ioda_deconfigure_pe step topo phb fw pe_no = some r) :
    ∃ m pre, deconfigure_pe_match topo (phb.pe_array pe_no) = some m ∧ r.1 = 0 ∧
      r.2.2.log = fw.log ++ pre ++
        [opal_call.opal_pci_set_pe (phb.pe_array pe_no).pe_number (phb.pe_array pe_no).rid
          m.bcomp m.dcomp m.fcomp OpalPeAction.OPAL_UNMAP_PE] := by
  cases hm : deconfigure_pe_match topo (phb.pe_array pe_no) with
  | none =>
    simp only [pnv_ioda_deconfigure_pe, hm] at h
    exact absurd h (by simp)
  | some m =>
    obtain ⟨x, hx⟩ := deconfigure_mve_fields step phb.type (phb.pe_array pe_no) fw
    obtain ⟨rest, hrest⟩ := deconfigure_mve_log step phb.type (phb.pe_array pe_no) fw
    simp only [pnv_ioda_deconfigure_pe, hm, peltv_parents_eq] at h
    cases hrows : ancestor_rows topo topo.ndevs m.parent with
    | none =>
      rw [hrows] at h
      simp at h
    | some rows =>
      rw [hrows] at h
      simp only [Option.map_some', Option.some.injEq] at h
      subst h
      refine ⟨m,
        rest ++ rows.map (fun p => opal_call.opal_pci_set_peltv p (phb.pe_array pe_no).pe_number
            OpalPeltvAction.OPAL_REMOVE_PE_FROM_DOMAIN) ++
          [opal_call.opal_pci_eeh_freeze_set (phb.pe_array pe_no).pe_number
              OpalEehFreezeActionToken.OPAL_EEH_ACTION_CLEAR_FREEZE_ALL,
            opal_call.opal_pci_set_peltv ((phb.pe_array pe_no).pe_number : Int)
              (phb.pe_array pe_no).pe_number OpalPeltvAction.OPAL_REMOVE_PE_FROM_DOMAIN],
        rfl, rfl, ?_⟩
      dsimp only
      simp only [hx, opal_log, opal_foldl_log, hrest]
      simp

/-- C23: the matching rule.  For the PE in any slot of any bridge: when the PE has no bus
back-reference (a device- or VF-scoped PE) the rule derived by `pnv_ioda_configure_pe` is
the exact match, all bus bits with device and function compared; when it has one, the rule
is defined, ignores device and function, and takes the bus compare mode from the bus count
(1 for a single-bus PE, `busn_res.end - busn_res.start + 1` for a bus-and-subordinates PE):
1 all bits, 2 seven bits, 4 six bits, 8 five bits, 16 four bits, 32 three bits, any other
count all bits.  `pnv_ioda_deconfigure_pe` derives the same rule.  A configure that returns
has issued the mapping call with this rule first and returns 0 exactly when that call
succeeded; for a bus-scoped PE whose ancestor chain ends it does return, with 0 whenever the
mapping call succeeds, whatever the count.  A deconfigure that returns has issued the
unmapping call with the same rule last and returns 0. -/
theorem C23_matching_rule {σ : Type} (step : σ → opal_call → Int × σ) (topo : pci_topology)
    (phb : pnv_phb) (fw : opal_fw σ) (pe_no : Nat) :
    ((phb.pe_array pe_no).pbus = none →
      ∀ m, configure_pe_match topo (phb.pe_array pe_no) = some m →
        m.bcomp = OpalPciBusCompare.OpalPciBusAll ∧
        m.dcomp = OpalPciDeviceCompare.OPAL_COMPARE_RID_DEVICE_NUMBER ∧
        m.fcomp = OpalPciFuncCompare.OPAL_COMPARE_RID_FUNCTION_NUMBER) ∧
    (∀ b count, (phb.pe_array pe_no).pbus = some b →
      count = (if (phb.pe_array pe_no).flags.bus_all = true then
        ((topo.buses b).busn_res_end : Int) - ((topo.buses b).busn_res_start : Int) + 1
        else 1) →
      ∃ m, configure_pe_match topo (phb.pe_array pe_no) = some m ∧
        m.dcomp = OpalPciDeviceCompare.OPAL_IGNORE_RID_DEVICE_NUMBER ∧
        m.fcomp = OpalPciFuncCompare.OPAL_IGNORE_RID_FUNCTION_NUMBER ∧
        (count = 1 → m.bcomp = OpalPciBusCompare.OpalPciBusAll) ∧
        (count = 2 → m.bcomp = OpalPciBusCompare.OpalPciBus7Bits) ∧
        (count = 4 → m.bcomp = OpalPciBusCompare.OpalPciBus6Bits) ∧
        (count = 8 → m.bcomp = OpalPciBusCompare.OpalPciBus5Bits) ∧
        (count = 16 → m.bcomp = OpalPciBusCompare.OpalPciBus4Bits) ∧
        (count = 32 → m.bcomp = OpalPciBusCompare.OpalPciBus3Bits) ∧
        (count ≠ 1 → count ≠ 2 → count ≠ 4 → count ≠ 8 → count ≠ 16 → count ≠ 32 →
          m.bcomp = OpalPciBusCompare.OpalPciBusAll)) ∧
    deconfigure_pe_match topo (phb.pe_array pe_no) =
      configure_pe_match topo (phb.pe_array pe_no) ∧
    (∀ r, pnv_ioda_configure_pe step topo phb fw pe_no = some r →
      ∃ m rest, configure_pe_match topo (phb.pe_array pe_no) = some m ∧
        r.2.2.log = fw.log ++
          opal_call.opal_pci_set_pe (phb.pe_array pe_no).pe_number (phb.pe_array pe_no).rid
            m.bcomp m.dcomp m.fcomp OpalPeAction.OPAL_MAP_PE :: rest ∧
        (r.1 = 0 ↔ (step fw.state
          (opal_call.opal_pci_set_pe (phb.pe_array pe_no).pe_number (phb.pe_array pe_no).rid
            m.bcomp m.dcomp m.fcomp OpalPeAction.OPAL_MAP_PE)).1 = 0)) ∧
    (∀ b rows m, (phb.pe_array pe_no).pbus = some b →
      ancestor_rows topo topo.ndevs (topo.buses b).self = some rows →
      configure_pe_match topo (phb.pe_array pe_no) = some m →
      (step fw.state
        (opal_call.opal_pci_set_pe (phb.pe_array pe_no).pe_number (phb.pe_array pe_no).rid
          m.bcomp m.dcomp m.fcomp OpalPeAction.OPAL_MAP_PE)).1 = 0 →
      ∃ phb1 fw1, pnv_ioda_configure_pe step topo phb fw pe_no = some (0, phb1, fw1)) ∧
    (∀ r, pnv_ioda_deconfigure_pe step topo phb fw pe_no = some r →
      ∃ m pre, configure_pe_match topo (phb.pe_array pe_no) = some m ∧ r.1 = 0 ∧
        r.2.2.log = fw.log ++ pre ++
          [opal_call.opal_pci_set_pe (phb.pe_array pe_no).pe_number (phb.pe_array pe_no).rid
            m.bcomp m.dcomp m.fcomp OpalPeAction.OPAL_UNMAP_PE]) := by
  refine ⟨?_, ?_, rfl, ?_, ?_, ?_⟩
  · intro hbus m hm
    simp only [configure_pe_match, hbus] at hm
    split at hm
    · simp only [Option.some.injEq] at hm
      subst hm
      exact ⟨rfl, rfl, rfl⟩
    · exact absurd hm (by simp)
  · intro b count hbus hcount
    have hm : configure_pe_match topo (phb.pe_array pe_no) =
        some { parent := (topo.buses b).self
               bcomp := configure_bcomp count
               dcomp := OpalPciDeviceCompare.OPAL_IGNORE_RID_DEVICE_NUMBER
               fcomp := OpalPciFuncCompare.OPAL_IGNORE_RID_FUNCTION_NUMBER
               rid_end := ((phb.pe_array pe_no).rid : Int) + count * 256 } := by
      simp only [configure_pe_match, hbus, hcount]
    refine ⟨_, hm, rfl, rfl, ?_⟩
    dsimp only
    refine ⟨?_, ?_, ?_, ?_, ?_, ?_, ?_⟩
    · intro h; subst h; rfl
    · intro h; subst h; rfl
    · intro h; subst h; rfl
    · intro h; subst h; rfl
    · intro h; subst h; rfl
    · intro h; subst h; rfl
    · intro h1 h2 h4 h8 h16 h32
      simp only [configure_bcomp, h1, h2, h4, h8, h16, h32, if_false]
  · intro r h
    exact configure_pe_first_call step topo phb fw pe_no r h
  · intro b rows m hbus hrows hm hrc
    have hpar : m.parent = (topo.buses b).self := by
      simp only [configure_pe_match, hbus, Option.some.injEq] at hm
      rw [← hm]
    rw [← hpar] at hrows
    have hopal : (opal step fw
        (opal_call.opal_pci_set_pe (phb.pe_array pe_no).pe_number (phb.pe_array pe_no).rid
          m.bcomp m.dcomp m.fcomp OpalPeAction.OPAL_MAP_PE)).1 = 0 := hrc
    simp only [pnv_ioda_configure_pe, hm, peltv_parents_eq, hrows, Option.map_some']
    have hn : ¬ (opal step fw
        (opal_call.opal_pci_set_pe (phb.pe_array pe_no).pe_number (phb.pe_array pe_no).rid
          m.bcomp m.dcomp m.fcomp OpalPeAction.OPAL_MAP_PE)).1 ≠ 0 := fun h => h hopal
    rw [if_neg hn]
    exact ⟨_, _, rfl⟩
  · intro r h
    exact deconfigure_pe_last_call step topo phb fw pe_no r h

set_option maxRecDepth 100000 in
/-- C23 on the PE of the root bus and all its subordinate buses (count 256, not one of the
six supported counts): the rule falls back to all bus bits with device and function
ignored, and configure returns 0 with a firmware that accepts every call. -/
theorem C23_matching_rule_witness :
    ((wide_bus_phb.pe_array 3).pbus = some 0 ∧
      (wide_bus_phb.pe_array 3).flags.bus_all = true ∧
      ((two_segment_topology.buses 0).busn_res_end : Int) -
        ((two_segment_topology.buses 0).busn_res_start : Int) + 1 = 256) ∧
    configure_pe_match two_segment_topology (wide_bus_phb.pe_array 3) =
      some { parent := none
             bcomp := OpalPciBusCompare.OpalPciBusAll
             dcomp := OpalPciDeviceCompare.OPAL_IGNORE_RID_DEVICE_NUMBER
             fcomp := OpalPciFuncCompare.OPAL_IGNORE_RID_FUNCTION_NUMBER
             rid_end := 0x10000 } ∧
    ∃ phb1 fw1, pnv_ioda_configure_pe fw_all_ok two_segment_topology wide_bus_phb fw_fresh 3 =
      some (0, phb1, fw1) :=
  ⟨⟨by decide, by decide, by decide⟩, by decide,
    (C23_matching_rule fw_all_ok two_segment_topology wide_bus_phb fw_fresh 3).2.2.2.2.1
      0 []
      { parent := none
        bcomp := OpalPciBusCompare.OpalPciBusAll
        dcomp := OpalPciDeviceCompare.OPAL_IGNORE_RID_DEVICE_NUMBER
        fcomp := OpalPciFuncCompare.OPAL_IGNORE_RID_FUNCTION_NUMBER
        rid_end := 0x10000 }
      (by decide) (by decide) (by decide) (by decide)⟩

/-! ## Failure of the bus PE set-up -/

/-- The loop at `done` changes the PE array only. -/
theorem pick_m64_assign_frame (pe_alloc : Nat → Bool) :
    ∀ (indices : List Nat) (master : Option Nat) (phb : pnv_phb),
      ∃ arr : Nat → pnv_ioda_pe,
        (pick_m64_assign pe_alloc indices master phb).2 = { phb with pe_array := arr } := by
  intro indices
  induction indices with
  | nil => intro master phb; exact ⟨phb.pe_array, rfl⟩
  | cons i rest ih =>
    intro master phb
    simp only [pick_m64_assign]
    split_ifs
    · cases master with
      | none =>
        obtain ⟨arr, h⟩ := ih (some i)
          (set_pe phb i
            { phb.pe_array i with
              phb := true, pe_number := i,
              flags := { (phb.pe_array i).flags with master := true }, slaves := [] })
        exact ⟨arr, by rw [h]; rfl⟩
      | some m =>
        dsimp only
        obtain ⟨arr, h⟩ := ih (some m)
          (set_pe
            (set_pe phb i
              { phb.pe_array i with
                phb := true, pe_number := i,
                flags := { (phb.pe_array i).flags with slave := true }, master := some m })
            m
            { (set_pe phb i
                { phb.pe_array i with
                  phb := true, pe_number := i,
                  flags := { (phb.pe_array i).flags with slave := true },
                  master := some m }).pe_array m with
              slaves := ((set_pe phb i
                { phb.pe_array i with
                  phb := true, pe_number := i,
                  flags := { (phb.pe_array i).flags with slave := true },
                  master := some m }).pe_array m).slaves ++ [i] })
        exact ⟨arr, by rw [h]; rfl⟩
    · exact ih master phb

/-- The function `pnv_ioda2_pick_m64_pe` changes the PE array only. -/
theorem pick_m64_pe_frame (kzalloc_ok : Bool) (topo : pci_topology) (phb : pnv_phb)
    (bus : Nat) (all : Bool) (r : Int × pnv_phb)
    (h : pnv_ioda2_pick_m64_pe kzalloc_ok topo phb bus all = some r) :
    ∃ arr : Nat → pnv_ioda_pe, r.2 = { phb with pe_array := arr } := by
  by_cases h1 : pci_is_root_bus (topo.buses bus) = true
  · simp only [pnv_ioda2_pick_m64_pe, h1, if_true, Option.some.injEq] at h
    subst h; exact ⟨phb.pe_array, rfl⟩
  · cases hw : pick_m64_window (topo.buses bus).resources with
    | none =>
      simp only [pnv_ioda2_pick_m64_pe, h1, hw, Bool.false_eq_true, if_false,
        Option.some.injEq] at h
      subst h; exact ⟨phb.pe_array, rfl⟩
    | some r0 =>
      cases kzalloc_ok with
      | false =>
        simp only [pnv_ioda2_pick_m64_pe, h1, hw, Bool.not_false, if_true,
          Bool.false_eq_true, if_false, Option.some.injEq] at h
        subst h; exact ⟨phb.pe_array, rfl⟩
      | true =>
        by_cases h3 : phb.m64_segsize = 0
        · simp [pnv_ioda2_pick_m64_pe, h1, hw, h3] at h
        · rw [pick_m64_pe_eq topo phb bus all r0 (by simpa using h1) hw h3] at h
          by_cases h4 : (!all && bitmap_empty (pick_m64_segments topo phb bus r0 all)
              phb.total_pe) = true
          · rw [if_pos h4] at h
            simp only [Option.some.injEq] at h; subst h; exact ⟨phb.pe_array, rfl⟩
          · rw [if_neg h4] at h
            split at h
            · exact absurd h (by simp)
            · simp only [Option.some.injEq] at h
              subst h
              exact pick_m64_assign_frame _ _ _ _

/-- The head of `pnv_ioda_setup_bus_PE` changes the slot bitmap and the PE array only. -/
theorem setup_bus_PE_choose_frame (kzalloc_ok : Bool) (topo : pci_topology) (phb : pnv_phb)
    (bus : Nat) (all : Bool) (a : Int × pnv_phb)
    (h : setup_bus_PE_choose kzalloc_ok topo phb bus all = some a) :
    ∃ (al : Nat → Bool) (arr : Nat → pnv_ioda_pe),
      a.2 = { phb with pe_alloc := al, pe_array := arr } := by
  unfold setup_bus_PE_choose at h
  dsimp only at h
  have key : ∀ p : Int × pnv_phb, (∃ arr : Nat → pnv_ioda_pe, p.2 = { phb with pe_array := arr }) →
      ∃ (al : Nat → Bool) (arr : Nat → pnv_ioda_pe),
        (if p.1 = IODA_INVALID_PE then pnv_ioda_alloc_pe p.2 else (p.1, p.2)).2 =
          { phb with pe_alloc := al, pe_array := arr } := by
    rintro ⟨n, q⟩ ⟨arr, hq⟩
    dsimp only at hq
    subst hq
    dsimp only
    split_ifs
    · rcases pnv_ioda_alloc_pe_cases { phb with pe_array := arr } with ⟨k, _, _, hk⟩ | hk
      · rw [hk]; exact ⟨_, _, rfl⟩
      · rw [hk]; exact ⟨phb.pe_alloc, arr, rfl⟩
    · exact ⟨phb.pe_alloc, arr, rfl⟩
  split_ifs at h with hp
  · cases hpk : pnv_ioda2_pick_m64_pe kzalloc_ok topo phb bus all with
    | none => rw [hpk] at h; exact absurd h (by simp)
    | some p =>
      rw [hpk] at h
      simp only [Option.some.injEq] at h
      subst h
      exact key p (pick_m64_pe_frame kzalloc_ok topo phb bus all p hpk)
  · simp only [Option.some.injEq] at h
    subst h
    exact key (IODA_INVALID_PE, phb) ⟨phb.pe_array, rfl⟩

/-- C24: a grouping failure leaves the bus unassigned.  Whenever `pnv_ioda_setup_bus_PE` has
chosen a valid PE number `p` (picked or allocated, with the bridge `a.2` at that point) and
`pnv_ioda_configure_pe` on the initialised slot returns non-zero, the function returns with
the topology unchanged, so no device has its PE number changed; the slot `p` is freed
unless `p` is 0 (its bit is clear and the slot is zero-filled), its bus back-reference is
cleared in either case, no other slot and no other bit changes with respect to the choice,
and the PE list, the DMA scheduling list, the running DMA weight, the DMA-PE count and the
reverse map of the bridge are the ones from before the call. -/
theorem C24_grouping_failure {σ : Type} (step : σ → opal_call → Int × σ) (kzalloc_ok : Bool)
    (topo : pci_topology) (phb : pnv_phb) (fw : opal_fw σ) (bus : Nat) (all : Bool)
    (a : Int × pnv_phb) (r : Int × pnv_phb × opal_fw σ)
    (hchoose : setup_bus_PE_choose kzalloc_ok topo phb bus all = some a)
    (hvalid : a.1 ≠ IODA_INVALID_PE)
    (hcfg : pnv_ioda_configure_pe step topo (setup_bus_PE_slot topo a.2 a.1.toNat bus all) fw
      a.1.toNat = some r)
    (hrc : r.1 ≠ 0) :
    ∃ final : pnv_phb,
      pnv_ioda_setup_bus_PE step kzalloc_ok topo phb fw bus all = some (topo, final, r.2.2) ∧
      (a.1.toNat ≠ 0 →
        final.pe_alloc a.1.toNat = false ∧ final.pe_array a.1.toNat = pnv_ioda_pe.zero) ∧
      (a.1.toNat = 0 → final.pe_alloc = a.2.pe_alloc) ∧
      (final.pe_array a.1.toNat).pbus = none ∧
      (∀ k, k ≠ a.1.toNat →
        final.pe_array k = a.2.pe_array k ∧ final.pe_alloc k = a.2.pe_alloc k) ∧
      final.pe_list = phb.pe_list ∧ final.pe_dma_list = phb.pe_dma_list ∧
      final.dma_weight = phb.dma_weight ∧ final.dma_pe_count = phb.dma_pe_count ∧
      final.pe_rmap = phb.pe_rmap := by
  obtain ⟨al, arr, ha⟩ := setup_bus_PE_choose_frame kzalloc_ok topo phb bus all a hchoose
  have hphb : r.2.1 = setup_bus_PE_slot topo a.2 a.1.toNat bus all := by
    rcases configure_pe_result step topo _ fw _ r hcfg with ⟨_, h⟩ | ⟨h, _⟩
    · exact h
    · exact absurd h hrc
  rw [setup_bus_PE_eq, hchoose]
  dsimp only
  rw [if_neg hvalid, hcfg]
  dsimp only
  rw [if_pos hrc, hphb]
  refine ⟨_, rfl, ?_, ?_, ?_, ?_, ?_, ?_, ?_, ?_, ?_⟩
  · intro hp
    rw [if_pos hp]
    constructor
    · simp [set_pe, pnv_ioda_free_pe, clear_bit]
    · simp [set_pe, pnv_ioda_free_pe, array_set, pnv_ioda_pe.zero]
  · intro hp
    have hn : ¬ (a.1.toNat ≠ 0) := fun h => h hp
    rw [if_neg hn]
    rfl
  · simp [set_pe, array_set]
  · intro k hk
    by_cases hp : a.1.toNat ≠ 0
    · rw [if_pos hp]
      simp [set_pe, pnv_ioda_free_pe, setup_bus_PE_slot, array_set, clear_bit, hk]
    · rw [if_neg hp]
      simp [set_pe, setup_bus_PE_slot, array_set, hk]
  all_goals
    rw [ha]
    by_cases hp : a.1.toNat ≠ 0
    · rw [if_pos hp]; rfl
    · rw [if_neg hp]; rfl

set_option maxRecDepth 100000 in
/-- C24 on the example: bus 1 is given PE 1 by the M64 pick, the firmware refuses the
mapping call, and the bus PE set-up returns with the topology unchanged, slot 1 freed and
zero-filled, and the PE list, the scheduling list and the weight totals as before. -/
theorem C24_grouping_failure_witness :
    ∃ (final : pnv_phb) (fw2 : opal_fw Unit),
      pnv_ioda_setup_bus_PE fw_set_pe_fails true two_segment_topology two_segment_phb
        fw_fresh 1 false = some (two_segment_topology, final, fw2) ∧
      final.pe_alloc 1 = false ∧ final.pe_array 1 = pnv_ioda_pe.zero ∧
      final.pe_list = two_segment_phb.pe_list ∧
      final.pe_dma_list = two_segment_phb.pe_dma_list ∧
      final.dma_weight = two_segment_phb.dma_weight ∧
      final.dma_pe_count = two_segment_phb.dma_pe_count :=
  match C24_grouping_failure fw_set_pe_fails true two_segment_topology two_segment_phb
      fw_fresh 1 false _ _ rfl (by decide) rfl (by decide) with
  | ⟨final, h1, h2, _, _, _, h6, h7, h8, h9, _⟩ =>
    ⟨final, _, h1, (h2 (by decide)).1, (h2 (by decide)).2, h6, h7, h8, h9⟩

/-! ## Association of devices with a PE -/

theorem same_shape_refl (t : pci_topology) : same_shape t t :=
  ⟨rfl, rfl, fun _ => ⟨rfl, rfl, rfl, rfl, rfl, Iff.rfl⟩⟩

theorem same_shape_symm {t1 t2 : pci_topology} (h : same_shape t1 t2) : same_shape t2 t1 :=
  ⟨h.1.symm, h.2.1.symm, fun d =>
    ⟨(h.2.2 d).1.symm, (h.2.2 d).2.1.symm, (h.2.2 d).2.2.1.symm, (h.2.2 d).2.2.2.1.symm,
      (h.2.2 d).2.2.2.2.1.symm, (h.2.2 d).2.2.2.2.2.symm⟩⟩

theorem same_shape_trans {t1 t2 t3 : pci_topology} (h : same_shape t1 t2)
    (g : same_shape t2 t3) : same_shape t1 t3 :=
  ⟨h.1.trans g.1, h.2.1.trans g.2.1, fun d =>
    ⟨(h.2.2 d).1.trans (g.2.2 d).1, (h.2.2 d).2.1.trans (g.2.2 d).2.1,
      (h.2.2 d).2.2.1.trans (g.2.2 d).2.2.1, (h.2.2 d).2.2.2.1.trans (g.2.2 d).2.2.2.1,
      (h.2.2 d).2.2.2.2.1.trans (g.2.2 d).2.2.2.2.1,
      (h.2.2 d).2.2.2.2.2.trans (g.2.2 d).2.2.2.2.2⟩⟩

/-- An assignment changes the PE number in a device node and nothing else. -/
theorem same_shape_assign_pe (p : Nat) (t : pci_topology) (d : Nat) :
    same_shape (assign_pe p t d) t := by
  unfold assign_pe
  cases hp : (t.devs d).pdn with
  | none => exact same_shape_refl t
  | some pdn =>
    refine ⟨rfl, rfl, fun e => ?_⟩
    by_cases he : e = d
    · subst he
      simp [array_set, hp]
    · simp [array_set, he]

theorem same_shape_foldl_assign (p : Nat) (l : List Nat) :
    ∀ t : pci_topology, same_shape (l.foldl (assign_pe p) t) t := by
  induction l with
  | nil => intro t; exact same_shape_refl t
  | cons d rest ih =>
    intro t
    exact same_shape_trans (ih _) (same_shape_assign_pe p t d)

theorem same_PE_devices_succ (topo : pci_topology) (all : Bool) (fuel bus : Nat) :
    same_PE_devices topo all (fuel + 1) bus =
      (topo.buses bus).devices.foldlM (same_PE_devices_step topo all fuel) [] := rfl

theorem setup_same_PE_succ (pe_no fuel bus : Nat) (st : pci_topology × pnv_phb) :
    pnv_ioda_setup_same_PE pe_no (fuel + 1) bus st =
      (st.1.buses bus).devices.foldlM (setup_same_PE_step pe_no fuel) st := rfl

/-- The devices that `pnv_ioda_setup_same_PE` assigns depend on the shape of the tree
only. -/
theorem same_PE_devices_congr {t1 t2 : pci_topology} (h : same_shape t1 t2) (all : Bool) :
    ∀ fuel bus, same_PE_devices t1 all fuel bus = same_PE_devices t2 all fuel bus := by
  intro fuel
  induction fuel with
  | zero => intro bus; rfl
  | succ n ih =>
    intro bus
    rw [same_PE_devices_succ, same_PE_devices_succ, h.1]
    congr 1
    funext acc dev
    have hd := h.2.2 dev
    unfold same_PE_devices_step
    simp only [ih, hd.2.1]
    cases h1 : (t1.devs dev).pdn with
    | none => rw [hd.2.2.2.2.2.1 h1]
    | some x =>
      cases h2 : (t2.devs dev).pdn with
      | none => rw [hd.2.2.2.2.2.2 h2] at h1; exact absurd h1 (by simp)
      | some y => rfl

@[simp] theorem with_dma_weight_pe_array (phb : pnv_phb) (i w : Nat) :
    (with_dma_weight phb i w).pe_array i = { phb.pe_array i with dma_weight := w } := by
  simp [with_dma_weight]

theorem with_dma_weight_twice (phb : pnv_phb) (i w v : Nat) :
    with_dma_weight (with_dma_weight phb i w) i v = with_dma_weight phb i v := by
  have : array_set (array_set phb.pe_array i { phb.pe_array i with dma_weight := w }) i
      { (array_set phb.pe_array i { phb.pe_array i with dma_weight := w }) i with
        dma_weight := v } =
      array_set phb.pe_array i { phb.pe_array i with dma_weight := v } := by
    funext j
    by_cases hj : j = i
    · simp [array_set, hj]
    · simp [array_set, hj]
  simp only [with_dma_weight, set_pe, this]

theorem with_dma_weight_self (phb : pnv_phb) (i : Nat) :
    with_dma_weight phb i (phb.pe_array i).dma_weight = phb :=
  set_pe_self phb i

/-- The DMA weight of a device depends on its header type and class only. -/
theorem dma_weight_congr {t1 t2 : pci_topology} (h : same_shape t1 t2) (d : Nat) :
    pnv_ioda_dma_weight (t1.devs d) = pnv_ioda_dma_weight (t2.devs d) := by
  unfold pnv_ioda_dma_weight
  rw [(h.2.2 d).2.2.1, (h.2.2 d).2.2.2.1]

/-- The list of devices assigned so far is a prefix of the result of the device loop. -/
theorem same_PE_devices_step_acc (topo : pci_topology) (all : Bool) (fuel : Nat)
    (acc : List Nat) (dev : Nat) :
    same_PE_devices_step topo all fuel acc dev =
      (same_PE_devices_step topo all fuel [] dev).map (fun l => acc ++ l) := by
  unfold same_PE_devices_step
  cases (topo.devs dev).pdn with
  | none => simp
  | some x =>
    dsimp only
    cases (if all = true then (topo.devs dev).subordinate else none) with
    | none => simp
    | some sub =>
      dsimp only
      cases same_PE_devices topo all fuel sub <;> simp

theorem same_PE_devices_foldlM_acc (topo : pci_topology) (all : Bool) (fuel : Nat) :
    ∀ (ds acc : List Nat),
      ds.foldlM (same_PE_devices_step topo all fuel) acc =
        (ds.foldlM (same_PE_devices_step topo all fuel) []).map (fun l => acc ++ l) := by
  intro ds
  induction ds with
  | nil => intro acc; simp
  | cons d rest ih =>
    intro acc
    rw [List.foldlM_cons, List.foldlM_cons, same_PE_devices_step_acc topo all fuel acc d]
    cases h1 : same_PE_devices_step topo all fuel [] d with
    | none => simp
    | some l =>
      simp only [Option.map_some', Option.bind_eq_bind, Option.some_bind]
      rw [ih (acc ++ l), ih l]
      cases List.foldlM (same_PE_devices_step topo all fuel) [] rest <;> simp

/-- One device of the loop of `pnv_ioda_setup_same_PE`, in terms of the shape. -/
theorem setup_same_PE_step_eq (t0 : pci_topology) (phb : pnv_phb) (pe_no n : Nat)
    (t : pci_topology) (w d : Nat) (hs : same_shape t t0) :
    setup_same_PE_step pe_no n (t, with_dma_weight phb pe_no w) d =
      match (t0.devs d).pdn with
      | none => some (t, with_dma_weight phb pe_no w)
      | some _ =>
        match (if (phb.pe_array pe_no).flags.bus_all = true then (t0.devs d).subordinate
            else none) with
        | some sub =>
          pnv_ioda_setup_same_PE pe_no n sub
            (assign_pe (phb.pe_array pe_no).pe_number t d,
              with_dma_weight phb pe_no (u32 (w + pnv_ioda_dma_weight (t0.devs d))))
        | none =>
          some (assign_pe (phb.pe_array pe_no).pe_number t d,
            with_dma_weight phb pe_no (u32 (w + pnv_ioda_dma_weight (t0.devs d)))) := by
  have hd := hs.2.2 d
  have hw := dma_weight_congr hs d
  unfold setup_same_PE_step
  dsimp only
  cases h1 : (t.devs d).pdn with
  | none =>
    rw [hd.2.2.2.2.2.1 h1]
  | some x =>
    cases h2 : (t0.devs d).pdn with
    | none => rw [hd.2.2.2.2.2.2 h2] at h1; exact absurd h1 (by simp)
    | some y =>
      dsimp only
      have e1 : set_pe (with_dma_weight phb pe_no w) pe_no
          { (with_dma_weight phb pe_no w).pe_array pe_no with
            dma_weight := u32 (((with_dma_weight phb pe_no w).pe_array pe_no).dma_weight +
              pnv_ioda_dma_weight (t.devs d)) } =
          with_dma_weight phb pe_no (u32 (w + pnv_ioda_dma_weight (t0.devs d))) := by
        have e0 : ((with_dma_weight phb pe_no w).pe_array pe_no).dma_weight = w := by
          rw [with_dma_weight_pe_array]
        rw [e0, hw]
        exact with_dma_weight_twice phb pe_no w _
      have e2 : ({ t with
          devs := array_set t.devs d
            { t.devs d with
              pdn := some { x with
                pe_number := (((with_dma_weight phb pe_no w).pe_array pe_no).pe_number :
                  Int) } } } : pci_topology) =
          assign_pe (phb.pe_array pe_no).pe_number t d := by
        simp [assign_pe, h1]
      rw [e1, e2]
      simp only [with_dma_weight_pe_array, hd.2.1]

theorem add_dma_weights_cons (t0 : pci_topology) (d : Nat) (l : List Nat) (w : Nat) :
    add_dma_weights t0 (d :: l) w =
      add_dma_weights t0 l (u32 (w + pnv_ioda_dma_weight (t0.devs d))) := rfl

theorem add_dma_weights_append (t0 : pci_topology) (l1 l2 : List Nat) (w : Nat) :
    add_dma_weights t0 (l1 ++ l2) w = add_dma_weights t0 l2 (add_dma_weights t0 l1 w) := by
  simp [add_dma_weights, List.foldl_append]

/-- The association of the devices of a bus with a PE, in closed form: for a PE whose
"bus and subordinates" flag is `all` and whose number is `p`, `pnv_ioda_setup_same_PE`
returns exactly when the list of the devices it assigns is defined; it assigns `p` to these
devices in order and adds their weights to the weight of the PE, in order.  `t0` is any
topology of the same shape. -/
theorem setup_same_PE_eq (t0 : pci_topology) (phb : pnv_phb) (pe_no : Nat) :
    ∀ (fuel bus : Nat) (t : pci_topology) (w : Nat), same_shape t t0 →
      pnv_ioda_setup_same_PE pe_no fuel bus (t, with_dma_weight phb pe_no w) =
        (same_PE_devices t0 (phb.pe_array pe_no).flags.bus_all fuel bus).map
          (fun (l : List Nat) =>
            (l.foldl (assign_pe (phb.pe_array pe_no).pe_number) t,
              with_dma_weight phb pe_no (add_dma_weights t0 l w))) := by
  intro fuel
  induction fuel with
  | zero => intro bus t w _; rfl
  | succ n ih =>
    intro bus t w hs
    rw [setup_same_PE_succ, same_PE_devices_succ]
    dsimp only
    rw [hs.1]
    generalize (t0.buses bus).devices = ds
    induction ds generalizing t w with
    | nil => simp [add_dma_weights]
    | cons d rest ihd =>
      rw [List.foldlM_cons, List.foldlM_cons, setup_same_PE_step_eq t0 phb pe_no n t w d hs]
      cases h2 : (t0.devs d).pdn with
      | none =>
        have hst : same_PE_devices_step t0 (phb.pe_array pe_no).flags.bus_all n [] d =
            some [] := by
          simp [same_PE_devices_step, h2]
        rw [hst]
        simp only [Option.bind_eq_bind, Option.some_bind]
        exact ihd t w hs
      | some y =>
        dsimp only
        have hs1 : same_shape (assign_pe (phb.pe_array pe_no).pe_number t d) t0 :=
          same_shape_trans (same_shape_assign_pe _ t d) hs
        cases h3 : (if (phb.pe_array pe_no).flags.bus_all = true then (t0.devs d).subordinate
            else none) with
        | none =>
          have hst : same_PE_devices_step t0 (phb.pe_array pe_no).flags.bus_all n [] d =
              some [d] := by
            simp [same_PE_devices_step, h2, h3]
          rw [hst]
          simp only [Option.bind_eq_bind, Option.some_bind]
          rw [ihd _ _ hs1, same_PE_devices_foldlM_acc t0 _ n rest [d]]
          cases List.foldlM (same_PE_devices_step t0 (phb.pe_array pe_no).flags.bus_all n) []
            rest with
          | none => rfl
          | some l2 => simp [add_dma_weights_cons]
        | some sub =>
          have hst : same_PE_devices_step t0 (phb.pe_array pe_no).flags.bus_all n [] d =
              (same_PE_devices t0 (phb.pe_array pe_no).flags.bus_all n sub).map
                (fun l => d :: l) := by
            simp [same_PE_devices_step, h2, h3]
          rw [hst]
          dsimp only
          rw [ih sub _ _ hs1]
          cases h4 : same_PE_devices t0 (phb.pe_array pe_no).flags.bus_all n sub with
          | none => rfl
          | some l =>
            simp only [Option.map_some', Option.bind_eq_bind, Option.some_bind]
            rw [ihd _ _ (same_shape_trans (same_shape_foldl_assign _ l _) hs1),
              same_PE_devices_foldlM_acc t0 _ n rest (d :: l)]
            cases List.foldlM (same_PE_devices_step t0 (phb.pe_array pe_no).flags.bus_all n)
              [] rest with
            | none => rfl
            | some l2 =>
              simp [add_dma_weights_cons, add_dma_weights_append, List.foldl_append]

/-- Without wrap-around the accumulated weight is the sum of the weights. -/
theorem add_dma_weights_eq_sum (t0 : pci_topology) :
    ∀ (l : List Nat) (w : Nat),
      w + (l.map (fun d => pnv_ioda_dma_weight (t0.devs d))).sum < 2 ^ 32 →
      add_dma_weights t0 l w = w + (l.map (fun d => pnv_ioda_dma_weight (t0.devs d))).sum := by
  intro l
  induction l with
  | nil => intro w _; simp [add_dma_weights]
  | cons d rest ih =>
    intro w h
    simp only [List.map_cons, List.sum_cons] at h
    rw [add_dma_weights_cons]
    have e : u32 (w + pnv_ioda_dma_weight (t0.devs d)) = w + pnv_ioda_dma_weight (t0.devs d) :=
      Nat.mod_eq_of_lt (by omega)
    rw [e, ih _ (by omega)]
    simp only [List.map_cons, List.sum_cons]
    omega

/-- A successful `pnv_ioda_setup_bus_PE`, taken apart.  The PE number `p` has been chosen,
configure has returned 0 on the initialised slot, and the list `l` of the devices that
`pnv_ioda_setup_same_PE` assigns is defined: the function returns; the devices of `l` have
been assigned the PE number stored in the slot, in order; the PE holds the accumulated
weight `W` of these devices; it is at the tail of the PE list; the weight totals of the
bridge have been updated; no other slot of the PE array and no bit of the slot bitmap has
changed since the choice. -/
theorem setup_bus_PE_ok {σ : Type} (step : σ → opal_call → Int × σ) (kzalloc_ok : Bool)
    (topo : pci_topology) (phb : pnv_phb) (fw : opal_fw σ) (bus : Nat) (all : Bool)
    (a : Int × pnv_phb) (r : Int × pnv_phb × opal_fw σ) (l : List Nat)
    (hchoose : setup_bus_PE_choose kzalloc_ok topo phb bus all = some a)
    (hvalid : a.1 ≠ IODA_INVALID_PE)
    (hcfg : pnv_ioda_configure_pe step topo (setup_bus_PE_slot topo a.2 a.1.toNat bus all) fw
      a.1.toNat = some r)
    (hrc : r.1 = 0)
    (hdevs : same_PE_devices topo
      (if all then true else (a.2.pe_array a.1.toNat).flags.bus_all) (topo.ndevs + 1) bus =
        some l) :
    ∃ final : pnv_phb,
      pnv_ioda_setup_bus_PE step kzalloc_ok topo phb fw bus all =
        some (l.foldl (assign_pe (a.2.pe_array a.1.toNat).pe_number) topo, final, r.2.2) ∧
      (∃ x : Int, final.pe_array a.1.toNat =
        { (setup_bus_PE_slot topo a.2 a.1.toNat bus all).pe_array a.1.toNat with
          mve_number := x, dma_weight := add_dma_weights topo l 0 }) ∧
      (∀ k, k ≠ a.1.toNat → final.pe_array k = a.2.pe_array k) ∧
      final.pe_alloc = a.2.pe_alloc ∧
      final.pe_list = phb.pe_list ++ [a.1.toNat] ∧
      final.dma_weight =
        (if add_dma_weights topo l 0 ≠ 0 then u32 (phb.dma_weight + add_dma_weights topo l 0)
          else phb.dma_weight) ∧
      final.dma_pe_count =
        (if add_dma_weights topo l 0 ≠ 0 then u32 (phb.dma_pe_count + 1)
          else phb.dma_pe_count) ∧
      final.total_pe = phb.total_pe ∧ final.pick_m64_pe = phb.pick_m64_pe ∧
      final.type = phb.type := by
  obtain ⟨al, arr, ha⟩ := setup_bus_PE_choose_frame kzalloc_ok topo phb bus all a hchoose
  have hrc0 : ¬ (r.1 ≠ 0) := fun h => h hrc
  obtain ⟨x, rm, hphb⟩ : ∃ (x : Int) (rm : Nat → Nat),
      r.2.1 = set_pe { setup_bus_PE_slot topo a.2 a.1.toNat bus all with pe_rmap := rm }
        a.1.toNat
        { (setup_bus_PE_slot topo a.2 a.1.toNat bus all).pe_array a.1.toNat with
          mve_number := x } := by
    rcases configure_pe_result step topo _ fw _ r hcfg with ⟨h, _⟩ | ⟨_, x, rm, h⟩
    · exact absurd hrc h
    · exact ⟨x, rm, h⟩
  have hflag : (r.2.1.pe_array a.1.toNat).flags.bus_all =
      (if all then true else (a.2.pe_array a.1.toNat).flags.bus_all) := by
    rw [hphb]
    cases all <;> simp [setup_bus_PE_slot]
  have hnum : (r.2.1.pe_array a.1.toNat).pe_number = (a.2.pe_array a.1.toNat).pe_number := by
    rw [hphb]
    simp [setup_bus_PE_slot]
  have hw0 : (r.2.1.pe_array a.1.toNat).dma_weight = 0 := by
    rw [hphb]
    simp [setup_bus_PE_slot]
  have hsame := setup_same_PE_eq topo r.2.1 a.1.toNat (topo.ndevs + 1) bus topo 0
    (same_shape_refl topo)
  rw [← hw0, with_dma_weight_self, hflag, hdevs, hnum, hw0] at hsame
  simp only [Option.map_some'] at hsame
  rw [setup_bus_PE_eq, hchoose]
  dsimp only
  rw [if_neg hvalid, hcfg]
  dsimp only
  rw [if_neg hrc0]
  unfold setup_bus_PE_finish
  rw [hsame]
  dsimp only
  refine ⟨_, rfl, ?_, ?_, ?_, ?_, ?_, ?_, ?_, ?_, ?_⟩
  · refine ⟨x, ?_⟩
    rw [hphb]
    split_ifs <;> simp [pnv_ioda_link_pe_by_weight, with_dma_weight, set_pe, array_set]
  · intro k hk
    rw [hphb]
    split_ifs <;>
      simp [pnv_ioda_link_pe_by_weight, with_dma_weight, set_pe, array_set, hk,
        setup_bus_PE_slot]
  · rw [hphb]
    split_ifs <;> rfl
  · rw [hphb, ha]
    split_ifs <;> rfl
  · rw [hphb, ha]
    simp only [pnv_ioda_link_pe_by_weight, with_dma_weight, set_pe_pe_array_same]
    split_ifs <;> rfl
  · rw [hphb, ha]
    simp only [pnv_ioda_link_pe_by_weight, with_dma_weight, set_pe_pe_array_same]
    split_ifs <;> rfl
  · rw [hphb, ha]
    split_ifs <;> rfl
  · rw [hphb, ha]
    split_ifs <;> rfl
  · rw [hphb, ha]
    split_ifs <;> rfl


/-- C26: DMA weight accumulation.  After a successful `pnv_ioda_setup_bus_PE` (a PE number
`p` was chosen, configure returned 0, and the nesting of the buses below is within the
fuel, so that the list `l` of the devices assigned by `pnv_ioda_setup_same_PE` is defined)
the devices of `l` are the ones that have been assigned to the PE, and the PE's
`dma_weight` is the weight of these devices accumulated in `unsigned int`, which is the sum
of `pnv_ioda_dma_weight` over `l` when that sum is below `2 ^ 32`; `pnv_ioda_dma_weight` is
0 for a header type that is not normal, else 3 for the UHCI, OHCI and EHCI classes, else
15 for the RAID class, else 10.  The running total of the bridge grows by the weight of
the PE and the DMA-PE count by 1 exactly when that weight is not zero (both in
`unsigned int`). -/
theorem C26_dma_weight_accumulation {σ : Type} (step : σ → opal_call → Int × σ)
    (kzalloc_ok : Bool) (topo : pci_topology) (phb : pnv_phb) (fw : opal_fw σ) (bus : Nat)
    (all : Bool) (a : Int × pnv_phb) (r : Int × pnv_phb × opal_fw σ) (l : List Nat)
    (hchoose : setup_bus_PE_choose kzalloc_ok topo phb bus all = some a)
    (hvalid : a.1 ≠ IODA_INVALID_PE)
    (hcfg : pnv_ioda_configure_pe step topo (setup_bus_PE_slot topo a.2 a.1.toNat bus all) fw
      a.1.toNat = some r)
    (hrc : r.1 = 0)
    (hdevs : same_PE_devices topo
      (if all then true else (a.2.pe_array a.1.toNat).flags.bus_all) (topo.ndevs + 1) bus =
        some l) :
    (∃ final : pnv_phb,
      pnv_ioda_setup_bus_PE step kzalloc_ok topo phb fw bus all =
        some (l.foldl (assign_pe (a.2.pe_array a.1.toNat).pe_number) topo, final, r.2.2) ∧
      (final.pe_array a.1.toNat).dma_weight = add_dma_weights topo l 0 ∧
      ((l.map (fun d => pnv_ioda_dma_weight (topo.devs d))).sum < 2 ^ 32 →
        (final.pe_array a.1.toNat).dma_weight =
          (l.map (fun d => pnv_ioda_dma_weight (topo.devs d))).sum) ∧
      final.dma_weight =
        (if (final.pe_array a.1.toNat).dma_weight ≠ 0 then
          u32 (phb.dma_weight + (final.pe_array a.1.toNat).dma_weight)
        else phb.dma_weight) ∧
      final.dma_pe_count =
        (if (final.pe_array a.1.toNat).dma_weight ≠ 0 then u32 (phb.dma_pe_count + 1)
        else phb.dma_pe_count) ∧
      (phb.dma_weight + (l.map (fun d => pnv_ioda_dma_weight (topo.devs d))).sum < 2 ^ 32 →
        final.dma_weight =
          phb.dma_weight + (l.map (fun d => pnv_ioda_dma_weight (topo.devs d))).sum) ∧
      (phb.dma_pe_count + 1 < 2 ^ 32 →
        (l.map (fun d => pnv_ioda_dma_weight (topo.devs d))).sum < 2 ^ 32 →
        final.dma_pe_count = phb.dma_pe_count +
          (if (l.map (fun d => pnv_ioda_dma_weight (topo.devs d))).sum ≠ 0 then 1 else 0))) ∧
    (∀ d : pci_dev, pnv_ioda_dma_weight d =
      if d.hdr_type ≠ PCI_HEADER_TYPE_NORMAL then 0
      else if d.class_code = PCI_CLASS_SERIAL_USB_UHCI ∨
          d.class_code = PCI_CLASS_SERIAL_USB_OHCI ∨
          d.class_code = PCI_CLASS_SERIAL_USB_EHCI then 3
      else if d.class_code >>> 8 = PCI_CLASS_STORAGE_RAID then 15
      else 10) := by
  refine ⟨?_, fun d => rfl⟩
  obtain ⟨final, h1, ⟨x, h2⟩, _, _, _, h6, h7, _, _, _⟩ :=
    setup_bus_PE_ok step kzalloc_ok topo phb fw bus all a r l hchoose hvalid hcfg hrc hdevs
  have hw : (final.pe_array a.1.toNat).dma_weight = add_dma_weights topo l 0 := by rw [h2]
  have hsum : (l.map (fun d => pnv_ioda_dma_weight (topo.devs d))).sum < 2 ^ 32 →
      add_dma_weights topo l 0 = (l.map (fun d => pnv_ioda_dma_weight (topo.devs d))).sum := by
    intro h
    rw [add_dma_weights_eq_sum topo l 0 (by omega), Nat.zero_add]
  refine ⟨final, h1, hw, fun h => by rw [hw, hsum h], by rw [hw]; exact h6,
    by rw [hw]; exact h7, ?_, ?_⟩
  · intro h
    have hlt : (l.map (fun d => pnv_ioda_dma_weight (topo.devs d))).sum < 2 ^ 32 := by omega
    rw [h6, hsum hlt]
    split_ifs with h0
    · exact Nat.mod_eq_of_lt h
    · omega
  · intro h hlt
    rw [h7, hsum hlt]
    split_ifs with h0
    · exact Nat.mod_eq_of_lt h
    · rfl

set_option maxRecDepth 100000 in
/-- C26 on the example: bus 1 carries one network function (normal header, weight 10), so
its PE has weight 10, and the bridge's total goes from 0 to 10 and its DMA-PE count from 0
to 1. -/
theorem C26_dma_weight_accumulation_witness :
    ∃ (final : pnv_phb) (fw2 : opal_fw Unit),
      pnv_ioda_setup_bus_PE fw_all_ok true two_segment_topology two_segment_phb fw_fresh
        1 false = some ([1].foldl (assign_pe 1) two_segment_topology, final, fw2) ∧
      (final.pe_array 1).dma_weight = 10 ∧
      final.dma_weight = 10 ∧ final.dma_pe_count = 1 :=
  match (C26_dma_weight_accumulation fw_all_ok true two_segment_topology two_segment_phb
      fw_fresh 1 false _ _ [1] rfl (by decide) rfl rfl rfl).1 with
  | ⟨final, h1, _, h3, _, _, h6, h7⟩ =>
    ⟨final, _, h1, h3 (by decide), h6 (by decide), h7 (by decide) (by decide)⟩

/-! ## The walk as a list of bus PE set-ups -/

/-- The association of devices with a PE keeps the shape of the tree. -/
theorem setup_same_PE_shape (pe_no fuel bus : Nat) (s s1 : pci_topology × pnv_phb)
    (h : pnv_ioda_setup_same_PE pe_no fuel bus s = some s1) : same_shape s1.1 s.1 := by
  have he := setup_same_PE_eq s.1 s.2 pe_no fuel bus s.1 (s.2.pe_array pe_no).dma_weight
    (same_shape_refl _)
  rw [with_dma_weight_self] at he
  rw [he] at h
  cases hl : same_PE_devices s.1 (s.2.pe_array pe_no).flags.bus_all fuel bus with
  | none => rw [hl] at h; exact absurd h (by simp)
  | some l =>
    rw [hl] at h
    simp only [Option.map_some', Option.some.injEq] at h
    rw [← h]
    exact same_shape_foldl_assign _ l _

/-- The function `pnv_ioda_setup_bus_PE` keeps the shape of the tree. -/
theorem setup_bus_PE_shape {σ : Type} (step : σ → opal_call → Int × σ) (kzalloc_ok : Bool)
    (topo : pci_topology) (phb : pnv_phb) (fw : opal_fw σ) (bus : Nat) (all : Bool)
    (s1 : pci_topology × pnv_phb × opal_fw σ)
    (h : pnv_ioda_setup_bus_PE step kzalloc_ok topo phb fw bus all = some s1) :
    same_shape s1.1 topo := by
  rw [setup_bus_PE_eq] at h
  cases hc : setup_bus_PE_choose kzalloc_ok topo phb bus all with
  | none => rw [hc] at h; exact absurd h (by simp)
  | some a =>
    rw [hc] at h
    dsimp only at h
    by_cases h1 : a.1 = IODA_INVALID_PE
    · rw [if_pos h1] at h
      simp only [Option.some.injEq] at h
      rw [← h]
      exact same_shape_refl topo
    · rw [if_neg h1] at h
      cases hg : pnv_ioda_configure_pe step topo
          (setup_bus_PE_slot topo a.2 a.1.toNat bus all) fw a.1.toNat with
      | none => rw [hg] at h; exact absurd h (by simp)
      | some r =>
        rw [hg] at h
        dsimp only at h
        by_cases h2 : r.1 ≠ 0
        · rw [if_pos h2] at h
          simp only [Option.some.injEq] at h
          rw [← h]
          exact same_shape_refl topo
        · rw [if_neg h2] at h
          unfold setup_bus_PE_finish at h
          cases hs : pnv_ioda_setup_same_PE a.1.toNat (topo.ndevs + 1) bus (topo, r.2.1) with
          | none => rw [hs] at h; exact absurd h (by simp)
          | some t =>
            rw [hs] at h
            simp only [Option.some.injEq] at h
            rw [← h]
            exact setup_same_PE_shape _ _ _ _ _ hs

/-- A list of bus PE set-ups keeps the shape of the tree. -/
theorem setup_bus_PEs_shape {σ : Type} (step : σ → opal_call → Int × σ) (kzalloc_ok : Bool) :
    ∀ (calls : List (Nat × Bool)) (s s1 : pci_topology × pnv_phb × opal_fw σ),
      setup_bus_PEs step kzalloc_ok calls s = some s1 → same_shape s1.1 s.1 := by
  intro calls
  induction calls with
  | nil =>
    intro s s1 h
    simp only [setup_bus_PEs, List.foldlM_nil, Option.pure_def, Option.some.injEq] at h
    rw [← h]
    exact same_shape_refl _
  | cons c rest ih =>
    intro s s1 h
    simp only [setup_bus_PEs, List.foldlM_cons, Option.bind_eq_bind] at h
    cases h1 : pnv_ioda_setup_bus_PE step kzalloc_ok s.1 s.2.1 s.2.2 c.1 c.2 with
    | none => rw [h1] at h; exact absurd h (by simp)
    | some s2 =>
      rw [h1] at h
      simp only [Option.some_bind] at h
      exact same_shape_trans (ih s2 s1 h) (setup_bus_PE_shape step kzalloc_ok _ _ _ _ _ _ h1)

theorem setup_bus_PEs_append {σ : Type} (step : σ → opal_call → Int × σ) (kzalloc_ok : Bool)
    (c1 c2 : List (Nat × Bool)) (s : pci_topology × pnv_phb × opal_fw σ) :
    setup_bus_PEs step kzalloc_ok (c1 ++ c2) s =
      (setup_bus_PEs step kzalloc_ok c1 s).bind (setup_bus_PEs step kzalloc_ok c2) := by
  simp only [setup_bus_PEs, List.foldlM_append, Option.bind_eq_bind]

theorem setup_PEs_calls_succ (topo : pci_topology) (fuel bus : Nat) :
    setup_PEs_calls topo (fuel + 1) bus =
      (topo.buses bus).devices.foldlM (setup_PEs_calls_step topo fuel) [(bus, false)] := rfl

theorem setup_PEs_succ {σ : Type} (step : σ → opal_call → Int × σ) (kzalloc_ok : Bool)
    (fuel bus : Nat) (st : pci_topology × pnv_phb × opal_fw σ) :
    pnv_ioda_setup_PEs step kzalloc_ok (fuel + 1) bus st =
      match pnv_ioda_setup_bus_PE step kzalloc_ok st.1 st.2.1 st.2.2 bus false with
      | none => none
      | some st1 =>
        (st1.1.buses bus).devices.foldlM (setup_PEs_step step kzalloc_ok fuel) st1 := rfl

theorem setup_PEs_calls_step_acc (topo : pci_topology) (fuel : Nat)
    (acc : List (Nat × Bool)) (dev : Nat) :
    setup_PEs_calls_step topo fuel acc dev =
      (setup_PEs_calls_step topo fuel [] dev).map (fun l => acc ++ l) := by
  unfold setup_PEs_calls_step
  cases (topo.devs dev).subordinate with
  | none => simp
  | some sub =>
    dsimp only
    split_ifs
    · simp
    · cases setup_PEs_calls topo fuel sub <;> simp

theorem setup_PEs_calls_foldlM_acc (topo : pci_topology) (fuel : Nat) :
    ∀ (ds : List Nat) (acc : List (Nat × Bool)),
      ds.foldlM (setup_PEs_calls_step topo fuel) acc =
        (ds.foldlM (setup_PEs_calls_step topo fuel) []).map (fun l => acc ++ l) := by
  intro ds
  induction ds with
  | nil => intro acc; simp
  | cons d rest ih =>
    intro acc
    rw [List.foldlM_cons, List.foldlM_cons, setup_PEs_calls_step_acc topo fuel acc d]
    cases h1 : setup_PEs_calls_step topo fuel [] d with
    | none => simp
    | some l =>
      simp only [Option.map_some', Option.bind_eq_bind, Option.some_bind]
      rw [ih (acc ++ l), ih l]
      cases List.foldlM (setup_PEs_calls_step topo fuel) [] rest <;> simp

/-- The walk `pnv_ioda_setup_PEs` is the list of its calls of `pnv_ioda_setup_bus_PE`, run
one after the other; `t0` is any topology of the same shape as the one the walk starts
from. -/
theorem setup_PEs_eq_calls {σ : Type} (step : σ → opal_call → Int × σ) (kzalloc_ok : Bool)
    (t0 : pci_topology) :
    ∀ (fuel bus : Nat) (st : pci_topology × pnv_phb × opal_fw σ), same_shape st.1 t0 →
      pnv_ioda_setup_PEs step kzalloc_ok fuel bus st =
        (setup_PEs_calls t0 fuel bus).bind (fun calls =>
          setup_bus_PEs step kzalloc_ok calls st) := by
  intro fuel
  induction fuel with
  | zero => intro bus st _; rfl
  | succ n ih =>
    intro bus st hs
    -- the device loop
    have key : ∀ (ds : List Nat) (s : pci_topology × pnv_phb × opal_fw σ),
        same_shape s.1 t0 →
        ds.foldlM (setup_PEs_step step kzalloc_ok n) s =
          (ds.foldlM (setup_PEs_calls_step t0 n) []).bind (fun calls =>
            setup_bus_PEs step kzalloc_ok calls s) := by
      intro ds
      induction ds with
      | nil => intro s _; simp [setup_bus_PEs]
      | cons d rest ihd =>
        intro s hss
        rw [List.foldlM_cons, List.foldlM_cons]
        have hd := hss.2.2 d
        -- one device
        have hstep : setup_PEs_step step kzalloc_ok n s d =
            (setup_PEs_calls_step t0 n [] d).bind (fun calls =>
              setup_bus_PEs step kzalloc_ok calls s) := by
          unfold setup_PEs_step setup_PEs_calls_step
          rw [hd.2.1, hd.2.2.2.2.1]
          cases (t0.devs d).subordinate with
          | none => simp [setup_bus_PEs]
          | some sub =>
            dsimp only
            split_ifs
            · simp [setup_bus_PEs]
            · rw [ih sub s hss]
              cases setup_PEs_calls t0 n sub <;> simp
        rw [hstep]
        cases h1 : setup_PEs_calls_step t0 n [] d with
        | none => rfl
        | some c1 =>
          simp only [Option.bind_eq_bind, Option.some_bind]
          rw [setup_PEs_calls_foldlM_acc t0 n rest c1]
          cases h2 : setup_bus_PEs step kzalloc_ok c1 s with
          | none =>
            cases List.foldlM (setup_PEs_calls_step t0 n) [] rest with
            | none => rfl
            | some c2 => simp [setup_bus_PEs_append, h2]
          | some s1 =>
            simp only [Option.some_bind]
            rw [ihd s1 (same_shape_trans (setup_bus_PEs_shape step kzalloc_ok c1 s s1 h2) hss)]
            cases List.foldlM (setup_PEs_calls_step t0 n) [] rest with
            | none => rfl
            | some c2 => simp [setup_bus_PEs_append, h2]
    rw [setup_PEs_succ, setup_PEs_calls_succ, setup_PEs_calls_foldlM_acc]
    cases h1 : pnv_ioda_setup_bus_PE step kzalloc_ok st.1 st.2.1 st.2.2 bus false with
    | none =>
      cases List.foldlM (setup_PEs_calls_step t0 n) [] (t0.buses bus).devices with
      | none => rfl
      | some c2 => simp [setup_bus_PEs, h1]
    | some st1 =>
      have hs1 := same_shape_trans (setup_bus_PE_shape step kzalloc_ok _ _ _ _ _ _ h1) hs
      dsimp only
      rw [hs1.1, key _ st1 hs1]
      cases List.foldlM (setup_PEs_calls_step t0 n) [] (t0.buses bus).devices with
      | none => rfl
      | some c2 => simp [setup_bus_PEs, h1]

/-! ## One bus PE set-up of the walk -/

/-- The M64 hook returns "not applicable" for a root bus and for a bus without a 64-bit
prefetchable window. -/
theorem pick_m64_pe_not_applicable (kzalloc_ok : Bool) (topo : pci_topology) (phb : pnv_phb)
    (bus : Nat) (all : Bool)
    (h : pci_is_root_bus (topo.buses bus) = true ∨
      pick_m64_window (topo.buses bus).resources = none) :
    pnv_ioda2_pick_m64_pe kzalloc_ok topo phb bus all = some (IODA_INVALID_PE, phb) := by
  unfold pnv_ioda2_pick_m64_pe
  dsimp only
  by_cases h1 : pci_is_root_bus (topo.buses bus) = true
  · rw [if_pos h1]
  · rw [if_neg h1]
    rcases h with h | h
    · exact absurd h h1
    · rw [h]

/-- Where the M64 hook is absent or not applicable the PE number comes from the
allocator. -/
theorem setup_bus_PE_choose_alloc (kzalloc_ok : Bool) (topo : pci_topology) (phb : pnv_phb)
    (bus : Nat) (all : Bool)
    (h : phb.pick_m64_pe = true → pci_is_root_bus (topo.buses bus) = true ∨
      pick_m64_window (topo.buses bus).resources = none) :
    setup_bus_PE_choose kzalloc_ok topo phb bus all = some (pnv_ioda_alloc_pe phb) := by
  unfold setup_bus_PE_choose
  dsimp only
  by_cases hp : phb.pick_m64_pe = true
  · rw [if_pos hp, pick_m64_pe_not_applicable kzalloc_ok topo phb bus all (h hp)]
    simp
  · rw [if_neg hp]
    simp

/-- With a free slot the allocator hands out the lowest free one. -/
theorem alloc_pe_of_free_slots (phb : pnv_phb) (h : 0 < free_slots phb) :
    ∃ n, n < phb.total_pe ∧ phb.pe_alloc n = false ∧
      pnv_ioda_alloc_pe phb =
        ((n : Int),
          { phb with
            pe_alloc := set_bit n phb.pe_alloc
            pe_array := array_set phb.pe_array n
              { phb.pe_array n with phb := true, pe_number := n } }) := by
  rcases lowest_free_or_full phb.pe_alloc phb.total_pe with ⟨n, hn, hf, hl⟩ | hfull
  · exact ⟨n, hn, hf, pnv_ioda_alloc_pe_of_lowest phb n hn hf hl⟩
  · have : (List.range phb.total_pe).filter (fun k => !phb.pe_alloc k) = [] := by
      rw [List.filter_eq_nil_iff]
      intro k hk
      rw [List.mem_range] at hk
      simp [hfull k hk]
    unfold free_slots at h
    rw [this] at h
    exact absurd h (by simp)

/-- Setting the bit of a free slot takes one from the number of free slots. -/
theorem filter_free_set_bit (f : Nat → Bool) (n : Nat) (hf : f n = false) :
    ∀ N, ((List.range N).filter (fun k => !set_bit n f k)).length + (if n < N then 1 else 0) =
      ((List.range N).filter (fun k => !f k)).length := by
  intro N
  induction N with
  | zero => simp
  | succ m ih =>
    rw [List.range_succ, List.filter_append, List.filter_append, List.length_append,
      List.length_append]
    have e2 : ([m].filter (fun k => !f k)).length = if f m = true then 0 else 1 := by
      by_cases hfm : f m = true <;> simp [hfm]
    have e1 : ([m].filter (fun k => !set_bit n f k)).length =
        if m = n then 0 else (if f m = true then 0 else 1) := by
      by_cases hm : m = n
      · simp [set_bit, hm]
      · by_cases hfm : f m = true <;> simp [set_bit, hm, hfm]
    rw [e1, e2]
    by_cases hm : m = n
    · subst hm
      have hfm : ¬ (f m = true) := by simp [hf]
      rw [if_neg (Nat.lt_irrefl m)] at ih
      rw [if_pos rfl, if_neg hfm, if_pos (Nat.lt_succ_self m)]
      omega
    · rw [if_neg hm]
      by_cases hlt : n < m
      · have h2 : n < m + 1 := by omega
        rw [if_pos hlt] at ih
        rw [if_pos h2]
        omega
      · have h2 : ¬ n < m + 1 := by omega
        rw [if_neg hlt] at ih
        rw [if_neg h2]
        omega

theorem free_slots_set_bit (phb phb1 : pnv_phb) (n : Nat) (hn : n < phb.total_pe)
    (hf : phb.pe_alloc n = false) (h1 : phb1.total_pe = phb.total_pe)
    (h2 : phb1.pe_alloc = set_bit n phb.pe_alloc) :
    free_slots phb1 + 1 = free_slots phb := by
  unfold free_slots
  rw [h1, h2]
  have := filter_free_set_bit phb.pe_alloc n hf phb.total_pe
  rw [if_pos hn] at this
  exact this

/-- Whether the ancestor chain ends depends on the shape of the tree only. -/
theorem ancestor_rows_isSome_congr {t1 t2 : pci_topology} (h : same_shape t1 t2) :
    ∀ (fuel : Nat) (parent : Option Nat),
      (ancestor_rows t1 fuel parent).isSome = (ancestor_rows t2 fuel parent).isSome := by
  intro fuel
  induction fuel with
  | zero => intro parent; cases parent <;> rfl
  | succ n ih =>
    intro parent
    cases parent with
    | none => rfl
    | some p =>
      simp only [ancestor_rows, Option.isSome_map']
      rw [h.1, (h.2.2 p).1]
      exact ih _

/-- With a firmware that accepts every mapping call, `pnv_ioda_configure_pe` returns 0 on a
bus-scoped PE whose ancestor chain ends. -/
theorem configure_pe_bus_ok {σ : Type} (step : σ → opal_call → Int × σ) (topo : pci_topology)
    (phb : pnv_phb) (fw : opal_fw σ) (pe_no b : Nat)
    (hok : ∀ st pe_number rid bcomp dcomp fcomp,
      (step st (opal_call.opal_pci_set_pe pe_number rid bcomp dcomp fcomp
        OpalPeAction.OPAL_MAP_PE)).1 = 0)
    (hbus : (phb.pe_array pe_no).pbus = some b)
    (hanc : (ancestor_rows topo topo.ndevs (topo.buses b).self).isSome = true) :
    ∃ phb1 fw1, pnv_ioda_configure_pe step topo phb fw pe_no = some (0, phb1, fw1) := by
  obtain ⟨rows, hrows⟩ := Option.isSome_iff_exists.1 hanc
  simp only [pnv_ioda_configure_pe, configure_pe_match, hbus, peltv_parents_eq, hrows,
    Option.map_some']
  have hn : ¬ (opal step fw
      (opal_call.opal_pci_set_pe (phb.pe_array pe_no).pe_number (phb.pe_array pe_no).rid
        (configure_bcomp
          (if (phb.pe_array pe_no).flags.bus_all = true then
            ((topo.buses b).busn_res_end : Int) - ((topo.buses b).busn_res_start : Int) + 1
          else 1))
        OpalPciDeviceCompare.OPAL_IGNORE_RID_DEVICE_NUMBER
        OpalPciFuncCompare.OPAL_IGNORE_RID_FUNCTION_NUMBER OpalPeAction.OPAL_MAP_PE)).1 ≠ 0 :=
    fun h => h (hok _ _ _ _ _ _)
  rw [if_neg hn]
  exact ⟨_, _, rfl⟩

/-! ## The devices of the calls -/

theorem bus_devices_below_succ (topo : pci_topology) (fuel bus : Nat) :
    bus_devices_below topo (fuel + 1) bus =
      (topo.buses bus).devices.foldlM (bus_devices_below_step topo fuel) [] := rfl

theorem bus_devices_below_step_acc (topo : pci_topology) (fuel : Nat) (acc : List Nat)
    (dev : Nat) :
    bus_devices_below_step topo fuel acc dev =
      (bus_devices_below_step topo fuel [] dev).map (fun l => acc ++ l) := by
  unfold bus_devices_below_step
  cases (topo.devs dev).subordinate with
  | none => simp
  | some sub =>
    dsimp only
    cases bus_devices_below topo fuel sub <;> simp

theorem bus_devices_below_foldlM_acc (topo : pci_topology) (fuel : Nat) :
    ∀ (ds acc : List Nat),
      ds.foldlM (bus_devices_below_step topo fuel) acc =
        (ds.foldlM (bus_devices_below_step topo fuel) []).map (fun l => acc ++ l) := by
  intro ds
  induction ds with
  | nil => intro acc; simp
  | cons d rest ih =>
    intro acc
    rw [List.foldlM_cons, List.foldlM_cons, bus_devices_below_step_acc topo fuel acc d]
    cases h1 : bus_devices_below_step topo fuel [] d with
    | none => simp
    | some l =>
      simp only [Option.map_some', Option.bind_eq_bind, Option.some_bind]
      rw [ih (acc ++ l), ih l]
      cases List.foldlM (bus_devices_below_step topo fuel) [] rest <;> simp

/-- The device loop taken apart at its first device. -/
theorem bus_devices_below_foldlM_cons (topo : pci_topology) (fuel d : Nat) (rest : List Nat) :
    (d :: rest).foldlM (bus_devices_below_step topo fuel) [] =
      (bus_devices_below_step topo fuel [] d).bind (fun l1 =>
        (rest.foldlM (bus_devices_below_step topo fuel) []).map (fun l2 => l1 ++ l2)) := by
  rw [List.foldlM_cons]
  cases h1 : bus_devices_below_step topo fuel [] d with
  | none => rfl
  | some l =>
    simp only [Option.bind_eq_bind, Option.some_bind]
    exact bus_devices_below_foldlM_acc topo fuel rest l

theorem same_PE_devices_foldlM_cons (topo : pci_topology) (all : Bool) (fuel d : Nat)
    (rest : List Nat) :
    (d :: rest).foldlM (same_PE_devices_step topo all fuel) [] =
      (same_PE_devices_step topo all fuel [] d).bind (fun l1 =>
        (rest.foldlM (same_PE_devices_step topo all fuel) []).map (fun l2 => l1 ++ l2)) := by
  rw [List.foldlM_cons]
  cases h1 : same_PE_devices_step topo all fuel [] d with
  | none => rfl
  | some l =>
    simp only [Option.bind_eq_bind, Option.some_bind]
    exact same_PE_devices_foldlM_acc topo all fuel rest l

theorem setup_PEs_calls_foldlM_cons (topo : pci_topology) (fuel d : Nat) (rest : List Nat) :
    (d :: rest).foldlM (setup_PEs_calls_step topo fuel) [] =
      (setup_PEs_calls_step topo fuel [] d).bind (fun l1 =>
        (rest.foldlM (setup_PEs_calls_step topo fuel) []).map (fun l2 => l1 ++ l2)) := by
  rw [List.foldlM_cons]
  cases h1 : setup_PEs_calls_step topo fuel [] d with
  | none => rfl
  | some l =>
    simp only [Option.bind_eq_bind, Option.some_bind]
    exact setup_PEs_calls_foldlM_acc topo fuel rest l

/-- More fuel does not change a traversal that ends. -/
theorem bus_devices_below_mono (topo : pci_topology) :
    ∀ (fuel bus : Nat) (l : List Nat), bus_devices_below topo fuel bus = some l →
      bus_devices_below topo (fuel + 1) bus = some l := by
  intro fuel
  induction fuel with
  | zero => intro bus l h; exact absurd h (by simp [bus_devices_below])
  | succ n ih =>
    intro bus l h
    rw [bus_devices_below_succ] at h ⊢
    generalize (topo.buses bus).devices = ds at h ⊢
    induction ds generalizing l with
    | nil => exact h
    | cons d rest ihd =>
      rw [bus_devices_below_foldlM_cons] at h ⊢
      cases h1 : bus_devices_below_step topo n [] d with
      | none => rw [h1] at h; exact absurd h (by simp)
      | some l1 =>
        rw [h1] at h
        simp only [Option.some_bind] at h
        cases h2 : List.foldlM (bus_devices_below_step topo n) [] rest with
        | none => rw [h2] at h; exact absurd h (by simp)
        | some l2 =>
          rw [h2] at h
          have h3 : bus_devices_below_step topo (n + 1) [] d = some l1 := by
            unfold bus_devices_below_step at h1 ⊢
            cases hsub : (topo.devs d).subordinate with
            | none => rw [hsub] at h1; exact h1
            | some sub =>
              rw [hsub] at h1
              dsimp only at h1 ⊢
              cases h4 : bus_devices_below topo n sub with
              | none => rw [h4] at h1; exact absurd h1 (by simp)
              | some l4 =>
                rw [h4] at h1
                rw [ih sub l4 h4]
                exact h1
          rw [h3, ihd l2 h2]
          exact h

theorem bus_devices_below_mono_le (topo : pci_topology) (fuel bus : Nat) (l : List Nat)
    (h : bus_devices_below topo fuel bus = some l) :
    ∀ m, fuel ≤ m → bus_devices_below topo m bus = some l := by
  intro m hm
  induction m with
  | zero =>
    have : fuel = 0 := by omega
    subst this
    exact h
  | succ k ih =>
    by_cases hk : fuel ≤ k
    · exact bus_devices_below_mono topo k bus l (ih hk)
    · have : fuel = k + 1 := by omega
      subst this
      exact h

/-- A single-bus PE is given the devices of its bus that have a device node. -/
theorem same_PE_devices_single (topo : pci_topology) (fuel bus : Nat) :
    same_PE_devices topo false (fuel + 1) bus =
      some ((topo.buses bus).devices.filter (fun d => (topo.devs d).pdn.isSome)) := by
  rw [same_PE_devices_succ]
  generalize (topo.buses bus).devices = ds
  induction ds with
  | nil => rfl
  | cons d rest ih =>
    rw [same_PE_devices_foldlM_cons, ih]
    unfold same_PE_devices_step
    cases h : (topo.devs d).pdn with
    | none => simp [List.filter_cons, h]
    | some x => simp [List.filter_cons, h]

/-- With hereditary device nodes a bus-and-subordinates PE is given every device on and
below its bus that has a device node. -/
theorem same_PE_devices_all (topo : pci_topology) (hp : pdn_hereditary topo) :
    ∀ (fuel bus : Nat) (l : List Nat), bus_devices_below topo fuel bus = some l →
      same_PE_devices topo true fuel bus =
        some (l.filter (fun d => (topo.devs d).pdn.isSome)) := by
  intro fuel
  induction fuel with
  | zero => intro bus l h; exact absurd h (by simp [bus_devices_below])
  | succ n ih =>
    intro bus l h
    rw [bus_devices_below_succ] at h
    rw [same_PE_devices_succ]
    generalize (topo.buses bus).devices = ds at h ⊢
    induction ds generalizing l with
    | nil =>
      simp only [List.foldlM_nil, Option.pure_def, Option.some.injEq] at h
      subst h
      rfl
    | cons d rest ihd =>
      rw [bus_devices_below_foldlM_cons] at h
      rw [same_PE_devices_foldlM_cons]
      cases h1 : bus_devices_below_step topo n [] d with
      | none => rw [h1] at h; exact absurd h (by simp)
      | some l1 =>
        rw [h1] at h
        simp only [Option.some_bind] at h
        cases h2 : List.foldlM (bus_devices_below_step topo n) [] rest with
        | none => rw [h2] at h; exact absurd h (by simp)
        | some l2 =>
          rw [h2] at h
          simp only [Option.map_some', Option.some.injEq] at h
          subst h
          rw [ihd l2 h2]
          have h3 : same_PE_devices_step topo true n [] d =
              some (l1.filter (fun d => (topo.devs d).pdn.isSome)) := by
            unfold bus_devices_below_step at h1
            unfold same_PE_devices_step
            cases hsub : (topo.devs d).subordinate with
            | none =>
              rw [hsub] at h1
              simp only [List.nil_append, Option.some.injEq] at h1
              subst h1
              cases hpdn : (topo.devs d).pdn with
              | none => simp [List.filter_cons, hpdn]
              | some x => simp [List.filter_cons, hpdn]
            | some sub =>
              rw [hsub] at h1
              dsimp only at h1
              cases h4 : bus_devices_below topo n sub with
              | none => rw [h4] at h1; exact absurd h1 (by simp)
              | some l4 =>
                rw [h4] at h1
                simp only [Option.map_some', List.nil_append, Option.some.injEq] at h1
                subst h1
                cases hpdn : (topo.devs d).pdn with
                | none =>
                  have hnone := hp d sub n l4 hpdn hsub h4
                  have : l4.filter (fun d => (topo.devs d).pdn.isSome) = [] := by
                    rw [List.filter_eq_nil_iff]
                    intro e he
                    simp [hnone e he]
                  simp [List.filter_cons, hpdn, this]
                | some x =>
                  simp [List.filter_cons, hpdn, ih sub l4 h4]
          rw [h3]
          simp

/-- The devices that `pnv_ioda_setup_same_PE` assigns for a call of the walk are the devices
of the call that have a device node. -/
theorem same_PE_devices_call (topo : pci_topology) (hp : pdn_hereditary topo) (c : Nat × Bool)
    (hc : c.2 = true → (bus_devices_below topo (topo.ndevs + 1) c.1).isSome = true) :
    same_PE_devices topo c.2 (topo.ndevs + 1) c.1 =
      some ((call_devices topo c).filter (fun d => (topo.devs d).pdn.isSome)) := by
  obtain ⟨b, all⟩ := c
  cases all with
  | false => exact same_PE_devices_single topo topo.ndevs b
  | true =>
    obtain ⟨l, hl⟩ := Option.isSome_iff_exists.1 (hc rfl)
    dsimp only at hl ⊢
    rw [same_PE_devices_all topo hp _ b l hl]
    simp [call_devices, hl]

theorem same_shape_foldl_assignments (xs : List (Nat × Nat)) :
    ∀ t : pci_topology, same_shape (xs.foldl (fun t x => assign_pe x.2 t x.1) t) t := by
  induction xs with
  | nil => intro t; exact same_shape_refl t
  | cons x rest ih =>
    intro t
    exact same_shape_trans (ih _) (same_shape_assign_pe x.2 t x.1)

theorem pe_assignments_append (topo : pci_topology) (done : List ((Nat × Bool) × Nat))
    (c : Nat × Bool) (p : Nat) :
    pe_assignments topo (done ++ [(c, p)]) =
      pe_assignments topo done ++
        ((call_devices topo c).filter (fun d => (topo.devs d).pdn.isSome)).map
          (fun d => (d, p)) := by
  simp [pe_assignments, List.flatMap_append]

theorem call_devices_false (topo : pci_topology) (bus : Nat) :
    call_devices topo (bus, false) = (topo.buses bus).devices := by
  simp [call_devices]

theorem call_devices_true (topo : pci_topology) (fuel bus : Nat) (l : List Nat)
    (hf : fuel ≤ topo.ndevs + 1) (h : bus_devices_below topo fuel bus = some l) :
    call_devices topo (bus, true) = l := by
  simp [call_devices, bus_devices_below_mono_le topo fuel bus l h _ hf]

/-- The calls of the walk cover the bus tree: when the tree under a bus is no deeper than
the fuel, the walk's calls are defined, their devices are together the devices of the tree,
each call for "bus and subordinates" is for the subordinate bus of a PCIe-to-PCI bridge of
the tree and has a tree of bounded depth under it, and each other call is for the bus at
the top or for the subordinate bus of another bridge of the tree. -/
theorem setup_PEs_calls_cover (topo : pci_topology) :
    ∀ (fuel bus : Nat) (devs : List Nat), fuel ≤ topo.ndevs + 1 →
      bus_devices_below topo fuel bus = some devs →
      ∃ calls : List (Nat × Bool), setup_PEs_calls topo fuel bus = some calls ∧
        (calls.flatMap (call_devices topo)).Perm devs ∧
        (∀ c, c ∈ calls → c.2 = true →
          (bus_devices_below topo (topo.ndevs + 1) c.1).isSome = true) ∧
        (∀ c, c ∈ calls → c = (bus, false) ∨ ∃ d, d ∈ devs ∧
          (topo.devs d).subordinate = some c.1 ∧
          (c.2 = true ↔ (topo.devs d).pcie_type = PCI_EXP_TYPE_PCI_BRIDGE)) := by
  intro fuel
  induction fuel with
  | zero => intro bus devs _ h; exact absurd h (by simp [bus_devices_below])
  | succ n ih =>
    intro bus devs hf h
    rw [bus_devices_below_succ] at h
    rw [setup_PEs_calls_succ, setup_PEs_calls_foldlM_acc]
    have key : ∀ (ds l : List Nat),
        ds.foldlM (bus_devices_below_step topo n) [] = some l →
        ∃ cs : List (Nat × Bool), ds.foldlM (setup_PEs_calls_step topo n) [] = some cs ∧
          (ds ++ cs.flatMap (call_devices topo)).Perm l ∧
          (∀ c, c ∈ cs → c.2 = true →
            (bus_devices_below topo (topo.ndevs + 1) c.1).isSome = true) ∧
          (∀ c, c ∈ cs → ∃ d, d ∈ l ∧ (topo.devs d).subordinate = some c.1 ∧
            (c.2 = true ↔ (topo.devs d).pcie_type = PCI_EXP_TYPE_PCI_BRIDGE)) := by
      intro ds
      induction ds with
      | nil =>
        intro l hl
        simp only [List.foldlM_nil, Option.pure_def, Option.some.injEq] at hl
        subst hl
        exact ⟨[], rfl, by simp, by simp, by simp⟩
      | cons d rest ihd =>
        intro l hl
        rw [bus_devices_below_foldlM_cons] at hl
        rw [setup_PEs_calls_foldlM_cons]
        cases h1 : bus_devices_below_step topo n [] d with
        | none => rw [h1] at hl; exact absurd hl (by simp)
        | some l1 =>
          rw [h1] at hl
          simp only [Option.some_bind] at hl
          cases h2 : List.foldlM (bus_devices_below_step topo n) [] rest with
          | none => rw [h2] at hl; exact absurd hl (by simp)
          | some l2 =>
            rw [h2] at hl
            simp only [Option.map_some', Option.some.injEq] at hl
            subst hl
            obtain ⟨cs2, e2, p2, b2, o2⟩ := ihd l2 h2
            -- the first device
            have first : ∃ cs1 : List (Nat × Bool),
                setup_PEs_calls_step topo n [] d = some cs1 ∧
                (d :: cs1.flatMap (call_devices topo)).Perm l1 ∧
                (∀ c, c ∈ cs1 → c.2 = true →
                  (bus_devices_below topo (topo.ndevs + 1) c.1).isSome = true) ∧
                (∀ c, c ∈ cs1 → ∃ e, e ∈ l1 ∧ (topo.devs e).subordinate = some c.1 ∧
                  (c.2 = true ↔ (topo.devs e).pcie_type = PCI_EXP_TYPE_PCI_BRIDGE)) := by
              unfold bus_devices_below_step at h1
              unfold setup_PEs_calls_step
              cases hsub : (topo.devs d).subordinate with
              | none =>
                rw [hsub] at h1
                simp only [List.nil_append, Option.some.injEq] at h1
                subst h1
                exact ⟨[], rfl, by simp, by simp, by simp⟩
              | some sub =>
                rw [hsub] at h1
                dsimp only at h1 ⊢
                cases h4 : bus_devices_below topo n sub with
                | none => rw [h4] at h1; exact absurd h1 (by simp)
                | some l4 =>
                  rw [h4] at h1
                  simp only [Option.map_some', List.nil_append, Option.some.injEq] at h1
                  subst h1
                  by_cases ht : (topo.devs d).pcie_type = PCI_EXP_TYPE_PCI_BRIDGE
                  · rw [if_pos ht]
                    refine ⟨[(sub, true)], rfl, ?_, ?_, ?_⟩
                    · simp [call_devices_true topo n sub l4 (by omega) h4]
                    · intro c hc _
                      rw [List.mem_singleton] at hc
                      subst hc
                      rw [bus_devices_below_mono_le topo n sub l4 h4 _ (by omega)]
                      rfl
                    · intro c hc
                      rw [List.mem_singleton] at hc
                      subst hc
                      exact ⟨d, List.mem_cons_self _ _, hsub, by simp [ht]⟩
                  · rw [if_neg ht]
                    obtain ⟨cs4, e4, p4, b4, o4⟩ := ih sub l4 (by omega) h4
                    refine ⟨cs4, by rw [e4]; simp, ?_, b4, ?_⟩
                    · exact List.Perm.cons d p4
                    · intro c hc
                      rcases o4 c hc with hc0 | ⟨e, he, hes, het⟩
                      · subst hc0
                        exact ⟨d, List.mem_cons_self _ _, hsub, by simp [ht]⟩
                      · exact ⟨e, List.mem_cons_of_mem _ he, hes, het⟩
            obtain ⟨cs1, e1, p1, b1, o1⟩ := first
            rw [e1, e2]
            refine ⟨cs1 ++ cs2, by simp, ?_, ?_, ?_⟩
            · rw [List.flatMap_append]
              have := List.Perm.append p1 p2
              refine List.Perm.trans ?_ this
              simp only [List.cons_append]
              refine List.Perm.cons d ?_
              rw [← List.append_assoc, ← List.append_assoc]
              exact List.Perm.append_right _ List.perm_append_comm
            · intro c hc
              rw [List.mem_append] at hc
              rcases hc with hc | hc
              · exact b1 c hc
              · exact b2 c hc
            · intro c hc
              rw [List.mem_append] at hc
              rcases hc with hc | hc
              · obtain ⟨e, he, r⟩ := o1 c hc
                exact ⟨e, List.mem_append_left _ he, r⟩
              · obtain ⟨e, he, r⟩ := o2 c hc
                exact ⟨e, List.mem_append_right _ he, r⟩
    obtain ⟨cs, e, p, b, o⟩ := key _ devs h
    rw [e]
    refine ⟨(bus, false) :: cs, by simp, ?_, ?_, ?_⟩
    · rw [List.flatMap_cons, call_devices_false]
      exact p
    · intro c hc
      rw [List.mem_cons] at hc
      rcases hc with hc | hc
      · subst hc
        intro hx
        exact absurd hx (by simp)
      · exact b c hc
    · intro c hc
      rw [List.mem_cons] at hc
      rcases hc with hc | hc
      · exact Or.inl hc
      · exact Or.inr (o c hc)

theorem assign_pe_devs_ne (p : Nat) (t : pci_topology) (d e : Nat) (h : e ≠ d) :
    (assign_pe p t d).devs e = t.devs e := by
  unfold assign_pe
  cases (t.devs d).pdn with
  | none => rfl
  | some n => simp [array_set, h]

theorem assign_pe_devs_self (p : Nat) (t : pci_topology) (d : Nat) (n : pci_dn)
    (h : (t.devs d).pdn = some n) :
    (assign_pe p t d).devs d =
      { t.devs d with pdn := some { n with pe_number := (p : Int) } } := by
  unfold assign_pe
  rw [h]
  simp [array_set]

/-- A list of assignments leaves every device alone that it does not name. -/
theorem foldl_assign_devs_not_mem (xs : List (Nat × Nat)) :
    ∀ (t : pci_topology) (e : Nat), e ∉ xs.map Prod.fst →
      (xs.foldl (fun t x => assign_pe x.2 t x.1) t).devs e = t.devs e := by
  induction xs with
  | nil => intro t e _; rfl
  | cons x rest ih =>
    intro t e he
    rw [List.map_cons, List.mem_cons, not_or] at he
    rw [List.foldl_cons, ih _ e he.2, assign_pe_devs_ne x.2 t x.1 e he.1]

/-- A list of assignments that names every device at most once gives each device it names
the PE number paired with it. -/
theorem foldl_assign_devs_mem (xs : List (Nat × Nat)) :
    ∀ (t : pci_topology), (xs.map Prod.fst).Nodup →
      ∀ (d p : Nat) (n : pci_dn), (d, p) ∈ xs → (t.devs d).pdn = some n →
        (xs.foldl (fun t x => assign_pe x.2 t x.1) t).devs d =
          { t.devs d with pdn := some { n with pe_number := (p : Int) } } := by
  induction xs with
  | nil => intro t _ d p n h; exact absurd h (by simp)
  | cons x rest ih =>
    intro t hnd d p n hmem hn
    rw [List.map_cons, List.nodup_cons] at hnd
    rw [List.foldl_cons]
    rw [List.mem_cons] at hmem
    rcases hmem with hmem | hmem
    · subst hmem
      rw [foldl_assign_devs_not_mem rest _ _ hnd.1]
      exact assign_pe_devs_self _ t _ n hn
    · have hne : d ≠ x.1 := by
        intro he
        apply hnd.1
        rw [← he]
        exact List.mem_map_of_mem Prod.fst hmem
      have e1 : (assign_pe x.2 t x.1).devs d = t.devs d := assign_pe_devs_ne x.2 t x.1 d hne
      rw [ih (assign_pe x.2 t x.1) hnd.2 d p n hmem (by rw [e1]; exact hn), e1]

theorem pe_assignments_fst (topo : pci_topology) (calls : List ((Nat × Bool) × Nat)) :
    (pe_assignments topo calls).map Prod.fst =
      ((calls.map Prod.fst).flatMap (call_devices topo)).filter
        (fun d => (topo.devs d).pdn.isSome) := by
  induction calls with
  | nil => rfl
  | cons c rest ih =>
    simp only [pe_assignments, List.flatMap_cons, List.map_append, List.map_map,
      List.map_cons, List.filter_append] at ih ⊢
    rw [ih]
    congr 1
    simp [Function.comp_def]

theorem mem_pe_assignments (topo : pci_topology) (calls : List ((Nat × Bool) × Nat))
    (d p : Nat) :
    (d, p) ∈ pe_assignments topo calls ↔
      ∃ c, (c, p) ∈ calls ∧ d ∈ call_devices topo c ∧ (topo.devs d).pdn.isSome = true := by
  unfold pe_assignments
  rw [List.mem_flatMap]
  constructor
  · rintro ⟨cp, hcp, hd⟩
    rw [List.mem_map] at hd
    obtain ⟨e, he, heq⟩ := hd
    rw [List.mem_filter] at he
    rw [Prod.mk.injEq] at heq
    obtain ⟨h1, h2⟩ := heq
    subst h1
    refine ⟨cp.1, ?_, he.1, he.2⟩
    rw [← h2]
    exact hcp
  · rintro ⟨c, hc, he, hs⟩
    refine ⟨(c, p), hc, ?_⟩
    rw [List.mem_map]
    exact ⟨d, List.mem_filter.mpr ⟨he, hs⟩, rfl⟩

/-! ## The walk over the bus tree -/

/-- In the example tree every bridge has a device node. -/
theorem pci_bridge_tree_hereditary : pdn_hereditary pci_bridge_tree := by
  intro d sub fuel l h1 h2
  exfalso
  unfold pci_bridge_tree at h1 h2
  dsimp only at h1 h2
  split_ifs at h1 h2

set_option maxRecDepth 100000 in
/-- C25, counterexample: a device with a device node that gets no PE.  In the tree
`nodeless_bridge_tree` (finite, six devices, seven free PE slots, a firmware in which every
call succeeds, no M64 hook) the function 3 has a device node and lies below bus 1, the
subordinate bus of the PCIe-to-PCI bridge 0, behind the PCI bridge 2 that has no device
node.  `pnv_ioda_setup_PEs` on the root bus returns and creates the PEs 1, 2 and 3, PE 2 for
bus 1 and all its subordinate buses; `pnv_ioda_setup_same_PE` skips bridge 2 together with
the bus below it, so function 3 is left without a PE: its PE number is the one from before
the walk, -1. -/
theorem C25_device_below_nodeless_bridge_gets_no_PE :
    (bus_devices_below nodeless_bridge_tree 7 0 = some [0, 2, 3, 1, 4, 5] ∧
      free_slots eight_slot_phb = 7 ∧ eight_slot_phb.pick_m64_pe = false ∧
      (nodeless_bridge_tree.devs 0).pcie_type = PCI_EXP_TYPE_PCI_BRIDGE ∧
      (nodeless_bridge_tree.devs 0).subordinate = some 1 ∧
      (nodeless_bridge_tree.devs 3).pdn = some { pe_number := -1 }) ∧
    (pnv_ioda_setup_PEs fw_all_ok true 7 0
        (nodeless_bridge_tree, eight_slot_phb, fw_fresh)).map
      (fun r => (r.2.1.pe_list, (r.2.1.pe_array 2).pbus, (r.2.1.pe_array 2).flags.bus_all)) =
      some ([1, 2, 3], some 1, true) ∧
    (pnv_ioda_setup_PEs fw_all_ok true 7 0
        (nodeless_bridge_tree, eight_slot_phb, fw_fresh)).map
      (fun r => (List.range 6).map (fun d => (r.1.devs d).pdn)) =
      some [some { pe_number := 1 }, some { pe_number := 1 }, none, some { pe_number := -1 },
        some { pe_number := 3 }, none] := by
  refine ⟨by decide, by decide, by decide⟩

/-! ## Contiguous reservation: enable returns -/

/-- The function `pnv_pci_sriov_enable` returns 0 on a modern bridge when the reservation
has found a range, the M64 assignment succeeds and the chain of bridges above the physical
function ends. -/
theorem sriov_enable_returns {σ : Type} (step : σ → opal_call → Int × σ)
    (env : kernel_env σ) (topo : pci_topology) (s : sriov_state σ) (vf_num base n : Nat)
    (rows : List Int)
    (htype : s.phb.type = pnv_phb_type.PNV_PHB_IODA2)
    (hres : sriov_reserve s.phb.pe_alloc s.phb.total_pe vf_num = some (base, n))
    (hm64 : (pnv_pci_vf_assign_m64 step env.dz
        { s.phb with pe_alloc := bitmap_set s.phb.pe_alloc base n }
        { s.pf with offset := base, vf_pes := n } s.fw n).1 = 0)
    (hrows : ancestor_rows topo topo.ndevs (some s.pf.pdev) = some rows) :
    ∃ s1, pnv_pci_sriov_enable step env topo s vf_num = some (0, s1) := by
  obtain ⟨rc, m, w, fw2, hr, _, _, _⟩ := vf_assign_m64_spec step env.dz
    { s.phb with pe_alloc := bitmap_set s.phb.pe_alloc base n }
    { s.pf with offset := base, vf_pes := n } s.fw n
  rw [hr] at hm64
  dsimp only at hm64
  subst hm64
  unfold pnv_pci_sriov_enable
  rw [if_pos htype, hres]
  dsimp only
  rw [hr]
  dsimp only
  rw [if_neg (by simp)]
  have hdef : ∀ (pf2 : sriov_pf), pf2.pdev = s.pf.pdev → pf2.is_physfn = s.pf.is_physfn →
      ∃ t, pnv_ioda_setup_vf_PE step env topo
        { s.phb with pe_alloc := bitmap_set s.phb.pe_alloc base n, m64_bar_alloc := m }
        pf2 fw2 n = some t := by
    intro pf2 hp _
    unfold pnv_ioda_setup_vf_PE
    by_cases hph : pf2.is_physfn = true
    · rw [hph]
      obtain ⟨s1, hs1⟩ := setup_vf_PE_loop_defined step env topo pf2 rows
        (by rw [hp]; exact hrows) (List.range n)
        ({ s.phb with pe_alloc := bitmap_set s.phb.pe_alloc base n, m64_bar_alloc := m }, fw2)
      simp [hs1]
    · simp only [Bool.not_eq_true] at hph
      rw [hph]
      exact ⟨_, rfl⟩
  by_cases h1 : s.pf.m64_per_iov = 1
  · rw [if_pos h1]
    obtain ⟨r, v, hsh⟩ := vf_resource_shift_frame env.dz
      { s.pf with offset := base, vf_pes := n, m64_wins := w } (base : Int)
    rw [hsh]
    obtain ⟨t, ht⟩ := hdef
      { s.pf with offset := base, vf_pes := n, m64_wins := w, resource := r, vfs := v } rfl rfl
    rw [ht]
    exact ⟨_, rfl⟩
  · rw [if_neg h1]
    obtain ⟨t, ht⟩ := hdef { s.pf with offset := base, vf_pes := n, m64_wins := w } rfl rfl
    rw [ht]
    exact ⟨_, rfl⟩

/-- C15, amended: contiguous reservation with retry on a modern bridge, for every slot
bitmap and every requested count `vf_num ≥ 1`.  (1) The reservation block fails exactly
when no slot below `total_pe` is free, and then `pnv_pci_sriov_enable` returns `-EBUSY`
with nothing changed but the offset, which is 0.  (2) Otherwise it finds `n` slots at
`base`, where `n` is the largest count up to `vf_num` that has a free run below
`total_pe` and `base` the lowest base of such a run.  (3) Whenever enable returns, it
returns 0 or `-EBUSY`; with `-EBUSY` (no free slot, or the M64 assignment has failed) the
bridge is as before the call and the offset is 0; with 0 the offset is `base`, `vf_pes` is
`n`, the bits outside the range are unchanged, and if the firmware accepts every PE
mapping call exactly the `n` bits of the range are set in addition (a VF whose PE
configuration fails has its slot freed again).  (4) Enable does return once a range
(`base`, `n`) has been found: when the call of `pnv_pci_vf_assign_m64` that it then makes
fails, it returns `-EBUSY` with the bridge as before the call and the offset 0; when that
call succeeds and the chain of bridges above the physical function ends, it returns 0 with
the offset `base`, `vf_pes = n`, the bits outside the range unchanged and, if the firmware
accepts every PE mapping call, exactly the `n` bits of the range set in addition. -/
theorem C15_contiguous_reservation {σ : Type} (step : σ → opal_call → Int × σ)
    (env : kernel_env σ) (topo : pci_topology) (s : sriov_state σ) (vf_num : Nat)
    (htype : s.phb.type = pnv_phb_type.PNV_PHB_IODA2) (hvf : 1 ≤ vf_num) :
    ((sriov_reserve s.phb.pe_alloc s.phb.total_pe vf_num = none ↔
      ∀ k, k < s.phb.total_pe → s.phb.pe_alloc k = true) ∧
     (sriov_reserve s.phb.pe_alloc s.phb.total_pe vf_num = none →
      pnv_pci_sriov_enable step env topo s vf_num =
        some (- EBUSY, { s with pf := { s.pf with offset := 0 } }))) ∧
    (∀ base n, sriov_reserve s.phb.pe_alloc s.phb.total_pe vf_num = some (base, n) →
      1 ≤ n ∧ n ≤ vf_num ∧ base + n ≤ s.phb.total_pe ∧ free_run s.phb.pe_alloc base n ∧
      (∀ b, b < base → ¬ free_run s.phb.pe_alloc b n) ∧
      (∀ n2, n < n2 → n2 ≤ vf_num → ∀ b, b + n2 ≤ s.phb.total_pe →
        ¬ free_run s.phb.pe_alloc b n2)) ∧
    (∀ rc s1, pnv_pci_sriov_enable step env topo s vf_num = some (rc, s1) →
      (rc = 0 ∨ rc = - EBUSY) ∧
      (rc ≠ 0 → s1.phb = s.phb ∧ s1.pf.offset = 0) ∧
      (rc = 0 → ∃ base n,
        sriov_reserve s.phb.pe_alloc s.phb.total_pe vf_num = some (base, n) ∧
        s1.pf.offset = base ∧ s1.pf.vf_pes = n ∧
        (∀ k, ¬ (base ≤ k ∧ k < base + n) → s1.phb.pe_alloc k = s.phb.pe_alloc k) ∧
        ((∀ st pe_number rid bcomp dcomp fcomp,
            (step st (opal_call.opal_pci_set_pe pe_number rid bcomp dcomp fcomp
              OpalPeAction.OPAL_MAP_PE)).1 = 0) →
          s1.phb.pe_alloc = bitmap_set s.phb.pe_alloc base n))) ∧
    (∀ base n, sriov_reserve s.phb.pe_alloc s.phb.total_pe vf_num = some (base, n) →
      ((pnv_pci_vf_assign_m64 step env.dz
          { s.phb with pe_alloc := bitmap_set s.phb.pe_alloc base n }
          { s.pf with offset := base, vf_pes := n } s.fw n).1 ≠ 0 →
        ∃ s1, pnv_pci_sriov_enable step env topo s vf_num = some (- EBUSY, s1) ∧
          s1.phb = s.phb ∧ s1.pf.offset = 0) ∧
      ((pnv_pci_vf_assign_m64 step env.dz
          { s.phb with pe_alloc := bitmap_set s.phb.pe_alloc base n }
          { s.pf with offset := base, vf_pes := n } s.fw n).1 = 0 →
        ∀ rows, ancestor_rows topo topo.ndevs (some s.pf.pdev) = some rows →
        ∃ s1, pnv_pci_sriov_enable step env topo s vf_num = some (0, s1) ∧
          s1.pf.offset = base ∧ s1.pf.vf_pes = n ∧
          (∀ k, ¬ (base ≤ k ∧ k < base + n) → s1.phb.pe_alloc k = s.phb.pe_alloc k) ∧
          ((∀ st pe_number rid bcomp dcomp fcomp,
              (step st (opal_call.opal_pci_set_pe pe_number rid bcomp dcomp fcomp
                OpalPeAction.OPAL_MAP_PE)).1 = 0) →
            s1.phb.pe_alloc = bitmap_set s.phb.pe_alloc base n))) := by
  have hre : sriov_reserve s.phb.pe_alloc s.phb.total_pe vf_num =
      sriov_try_again s.phb.pe_alloc s.phb.total_pe vf_num := by
    unfold sriov_reserve
    rw [if_neg (by omega)]
  have hzero : ∀ s1, pnv_pci_sriov_enable step env topo s vf_num = some (0, s1) →
      ∃ base n,
        sriov_reserve s.phb.pe_alloc s.phb.total_pe vf_num = some (base, n) ∧
        s1.pf.offset = base ∧ s1.pf.vf_pes = n ∧
        (∀ k, ¬ (base ≤ k ∧ k < base + n) → s1.phb.pe_alloc k = s.phb.pe_alloc k) ∧
        ((∀ st pe_number rid bcomp dcomp fcomp,
            (step st (opal_call.opal_pci_set_pe pe_number rid bcomp dcomp fcomp
              OpalPeAction.OPAL_MAP_PE)).1 = 0) →
          s1.phb.pe_alloc = bitmap_set s.phb.pe_alloc base n) := by
    intro s1 h
    obtain ⟨base, n, m, w, r, v, fwA, hres, _, hpf, hset⟩ :=
      sriov_enable_ok step env topo s s1 vf_num htype h
    have hoff : s1.pf.offset = base := by rw [hpf]
    have hvp : s1.pf.vf_pes = n := by rw [hpf]
    refine ⟨base, n, hres, hoff, hvp, ?_, ?_⟩
    · intro k hk
      have := setup_vf_PE_alloc_frame step env topo s1.pf _ fwA n (s1.phb, s1.fw) hset k
        (by rw [hoff]; exact hk)
      rw [this]
      show bitmap_set s.phb.pe_alloc base n k = s.phb.pe_alloc k
      simp only [bitmap_set, set_bits_apply]
      rw [if_neg hk]
    · intro hok
      have := setup_vf_PE_alloc step env topo s1.pf _ fwA n (s1.phb, s1.fw) hok hset
      exact this
  refine ⟨⟨?_, ?_⟩, ?_, ?_, ?_⟩
  · rw [hre]
    exact sriov_try_again_none_iff _ _ _ hvf
  · intro hnone
    unfold pnv_pci_sriov_enable
    rw [if_pos htype, hnone]
  · intro base n h
    rw [hre] at h
    exact sriov_try_again_some _ _ _ base n h
  · intro rc s1 h
    have hrc := sriov_enable_rc step env topo s s1 vf_num rc htype h
    refine ⟨?_, ?_, ?_⟩
    · rcases hrc with h0 | h1
      · exact Or.inl h0
      · exact Or.inr h1.1
    · intro hne
      rcases hrc with h0 | h1
      · exact absurd h0 hne
      · exact h1.2
    · intro h0
      subst h0
      exact hzero s1 h
  · intro base n hres
    refine ⟨?_, ?_⟩
    · intro hfail
      obtain ⟨w, fw2, hen, _⟩ :=
        sriov_enable_m64_failed step env topo s vf_num base n htype hres hfail
      exact ⟨_, hen, rfl, rfl⟩
    · intro hm64 rows hrows
      obtain ⟨s1, hen⟩ :=
        sriov_enable_returns step env topo s vf_num base n rows htype hres hm64 hrows
      obtain ⟨base1, n1, hres1, h1, h2, h3, h4⟩ := hzero s1 hen
      rw [hres, Option.some.injEq, Prod.mk.injEq] at hres1
      obtain ⟨hb, hn⟩ := hres1
      subst hb
      subst hn
      exact ⟨s1, hen, h1, h2, h3, h4⟩

set_option maxRecDepth 100000 in
/-- C15 (amended) on the fragmented example: 4 VFs are asked for, no run of 4 or 3 free
slots exists, the reservation finds the run of 2 slots at base 5, the M64 assignment
succeeds, and `pnv_pci_sriov_enable` returns 0 with the offset 5, `vf_pes = 2` and exactly
the bits of the slots 5 and 6 set in addition. -/
theorem C15_contiguous_reservation_witness :
    (1 ≤ 2 ∧ 2 ≤ 4 ∧ 5 + 2 ≤ sriov_fragmented_example.phb.total_pe ∧
      free_run sriov_fragmented_example.phb.pe_alloc 5 2 ∧
      (∀ b, b < 5 → ¬ free_run sriov_fragmented_example.phb.pe_alloc b 2) ∧
      (∀ n2, 2 < n2 → n2 ≤ 4 → ∀ b, b + n2 ≤ sriov_fragmented_example.phb.total_pe →
        ¬ free_run sriov_fragmented_example.phb.pe_alloc b n2)) ∧
    ∃ s1, pnv_pci_sriov_enable fw_all_ok ddw_env_example two_segment_configured.1
        sriov_fragmented_example 4 = some (0, s1) ∧
      s1.pf.offset = 5 ∧ s1.pf.vf_pes = 2 ∧
      s1.phb.pe_alloc = bitmap_set sriov_fragmented_example.phb.pe_alloc 5 2 :=
  match C15_contiguous_reservation fw_all_ok ddw_env_example two_segment_configured.1
      sriov_fragmented_example 4 (by decide) (by decide) with
  | ⟨_, h2, _, h4⟩ =>
    ⟨h2 5 2 (by decide),
      match (h4 5 2 (by decide)).2 (by decide) [1] (by decide) with
      | ⟨s1, e1, e2, e3, _, e5⟩ => ⟨s1, e1, e2, e3, e5 (fun _ _ _ _ _ _ => rfl)⟩⟩

/-! ## The choice of the PE number -/

theorem pick_m64_segments_congr {t topo : pci_topology} {ph phb : pnv_phb}
    (hs : same_shape t topo) (hb : ph.m64_base = phb.m64_base)
    (hz : ph.m64_segsize = phb.m64_segsize) (bus : Nat) (r : resource) (all : Bool) :
    pick_m64_segments t ph bus r all = pick_m64_segments topo phb bus r all := by
  have hsub : ∀ d, (t.devs d).subordinate = (topo.devs d).subordinate :=
    fun d => (hs.2.2 d).2.1
  unfold pick_m64_segments pick_m64_subtract_children pick_m64_subtract_bus
    m64_segment_start m64_segment_count
  simp only [hs.1, hb, hz, hsub]

/-- The pinned numbers of a call depend on the shape of the tree and on the M64 geometry of
the bridge only. -/
theorem m64_pinned_congr {t topo : pci_topology} {ph phb : pnv_phb} (kzalloc_ok : Bool)
    (hs : same_shape t topo) (ht : ph.total_pe = phb.total_pe)
    (hp : ph.pick_m64_pe = phb.pick_m64_pe) (hb : ph.m64_base = phb.m64_base)
    (hz : ph.m64_segsize = phb.m64_segsize) (c : Nat × Bool) :
    m64_pinned kzalloc_ok t ph c = m64_pinned kzalloc_ok topo phb c := by
  unfold m64_pinned
  simp only [hs.1, ht, hp, pick_m64_segments_congr hs hb hz]

/-- A call with pinned numbers `m :: rest` gets the number `m` from the M64 hook, which
makes slot `m` the master and the slots of `rest` its slaves and leaves every other slot
and the slot bitmap alone. -/
theorem setup_bus_PE_choose_pinned (kzalloc_ok : Bool) (topo : pci_topology) (phb : pnv_phb)
    (c : Nat × Bool) (m : Nat) (rest : List Nat)
    (hpin : m64_pinned kzalloc_ok topo phb c = m :: rest) (hseg : phb.m64_segsize ≠ 0) :
    m < phb.total_pe ∧
    ∃ arr : Nat → pnv_ioda_pe,
      setup_bus_PE_choose kzalloc_ok topo phb c.1 c.2 =
        some ((m : Int), { phb with pe_array := arr }) ∧
      arr m = pick_m64_master_slot (phb.pe_array m) m rest ∧
      (∀ s, s ∈ rest → arr s = pick_m64_slave_slot (phb.pe_array s) s m) ∧
      (∀ k, k ≠ m → k ∉ rest → arr k = phb.pe_array k) := by
  unfold m64_pinned at hpin
  by_cases hc : (phb.pick_m64_pe && !pci_is_root_bus (topo.buses c.1) && kzalloc_ok) = true
  · rw [if_pos hc] at hpin
    simp only [Bool.and_eq_true, Bool.not_eq_true'] at hc
    obtain ⟨⟨hhook, hroot⟩, hkz⟩ := hc
    subst hkz
    cases hwin : pick_m64_window (topo.buses c.1).resources with
    | none => rw [hwin] at hpin; exact absurd hpin (by simp)
    | some r =>
      rw [hwin] at hpin
      dsimp only at hpin
      have hm : m < phb.total_pe := by
        have : m ∈ m :: rest := List.mem_cons_self _ _
        rw [← hpin, List.mem_filter, List.mem_range] at this
        exact this.1
      refine ⟨hm, ?_⟩
      obtain ⟨h1, arr, h2, h3, h4, h5⟩ := (pick_m64_assign_none
        (pick_m64_segments topo phb c.1 r c.2) (List.range phb.total_pe) phb
        (List.nodup_range _)).2 m rest hpin
      refine ⟨arr, ?_, h3, h4, h5⟩
      unfold setup_bus_PE_choose
      dsimp only
      rw [if_pos hhook, pick_m64_pe_eq topo phb c.1 c.2 r hroot hwin hseg]
      have hne : ¬ ((!c.2 && bitmap_empty (pick_m64_segments topo phb c.1 r c.2)
          phb.total_pe) = true) := by
        intro h
        rw [Bool.and_eq_true, bitmap_empty_iff, hpin] at h
        exact absurd h.2 (by simp)
      rw [if_neg hne]
      simp only [h1]
      rw [h2]
      simp only [h3, pick_m64_master_slot]
      rw [if_neg (by simp only [IODA_INVALID_PE]; omega)]
  · rw [if_neg hc] at hpin
    exact absurd hpin (by simp)

/-- A call without pinned number gets its number from the allocator, provided the M64 hook
has a result: where it goes past its early returns the segment size is not zero and the
call is not one for a bus with all its subordinate buses. -/
theorem setup_bus_PE_choose_unpinned (kzalloc_ok : Bool) (topo : pci_topology)
    (phb : pnv_phb) (c : Nat × Bool)
    (hpin : m64_pinned kzalloc_ok topo phb c = [])
    (hdef : phb.pick_m64_pe = true → pci_is_root_bus (topo.buses c.1) = false →
      (pick_m64_window (topo.buses c.1).resources).isSome = true → kzalloc_ok = true →
      phb.m64_segsize ≠ 0 ∧ (c.2 = true → m64_pinned kzalloc_ok topo phb c ≠ [])) :
    setup_bus_PE_choose kzalloc_ok topo phb c.1 c.2 = some (pnv_ioda_alloc_pe phb) := by
  by_cases hhook : phb.pick_m64_pe = true
  · by_cases hroot : pci_is_root_bus (topo.buses c.1) = true
    · exact setup_bus_PE_choose_alloc kzalloc_ok topo phb c.1 c.2 (fun _ => Or.inl hroot)
    · cases hwin : pick_m64_window (topo.buses c.1).resources with
      | none => exact setup_bus_PE_choose_alloc kzalloc_ok topo phb c.1 c.2 (fun _ => Or.inr hwin)
      | some r =>
        simp only [Bool.not_eq_true] at hroot
        cases kzalloc_ok with
        | false =>
          unfold setup_bus_PE_choose pnv_ioda2_pick_m64_pe
          dsimp only
          rw [if_pos hhook, if_neg (by simp [hroot]), hwin]
          simp
        | true =>
          obtain ⟨hseg, hall⟩ := hdef hhook hroot (by rw [hwin]; rfl) rfl
          have hall0 : c.2 = false := by
            cases h : c.2 with
            | false => rfl
            | true => exact absurd hpin (hall h)
          unfold m64_pinned at hpin
          rw [if_pos (by simp [hhook, hroot]), hwin] at hpin
          dsimp only at hpin
          unfold setup_bus_PE_choose
          dsimp only
          rw [if_pos hhook, pick_m64_pe_eq topo phb c.1 c.2 r hroot hwin hseg]
          rw [if_pos (by rw [Bool.and_eq_true, bitmap_empty_iff]; exact ⟨by simp [hall0], hpin⟩)]
          simp
  · exact setup_bus_PE_choose_alloc kzalloc_ok topo phb c.1 c.2 (fun h => absurd h hhook)

/-- A successful `pnv_ioda_setup_bus_PE` leaves the M64 geometry of the bridge alone. -/
theorem setup_bus_PE_m64_frame {σ : Type} (step : σ → opal_call → Int × σ)
    (kzalloc_ok : Bool) (topo : pci_topology) (phb : pnv_phb) (fw : opal_fw σ) (bus : Nat)
    (all : Bool) (a : Int × pnv_phb) (r : Int × pnv_phb × opal_fw σ) (l : List Nat)
    (s1 : pci_topology × pnv_phb × opal_fw σ)
    (hchoose : setup_bus_PE_choose kzalloc_ok topo phb bus all = some a)
    (hvalid : a.1 ≠ IODA_INVALID_PE)
    (hcfg : pnv_ioda_configure_pe step topo (setup_bus_PE_slot topo a.2 a.1.toNat bus all) fw
      a.1.toNat = some r)
    (hrc : r.1 = 0)
    (hdevs : same_PE_devices topo
      (if all then true else (a.2.pe_array a.1.toNat).flags.bus_all) (topo.ndevs + 1) bus =
        some l)
    (h : pnv_ioda_setup_bus_PE step kzalloc_ok topo phb fw bus all = some s1) :
    s1.2.1.m64_base = phb.m64_base ∧ s1.2.1.m64_segsize = phb.m64_segsize := by
  obtain ⟨al, arr, ha⟩ := setup_bus_PE_choose_frame kzalloc_ok topo phb bus all a hchoose
  have hrc0 : ¬ (r.1 ≠ 0) := fun h => h hrc
  obtain ⟨x, rm, hphb⟩ : ∃ (x : Int) (rm : Nat → Nat),
      r.2.1 = set_pe { setup_bus_PE_slot topo a.2 a.1.toNat bus all with pe_rmap := rm }
        a.1.toNat
        { (setup_bus_PE_slot topo a.2 a.1.toNat bus all).pe_array a.1.toNat with
          mve_number := x } := by
    rcases configure_pe_result step topo _ fw _ r hcfg with ⟨h, _⟩ | ⟨_, x, rm, h⟩
    · exact absurd hrc h
    · exact ⟨x, rm, h⟩
  have hflag : (r.2.1.pe_array a.1.toNat).flags.bus_all =
      (if all then true else (a.2.pe_array a.1.toNat).flags.bus_all) := by
    rw [hphb]
    cases all <;> simp [setup_bus_PE_slot]
  have hnum : (r.2.1.pe_array a.1.toNat).pe_number = (a.2.pe_array a.1.toNat).pe_number := by
    rw [hphb]
    simp [setup_bus_PE_slot]
  have hw0 : (r.2.1.pe_array a.1.toNat).dma_weight = 0 := by
    rw [hphb]
    simp [setup_bus_PE_slot]
  have hsame := setup_same_PE_eq topo r.2.1 a.1.toNat (topo.ndevs + 1) bus topo 0
    (same_shape_refl topo)
  rw [← hw0, with_dma_weight_self, hflag, hdevs, hnum, hw0] at hsame
  simp only [Option.map_some'] at hsame
  rw [setup_bus_PE_eq, hchoose] at h
  dsimp only at h
  rw [if_neg hvalid, hcfg] at h
  dsimp only at h
  rw [if_neg hrc0] at h
  unfold setup_bus_PE_finish at h
  rw [hsame] at h
  dsimp only at h
  rw [Option.some.injEq] at h
  rw [← h]
  dsimp only
  constructor
  · rw [hphb, ha]
    split_ifs <;> rfl
  · rw [hphb, ha]
    split_ifs <;> rfl

/-! ## The walk under its invariant -/

theorem m64_pinned_ne_nil (kzalloc_ok : Bool) (topo : pci_topology) (phb : pnv_phb)
    (c : Nat × Bool) (h : m64_pinned kzalloc_ok topo phb c ≠ []) :
    phb.pick_m64_pe = true ∧ pci_is_root_bus (topo.buses c.1) = false ∧
      (pick_m64_window (topo.buses c.1).resources).isSome = true ∧ kzalloc_ok = true := by
  unfold m64_pinned at h
  by_cases hc : (phb.pick_m64_pe && !pci_is_root_bus (topo.buses c.1) && kzalloc_ok) = true
  · rw [if_pos hc] at h
    simp only [Bool.and_eq_true, Bool.not_eq_true'] at hc
    refine ⟨hc.1.1, hc.1.2, ?_, hc.2⟩
    cases hw : pick_m64_window (topo.buses c.1).resources with
    | none => rw [hw] at h; exact absurd rfl h
    | some r => rfl
  · rw [if_neg hc] at h
    exact absurd rfl h

theorem free_pe_list_congr (p1 p2 : pnv_phb) (h1 : p1.total_pe = p2.total_pe)
    (h2 : p1.pe_alloc = p2.pe_alloc) : free_pe_list p1 = free_pe_list p2 := by
  unfold free_pe_list
  rw [h1, h2]

/-- The allocator takes the head of the list of free slots and leaves its tail. -/
theorem alloc_pe_of_free_pe_list (phb : pnv_phb) (n : Nat) (tl : List Nat)
    (h : free_pe_list phb = n :: tl) :
    n < phb.total_pe ∧ phb.pe_alloc n = false ∧
    pnv_ioda_alloc_pe phb =
      ((n : Int),
        { phb with
          pe_alloc := set_bit n phb.pe_alloc
          pe_array := array_set phb.pe_array n
            { phb.pe_array n with phb := true, pe_number := n } }) ∧
    (List.range phb.total_pe).filter (fun k => !set_bit n phb.pe_alloc k) = tl := by
  unfold free_pe_list at h
  have hsorted : List.Pairwise (· < ·) (n :: tl) := by
    rw [← h]
    exact (List.pairwise_lt_range phb.total_pe).filter _
  have hmem : n ∈ (List.range phb.total_pe).filter (fun k => !phb.pe_alloc k) := by
    rw [h]
    exact List.mem_cons_self _ _
  rw [List.mem_filter, List.mem_range] at hmem
  have hfn : phb.pe_alloc n = false := by simpa using hmem.2
  rw [List.pairwise_cons] at hsorted
  have hlow : ∀ m, m < n → phb.pe_alloc m = true := by
    intro m hm
    cases hb : phb.pe_alloc m with
    | true => rfl
    | false =>
      have : m ∈ (List.range phb.total_pe).filter (fun k => !phb.pe_alloc k) := by
        rw [List.mem_filter, List.mem_range]
        exact ⟨by omega, by simp [hb]⟩
      rw [h, List.mem_cons] at this
      rcases this with h1 | h1
      · omega
      · have := hsorted.1 m h1
        omega
  refine ⟨hmem.1, hfn, pnv_ioda_alloc_pe_of_lowest phb n hmem.1 hfn hlow, ?_⟩
  have e : (List.range phb.total_pe).filter (fun k => !set_bit n phb.pe_alloc k) =
      ((List.range phb.total_pe).filter (fun k => !phb.pe_alloc k)).filter
        (fun k => decide (k ≠ n)) := by
    rw [List.filter_filter]
    apply List.filter_congr
    intro k _
    by_cases hk : k = n <;> simp [set_bit, hk]
  rw [e, h, List.filter_cons]
  simp only [ne_eq, not_true_eq_false, decide_False, Bool.false_eq_true, if_false]
  rw [List.filter_eq_self]
  intro k hk
  have := hsorted.1 k hk
  simp only [decide_eq_true_eq]
  omega

/-- One call of the walk, once its PE number `n` has been chosen: from a state that
satisfies the invariant, with the slot `n` not yet used by the walk, holding its own number
and no stale "bus and subordinates" flag after the choice, with the other slots as they
were in what the invariant speaks of, a bus whose ancestor chain ends, and a firmware that
accepts the mapping call, `pnv_ioda_setup_bus_PE` returns, the invariant holds with the
call and its PE added, and the slot bitmap is as the choice has left it. -/
theorem walk_inv_extend {σ : Type} (step : σ → opal_call → Int × σ) (kzalloc_ok : Bool)
    (topo : pci_topology) (phb : pnv_phb) (done : List ((Nat × Bool) × Nat))
    (s : pci_topology × pnv_phb × opal_fw σ) (c : Nat × Bool) (n : Nat) (ph1 : pnv_phb)
    (hok : ∀ st pe_number rid bcomp dcomp fcomp,
      (step st (opal_call.opal_pci_set_pe pe_number rid bcomp dcomp fcomp
        OpalPeAction.OPAL_MAP_PE)).1 = 0)
    (hp : pdn_hereditary topo)
    (hinv : walk_inv topo phb done (s.1, s.2.1))
    (hchoose : setup_bus_PE_choose kzalloc_ok s.1 s.2.1 c.1 c.2 = some ((n : Int), ph1))
    (hn : n < phb.total_pe)
    (hnum : (ph1.pe_array n).pe_number = n)
    (hfl : (ph1.pe_array n).flags.bus_all = false)
    (hoth : ∀ k, k ≠ n → (ph1.pe_array k).pbus = (s.2.1.pe_array k).pbus ∧
      ((s.2.1.pe_array k).pe_number = k → (ph1.pe_array k).pe_number = k) ∧
      (ph1.pe_array k).flags.bus_all = (s.2.1.pe_array k).flags.bus_all)
    (hnew : n ∉ done.map Prod.snd)
    (hanc : (ancestor_rows topo topo.ndevs (topo.buses c.1).self).isSome = true)
    (hbelow : c.2 = true → (bus_devices_below topo (topo.ndevs + 1) c.1).isSome = true) :
    ∃ s1 : pci_topology × pnv_phb × opal_fw σ,
      pnv_ioda_setup_bus_PE step kzalloc_ok s.1 s.2.1 s.2.2 c.1 c.2 = some s1 ∧
      walk_inv topo phb (done ++ [(c, n)]) (s1.1, s1.2.1) ∧
      free_pe_list s1.2.1 = free_pe_list ph1 := by
  obtain ⟨t, ph, f⟩ := s
  obtain ⟨i1, ⟨i2, i3, i3b, i3z⟩, i4, i6, i7⟩ := hinv
  dsimp only at i1 i2 i3 i3b i3z i4 i6 i7 hchoose hoth ⊢
  have hs : same_shape t topo := by
    rw [i1]
    exact same_shape_foldl_assignments _ topo
  obtain ⟨al, arr, hfr⟩ := setup_bus_PE_choose_frame kzalloc_ok t ph c.1 c.2 _ hchoose
  dsimp only at hfr
  have hvalid : ((n : Int), ph1).1 ≠ IODA_INVALID_PE := by
    simp only [IODA_INVALID_PE]
    omega
  have htoNat : ((n : Int)).toNat = n := Int.toNat_ofNat n
  -- configure
  have hanc1 : (ancestor_rows t t.ndevs (t.buses c.1).self).isSome = true := by
    rw [ancestor_rows_isSome_congr hs, hs.1, hs.2.1]
    exact hanc
  obtain ⟨phb1, fw1, hcfg⟩ := configure_pe_bus_ok step t
    (setup_bus_PE_slot t ph1 n c.1 c.2) f n c.1 hok (by simp [setup_bus_PE_slot]) hanc1
  -- the devices
  have hdevs : same_PE_devices t
      (if c.2 = true then true else (ph1.pe_array n).flags.bus_all) (t.ndevs + 1) c.1 =
      some ((call_devices topo c).filter (fun d => (topo.devs d).pdn.isSome)) := by
    have e : (if c.2 = true then true else (ph1.pe_array n).flags.bus_all) = c.2 := by
      cases c.2 <;> simp [hfl]
    rw [e, same_PE_devices_congr hs, hs.2.1]
    exact same_PE_devices_call topo hp c hbelow
  obtain ⟨final, h1, ⟨x, h2⟩, h3, h4, h5, _, _, h8, h9, _⟩ :=
    setup_bus_PE_ok step kzalloc_ok t ph f c.1 c.2 _ (0, phb1, fw1) _ hchoose hvalid
      (by rw [htoNat]; exact hcfg) rfl (by rw [htoNat]; exact hdevs)
  obtain ⟨hm1, hm2⟩ := setup_bus_PE_m64_frame step kzalloc_ok t ph f c.1 c.2 _ (0, phb1, fw1) _
    _ hchoose hvalid (by rw [htoNat]; exact hcfg) rfl (by rw [htoNat]; exact hdevs) h1
  rw [htoNat] at h1 h2 h3 h5
  dsimp only at h1 h2 h3 h4 h5 h8 h9 hm1 hm2
  rw [hnum] at h1
  refine ⟨_, h1, ?_, ?_⟩
  · have hne : ∀ cp, cp ∈ done → cp.2 ≠ n := by
      intro cp hcp he
      apply hnew
      rw [← he]
      exact List.mem_map_of_mem Prod.snd hcp
    refine ⟨?_, ⟨?_, ?_, ?_, ?_⟩, ?_, ?_, ?_⟩
    · dsimp only
      rw [pe_assignments_append, List.foldl_append, ← i1, List.foldl_map]
    · dsimp only
      rw [h8, i2]
    · dsimp only
      rw [h9, i3]
    · dsimp only
      rw [hm1, i3b]
    · dsimp only
      rw [hm2, i3z]
    · dsimp only
      rw [h5, i4]
      simp
    · intro cp hcp
      rw [List.mem_append, List.mem_singleton] at hcp
      dsimp only
      rcases hcp with hcp | hcp
      · have hk := hne cp hcp
        obtain ⟨j1, j2, j3, j5⟩ := i6 cp hcp
        obtain ⟨o1, o2, o3⟩ := hoth cp.2 hk
        rw [h3 cp.2 hk]
        exact ⟨by rw [o1]; exact j1, o2 j2, by rw [o3]; exact j3, j5⟩
      · subst hcp
        dsimp only
        rw [h2]
        refine ⟨by simp [setup_bus_PE_slot], by simp [setup_bus_PE_slot, hnum], ?_, hn⟩
        cases hc2 : c.2 <;> simp [setup_bus_PE_slot, hfl, hc2]
    · intro k hk
      dsimp only at hk ⊢
      rw [List.map_append, List.mem_append, not_or] at hk
      have hkn : k ≠ n := by
        intro he
        apply hk.2
        simp [he]
      rw [h3 k hkn, (hoth k hkn).2.2]
      exact i7 k hk.1
  · dsimp only
    exact free_pe_list_congr final ph1 (by rw [h8, hfr]) h4

/-- One call of the walk: from a state that satisfies the invariant, for a call that gets
the PE number `p` (pinned by the M64 hook, or else the lowest free slot), not used by the
walk so far and without stale "bus and subordinates" flag, for a bus whose ancestor chain
ends, with a firmware that accepts the mapping call and an M64 hook that has a result,
`pnv_ioda_setup_bus_PE` returns, the invariant holds with the call and its PE added, and
the free slots are those that the choice has left. -/
theorem walk_inv_step {σ : Type} (step : σ → opal_call → Int × σ) (kzalloc_ok : Bool)
    (topo : pci_topology) (phb : pnv_phb) (done : List ((Nat × Bool) × Nat))
    (s : pci_topology × pnv_phb × opal_fw σ) (c : Nat × Bool) (p : Nat) (free1 : List Nat)
    (hok : ∀ st pe_number rid bcomp dcomp fcomp,
      (step st (opal_call.opal_pci_set_pe pe_number rid bcomp dcomp fcomp
        OpalPeAction.OPAL_MAP_PE)).1 = 0)
    (hp : pdn_hereditary topo)
    (hinv : walk_inv topo phb done (s.1, s.2.1))
    (hch : walk_pe_choice kzalloc_ok topo phb c (free_pe_list s.2.1) = some (p, free1))
    (hnew : p ∉ done.map Prod.snd)
    (hflag : (phb.pe_array p).flags.bus_all = false)
    (hdef : phb.pick_m64_pe = true → pci_is_root_bus (topo.buses c.1) = false →
      (pick_m64_window (topo.buses c.1).resources).isSome = true → kzalloc_ok = true →
      phb.m64_segsize ≠ 0 ∧ (c.2 = true → m64_pinned kzalloc_ok topo phb c ≠ []))
    (hanc : (ancestor_rows topo topo.ndevs (topo.buses c.1).self).isSome = true)
    (hbelow : c.2 = true → (bus_devices_below topo (topo.ndevs + 1) c.1).isSome = true) :
    ∃ s1 : pci_topology × pnv_phb × opal_fw σ,
      pnv_ioda_setup_bus_PE step kzalloc_ok s.1 s.2.1 s.2.2 c.1 c.2 = some s1 ∧
      walk_inv topo phb (done ++ [(c, p)]) (s1.1, s1.2.1) ∧
      free_pe_list s1.2.1 = free1 := by
  have hinv0 := hinv
  obtain ⟨i1, ⟨i2, i3, i3b, i3z⟩, i4, i6, i7⟩ := hinv
  dsimp only at i1 i2 i3 i3b i3z i4 i6 i7
  have hs : same_shape s.1 topo := by
    rw [i1]
    exact same_shape_foldl_assignments _ topo
  have hcongr := m64_pinned_congr kzalloc_ok hs i2 i3 i3b i3z c
  unfold walk_pe_choice at hch
  cases hpin : m64_pinned kzalloc_ok topo phb c with
  | nil =>
    -- the allocator
    rw [hpin] at hch
    simp only [List.head?_nil] at hch
    cases hfree : free_pe_list s.2.1 with
    | nil => rw [hfree] at hch; exact absurd hch (by simp)
    | cons n tl =>
      rw [hfree] at hch
      simp only [Option.some.injEq, Prod.mk.injEq] at hch
      obtain ⟨hnp, htl⟩ := hch
      subst hnp
      subst htl
      have hchoose := setup_bus_PE_choose_unpinned kzalloc_ok s.1 s.2.1 c
        (by rw [hcongr, hpin]) (by rw [i3, hs.1, i3z, hcongr]; exact hdef)
      obtain ⟨hn, hfn, halloc, hrest⟩ := alloc_pe_of_free_pe_list s.2.1 n tl hfree
      rw [halloc] at hchoose
      generalize hph1 : ({ s.2.1 with
          pe_alloc := set_bit n s.2.1.pe_alloc
          pe_array := array_set s.2.1.pe_array n
            { s.2.1.pe_array n with phb := true, pe_number := n } } : pnv_phb) = ph1
        at hchoose
      have q1 : ph1.pe_alloc = set_bit n s.2.1.pe_alloc := by rw [← hph1]
      have q2 : ph1.pe_array = array_set s.2.1.pe_array n
          { s.2.1.pe_array n with phb := true, pe_number := n } := by rw [← hph1]
      have q3 : ph1.total_pe = s.2.1.total_pe := by rw [← hph1]
      obtain ⟨s1, h1, h2, h3⟩ := walk_inv_extend step kzalloc_ok topo phb done s c n ph1 hok
        hp hinv0 hchoose (by rw [← i2]; exact hn) (by rw [q2]; simp [array_set])
        (by
          have := i7 n hnew
          rw [q2]
          simp only [array_set, if_true]
          rw [this]
          exact hflag)
        (by
          intro k hk
          rw [q2]
          simp [array_set, hk])
        hnew hanc hbelow
      refine ⟨s1, h1, h2, ?_⟩
      rw [h3]
      unfold free_pe_list
      rw [q3, q1]
      exact hrest
  | cons m rest =>
    -- the number pinned by the M64 window
    rw [hpin] at hch
    simp only [List.head?_cons, Option.some.injEq, Prod.mk.injEq] at hch
    obtain ⟨hmp, hfr⟩ := hch
    subst hmp
    obtain ⟨e1, e2, e3, e4⟩ := m64_pinned_ne_nil kzalloc_ok topo phb c (by rw [hpin]; simp)
    have hseg : s.2.1.m64_segsize ≠ 0 := by
      rw [i3z]
      exact (hdef e1 e2 e3 e4).1
    obtain ⟨hm, arr, hchoose, a1, a2, a3⟩ :=
      setup_bus_PE_choose_pinned kzalloc_ok s.1 s.2.1 c m rest (by rw [hcongr, hpin]) hseg
    generalize hph1 : ({ s.2.1 with pe_array := arr } : pnv_phb) = ph1 at hchoose
    have q1 : ph1.pe_alloc = s.2.1.pe_alloc := by rw [← hph1]
    have q2 : ph1.pe_array = arr := by rw [← hph1]
    have q3 : ph1.total_pe = s.2.1.total_pe := by rw [← hph1]
    obtain ⟨s1, h1, h2, h3⟩ := walk_inv_extend step kzalloc_ok topo phb done s c m ph1 hok hp
      hinv0 hchoose (by rw [← i2]; exact hm) (by rw [q2, a1]; rfl)
      (by
        rw [q2, a1]
        have := i7 m hnew
        simp only [pick_m64_master_slot]
        rw [this]
        exact hflag)
      (by
        intro k hk
        rw [q2]
        by_cases hkr : k ∈ rest
        · rw [a2 k hkr]
          simp [pick_m64_slave_slot]
        · rw [a3 k hk hkr]
          simp)
      hnew hanc hbelow
    refine ⟨s1, h1, h2, ?_⟩
    rw [h3, ← hfr]
    exact free_pe_list_congr ph1 s.2.1 q3 q1

theorem walk_pe_numbers_cons (kzalloc_ok : Bool) (topo : pci_topology) (phb : pnv_phb)
    (c : Nat × Bool) (rest : List (Nat × Bool)) (free : List Nat) (r : Nat × List Nat)
    (h : walk_pe_choice kzalloc_ok topo phb c free = some r) :
    walk_pe_numbers kzalloc_ok topo phb (c :: rest) free =
      r.1 :: walk_pe_numbers kzalloc_ok topo phb rest r.2 := by
  simp only [walk_pe_numbers, h]

/-- With a free slot for every call without pinned number every call gets a PE number. -/
theorem walk_pe_numbers_length (kzalloc_ok : Bool) (topo : pci_topology) (phb : pnv_phb) :
    ∀ (calls : List (Nat × Bool)) (free : List Nat),
      (calls.filter (fun c => (m64_pinned kzalloc_ok topo phb c).isEmpty)).length ≤
        free.length →
      (walk_pe_numbers kzalloc_ok topo phb calls free).length = calls.length := by
  intro calls
  induction calls with
  | nil => intro free _; rfl
  | cons c rest ih =>
    intro free h
    rw [List.filter_cons] at h
    cases hpin : m64_pinned kzalloc_ok topo phb c with
    | nil =>
      rw [hpin] at h
      simp only [List.isEmpty_nil, if_true, List.length_cons] at h
      cases free with
      | nil => simp at h
      | cons n tl =>
        rw [walk_pe_numbers_cons kzalloc_ok topo phb c rest (n :: tl) (n, tl)
          (by simp [walk_pe_choice, hpin])]
        simp only [List.length_cons] at h ⊢
        rw [ih tl (by omega)]
    | cons m ms =>
      rw [hpin] at h
      simp only [List.isEmpty_cons, Bool.false_eq_true, if_false] at h
      rw [walk_pe_numbers_cons kzalloc_ok topo phb c rest free (m, free)
        (by simp [walk_pe_choice, hpin])]
      simp only [List.length_cons]
      rw [ih free h]

/-- The calls of the walk, run one after the other from a state that satisfies the
invariant: when every call gets a PE number, the numbers are pairwise distinct and not
used by the walk so far, and their slots have no stale "bus and subordinates" flag, all
calls return and the invariant holds with every call paired with its PE number. -/
theorem walk_inv_run {σ : Type} (step : σ → opal_call → Int × σ) (kzalloc_ok : Bool)
    (topo : pci_topology) (phb : pnv_phb)
    (hok : ∀ st pe_number rid bcomp dcomp fcomp,
      (step st (opal_call.opal_pci_set_pe pe_number rid bcomp dcomp fcomp
        OpalPeAction.OPAL_MAP_PE)).1 = 0)
    (hp : pdn_hereditary topo) :
    ∀ (rest : List (Nat × Bool)) (done : List ((Nat × Bool) × Nat))
      (s : pci_topology × pnv_phb × opal_fw σ),
      walk_inv topo phb done (s.1, s.2.1) →
      (walk_pe_numbers kzalloc_ok topo phb rest (free_pe_list s.2.1)).length = rest.length →
      (done.map Prod.snd ++
        walk_pe_numbers kzalloc_ok topo phb rest (free_pe_list s.2.1)).Nodup →
      (∀ p, p ∈ walk_pe_numbers kzalloc_ok topo phb rest (free_pe_list s.2.1) →
        (phb.pe_array p).flags.bus_all = false) →
      (∀ c, c ∈ rest →
        (phb.pick_m64_pe = true → pci_is_root_bus (topo.buses c.1) = false →
          (pick_m64_window (topo.buses c.1).resources).isSome = true → kzalloc_ok = true →
          phb.m64_segsize ≠ 0 ∧ (c.2 = true → m64_pinned kzalloc_ok topo phb c ≠ [])) ∧
        (ancestor_rows topo topo.ndevs (topo.buses c.1).self).isSome = true ∧
        (c.2 = true → (bus_devices_below topo (topo.ndevs + 1) c.1).isSome = true)) →
      ∃ s1 : pci_topology × pnv_phb × opal_fw σ,
        setup_bus_PEs step kzalloc_ok rest s = some s1 ∧
        walk_inv topo phb
          (done ++ rest.zip (walk_pe_numbers kzalloc_ok topo phb rest (free_pe_list s.2.1)))
          (s1.1, s1.2.1) := by
  intro rest
  induction rest with
  | nil =>
    intro done s hinv _ _ _ _
    refine ⟨s, rfl, ?_⟩
    simpa using hinv
  | cons c rest ih =>
    intro done s hinv hlen hnd hfl hall
    obtain ⟨h1, h3, h4⟩ := hall c (List.mem_cons_self c rest)
    cases hch : walk_pe_choice kzalloc_ok topo phb c (free_pe_list s.2.1) with
    | none =>
      simp [walk_pe_numbers, hch] at hlen
    | some r =>
      have hcons := walk_pe_numbers_cons kzalloc_ok topo phb c rest (free_pe_list s.2.1) r hch
      rw [hcons] at hlen hnd hfl ⊢
      have hnew : r.1 ∉ done.map Prod.snd := by
        intro hmem
        rw [List.nodup_append] at hnd
        exact hnd.2.2 hmem (List.mem_cons_self _ _)
      obtain ⟨s1, hs1, hinv1, hfree1⟩ :=
        walk_inv_step step kzalloc_ok topo phb done s c r.1 r.2 hok hp hinv hch hnew
          (hfl r.1 (List.mem_cons_self _ _)) h1 h3 h4
      obtain ⟨s2, hs2, hinv2⟩ := ih (done ++ [(c, r.1)]) s1 hinv1
        (by
          rw [hfree1]
          simp only [List.length_cons] at hlen
          omega)
        (by
          rw [hfree1]
          simpa [List.map_append, List.append_assoc] using hnd)
        (by
          rw [hfree1]
          intro p hp1
          exact hfl p (List.mem_cons_of_mem _ hp1))
        (fun c1 hc1 => hall c1 (List.mem_cons_of_mem c hc1))
      refine ⟨s2, ?_, ?_⟩
      · unfold setup_bus_PEs at hs2 ⊢
        rw [List.foldlM_cons]
        simp only [Option.bind_eq_bind, hs1, Option.some_bind]
        exact hs2
      · rw [List.zip_cons_cons]
        rw [hfree1, List.append_assoc] at hinv2
        exact hinv2

/-- Where the PE numbers of the calls come from: each is the first pinned number of its
call, or, for a call without pinned number, one of the free slots. -/
theorem walk_pe_numbers_origin (kzalloc_ok : Bool) (topo : pci_topology) (phb : pnv_phb) :
    ∀ (calls : List (Nat × Bool)) (free : List Nat) (c : Nat × Bool) (p : Nat),
      (c, p) ∈ calls.zip (walk_pe_numbers kzalloc_ok topo phb calls free) →
      (m64_pinned kzalloc_ok topo phb c).head? = some p ∨
        (m64_pinned kzalloc_ok topo phb c = [] ∧ p ∈ free) := by
  intro calls
  induction calls with
  | nil => intro free c p h; simp at h
  | cons c0 rest ih =>
    intro free c p h
    cases hch : walk_pe_choice kzalloc_ok topo phb c0 free with
    | none => simp [walk_pe_numbers, hch] at h
    | some r =>
      rw [walk_pe_numbers_cons kzalloc_ok topo phb c0 rest free r hch, List.zip_cons_cons,
        List.mem_cons] at h
      unfold walk_pe_choice at hch
      cases hpin : m64_pinned kzalloc_ok topo phb c0 with
      | nil =>
        rw [hpin] at hch
        simp only [List.head?_nil] at hch
        cases free with
        | nil => simp at hch
        | cons n tl =>
          simp only [Option.some.injEq] at hch
          subst hch
          rcases h with h | h
          · rw [Prod.mk.injEq] at h
            obtain ⟨hc, hp⟩ := h
            subst hc
            subst hp
            exact Or.inr ⟨hpin, List.mem_cons_self _ _⟩
          · rcases ih tl c p h with h1 | ⟨h1, h2⟩
            · exact Or.inl h1
            · exact Or.inr ⟨h1, List.mem_cons_of_mem _ h2⟩
      | cons m ms =>
        rw [hpin] at hch
        simp only [List.head?_cons, Option.some.injEq] at hch
        subst hch
        rcases h with h | h
        · rw [Prod.mk.injEq] at h
          obtain ⟨hc, hp⟩ := h
          subst hc
          subst hp
          exact Or.inl (by rw [hpin]; rfl)
        · exact ih free c p h

/-- Claim C25, as amended: every device of a finite bus tree gets exactly one PE.  The
tree under `root` has its nesting within the bound (`devs` lists its devices, none twice),
no device with a device node sits below a bridge without one, and the chain of bridges above
every bus of the walk ends.  The firmware accepts every mapping call.  Each call of
`pnv_ioda_setup_bus_PE` gets a PE number, from the M64 hook when that pins one (the first
segment of the M64 window of the bus) and else from the allocator (the lowest free slot):
the hook has a result where it goes past its early returns (the segment size is not zero,
and a call for a bus with all its subordinate buses has a segment to take), a free slot is
there for every call without pinned number, the numbers that the calls get are pairwise
distinct, and their slots carry no stale "bus and subordinates" flag.  Then
`pnv_ioda_setup_PEs` on the root bus returns; it creates one PE per call, with the number
that `walk_pe_numbers` gives (pinned, or a slot that was free), bound to the bus of its
call and added to the PE list in call order; a call for "bus and subordinates" is made
exactly for the subordinate bus of a PCIe-to-PCI bridge, every other call is for the root
bus or the subordinate bus of another bridge; the assignments made are those of the devices
of each call to the PE of the call, and they name each device of the tree that has a device
node exactly once; such a device ends with the PE number of the one call that holds it (its
own bus, or the PCIe-to-PCI subordinate bus it lies below), and every other device is left
as it was. -/
theorem C25_every_device_gets_one_PE {σ : Type} (step : σ → opal_call → Int × σ)
    (kzalloc_ok : Bool) (topo : pci_topology) (phb : pnv_phb) (fw : opal_fw σ) (root : Nat)
    (devs : List Nat) (calls : List (Nat × Bool))
    (hok : ∀ st pe_number rid bcomp dcomp fcomp,
      (step st (opal_call.opal_pci_set_pe pe_number rid bcomp dcomp fcomp
        OpalPeAction.OPAL_MAP_PE)).1 = 0)
    (htree : bus_devices_below topo (topo.ndevs + 1) root = some devs)
    (hnodup : devs.Nodup)
    (hcalls : setup_PEs_calls topo (topo.ndevs + 1) root = some calls)
    (hp : pdn_hereditary topo)
    (hanc : ∀ c, c ∈ calls →
      (ancestor_rows topo topo.ndevs (topo.buses c.1).self).isSome = true)
    (hdef : ∀ c, c ∈ calls → phb.pick_m64_pe = true →
      pci_is_root_bus (topo.buses c.1) = false →
      (pick_m64_window (topo.buses c.1).resources).isSome = true → kzalloc_ok = true →
      phb.m64_segsize ≠ 0 ∧ (c.2 = true → m64_pinned kzalloc_ok topo phb c ≠ []))
    (hfree : (calls.filter (fun c => (m64_pinned kzalloc_ok topo phb c).isEmpty)).length ≤
      free_slots phb)
    (hdistinct : (walk_pe_numbers kzalloc_ok topo phb calls (free_pe_list phb)).Nodup)
    (hflags : ∀ p, p ∈ walk_pe_numbers kzalloc_ok topo phb calls (free_pe_list phb) →
      (phb.pe_array p).flags.bus_all = false) :
    ∃ (topo1 : pci_topology) (phb1 : pnv_phb) (fw1 : opal_fw σ),
      pnv_ioda_setup_PEs step kzalloc_ok (topo.ndevs + 1) root (topo, phb, fw) =
        some (topo1, phb1, fw1) ∧
      (walk_pe_numbers kzalloc_ok topo phb calls (free_pe_list phb)).length = calls.length ∧
      phb1.pe_list =
        phb.pe_list ++ walk_pe_numbers kzalloc_ok topo phb calls (free_pe_list phb) ∧
      (∀ c p,
        (c, p) ∈ calls.zip (walk_pe_numbers kzalloc_ok topo phb calls (free_pe_list phb)) →
        ((m64_pinned kzalloc_ok topo phb c).head? = some p ∨
          (m64_pinned kzalloc_ok topo phb c = [] ∧ phb.pe_alloc p = false)) ∧
        p < phb.total_pe ∧
        (phb1.pe_array p).pbus = some c.1 ∧ (phb1.pe_array p).pe_number = p ∧
        (phb1.pe_array p).flags.bus_all = c.2) ∧
      (∀ c, c ∈ calls → c = (root, false) ∨ ∃ b, b ∈ devs ∧
        (topo.devs b).subordinate = some c.1 ∧
        (c.2 = true ↔ (topo.devs b).pcie_type = PCI_EXP_TYPE_PCI_BRIDGE)) ∧
      topo1 = (pe_assignments topo
        (calls.zip (walk_pe_numbers kzalloc_ok topo phb calls (free_pe_list phb)))).foldl
          (fun t x => assign_pe x.2 t x.1) topo ∧
      ((pe_assignments topo
        (calls.zip (walk_pe_numbers kzalloc_ok topo phb calls (free_pe_list phb)))).map
          Prod.fst).Perm (devs.filter (fun d => (topo.devs d).pdn.isSome)) ∧
      (∀ d n, d ∈ devs → (topo.devs d).pdn = some n →
        ∃ c p, (c, p) ∈ calls.zip
            (walk_pe_numbers kzalloc_ok topo phb calls (free_pe_list phb)) ∧
          d ∈ call_devices topo c ∧
          (∀ c1, c1 ∈ calls → d ∈ call_devices topo c1 → c1 = c) ∧
          topo1.devs d = { topo.devs d with pdn := some { n with pe_number := (p : Int) } }) ∧
      (∀ d, d ∉ devs ∨ (topo.devs d).pdn = none → topo1.devs d = topo.devs d) ∧
      topo1.buses = topo.buses := by
  obtain ⟨calls1, hc1, hperm, hbelow, horigin⟩ :=
    setup_PEs_calls_cover topo (topo.ndevs + 1) root devs (le_refl _) htree
  rw [hcalls, Option.some.injEq] at hc1
  subst hc1
  have hlen := walk_pe_numbers_length kzalloc_ok topo phb calls (free_pe_list phb) hfree
  generalize hpes : walk_pe_numbers kzalloc_ok topo phb calls (free_pe_list phb) = pes
    at hdistinct hflags hlen ⊢
  have hinit : walk_inv topo phb [] ((topo, phb, fw).1, (topo, phb, fw).2.1) := by
    refine ⟨rfl, ⟨rfl, rfl, rfl, rfl⟩, by simp, by simp, fun _ _ => rfl⟩
  obtain ⟨s1, hrun, hinv⟩ :=
    walk_inv_run step kzalloc_ok topo phb hok hp calls [] (topo, phb, fw) hinit
      (by dsimp only; rw [hpes]; exact hlen)
      (by dsimp only; rw [hpes]; simpa using hdistinct)
      (by dsimp only; rw [hpes]; exact hflags)
      (fun c hc => ⟨hdef c hc, hanc c hc, hbelow c hc⟩)
  dsimp only at hinv
  rw [hpes] at hinv
  obtain ⟨topo1, phb1, fw1⟩ := s1
  obtain ⟨i1, _, i4, i6, _⟩ := hinv
  simp only [List.nil_append] at i1 i4 i6
  have hsnd : (calls.zip pes).map Prod.snd = pes := List.map_snd_zip _ _ (by omega)
  have hfst : (calls.zip pes).map Prod.fst = calls := List.map_fst_zip _ _ (by omega)
  rw [hsnd] at i4
  have hpermf : ((pe_assignments topo (calls.zip pes)).map Prod.fst).Perm
      (devs.filter (fun d => (topo.devs d).pdn.isSome)) := by
    rw [pe_assignments_fst, hfst]
    exact List.Perm.filter _ hperm
  have hnd : ((pe_assignments topo (calls.zip pes)).map Prod.fst).Nodup :=
    (List.Perm.nodup_iff hpermf).mpr (List.Nodup.filter _ hnodup)
  have hndc : (calls.flatMap (call_devices topo)).Nodup :=
    (List.Perm.nodup_iff hperm).mpr hnodup
  refine ⟨topo1, phb1, fw1, ?_, hlen, i4, ?_, horigin, i1, hpermf, ?_, ?_, ?_⟩
  · rw [setup_PEs_eq_calls step kzalloc_ok topo (topo.ndevs + 1) root (topo, phb, fw)
      (same_shape_refl topo), hcalls]
    exact hrun
  · intro c p hcp
    obtain ⟨j1, j2, j3, j5⟩ := i6 (c, p) hcp
    refine ⟨?_, j5, j1, j2, j3⟩
    rw [← hpes] at hcp
    rcases walk_pe_numbers_origin kzalloc_ok topo phb calls (free_pe_list phb) c p hcp with
      h | ⟨h1, h2⟩
    · exact Or.inl h
    · refine Or.inr ⟨h1, ?_⟩
      unfold free_pe_list at h2
      rw [List.mem_filter] at h2
      simpa using h2.2
  · intro d n hd hn
    have hmem : d ∈ (pe_assignments topo (calls.zip pes)).map Prod.fst := by
      rw [List.Perm.mem_iff hpermf, List.mem_filter]
      exact ⟨hd, by rw [hn]; rfl⟩
    rw [List.mem_map] at hmem
    obtain ⟨⟨d1, p⟩, hx, hx1⟩ := hmem
    dsimp only at hx1
    subst hx1
    obtain ⟨c, hc, hdc, _⟩ := (mem_pe_assignments topo _ d1 p).mp hx
    refine ⟨c, p, hc, hdc, ?_, ?_⟩
    · intro c1 hc1 hdc1
      by_contra hne
      rw [List.nodup_flatMap] at hndc
      have hcm : c ∈ calls := (List.of_mem_zip hc).1
      have := List.Pairwise.forall (fun _ _ h => h.symm) hndc.2 hc1 hcm hne
      exact this hdc1 hdc
    · rw [i1]
      exact foldl_assign_devs_mem _ topo hnd d1 p n hx hn
  · intro d hd
    rw [i1]
    apply foldl_assign_devs_not_mem
    rw [List.Perm.mem_iff hpermf, List.mem_filter]
    rintro ⟨h1, h2⟩
    rcases hd with hd | hd
    · exact hd h1
    · rw [hd] at h2
      exact absurd h2 (by simp)
  · rw [i1]
    exact (same_shape_foldl_assignments _ topo).1

/-- In the example tree with M64 windows every bridge has a device node. -/
theorem m64_bridge_tree_hereditary : pdn_hereditary m64_bridge_tree := by
  intro d sub fuel l h1 h2
  exfalso
  unfold m64_bridge_tree pci_bridge_tree at h1 h2
  dsimp only at h1 h2
  split_ifs at h1 h2

set_option maxRecDepth 100000 in
/-- Witness for C25 on the tree `m64_bridge_tree` and the bridge `m64_eight_slot_phb`: the
root bus gets PE 3, the lowest free slot, from the allocator; bus 1 (below the PCIe-to-PCI
bridge, with all its subordinate buses) gets PE 4 and bus 3 gets PE 1, pinned by their M64
windows; the walk returns, puts the PEs 3, 4 and 1 on the PE list and assigns the devices
0, 2, 3, 1 and 4, each once; device 5, which has no device node, and the devices outside
the tree are left as they were. -/
theorem C25_every_device_gets_one_PE_witness :
    ∃ (topo1 : pci_topology) (phb1 : pnv_phb) (fw1 : opal_fw Unit),
      pnv_ioda_setup_PEs fw_all_ok true 7 0 (m64_bridge_tree, m64_eight_slot_phb, fw_fresh) =
        some (topo1, phb1, fw1) ∧
      phb1.pe_list = [3, 4, 1] ∧
      ((pe_assignments m64_bridge_tree
        [((0, false), 3), ((1, true), 4), ((3, false), 1)]).map Prod.fst).Perm
          [0, 2, 3, 1, 4] ∧
      (∀ d, d ∉ [0, 2, 3, 1, 4, 5] ∨ (m64_bridge_tree.devs d).pdn = none →
        topo1.devs d = m64_bridge_tree.devs d) :=
  match C25_every_device_gets_one_PE fw_all_ok true m64_bridge_tree m64_eight_slot_phb
      fw_fresh 0 [0, 2, 3, 1, 4, 5] [(0, false), (1, true), (3, false)]
      (fun _ _ _ _ _ _ => rfl) (by decide) (by decide) (by decide) m64_bridge_tree_hereditary
      (by decide) (by decide) (by decide) (by decide) (by decide) with
  | ⟨topo1, phb1, fw1, h1, _, h4, _, _, _, h8, _, h10, _⟩ =>
    ⟨topo1, phb1, fw1, h1, h4, h8, h10⟩

end PnvIoda
